import Mathlib

/-!
# ExpenseSplit: the split calculator, expense creation and the balance engine

A shallow embedding of `backend/internal/models/expense.go` and of
`ExpenseService.calculateSplits` / `ExpenseService.CreateExpense`
(`backend/internal/services/expense_service.go`), and of
`BalanceService.CalculateBalances` / `BalanceService.simplifyBalances` /
`BalanceService.GetUserBalance` / `BalanceService.RecordSettlement`
(`backend/internal/services/balance_service.go`) with the repository reads
they make, of `ExpenseService.UpdateExpense`, and of the handlers
`BalanceHandler.RecordSettlement` and `ExpenseHandler.CreateExpense`
(`backend/internal/handlers`).

Modelling decisions:

* `float64` amounts and percentages are rationals (`ℚ`); every finite
  `float64` is one.  The methods come in two readings.  The definitions of the
  first sections compute with exact arithmetic; facts about the numbers that
  the specification names (a share of `a / n`, a debt of `x - y`) are stated
  over them.  The namespace `Binary64` holds the same methods, under the same
  names, with every `+`, `-`, `*`, `/` rounded as binary64 rounds it (to
  nearest, ties to even, subnormal numbers included); facts about what the
  code decides when it compares sums (`!=`, `> 0.01`) and about the numbers it
  returns are stated over these.  Overflow to `±Inf` is not represented: where
  a fact depends on its absence, it carries a bound on the magnitudes.
* Go's `x / 0` is `±Inf`/`NaN`, Lean's is `0`; the only divisions by a possibly
  zero value are `Amount / numUsers` and `100 / numUsers` of the equal split,
  whose results are attached to one share per participant and hence never
  observed when `numUsers = 0`, and `entry.Amount / expense.Amount` of the
  custom split, which is only used for the `Percent` field.
* `uuid.UUID` is `Nat`; `uuid.Nil` is `0`; `uuid.New()` draws from a counter kept
  in the store.
* `time.Time` fields are dropped.
* The database is an in-memory `Store`.  A table is the list of its rows in
  insertion order, which stands for the order of the dropped `created_at` /
  `joined_at` columns.  A read fails only when the row is absent.  In the
  first sections an insert stores the row as it is given.  The namespace `Postgres` holds what the
  columns of `database/database.go` do to a value (`DECIMAL(10,2)` and
  `DECIMAL(5,2)` round to the cent and refuse what does not fit, `TEXT` and
  `VARCHAR(n)` refuse a NUL character and an overlong string) and the foreign
  keys; `Binary64.ExpenseRepository.Create`, `Binary64.CreateExpense`,
  `SettlementRepository.Create` and `RecordSettlement` store what the column
  holds and fail with `Error.dbError`, the store unchanged, when PostgreSQL
  refuses a row.
* A handler is a function of what it reads from the request (the user id of
  the context, the parsed path variable, the decoded body) that returns the
  response written and the store left.
* A Go `map[uuid.UUID]V` is an association list with distinct keys (`AList`).
  The order in which a `range` loop visits a map is not fixed by Go; it is an
  explicit argument, a `RangeOrder`, and facts are stated for every order that
  visits each entry exactly once.
-/

namespace Backend

/-- Identifier type standing for `uuid.UUID`. -/
abbrev UUID := Nat

-- Equality of two results of type `Except` is decidable when it is for the
-- error and the value.
deriving instance DecidableEq for Except

/-- Split strategy tag: `type SplitType string`. -/
abbrev SplitType := String

def SplitTypeEqual : SplitType := "equal"
def SplitTypeCustom : SplitType := "custom"
def SplitTypePercent : SplitType := "percent"

/-- Error values of the services.  The four named sentinels of
`expense_service.go`, `ErrNotAuthorized` of `team_service.go`,
`ErrTeamNotFound`, `ErrUserNotFound` and `ErrExpenseNotFound` of the
repositories, and `errorsNew msg` for an error built in place with
`errors.New(msg)`: such a value is a fresh pointer, equal to no sentinel;
`dbError msg` for an error that the database driver returns when PostgreSQL
refuses a statement, equal to no sentinel either. -/
inductive Error where
  | ErrAmountRequired
  | ErrSplitWithRequired
  | ErrInvalidSplitType
  | ErrInvalidCustomSplit
  | ErrTeamNotFound
  | ErrUserNotFound
  | ErrExpenseNotFound
  | ErrNotAuthorized
  | errorsNew (msg : String)
  | dbError (msg : String)
  deriving DecidableEq, Repr

/-- Record `models.Expense` (timestamps dropped). -/
structure Expense where
  ID : UUID := 0
  TeamID : UUID := 0
  PaidBy : UUID := 0
  Amount : ℚ := 0
  Description : String := ""
  Category : String := ""
  ReceiptURL : String := ""
  SplitType : SplitType := ""
  deriving DecidableEq, Repr

/-- Record `models.ExpenseSplit`. -/
structure ExpenseSplit where
  ID : UUID := 0
  ExpenseID : UUID := 0
  UserID : UUID := 0
  Amount : ℚ := 0
  Percent : ℚ := 0
  IsSettled : Bool := false
  deriving DecidableEq, Repr

/-- Record `models.CustomSplitEntry`. -/
structure CustomSplitEntry where
  UserID : UUID := 0
  Amount : ℚ := 0
  Percent : ℚ := 0
  deriving DecidableEq, Repr

/-- Record `models.ExpenseCreateRequest`. -/
structure ExpenseCreateRequest where
  Amount : ℚ := 0
  Description : String := ""
  Category : String := ""
  SplitType : SplitType := ""
  SplitWith : List UUID := []
  CustomSplit : List CustomSplitEntry := []
  deriving DecidableEq, Repr

/-- The method `ExpenseService.calculateSplits`: a `switch` on `req.SplitType`
with three cases and no default, so any other tag falls through to
`return splits, nil` with `splits` still empty.  Sums, quotients and products
are exact here; `Binary64.calculateSplits` rounds them as the code does. -/
def calculateSplits (expense : Expense) (req : ExpenseCreateRequest) :
    Except Error (List ExpenseSplit) :=
  if req.SplitType = SplitTypeEqual then
    let numUsers := req.SplitWith.length
    let splitAmount := expense.Amount / (numUsers : ℚ)
    let splitPercent := 100 / (numUsers : ℚ)
    .ok (req.SplitWith.map fun userID =>
      { UserID := userID
        Amount := splitAmount
        Percent := splitPercent
        IsSettled := decide (userID = expense.PaidBy) })
  else if req.SplitType = SplitTypeCustom then
    let totalCustom := req.CustomSplit.foldl (fun acc entry => acc + entry.Amount) 0
    if totalCustom ≠ expense.Amount then
      .error .ErrInvalidCustomSplit
    else
      .ok (req.CustomSplit.map fun entry =>
        { UserID := entry.UserID
          Amount := entry.Amount
          Percent := (entry.Amount / expense.Amount) * 100
          IsSettled := decide (entry.UserID = expense.PaidBy) })
  else if req.SplitType = SplitTypePercent then
    let totalPercent := req.CustomSplit.foldl (fun acc entry => acc + entry.Percent) 0
    if totalPercent ≠ 100 then
      .error (.errorsNew "percentages must add up to 100")
    else
      .ok (req.CustomSplit.map fun entry =>
        { UserID := entry.UserID
          Amount := (entry.Percent / 100) * expense.Amount
          Percent := entry.Percent
          IsSettled := decide (entry.UserID = expense.PaidBy) })
  else
    .ok []

/-- Approval status tag: `type ApprovalStatus string`. -/
abbrev ApprovalStatus := String

def ApprovalStatusPending : ApprovalStatus := "pending"

/-- Record `models.Approval` (timestamps dropped). -/
structure Approval where
  ID : UUID := 0
  ExpenseID : UUID := 0
  ApprovedBy : UUID := 0
  Status : ApprovalStatus := ""
  Comment : String := ""
  deriving DecidableEq, Repr

/-- Modelled from the spec: the declaration of `models.User` is not among the
sources.  The fields are the columns `UserRepository.GetByID` scans, without
the password hash and the timestamps. -/
structure User where
  ID : UUID := 0
  Email : String := ""
  Name : String := ""
  deriving DecidableEq, Repr

/-- Modelled from the spec: the declaration of `models.UserResponse` is not
among the sources.  Its `ID` field is read by `GetUserBalance`. -/
structure UserResponse where
  ID : UUID := 0
  Email : String := ""
  Name : String := ""
  deriving DecidableEq, Repr

/-- Modelled from the spec: the method `User.ToResponse` is not among the
sources; it is taken to copy the identifying fields. -/
def User.ToResponse (u : User) : UserResponse :=
  { ID := u.ID, Email := u.Email, Name := u.Name }

/-- Record `models.Team` (timestamp dropped). -/
structure Team where
  ID : UUID := 0
  Name : String := ""
  CreatedBy : UUID := 0
  deriving DecidableEq, Repr

/-- Record `models.TeamMember`, a row of `team_members` (timestamp dropped). -/
structure TeamMember where
  TeamID : UUID := 0
  UserID : UUID := 0
  Role : String := ""
  deriving DecidableEq, Repr

/-- Record `models.MemberDetail` (timestamp dropped). -/
structure MemberDetail where
  UserID : UUID := 0
  Email : String := ""
  Name : String := ""
  Role : String := ""
  deriving DecidableEq, Repr

/-- Record `models.Settlement` (timestamp dropped). -/
structure Settlement where
  ID : UUID := 0
  TeamID : UUID := 0
  FromUser : UUID := 0
  ToUser : UUID := 0
  Amount : ℚ := 0
  deriving DecidableEq, Repr

/-- Record `models.BalanceResponse`: one transfer of the netted list. -/
structure BalanceResponse where
  FromUser : UserResponse := {}
  ToUser : UserResponse := {}
  Amount : ℚ := 0
  deriving DecidableEq, Repr

/-- Record `models.UserBalanceSummary`. -/
structure UserBalanceSummary where
  User : UserResponse := {}
  TotalOwed : ℚ := 0
  TotalOwing : ℚ := 0
  NetBalance : ℚ := 0
  deriving DecidableEq, Repr

/-- Record `models.TeamBalanceSummary`. -/
structure TeamBalanceSummary where
  TeamID : UUID := 0
  TeamName : String := ""
  Balances : List BalanceResponse := []
  Members : List UserBalanceSummary := []
  deriving DecidableEq, Repr

/-- The tables of the database, and the counter behind `uuid.New()`. -/
structure Store where
  expenses : List Expense := []
  expense_splits : List ExpenseSplit := []
  approvals : List Approval := []
  nextID : Nat := 1
  users : List User := []
  teams : List Team := []
  team_members : List TeamMember := []
  settlements : List Settlement := []
  deriving DecidableEq, Repr

/-- The loop of `ExpenseRepository.Create` over `splits`: each split gets a new
`ID` and the expense's id; `next` is the id counter. -/
def assignSplitIDs (expenseID : UUID) : Nat → List ExpenseSplit → List ExpenseSplit
  | _, [] => []
  | next, s :: rest =>
    { s with ID := next, ExpenseID := expenseID } :: assignSplitIDs expenseID (next + 1) rest

/-- The method `ExpenseRepository.Create`: gives the expense a new id, inserts
it, gives every split a new id and the expense's id and inserts it.  Returns
the expense and splits as written (the Go code updates them through the
pointer and the slice) and the new store.  Every row is stored as it is given;
`Binary64.ExpenseRepository.Create` stores what the columns hold and fails when
PostgreSQL refuses a row. -/
def ExpenseRepository.Create (st : Store) (expense : Expense) (splits : List ExpenseSplit) :
    Expense × List ExpenseSplit × Store :=
  let expense' := { expense with ID := st.nextID }
  let splits' := assignSplitIDs expense'.ID (st.nextID + 1) splits
  (expense', splits',
    { st with
      expenses := st.expenses ++ [expense']
      expense_splits := st.expense_splits ++ splits'
      nextID := st.nextID + 1 + splits.length })

/-- The method `ApprovalRepository.Create`: new id, status forced to pending,
row inserted. -/
def ApprovalRepository.Create (st : Store) (approval : Approval) : Store :=
  let approval' := { approval with ID := st.nextID, Status := ApprovalStatusPending }
  { st with approvals := st.approvals ++ [approval'], nextID := st.nextID + 1 }

/-- The request as `CreateExpense` reads it once `if req.SplitType == ""` has
replaced an empty tag by `SplitTypeEqual` (lines 49-51); used to state facts
about `CreateExpense`. -/
def effectiveRequest (req : ExpenseCreateRequest) : ExpenseCreateRequest :=
  if req.SplitType = "" then { req with SplitType := SplitTypeEqual } else req

/-- The method `ExpenseService.CreateExpense`, from its validation to the two
inserts.  The result pairs what the call returns with the store it leaves.
On success the Go code re-reads the rows it has just written
(`GetExpenseByID`); that response is represented by the expense and the
splits as written.  This is the method with exact arithmetic on a database
that stores every row as it is given; `Binary64.CreateExpense` is the method
with binary64 arithmetic, the columns and constraints of PostgreSQL and the
final `GetExpenseByID`. -/
def CreateExpense (st : Store) (teamID paidBy : UUID) (req : ExpenseCreateRequest) :
    Except Error (Expense × List ExpenseSplit) × Store :=
  if req.Amount ≤ 0 then
    (.error .ErrAmountRequired, st)
  else if req.SplitWith.length = 0 then
    (.error .ErrSplitWithRequired, st)
  else
    let req := if req.SplitType = "" then { req with SplitType := SplitTypeEqual } else req
    if req.SplitType ≠ SplitTypeEqual ∧ req.SplitType ≠ SplitTypeCustom ∧
        req.SplitType ≠ SplitTypePercent then
      (.error .ErrInvalidSplitType, st)
    else
      let expense : Expense :=
        { TeamID := teamID
          PaidBy := paidBy
          Amount := req.Amount
          Description := req.Description
          Category := req.Category
          SplitType := req.SplitType }
      match calculateSplits expense req with
      | .error err => (.error err, st)
      | .ok splits =>
        let (expense', splits', st') := ExpenseRepository.Create st expense splits
        let stored := ApprovalRepository.Create st'
          { ExpenseID := expense'.ID, Status := ApprovalStatusPending }
        (.ok (expense', splits'), stored)

/-! ## The balance engine: definitions -/

/-- A Go `map[uuid.UUID]V`. -/
abbrev GoMap (V : Type) := AList (fun _ : UUID => V)

/-- The inner maps of `balanceMap`: `map[uuid.UUID]float64`. -/
abbrev InnerMap := GoMap ℚ

/-- The type of `balanceMap`: `map[uuid.UUID]map[uuid.UUID]float64`, read as
`balanceMap[fromUser][toUser] = amount`. -/
abbrev BalanceMap := GoMap InnerMap

/-- The orders in which the `range` loops of the balance service visit their
maps: `outer m` for a `range` over a nested balance map, `inner k m` for the
`range` over the inner map stored under key `k`, `summaries m` for the `range`
over `memberSummaries`. -/
structure RangeOrder where
  outer : BalanceMap → List (Σ _ : UUID, InnerMap)
  inner : UUID → InnerMap → List (Σ _ : UUID, ℚ)
  summaries : GoMap UserBalanceSummary → List (Σ _ : UUID, UserBalanceSummary)

/-- What Go guarantees of a `range` over a map: every entry is visited exactly
once. -/
def RangeOrder.Valid (ord : RangeOrder) : Prop :=
  (∀ m, (ord.outer m).Perm m.entries) ∧
  (∀ k m, (ord.inner k m).Perm m.entries) ∧
  (∀ m, (ord.summaries m).Perm m.entries)

/-- One possible order: every map is visited in the order its entries are
stored. -/
def RangeOrder.stored : RangeOrder where
  outer := fun m => m.entries
  inner := fun _ m => m.entries
  summaries := fun m => m.entries

/-- The read `balanceMap[a][b]`: the zero value when either key is absent
(indexing a nil inner map yields `0`). -/
def getAmount (balanceMap : BalanceMap) (a b : UUID) : ℚ :=
  match balanceMap.lookup a with
  | none => 0
  | some inner => (inner.lookup b).getD 0

/-- The entry of `balanceMap` under `a` then `b`, if there is one. -/
def entry? (balanceMap : BalanceMap) (a b : UUID) : Option ℚ :=
  match balanceMap.lookup a with
  | none => none
  | some inner => inner.lookup b

/-- Whether `balanceMap[a] != nil`. -/
def hasKey (balanceMap : BalanceMap) (a : UUID) : Bool :=
  (balanceMap.lookup a).isSome

/-- Two nested maps with the same keys and the same values, whatever the order
of their entries. -/
def SameMap (m₁ m₂ : BalanceMap) : Prop :=
  (∀ a, hasKey m₁ a = hasKey m₂ a) ∧ ∀ a b, entry? m₁ a b = entry? m₂ a b

/-- The statement `balanceMap[a][b] += delta` for a non-nil `balanceMap[a]`
(every use in the source is guarded by a nil check). -/
def addAmount (balanceMap : BalanceMap) (a b : UUID) (delta : ℚ) : BalanceMap :=
  match balanceMap.lookup a with
  | none => balanceMap
  | some inner => balanceMap.insert a (inner.insert b ((inner.lookup b).getD 0 + delta))

/-- The body of the loop over the splits of one expense (lines 70-78). -/
def processSplit (expense : Expense) (balanceMap : BalanceMap) (split : ExpenseSplit) :
    BalanceMap :=
  if split.UserID ≠ expense.PaidBy ∧ split.IsSettled = false then
    let balanceMap :=
      if (balanceMap.lookup split.UserID).isNone then balanceMap.insert split.UserID ∅
      else balanceMap
    addAmount balanceMap split.UserID expense.PaidBy split.Amount
  else
    balanceMap

/-- The body of the loop over the settlements (lines 82-86). -/
def processSettlement (balanceMap : BalanceMap) (settlement : Settlement) : BalanceMap :=
  if (balanceMap.lookup settlement.FromUser).isSome then
    addAmount balanceMap settlement.FromUser settlement.ToUser (-settlement.Amount)
  else
    balanceMap

/-- Lines 54-86 of `CalculateBalances`: the raw debt map built from the team
members, the expenses (`splitsOf id` stands for `GetSplitsByExpenseID(id)`) and
the settlements. -/
def buildBalanceMap (members : List MemberDetail) (splitsOf : UUID → List ExpenseSplit)
    (expenses : List Expense) (settlements : List Settlement) : BalanceMap :=
  let balanceMap : BalanceMap :=
    members.foldl (fun balanceMap member => balanceMap.insert member.UserID ∅) ∅
  let balanceMap :=
    expenses.foldl
      (fun balanceMap expense => (splitsOf expense.ID).foldl (processSplit expense) balanceMap)
      balanceMap
  settlements.foldl processSettlement balanceMap

/-- The two statements `if simplified[a] == nil { simplified[a] = make(...) }`
and `simplified[a][b] = v`. -/
def setEdge (simplified : BalanceMap) (a b : UUID) (v : ℚ) : BalanceMap :=
  simplified.insert a (((simplified.lookup a).getD ∅).insert b v)

/-- The body of the inner loop of `simplifyBalances` (lines 161-182) for the
entry `balanceMap[fromUser][toUser] = amount`. -/
def simplifyEntry (balanceMap : BalanceMap) (fromUser : UUID) (simplified : BalanceMap)
    (toUser : UUID) (amount : ℚ) : BalanceMap :=
  if amount ≤ 0 then
    simplified
  else
    let reverseAmount : ℚ :=
      match balanceMap.lookup toUser with
      | none => 0
      | some inner => (inner.lookup fromUser).getD 0
    let netAmount := amount - reverseAmount
    if netAmount > 0 then
      setEdge simplified fromUser toUser netAmount
    else if netAmount < 0 then
      setEdge simplified toUser fromUser (-netAmount)
    else
      simplified

/-- The method `BalanceService.simplifyBalances`. -/
def simplifyBalances (ord : RangeOrder) (balanceMap : BalanceMap) : BalanceMap :=
  (ord.outer balanceMap).foldl
    (fun simplified outerEntry =>
      (ord.inner outerEntry.1 outerEntry.2).foldl
        (fun simplified innerEntry =>
          simplifyEntry balanceMap outerEntry.1 simplified innerEntry.1 innerEntry.2)
        simplified)
    ∅

/-- The method `TeamRepository.GetByID`. -/
def TeamRepository.GetByID (st : Store) (id : UUID) : Except Error Team :=
  match st.teams.find? (fun team => team.ID = id) with
  | some team => .ok team
  | none => .error .ErrTeamNotFound

/-- The method `UserRepository.GetByID`. -/
def UserRepository.GetByID (st : Store) (id : UUID) : Except Error User :=
  match st.users.find? (fun user => user.ID = id) with
  | some user => .ok user
  | none => .error .ErrUserNotFound

/-- The method `TeamRepository.GetTeamMembers`: the rows of `team_members` of
the team, joined with `users` (a member without a user row is not returned). -/
def TeamRepository.GetTeamMembers (st : Store) (teamID : UUID) : List MemberDetail :=
  (st.team_members.filter (fun tm => tm.TeamID = teamID)).filterMap fun tm =>
    (st.users.find? (fun user => user.ID = tm.UserID)).map fun user =>
      { UserID := user.ID, Email := user.Email, Name := user.Name, Role := tm.Role }

/-- The method `ExpenseRepository.GetByTeamID`: the expenses of the team, newest
first, `limit` of them after skipping `offset`, and the total count. -/
def ExpenseRepository.GetByTeamID (st : Store) (teamID : UUID) (limit offset : Nat) :
    List Expense × Nat :=
  let rows := st.expenses.filter (fun expense => expense.TeamID = teamID)
  ((rows.reverse.drop offset).take limit, rows.length)

/-- The method `ExpenseRepository.GetSplitsByExpenseID`. -/
def ExpenseRepository.GetSplitsByExpenseID (st : Store) (expenseID : UUID) :
    List ExpenseSplit :=
  st.expense_splits.filter (fun split => split.ExpenseID = expenseID)

/-- The method `SettlementRepository.GetByTeamID`: the settlements of the team,
newest first. -/
def SettlementRepository.GetByTeamID (st : Store) (teamID : UUID) : List Settlement :=
  (st.settlements.filter (fun settlement => settlement.TeamID = teamID)).reverse

/-- Lines 96-107 of `CalculateBalances`: a zero summary for every member whose
user row is found. -/
def initSummaries (st : Store) (members : List MemberDetail) : GoMap UserBalanceSummary :=
  members.foldl
    (fun memberSummaries member =>
      match UserRepository.GetByID st member.UserID with
      | .error _ => memberSummaries
      | .ok user =>
        memberSummaries.insert member.UserID
          { User := user.ToResponse, TotalOwed := 0, TotalOwing := 0, NetBalance := 0 })
    ∅

/-- The body of the inner loop of lines 110-139 for the entry
`simplifiedBalances[fromUserID][toUserID] = amount`; `acc` holds `balances`
and `memberSummaries`. -/
def recordTransfer (st : Store) (fromUserID : UUID)
    (acc : List BalanceResponse × GoMap UserBalanceSummary) (toUserID : UUID) (amount : ℚ) :
    List BalanceResponse × GoMap UserBalanceSummary :=
  if amount > 0.01 then
    match UserRepository.GetByID st fromUserID with
    | .error _ => acc
    | .ok fromUser =>
      match UserRepository.GetByID st toUserID with
      | .error _ => acc
      | .ok toUser =>
        let balances := acc.1 ++
          [{ FromUser := fromUser.ToResponse, ToUser := toUser.ToResponse, Amount := amount }]
        let memberSummaries :=
          match acc.2.lookup fromUserID with
          | some summary =>
            acc.2.insert fromUserID
              { summary with
                TotalOwed := summary.TotalOwed + amount
                NetBalance := summary.NetBalance - amount }
          | none => acc.2
        let memberSummaries :=
          match memberSummaries.lookup toUserID with
          | some summary =>
            memberSummaries.insert toUserID
              { summary with
                TotalOwing := summary.TotalOwing + amount
                NetBalance := summary.NetBalance + amount }
          | none => memberSummaries
        (balances, memberSummaries)
  else
    acc

/-- Lines 91-145 of `CalculateBalances`: the transfer list and the member
summaries built from the simplified balances. -/
def buildSummary (st : Store) (ord : RangeOrder) (members : List MemberDetail)
    (simplifiedBalances : BalanceMap) : List BalanceResponse × List UserBalanceSummary :=
  let result :=
    (ord.outer simplifiedBalances).foldl
      (fun acc outerEntry =>
        (ord.inner outerEntry.1 outerEntry.2).foldl
          (fun acc innerEntry => recordTransfer st outerEntry.1 acc innerEntry.1 innerEntry.2)
          acc)
      (([] : List BalanceResponse), initSummaries st members)
  (result.1, (ord.summaries result.2).map (fun summaryEntry => summaryEntry.2))

/-- The method `BalanceService.CalculateBalances`. -/
def CalculateBalances (st : Store) (ord : RangeOrder) (teamID : UUID) :
    Except Error TeamBalanceSummary :=
  match TeamRepository.GetByID st teamID with
  | .error err => .error err
  | .ok team =>
    let members := TeamRepository.GetTeamMembers st teamID
    let expenses := (ExpenseRepository.GetByTeamID st teamID 10000 0).1
    let settlements := SettlementRepository.GetByTeamID st teamID
    let balanceMap :=
      buildBalanceMap members (ExpenseRepository.GetSplitsByExpenseID st) expenses settlements
    let simplifiedBalances := simplifyBalances ord balanceMap
    let result := buildSummary st ord members simplifiedBalances
    .ok { TeamID := teamID, TeamName := team.Name, Balances := result.1, Members := result.2 }

/-! ## The balance engine: notions used to state and prove its properties -/

/-- A debt fact `(debtor, creditor, amount)`: what one split or one settlement
contributes to the raw map. -/
abbrev DebtFact := UUID × UUID × ℚ

/-- The effect of one fact on the raw map: `balanceMap[debtor][creditor] +=
amount`, where a missing `balanceMap[debtor]` is first created when `create`
holds (splits) and makes the fact void otherwise (settlements). -/
def applyFact (create : Bool) (balanceMap : BalanceMap) (fact : DebtFact) : BalanceMap :=
  if hasKey balanceMap fact.1 then
    addAmount balanceMap fact.1 fact.2.1 fact.2.2
  else if create then
    addAmount (balanceMap.insert fact.1 ∅) fact.1 fact.2.1 fact.2.2
  else
    balanceMap

/-- The facts of one expense: one per split of a user other than the payer that
is not settled. -/
def splitFacts (expense : Expense) (splits : List ExpenseSplit) : List DebtFact :=
  splits.filterMap fun split =>
    if split.UserID ≠ expense.PaidBy ∧ split.IsSettled = false then
      some (split.UserID, expense.PaidBy, split.Amount)
    else none

/-- The facts of all expenses, in processing order. -/
def expenseFacts (splitsOf : UUID → List ExpenseSplit) (expenses : List Expense) :
    List DebtFact :=
  expenses.flatMap fun expense => splitFacts expense (splitsOf expense.ID)

/-- The facts of the settlements: the amount counts negatively. -/
def settlementFacts (settlements : List Settlement) : List DebtFact :=
  settlements.map fun settlement =>
    (settlement.FromUser, settlement.ToUser, -settlement.Amount)

/-- Whether some fact of the list is about the ordered pair `(a, b)`. -/
def touches (facts : List DebtFact) (a b : UUID) : Bool :=
  facts.any fun fact => decide (fact.1 = a ∧ fact.2.1 = b)

/-- The sum of the amounts of the facts about the ordered pair `(a, b)`. -/
def factTotal (facts : List DebtFact) (a b : UUID) : ℚ :=
  ((facts.filter fun fact => decide (fact.1 = a ∧ fact.2.1 = b)).map fun fact => fact.2.2).sum

/-- The entries of a nested map as a `range` over it and over its inner maps
visits them: `(fromUser, toUser, amount)`. -/
def visited (ord : RangeOrder) (m : BalanceMap) : List DebtFact :=
  (ord.outer m).flatMap fun outerEntry =>
    (ord.inner outerEntry.1 outerEntry.2).map fun innerEntry =>
      (outerEntry.1, innerEntry.1, innerEntry.2)

/-- The netted edge from `a` to `b` that pairwise netting of the raw map `m`
leaves: `m[a][b] - m[b][a]` when `m[a][b]` is positive and exceeds `m[b][a]`. -/
def netEdge (m : BalanceMap) (a b : UUID) : Option ℚ :=
  if 0 < getAmount m a b ∧ 0 < getAmount m a b - getAmount m b a then
    some (getAmount m a b - getAmount m b a)
  else none

/-- The transfer that the response loop emits for a visited entry, if any: the
amount must exceed 0.01 and both user rows must be found. -/
def transferOf (st : Store) (t : DebtFact) : Option BalanceResponse :=
  if t.2.2 > 0.01 then
    match UserRepository.GetByID st t.1 with
    | .error _ => none
    | .ok fromUser =>
      match UserRepository.GetByID st t.2.1 with
      | .error _ => none
      | .ok toUser =>
        some { FromUser := fromUser.ToResponse, ToUser := toUser.ToResponse, Amount := t.2.2 }
  else none

/-- The update of the summaries for one emitted transfer (lines 128-136). -/
def applyTransfer (memberSummaries : GoMap UserBalanceSummary) (tr : BalanceResponse) :
    GoMap UserBalanceSummary :=
  let memberSummaries :=
    match memberSummaries.lookup tr.FromUser.ID with
    | some summary =>
      memberSummaries.insert tr.FromUser.ID
        { summary with
          TotalOwed := summary.TotalOwed + tr.Amount
          NetBalance := summary.NetBalance - tr.Amount }
    | none => memberSummaries
  match memberSummaries.lookup tr.ToUser.ID with
  | some summary =>
    memberSummaries.insert tr.ToUser.ID
      { summary with
        TotalOwing := summary.TotalOwing + tr.Amount
        NetBalance := summary.NetBalance + tr.Amount }
  | none => memberSummaries

/-- The sum of the amounts of the transfers whose `FromUser` is `k`. -/
def owedSum (transfers : List BalanceResponse) (k : UUID) : ℚ :=
  ((transfers.filter fun tr => decide (tr.FromUser.ID = k)).map fun tr => tr.Amount).sum

/-- The sum of the amounts of the transfers whose `ToUser` is `k`. -/
def owingSum (transfers : List BalanceResponse) (k : UUID) : ℚ :=
  ((transfers.filter fun tr => decide (tr.ToUser.ID = k)).map fun tr => tr.Amount).sum

/-- The summary of user `k` once the transfers are accounted for. -/
def settle (k : UUID) (transfers : List BalanceResponse) (s : UserBalanceSummary) :
    UserBalanceSummary :=
  { User := s.User
    TotalOwed := s.TotalOwed + owedSum transfers k
    TotalOwing := s.TotalOwing + owingSum transfers k
    NetBalance := s.NetBalance + owingSum transfers k - owedSum transfers k }

/-- The summary a member starts with (lines 101-106), if the user row is found. -/
def zeroSummary (st : Store) (k : UUID) : Option UserBalanceSummary :=
  match UserRepository.GetByID st k with
  | .error _ => none
  | .ok user => some { User := user.ToResponse, TotalOwed := 0, TotalOwing := 0, NetBalance := 0 }

/-- The value of `balanceMap` when `CalculateBalances` reaches line 88. -/
def rawBalanceMap (st : Store) (teamID : UUID) : BalanceMap :=
  buildBalanceMap (TeamRepository.GetTeamMembers st teamID)
    (ExpenseRepository.GetSplitsByExpenseID st)
    (ExpenseRepository.GetByTeamID st teamID 10000 0).1
    (SettlementRepository.GetByTeamID st teamID)

/-- The in-place update `if summary, ok := memberSummaries[key]; ok { ... }`. -/
def updateSummary (memberSummaries : GoMap UserBalanceSummary) (key : UUID)
    (f : UserBalanceSummary → UserBalanceSummary) : GoMap UserBalanceSummary :=
  match memberSummaries.lookup key with
  | some summary => memberSummaries.insert key (f summary)
  | none => memberSummaries

/-- A sample database: users 1, 2, 3, all members of team 7; one expense of 90
paid by user 1 and split equally; one settlement of 20 from user 2 to user 1. -/
def sampleStore : Store :=
  { users := [{ ID := 1 }, { ID := 2 }, { ID := 3 }]
    teams := [{ ID := 7, Name := "trip" }]
    team_members :=
      [{ TeamID := 7, UserID := 1 }, { TeamID := 7, UserID := 2 }, { TeamID := 7, UserID := 3 }]
    expenses := [{ ID := 10, TeamID := 7, PaidBy := 1, Amount := 90 }]
    expense_splits :=
      [{ ID := 11, ExpenseID := 10, UserID := 1, Amount := 30, IsSettled := true },
       { ID := 12, ExpenseID := 10, UserID := 2, Amount := 30 },
       { ID := 13, ExpenseID := 10, UserID := 3, Amount := 30 }]
    settlements := [{ ID := 20, TeamID := 7, FromUser := 2, ToUser := 1, Amount := 20 }] }

/-- A sample database with an overpayment: users 1 and 2, both members of team
7, no expense, and one settlement of 50 from user 1 to user 2. -/
def overpaidStore : Store :=
  { users := [{ ID := 1 }, { ID := 2 }]
    teams := [{ ID := 7, Name := "trip" }]
    team_members := [{ TeamID := 7, UserID := 1 }, { TeamID := 7, UserID := 2 }]
    settlements := [{ ID := 20, TeamID := 7, FromUser := 1, ToUser := 2, Amount := 50 }] }

/-- A sample database with a debtor outside the team: users 1 and 2, only user
1 a member of team 7; one expense of 100 paid by user 1 with a share of 50 for
each of the two users. -/
def outsiderStore : Store :=
  { users := [{ ID := 1 }, { ID := 2 }]
    teams := [{ ID := 7, Name := "trip" }]
    team_members := [{ TeamID := 7, UserID := 1 }]
    expenses := [{ ID := 10, TeamID := 7, PaidBy := 1, Amount := 100 }]
    expense_splits :=
      [{ ID := 11, ExpenseID := 10, UserID := 1, Amount := 50, IsSettled := true },
       { ID := 12, ExpenseID := 10, UserID := 2, Amount := 50 }] }

/-! ## Binary floating point and the columns of the database: definitions

The definitions above read `float64` as exact rationals.  The namespace
`Binary64` holds the same methods with every arithmetic operation rounded as
binary64 rounds it, and the namespace `Postgres` the columns of the database
with the rounding and the refusals of PostgreSQL. -/

namespace Binary64

/-- The loop behind `bitLog`: halve `n` until it is below 2, at most `fuel`
times. -/
def log2Fuel : Nat → Nat → Nat
  | 0, _ => 0
  | fuel + 1, n => if n < 2 then 0 else log2Fuel fuel (n / 2) + 1

/-- The position of the leading bit of `n`: the `k` with `2^k ≤ n < 2^(k+1)`
for `n > 0`. -/
def bitLog (n : Nat) : Nat := log2Fuel n n

/-- The exponent `e` of the binade of a non-zero rational: `2^e ≤ |x| <
2^(e+1)`. -/
def binadeExponent (x : ℚ) : ℤ :=
  let e0 : ℤ := (bitLog x.num.natAbs : ℤ) - (bitLog x.den : ℤ)
  if (2 : ℚ) ^ e0 ≤ |x| then e0 else e0 - 1

/-- The spacing of the binary64 numbers around `x`: 52 fraction bits, and the
smallest exponent -1022, below which the spacing stays `2^-1074` (subnormal
numbers). -/
def ulp64 (x : ℚ) : ℚ :=
  (2 : ℚ) ^ (max (binadeExponent x) (-1022) - 52)

/-- Rounding to the nearest integer, a tie going to the even one. -/
def roundHalfEven (q : ℚ) : ℤ :=
  if q - ⌊q⌋ < 1 / 2 then ⌊q⌋
  else if 1 / 2 < q - ⌊q⌋ then ⌊q⌋ + 1
  else if ⌊q⌋ % 2 = 0 then ⌊q⌋
  else ⌊q⌋ + 1

/-- The binary64 number nearest to `x`, a tie going to the even significand:
the rounding that every `float64` operation of Go applies to its exact result,
and that reading a decimal applies.  There is no largest exponent here:
overflow to `±Inf` (magnitudes of `2^1024` and more) is not modelled. -/
def round64 (x : ℚ) : ℚ :=
  (roundHalfEven (x / ulp64 x) : ℚ) * ulp64 x

/-- The operation `x + y` on `float64`. -/
def fadd (x y : ℚ) : ℚ := round64 (x + y)

/-- The operation `x - y` on `float64`. -/
def fsub (x y : ℚ) : ℚ := round64 (x - y)

/-- The operation `x * y` on `float64`. -/
def fmul (x y : ℚ) : ℚ := round64 (x * y)

/-- The operation `x / y` on `float64` for `y ≠ 0` (Go's `x / 0` is `±Inf` or
`NaN`, here it is `0`; see the head of the file). -/
def fdiv (x y : ℚ) : ℚ := round64 (x / y)

/-- The constant `0.01` of the source as a `float64`. -/
def threshold : ℚ := round64 (1 / 100)

/-- The loop `var total float64; for ... { total += x }`: the sum as binary64
accumulates it, from the left, rounding after every addition. -/
def runningSum (xs : List ℚ) : ℚ := xs.foldl fadd 0

/-- A magnitude far below the overflow threshold of binary64 (about
`1.8 * 10^308`): sums of up to `2^20` such values and products of two of them
stay below it, so that `round64` is the rounding that the code applies. -/
def Moderate (x : ℚ) : Prop := |x| ≤ 2 ^ 500

instance (x : ℚ) : Decidable (Moderate x) := by
  unfold Moderate
  infer_instance

end Binary64

namespace Postgres

/-- The number of cents that a `DECIMAL(p,2)` column takes from the `float64`
`x`.  The driver `lib/pq` sends a `float64` as the shortest decimal that reads
back as the same `float64` (`strconv.FormatFloat(v, 'f', -1, 64)`), and
PostgreSQL rounds that decimal to two places, a half going away from zero.  The
decimal sent lies on the same side of every midpoint between two cents as `x`,
except that it is the midpoint when the midpoint reads back as `x` (a midpoint
has few digits). -/
def cents (x : ℚ) : ℤ :=
  let whole : ℤ := ⌊|x| * 100⌋
  let magnitude : ℤ :=
    if Binary64.round64 (((whole : ℚ) + 1 / 2) / 100) = |x| ∨ (whole : ℚ) + 1 / 2 < |x| * 100 then
      whole + 1
    else whole
  if x < 0 then -magnitude else magnitude

/-- A column `DECIMAL(precision, 2)`: what is read back into a `float64` after
`x` was written, or `none` when PostgreSQL refuses the value because it has
more than `precision` digits (numeric field overflow). -/
def decimalColumn (precision : Nat) (x : ℚ) : Option ℚ :=
  if |cents x| < 10 ^ precision then some (Binary64.round64 ((cents x : ℚ) / 100)) else none

/-- A column `TEXT`: PostgreSQL refuses a string that holds the character
NUL. -/
def textColumn (s : String) : Option String :=
  if s.data.any (fun c => c.toNat = 0) then none else some s

/-- A column `VARCHAR(n)`: as `TEXT`, and a string of more than `n` characters
is refused unless the excess is spaces only, which are cut off. -/
def varcharColumn (n : Nat) (s : String) : Option String :=
  if s.data.any (fun c => c.toNat = 0) then none
  else if s.data.length ≤ n then some s
  else if (s.data.drop n).all (fun c => c = ' ') then some (String.mk (s.data.take n))
  else none

/-- Whether `users` has a row with this id (what a foreign key to `users(id)`
asks for). -/
def hasUser (st : Store) (id : UUID) : Bool :=
  st.users.any fun user => decide (user.ID = id)

/-- Whether `teams` has a row with this id (what a foreign key to `teams(id)`
asks for). -/
def hasTeam (st : Store) (id : UUID) : Bool :=
  st.teams.any fun team => decide (team.ID = id)

end Postgres

namespace Binary64

/-- The method `ExpenseService.calculateSplits` in binary64: the quotients, the
products and the two running sums are rounded at every step, and the sums are
compared with `expense.Amount` and with `100` as `float64` values. -/
def calculateSplits (expense : Expense) (req : ExpenseCreateRequest) :
    Except Error (List ExpenseSplit) :=
  if req.SplitType = SplitTypeEqual then
    let numUsers := req.SplitWith.length
    let splitAmount := fdiv expense.Amount (round64 (numUsers : ℚ))
    let splitPercent := fdiv 100 (round64 (numUsers : ℚ))
    .ok (req.SplitWith.map fun userID =>
      { UserID := userID
        Amount := splitAmount
        Percent := splitPercent
        IsSettled := decide (userID = expense.PaidBy) })
  else if req.SplitType = SplitTypeCustom then
    let totalCustom := req.CustomSplit.foldl (fun acc entry => fadd acc entry.Amount) 0
    if totalCustom ≠ expense.Amount then
      .error .ErrInvalidCustomSplit
    else
      .ok (req.CustomSplit.map fun entry =>
        { UserID := entry.UserID
          Amount := entry.Amount
          Percent := fmul (fdiv entry.Amount expense.Amount) 100
          IsSettled := decide (entry.UserID = expense.PaidBy) })
  else if req.SplitType = SplitTypePercent then
    let totalPercent := req.CustomSplit.foldl (fun acc entry => fadd acc entry.Percent) 0
    if totalPercent ≠ 100 then
      .error (.errorsNew "percentages must add up to 100")
    else
      .ok (req.CustomSplit.map fun entry =>
        { UserID := entry.UserID
          Amount := fmul (fdiv entry.Percent 100) expense.Amount
          Percent := entry.Percent
          IsSettled := decide (entry.UserID = expense.PaidBy) })
  else
    .ok []

/-- The statement `balanceMap[a][b] += delta` on `float64` for a non-nil
`balanceMap[a]`.  The statement `balanceMap[a][b] -= x` is the same with
`delta = -x`: both round the exact difference. -/
def addAmount (balanceMap : BalanceMap) (a b : UUID) (delta : ℚ) : BalanceMap :=
  match balanceMap.lookup a with
  | none => balanceMap
  | some inner => balanceMap.insert a (inner.insert b (fadd ((inner.lookup b).getD 0) delta))

/-- The body of the loop over the splits of one expense (lines 70-78). -/
def processSplit (expense : Expense) (balanceMap : BalanceMap) (split : ExpenseSplit) :
    BalanceMap :=
  if split.UserID ≠ expense.PaidBy ∧ split.IsSettled = false then
    let balanceMap :=
      if (balanceMap.lookup split.UserID).isNone then balanceMap.insert split.UserID ∅
      else balanceMap
    addAmount balanceMap split.UserID expense.PaidBy split.Amount
  else
    balanceMap

/-- The body of the loop over the settlements (lines 82-86). -/
def processSettlement (balanceMap : BalanceMap) (settlement : Settlement) : BalanceMap :=
  if (balanceMap.lookup settlement.FromUser).isSome then
    addAmount balanceMap settlement.FromUser settlement.ToUser (-settlement.Amount)
  else
    balanceMap

/-- Lines 54-86 of `CalculateBalances`: the raw debt map. -/
def buildBalanceMap (members : List MemberDetail) (splitsOf : UUID → List ExpenseSplit)
    (expenses : List Expense) (settlements : List Settlement) : BalanceMap :=
  let balanceMap : BalanceMap :=
    members.foldl (fun balanceMap member => balanceMap.insert member.UserID ∅) ∅
  let balanceMap :=
    expenses.foldl
      (fun balanceMap expense => (splitsOf expense.ID).foldl (processSplit expense) balanceMap)
      balanceMap
  settlements.foldl processSettlement balanceMap

/-- The body of the inner loop of `simplifyBalances` (lines 161-182) for the
entry `balanceMap[fromUser][toUser] = amount`; `netAmount` is the rounded
difference, its negation is exact. -/
def simplifyEntry (balanceMap : BalanceMap) (fromUser : UUID) (simplified : BalanceMap)
    (toUser : UUID) (amount : ℚ) : BalanceMap :=
  if amount ≤ 0 then
    simplified
  else
    let reverseAmount : ℚ :=
      match balanceMap.lookup toUser with
      | none => 0
      | some inner => (inner.lookup fromUser).getD 0
    let netAmount := fsub amount reverseAmount
    if netAmount > 0 then
      setEdge simplified fromUser toUser netAmount
    else if netAmount < 0 then
      setEdge simplified toUser fromUser (-netAmount)
    else
      simplified

/-- The method `BalanceService.simplifyBalances`. -/
def simplifyBalances (ord : RangeOrder) (balanceMap : BalanceMap) : BalanceMap :=
  (ord.outer balanceMap).foldl
    (fun simplified outerEntry =>
      (ord.inner outerEntry.1 outerEntry.2).foldl
        (fun simplified innerEntry =>
          simplifyEntry balanceMap outerEntry.1 simplified innerEntry.1 innerEntry.2)
        simplified)
    ∅

/-- The body of the inner loop of lines 110-139 for the entry
`simplifiedBalances[fromUserID][toUserID] = amount`: the comparison is with the
`float64` constant `0.01`, and the three accumulators of a summary are
`float64` fields. -/
def recordTransfer (st : Store) (fromUserID : UUID)
    (acc : List BalanceResponse × GoMap UserBalanceSummary) (toUserID : UUID) (amount : ℚ) :
    List BalanceResponse × GoMap UserBalanceSummary :=
  if amount > threshold then
    match UserRepository.GetByID st fromUserID with
    | .error _ => acc
    | .ok fromUser =>
      match UserRepository.GetByID st toUserID with
      | .error _ => acc
      | .ok toUser =>
        let balances := acc.1 ++
          [{ FromUser := fromUser.ToResponse, ToUser := toUser.ToResponse, Amount := amount }]
        let memberSummaries :=
          match acc.2.lookup fromUserID with
          | some summary =>
            acc.2.insert fromUserID
              { summary with
                TotalOwed := fadd summary.TotalOwed amount
                NetBalance := fsub summary.NetBalance amount }
          | none => acc.2
        let memberSummaries :=
          match memberSummaries.lookup toUserID with
          | some summary =>
            memberSummaries.insert toUserID
              { summary with
                TotalOwing := fadd summary.TotalOwing amount
                NetBalance := fadd summary.NetBalance amount }
          | none => memberSummaries
        (balances, memberSummaries)
  else
    acc

/-- Lines 91-145 of `CalculateBalances`: the transfer list and the member
summaries built from the simplified balances. -/
def buildSummary (st : Store) (ord : RangeOrder) (members : List MemberDetail)
    (simplifiedBalances : BalanceMap) : List BalanceResponse × List UserBalanceSummary :=
  let result :=
    (ord.outer simplifiedBalances).foldl
      (fun acc outerEntry =>
        (ord.inner outerEntry.1 outerEntry.2).foldl
          (fun acc innerEntry => recordTransfer st outerEntry.1 acc innerEntry.1 innerEntry.2)
          acc)
      (([] : List BalanceResponse), initSummaries st members)
  (result.1, (ord.summaries result.2).map (fun summaryEntry => summaryEntry.2))

/-- The method `BalanceService.CalculateBalances`. -/
def CalculateBalances (st : Store) (ord : RangeOrder) (teamID : UUID) :
    Except Error TeamBalanceSummary :=
  match TeamRepository.GetByID st teamID with
  | .error err => .error err
  | .ok team =>
    let members := TeamRepository.GetTeamMembers st teamID
    let expenses := (ExpenseRepository.GetByTeamID st teamID 10000 0).1
    let settlements := SettlementRepository.GetByTeamID st teamID
    let balanceMap :=
      buildBalanceMap members (ExpenseRepository.GetSplitsByExpenseID st) expenses settlements
    let simplifiedBalances := simplifyBalances ord balanceMap
    let result := buildSummary st ord members simplifiedBalances
    .ok { TeamID := teamID, TeamName := team.Name, Balances := result.1, Members := result.2 }

/-- The value of `balanceMap` when `CalculateBalances` reaches line 88. -/
def rawBalanceMap (st : Store) (teamID : UUID) : BalanceMap :=
  buildBalanceMap (TeamRepository.GetTeamMembers st teamID)
    (ExpenseRepository.GetSplitsByExpenseID st)
    (ExpenseRepository.GetByTeamID st teamID 10000 0).1
    (SettlementRepository.GetByTeamID st teamID)

/-- The netted edge from `a` to `b` that pairwise netting of the raw map `m`
leaves: the rounded difference `m[a][b] - m[b][a]` when `m[a][b]` is positive
and the rounded difference is. -/
def netEdge (m : BalanceMap) (a b : UUID) : Option ℚ :=
  if 0 < getAmount m a b ∧ 0 < fsub (getAmount m a b) (getAmount m b a) then
    some (fsub (getAmount m a b) (getAmount m b a))
  else none

/-- The transfer that the response loop emits for a visited entry, if any: the
amount must exceed the `float64` constant `0.01` and both user rows must be
found. -/
def transferOf (st : Store) (t : DebtFact) : Option BalanceResponse :=
  if t.2.2 > threshold then
    match UserRepository.GetByID st t.1 with
    | .error _ => none
    | .ok fromUser =>
      match UserRepository.GetByID st t.2.1 with
      | .error _ => none
      | .ok toUser =>
        some { FromUser := fromUser.ToResponse, ToUser := toUser.ToResponse, Amount := t.2.2 }
  else none

/-- The update of the summaries for one emitted transfer (lines 128-136). -/
def applyTransfer (memberSummaries : GoMap UserBalanceSummary) (tr : BalanceResponse) :
    GoMap UserBalanceSummary :=
  let memberSummaries :=
    match memberSummaries.lookup tr.FromUser.ID with
    | some summary =>
      memberSummaries.insert tr.FromUser.ID
        { summary with
          TotalOwed := fadd summary.TotalOwed tr.Amount
          NetBalance := fsub summary.NetBalance tr.Amount }
    | none => memberSummaries
  match memberSummaries.lookup tr.ToUser.ID with
  | some summary =>
    memberSummaries.insert tr.ToUser.ID
      { summary with
        TotalOwing := fadd summary.TotalOwing tr.Amount
        NetBalance := fadd summary.NetBalance tr.Amount }
  | none => memberSummaries

/-- What one emitted transfer does to the summary of user `k`. -/
def settleStep (k : UUID) (s : UserBalanceSummary) (tr : BalanceResponse) :
    UserBalanceSummary :=
  let s :=
    if tr.FromUser.ID = k then
      { s with
        TotalOwed := fadd s.TotalOwed tr.Amount
        NetBalance := fsub s.NetBalance tr.Amount }
    else s
  if tr.ToUser.ID = k then
    { s with
      TotalOwing := fadd s.TotalOwing tr.Amount
      NetBalance := fadd s.NetBalance tr.Amount }
  else s

/-- The summary of user `k` once the transfers are accounted for, in the order
in which the loop emits them. -/
def settle (k : UUID) (transfers : List BalanceResponse) (s : UserBalanceSummary) :
    UserBalanceSummary :=
  transfers.foldl (settleStep k) s

/-- The amounts that the transfers add to the `NetBalance` of user `k`, in
order: `-amount` for a transfer from `k`, `amount` for a transfer to `k`. -/
def netTerms (k : UUID) (transfers : List BalanceResponse) : List ℚ :=
  transfers.flatMap fun tr =>
    (if tr.FromUser.ID = k then [-tr.Amount] else []) ++
      (if tr.ToUser.ID = k then [tr.Amount] else [])

end Binary64

/-! ## Per-user balance, settlement recording, expense update and the handlers: definitions -/

/-- The method `BalanceService.GetUserBalance`: the first entry of
`teamSummary.Members` whose `User.ID` is `userID`, else a zero summary built
from the user row. -/
def GetUserBalance (st : Store) (ord : RangeOrder) (teamID userID : UUID) :
    Except Error UserBalanceSummary :=
  match CalculateBalances st ord teamID with
  | .error err => .error err
  | .ok teamSummary =>
    match teamSummary.Members.find? (fun member => member.User.ID = userID) with
    | some member => .ok member
    | none =>
      match UserRepository.GetByID st userID with
      | .error err => .error err
      | .ok user =>
        .ok { User := user.ToResponse, TotalOwed := 0, TotalOwing := 0, NetBalance := 0 }

/-- Record `models.SettlementRequest`. -/
structure SettlementRequest where
  FromUser : UUID := 0
  ToUser : UUID := 0
  Amount : ℚ := 0
  deriving DecidableEq, Repr

/-- The method `SettlementRepository.Create`: new id, then one `INSERT INTO
settlements`.  PostgreSQL refuses the row when the amount is beyond
`DECIMAL(10,2)` or when `team_id`, `from_user` or `to_user` has no row in
`teams` or `users`; the error is returned and nothing is written.  Otherwise
the row is stored with the amount the column took.  Returns the error, if any,
and the store left. -/
def SettlementRepository.Create (st : Store) (settlement : Settlement) :
    Except Error Unit × Store :=
  match Postgres.decimalColumn 10 settlement.Amount with
  | none => (.error (.dbError "value refused by its column"), st)
  | some amount =>
    if Postgres.hasTeam st settlement.TeamID = true ∧
        Postgres.hasUser st settlement.FromUser = true ∧
        Postgres.hasUser st settlement.ToUser = true then
      (.ok (),
        { st with
          settlements := st.settlements ++ [{ settlement with ID := st.nextID, Amount := amount }]
          nextID := st.nextID + 1 })
    else (.error (.dbError "violates foreign key constraint"), st)

/-- The method `BalanceService.RecordSettlement`: builds the settlement row from
the request and inserts it; no check is made here. -/
def RecordSettlement (st : Store) (teamID : UUID) (req : SettlementRequest) :
    Except Error Unit × Store :=
  let settlement : Settlement :=
    { TeamID := teamID, FromUser := req.FromUser, ToUser := req.ToUser, Amount := req.Amount }
  SettlementRepository.Create st settlement

/-- The method `TeamRepository.IsMember` (also `TeamService.IsMember`, which
only forwards to it). -/
def TeamRepository.IsMember (st : Store) (teamID userID : UUID) : Bool :=
  st.team_members.any fun tm => decide (tm.TeamID = teamID ∧ tm.UserID = userID)

/-- Record `utils.APIResponse` without its `Data` field. -/
structure APIResponse where
  Success : Bool := false
  Error : String := ""
  Message : String := ""
  deriving DecidableEq, Repr

/-- What a handler writes to its `http.ResponseWriter`: the status code and the
body. -/
structure HTTPResponse where
  Status : Nat := 0
  Body : APIResponse := {}
  deriving DecidableEq, Repr

/-- The function `utils.JSON`. -/
def utils.JSON (status : Nat) (data : APIResponse) : HTTPResponse :=
  { Status := status, Body := data }

/-- The function `utils.Success` (`http.StatusOK` is 200). -/
def utils.Success (message : String) : HTTPResponse :=
  utils.JSON 200 { Success := true, Message := message }

/-- The function `utils.Created` (`http.StatusCreated` is 201). -/
def utils.Created (message : String) : HTTPResponse :=
  utils.JSON 201 { Success := true, Message := message }

/-- The function `utils.Error`. -/
def utils.Error (status : Nat) (message : String) : HTTPResponse :=
  utils.JSON status { Success := false, Error := message }

/-- The function `utils.BadRequest` (`http.StatusBadRequest` is 400). -/
def utils.BadRequest (message : String) : HTTPResponse := utils.Error 400 message

/-- The function `utils.Unauthorized` (`http.StatusUnauthorized` is 401). -/
def utils.Unauthorized (message : String) : HTTPResponse := utils.Error 401 message

/-- The function `utils.Forbidden` (`http.StatusForbidden` is 403). -/
def utils.Forbidden (message : String) : HTTPResponse := utils.Error 403 message

/-- The function `utils.NotFound` (`http.StatusNotFound` is 404). -/
def utils.NotFound (message : String) : HTTPResponse := utils.Error 404 message

/-- The function `utils.InternalError` (`http.StatusInternalServerError` is
500). -/
def utils.InternalError (message : String) : HTTPResponse := utils.Error 500 message

/-- The method `BalanceHandler.RecordSettlement`.  `ctxUserID` is what
`GetUserIDFromContext` finds, `teamIdVar` the result of parsing the `teamId`
path variable, `body` the result of decoding the request body (`none` when
that step fails).  Returns the response written and the store left. -/
def BalanceHandler.RecordSettlement (st : Store) (ord : RangeOrder) (ctxUserID : Option UUID)
    (teamIdVar : Option UUID) (body : Option SettlementRequest) : HTTPResponse × Store :=
  match ctxUserID with
  | none => (utils.Unauthorized "User not authenticated", st)
  | some userID =>
    match teamIdVar with
    | none => (utils.BadRequest "Invalid team ID", st)
    | some teamID =>
      if TeamRepository.IsMember st teamID userID = false then
        (utils.Forbidden "You are not a member of this team", st)
      else
        match body with
        | none => (utils.BadRequest "Invalid request body", st)
        | some req =>
          if req.FromUser ≠ userID ∧ req.ToUser ≠ userID then
            (utils.Forbidden "You can only record settlements involving yourself", st)
          else if req.Amount ≤ 0 then
            (utils.BadRequest "Amount must be greater than 0", st)
          else
            match Backend.RecordSettlement st teamID req with
            | (.error _, st') => (utils.InternalError "Failed to record settlement", st')
            | (.ok _, recorded) =>
              match Binary64.CalculateBalances recorded ord teamID with
              | .error _ => (utils.InternalError "Failed to get updated balances", recorded)
              | .ok _ => (utils.Success "Settlement recorded successfully", recorded)

/-- The method `Error()` of an error value: the text it was built with (named
`message` here, the type itself being called `Error`). -/
def Error.message : Error → String
  | .ErrAmountRequired => "amount is required and must be greater than 0"
  | .ErrSplitWithRequired => "at least one user to split with is required"
  | .ErrInvalidSplitType => "invalid split type"
  | .ErrInvalidCustomSplit => "custom split amounts must equal total amount"
  | .ErrTeamNotFound => "team not found"
  | .ErrUserNotFound => "user not found"
  | .ErrExpenseNotFound => "expense not found"
  | .ErrNotAuthorized => "not authorized to perform this action"
  | .errorsNew msg => msg
  | .dbError msg => msg

/-- The method `ExpenseHandler.CreateExpense`, with the same reading of its
inputs as `BalanceHandler.RecordSettlement`.  The `switch err` compares the
error with the four sentinels; anything else takes the `default` branch. -/
def ExpenseHandler.CreateExpense (st : Store) (ctxUserID : Option UUID)
    (teamIdVar : Option UUID) (body : Option ExpenseCreateRequest) : HTTPResponse × Store :=
  match ctxUserID with
  | none => (utils.Unauthorized "User not authenticated", st)
  | some userID =>
    match teamIdVar with
    | none => (utils.BadRequest "Invalid team ID", st)
    | some teamID =>
      if TeamRepository.IsMember st teamID userID = false then
        (utils.Forbidden "You are not a member of this team", st)
      else
        match body with
        | none => (utils.BadRequest "Invalid request body", st)
        | some req =>
          match Backend.CreateExpense st teamID userID req with
          | (.error err, st') =>
            if err = .ErrAmountRequired ∨ err = .ErrSplitWithRequired ∨
                err = .ErrInvalidSplitType ∨ err = .ErrInvalidCustomSplit then
              (utils.BadRequest err.message, st')
            else
              (utils.InternalError "Failed to create expense", st')
          | (.ok _, st') => (utils.Created "Expense created successfully", st')

/-- Record `models.ExpenseUpdateRequest`: a nil pointer is `none`. -/
structure ExpenseUpdateRequest where
  Amount : Option ℚ := none
  Description : Option String := none
  Category : Option String := none
  deriving DecidableEq, Repr

/-- Record `models.ExpenseSplitDetail`. -/
structure ExpenseSplitDetail where
  ID : UUID := 0
  User : UserResponse := {}
  Amount : ℚ := 0
  Percent : ℚ := 0
  IsSettled : Bool := false
  deriving DecidableEq, Repr

/-- Record `models.ExpenseResponse` (timestamp dropped). -/
structure ExpenseResponse where
  ID : UUID := 0
  TeamID : UUID := 0
  PaidBy : UserResponse := {}
  Amount : ℚ := 0
  Description : String := ""
  Category : String := ""
  ReceiptURL : String := ""
  SplitType : SplitType := ""
  Splits : List ExpenseSplitDetail := []
  ApprovalStatus : ApprovalStatus := ""
  deriving DecidableEq, Repr

/-- The method `ExpenseRepository.GetByID`. -/
def ExpenseRepository.GetByID (st : Store) (id : UUID) : Except Error Expense :=
  match st.expenses.find? (fun expense => expense.ID = id) with
  | some expense => .ok expense
  | none => .error .ErrExpenseNotFound

/-- The method `ExpenseRepository.Update`: one `UPDATE expenses SET amount,
description, category, receipt_url ... WHERE id`; no row of `expense_splits` is
touched.  Fails with `ErrExpenseNotFound` when no row has the id. -/
def ExpenseRepository.Update (st : Store) (expense : Expense) : Except Error Unit × Store :=
  if st.expenses.any (fun row => row.ID = expense.ID) then
    (.ok (),
      { st with
        expenses := st.expenses.map fun row =>
          if row.ID = expense.ID then
            { row with
              Amount := expense.Amount
              Description := expense.Description
              Category := expense.Category
              ReceiptURL := expense.ReceiptURL }
          else row })
  else
    (.error .ErrExpenseNotFound, st)

/-- The loop of `buildExpenseResponse` over the splits (lines 177-189): the
first split whose user row is missing ends it with that error. -/
def splitDetailsOf (st : Store) : List ExpenseSplit → Except Error (List ExpenseSplitDetail)
  | [] => .ok []
  | split :: rest =>
    match UserRepository.GetByID st split.UserID with
    | .error err => .error err
    | .ok user =>
      match splitDetailsOf st rest with
      | .error err => .error err
      | .ok details =>
        .ok ({ ID := split.ID, User := user.ToResponse, Amount := split.Amount,
               Percent := split.Percent, IsSettled := split.IsSettled } :: details)

/-- The method `ExpenseService.buildExpenseResponse`; the approval status is
that of the approval row of the expense, `pending` when there is none. -/
def buildExpenseResponse (st : Store) (expense : Expense) : Except Error ExpenseResponse :=
  match UserRepository.GetByID st expense.PaidBy with
  | .error err => .error err
  | .ok payer =>
    match splitDetailsOf st (ExpenseRepository.GetSplitsByExpenseID st expense.ID) with
    | .error err => .error err
    | .ok splitDetails =>
      let status :=
        match st.approvals.find? (fun approval => approval.ExpenseID = expense.ID) with
        | some approval => approval.Status
        | none => ApprovalStatusPending
      .ok { ID := expense.ID, TeamID := expense.TeamID, PaidBy := payer.ToResponse,
            Amount := expense.Amount, Description := expense.Description,
            Category := expense.Category, ReceiptURL := expense.ReceiptURL,
            SplitType := expense.SplitType, Splits := splitDetails, ApprovalStatus := status }

/-- The method `ExpenseService.GetExpenseByID`. -/
def GetExpenseByID (st : Store) (id : UUID) : Except Error ExpenseResponse :=
  match ExpenseRepository.GetByID st id with
  | .error err => .error err
  | .ok expense => buildExpenseResponse st expense

/-- The method `ExpenseService.UpdateExpense`: only the payer may update; the
fields present in the request overwrite those of the expense, the row is
written back and the expense is read again.  Returns the response and the
store left. -/
def UpdateExpense (st : Store) (id : UUID) (req : ExpenseUpdateRequest) (requesterID : UUID) :
    Except Error ExpenseResponse × Store :=
  match ExpenseRepository.GetByID st id with
  | .error err => (.error err, st)
  | .ok expense =>
    if expense.PaidBy ≠ requesterID then
      (.error .ErrNotAuthorized, st)
    else
      let expense :=
        match req.Amount with
        | some amount => { expense with Amount := amount }
        | none => expense
      let expense :=
        match req.Description with
        | some description => { expense with Description := description }
        | none => expense
      let expense :=
        match req.Category with
        | some category => { expense with Category := category }
        | none => expense
      match ExpenseRepository.Update st expense with
      | (.error err, st') => (.error err, st')
      | (.ok _, st') => (GetExpenseByID st' id, st')

/-- The sample database with one more settlement, of 5 from user 9 to user 1;
user 9 has a user row but is no member of team 7 and holds no share. -/
def strangerStore : Store :=
  { users := [{ ID := 1 }, { ID := 2 }, { ID := 3 }, { ID := 9 }]
    teams := [{ ID := 7, Name := "trip" }]
    team_members :=
      [{ TeamID := 7, UserID := 1 }, { TeamID := 7, UserID := 2 }, { TeamID := 7, UserID := 3 }]
    expenses := [{ ID := 10, TeamID := 7, PaidBy := 1, Amount := 90 }]
    expense_splits :=
      [{ ID := 11, ExpenseID := 10, UserID := 1, Amount := 30, IsSettled := true },
       { ID := 12, ExpenseID := 10, UserID := 2, Amount := 30 },
       { ID := 13, ExpenseID := 10, UserID := 3, Amount := 30 }]
    settlements :=
      [{ ID := 20, TeamID := 7, FromUser := 2, ToUser := 1, Amount := 20 },
       { ID := 21, TeamID := 7, FromUser := 9, ToUser := 1, Amount := 5 }] }

/-- A sample database without any fact: users 1, 2, 3, all members of team 7,
no expense and no settlement. -/
def freshStore : Store :=
  { users := [{ ID := 1 }, { ID := 2 }, { ID := 3 }]
    teams := [{ ID := 7, Name := "trip" }]
    team_members :=
      [{ TeamID := 7, UserID := 1 }, { TeamID := 7, UserID := 2 }, { TeamID := 7, UserID := 3 }]
    nextID := 100 }

/-- A sample database with 10001 expenses of team 7, all paid by user 1.  The
oldest, expense 1 of 60, is split equally between users 1 and 2; each of the
10000 later ones, of 30, has the payer's own share only. -/
def bigStore : Store :=
  { users := [{ ID := 1 }, { ID := 2 }]
    teams := [{ ID := 7, Name := "trip" }]
    team_members := [{ TeamID := 7, UserID := 1 }, { TeamID := 7, UserID := 2 }]
    expenses :=
      { ID := 1, TeamID := 7, PaidBy := 1, Amount := 60 } ::
        (List.range 10000).map fun i => { ID := i + 2, TeamID := 7, PaidBy := 1, Amount := 30 }
    expense_splits :=
      { ID := 20001, ExpenseID := 1, UserID := 1, Amount := 30, IsSettled := true } ::
      { ID := 20002, ExpenseID := 1, UserID := 2, Amount := 30 } ::
        (List.range 10000).map fun i =>
          { ID := i + 30000, ExpenseID := i + 2, UserID := 1, Amount := 30, IsSettled := true } }

/-! ## Expense creation against the database: definitions -/

namespace Binary64

/-- The row that `INSERT INTO expenses` stores for `expense`, or the error of
PostgreSQL: a value that its column refuses (`amount DECIMAL(10,2)`,
`description TEXT`, `category VARCHAR(100)`, `receipt_url TEXT`, `split_type
VARCHAR(50)`), or a `team_id` or `paid_by` without a row in `teams` or
`users`. -/
def expenseRow (st : Store) (expense : Expense) : Except Error Expense :=
  match Postgres.decimalColumn 10 expense.Amount, Postgres.textColumn expense.Description,
      Postgres.varcharColumn 100 expense.Category, Postgres.textColumn expense.ReceiptURL,
      Postgres.varcharColumn 50 expense.SplitType with
  | some amount, some description, some category, some receiptURL, some splitType =>
    if Postgres.hasTeam st expense.TeamID = true ∧ Postgres.hasUser st expense.PaidBy = true then
      .ok { expense with
            Amount := amount
            Description := description
            Category := category
            ReceiptURL := receiptURL
            SplitType := splitType }
    else .error (.dbError "violates foreign key constraint")
  | _, _, _, _, _ => .error (.dbError "value refused by its column")

/-- The row that `INSERT INTO expense_splits` stores for `split`, or the error
of PostgreSQL: an `amount` beyond `DECIMAL(10,2)`, a `percent` beyond
`DECIMAL(5,2)`, or a `user_id` without a row in `users`.  (The `expense_id` is
that of the row inserted just before, in the same transaction.) -/
def splitRow (st : Store) (split : ExpenseSplit) : Except Error ExpenseSplit :=
  match Postgres.decimalColumn 10 split.Amount, Postgres.decimalColumn 5 split.Percent with
  | some amount, some percent =>
    if Postgres.hasUser st split.UserID = true then
      .ok { split with Amount := amount, Percent := percent }
    else .error (.dbError "violates foreign key constraint")
  | _, _ => .error (.dbError "value refused by its column")

/-- The loop of `ExpenseRepository.Create` over the splits: the first insert
that fails ends it with that error. -/
def splitRows (st : Store) : List ExpenseSplit → Except Error (List ExpenseSplit)
  | [] => .ok []
  | split :: rest =>
    match splitRow st split with
    | .error err => .error err
    | .ok row =>
      match splitRows st rest with
      | .error err => .error err
      | .ok rows => .ok (row :: rows)

/-- The method `ExpenseRepository.Create`: one transaction that gives the
expense a new id and inserts it, then gives every split a new id and the
expense's id and inserts it.  An insert that PostgreSQL refuses ends the method
with that error and the deferred `tx.Rollback()` leaves the tables as they
were.  Returns the expense and the splits as the Go values hold them (ids set,
amounts as computed) and the store left, whose rows hold what the columns
took. -/
def ExpenseRepository.Create (st : Store) (expense : Expense) (splits : List ExpenseSplit) :
    Except Error (Expense × List ExpenseSplit) × Store :=
  let expense' := { expense with ID := st.nextID }
  let splits' := assignSplitIDs expense'.ID (st.nextID + 1) splits
  match expenseRow st expense' with
  | .error err => (.error err, st)
  | .ok row =>
    match splitRows st splits' with
    | .error err => (.error err, st)
    | .ok rows =>
      (.ok (expense', splits'),
        { st with
          expenses := st.expenses ++ [row]
          expense_splits := st.expense_splits ++ rows
          nextID := st.nextID + 1 + splits.length })

/-- The method `ExpenseService.CreateExpense`: the validation, the split in
binary64, the two inserts (lines 73-75 return the error of the repository), the
approval record, and the final `return s.GetExpenseByID(expense.ID)` (line 87),
which reads the rows back.  The result pairs what the call returns with the
store it leaves. -/
def CreateExpense (st : Store) (teamID paidBy : UUID) (req : ExpenseCreateRequest) :
    Except Error ExpenseResponse × Store :=
  if req.Amount ≤ 0 then
    (.error .ErrAmountRequired, st)
  else if req.SplitWith.length = 0 then
    (.error .ErrSplitWithRequired, st)
  else
    let req := if req.SplitType = "" then { req with SplitType := SplitTypeEqual } else req
    if req.SplitType ≠ SplitTypeEqual ∧ req.SplitType ≠ SplitTypeCustom ∧
        req.SplitType ≠ SplitTypePercent then
      (.error .ErrInvalidSplitType, st)
    else
      let expense : Expense :=
        { TeamID := teamID
          PaidBy := paidBy
          Amount := req.Amount
          Description := req.Description
          Category := req.Category
          SplitType := req.SplitType }
      match calculateSplits expense req with
      | .error err => (.error err, st)
      | .ok splits =>
        match ExpenseRepository.Create st expense splits with
        | (.error err, st') => (.error err, st')
        | (.ok created, st') =>
          let stored := ApprovalRepository.Create st'
            { ExpenseID := created.1.ID, Status := ApprovalStatusPending }
          (GetExpenseByID stored created.1.ID, stored)

end Binary64

/-- A sample database with amounts in cents: users 1, 2, 3, all members of team
7; one expense of 0.07 paid by user 1 whose only share, of 0.07, is user 2's;
one settlement of 0.06 from user 2 to user 1.  The amounts are the binary64
numbers that reading the columns gives. -/
def centStore : Store :=
  { users := [{ ID := 1 }, { ID := 2 }, { ID := 3 }]
    teams := [{ ID := 7, Name := "trip" }]
    team_members :=
      [{ TeamID := 7, UserID := 1 }, { TeamID := 7, UserID := 2 }, { TeamID := 7, UserID := 3 }]
    expenses := [{ ID := 10, TeamID := 7, PaidBy := 1, Amount := Binary64.round64 (7 / 100) }]
    expense_splits :=
      [{ ID := 12, ExpenseID := 10, UserID := 2, Amount := Binary64.round64 (7 / 100) }]
    settlements :=
      [{ ID := 20, TeamID := 7, FromUser := 2, ToUser := 1,
         Amount := Binary64.round64 (6 / 100) }] }

/-- A sample database where the order of the additions shows: users 1, 2, 3, 4,
all members of team 7; user 2 owes 0.1 to user 1 and 0.2 to user 4, and user 3
owes 0.3 to user 2 (three expenses with one share each, the newest being the
one paid by user 2).  The amounts are the binary64 numbers that reading the
columns gives. -/
def roundingStore : Store :=
  { users := [{ ID := 1 }, { ID := 2 }, { ID := 3 }, { ID := 4 }]
    teams := [{ ID := 7, Name := "trip" }]
    team_members :=
      [{ TeamID := 7, UserID := 1 }, { TeamID := 7, UserID := 2 }, { TeamID := 7, UserID := 3 },
       { TeamID := 7, UserID := 4 }]
    expenses :=
      [{ ID := 10, TeamID := 7, PaidBy := 1, Amount := Binary64.round64 (1 / 10) },
       { ID := 20, TeamID := 7, PaidBy := 4, Amount := Binary64.round64 (2 / 10) },
       { ID := 30, TeamID := 7, PaidBy := 2, Amount := Binary64.round64 (3 / 10) }]
    expense_splits :=
      [{ ID := 11, ExpenseID := 10, UserID := 2, Amount := Binary64.round64 (1 / 10) },
       { ID := 21, ExpenseID := 20, UserID := 2, Amount := Binary64.round64 (2 / 10) },
       { ID := 31, ExpenseID := 30, UserID := 3, Amount := Binary64.round64 (3 / 10) }] }

/-- A sample database with three debts to one member: users 1, 2, 3, 4, all
members of team 7; one expense of 0.6 paid by user 1 with the shares 0.1, 0.2
and 0.3 of users 2, 3 and 4.  The amounts are the binary64 numbers that reading
the columns gives. -/
def tenthsStore : Store :=
  { users := [{ ID := 1 }, { ID := 2 }, { ID := 3 }, { ID := 4 }]
    teams := [{ ID := 7, Name := "trip" }]
    team_members :=
      [{ TeamID := 7, UserID := 1 }, { TeamID := 7, UserID := 2 }, { TeamID := 7, UserID := 3 },
       { TeamID := 7, UserID := 4 }]
    expenses := [{ ID := 10, TeamID := 7, PaidBy := 1, Amount := Binary64.round64 (6 / 10) }]
    expense_splits :=
      [{ ID := 11, ExpenseID := 10, UserID := 2, Amount := Binary64.round64 (1 / 10) },
       { ID := 12, ExpenseID := 10, UserID := 3, Amount := Binary64.round64 (2 / 10) },
       { ID := 13, ExpenseID := 10, UserID := 4, Amount := Binary64.round64 (3 / 10) }] }

/-! ## Auxiliary facts -/

/-- The accumulation loop `total += f entry` computes the list sum. -/
theorem foldl_add_eq_sum {α : Type} (f : α → ℚ) (l : List α) (a : ℚ) :
    l.foldl (fun acc entry => acc + f entry) a = a + (l.map f).sum := by
  induction l generalizing a with
  | nil => simp
  | cons x xs ih => simp [ih, add_assoc]

/-- The sum of a constant list. -/
theorem sum_map_const {α : Type} (c : ℚ) (l : List α) :
    (l.map fun _ => c).sum = (l.length : ℚ) * c := by
  induction l with
  | nil => simp
  | cons x xs ih => simp [ih]; ring

/-- Scaling every summand scales the sum. -/
theorem sum_map_mul_right {α : Type} (f : α → ℚ) (c : ℚ) (l : List α) :
    (l.map fun x => f x * c).sum = (l.map f).sum * c := by
  induction l with
  | nil => simp
  | cons x xs ih => simp [ih]; ring

theorem assignSplitIDs_length (e : UUID) (n : Nat) (l : List ExpenseSplit) :
    (assignSplitIDs e n l).length = l.length := by
  induction l generalizing n with
  | nil => rfl
  | cons x xs ih => simp [assignSplitIDs, ih]

theorem assignSplitIDs_map_UserID (e : UUID) (n : Nat) (l : List ExpenseSplit) :
    (assignSplitIDs e n l).map (·.UserID) = l.map (·.UserID) := by
  induction l generalizing n with
  | nil => rfl
  | cons x xs ih => simp [assignSplitIDs, ih]

theorem assignSplitIDs_map_Amount (e : UUID) (n : Nat) (l : List ExpenseSplit) :
    (assignSplitIDs e n l).map (·.Amount) = l.map (·.Amount) := by
  induction l generalizing n with
  | nil => rfl
  | cons x xs ih => simp [assignSplitIDs, ih]

theorem SplitTypeCustom_ne_Equal : SplitTypeCustom ≠ SplitTypeEqual := by decide

theorem SplitTypePercent_ne_Equal : SplitTypePercent ≠ SplitTypeEqual := by decide

theorem SplitTypePercent_ne_Custom : SplitTypePercent ≠ SplitTypeCustom := by decide

/-- The equal branch of `calculateSplits`. -/
theorem calculateSplits_equal (expense : Expense) (req : ExpenseCreateRequest)
    (ht : req.SplitType = SplitTypeEqual) :
    calculateSplits expense req = .ok (req.SplitWith.map fun userID =>
      { UserID := userID
        Amount := expense.Amount / (req.SplitWith.length : ℚ)
        Percent := 100 / (req.SplitWith.length : ℚ)
        IsSettled := decide (userID = expense.PaidBy) }) := by
  simp [calculateSplits, ht]

/-- The custom branch of `calculateSplits`. -/
theorem calculateSplits_custom (expense : Expense) (req : ExpenseCreateRequest)
    (ht : req.SplitType = SplitTypeCustom) :
    calculateSplits expense req =
      if (req.CustomSplit.map (·.Amount)).sum = expense.Amount then
        .ok (req.CustomSplit.map fun entry =>
          { UserID := entry.UserID
            Amount := entry.Amount
            Percent := (entry.Amount / expense.Amount) * 100
            IsSettled := decide (entry.UserID = expense.PaidBy) })
      else .error .ErrInvalidCustomSplit := by
  have hsum := foldl_add_eq_sum (fun entry : CustomSplitEntry => entry.Amount) req.CustomSplit 0
  simp only [zero_add] at hsum
  simp only [calculateSplits, ht, SplitTypeCustom_ne_Equal, if_false, if_true, hsum, ne_eq,
    ite_not]

/-- The percent branch of `calculateSplits`. -/
theorem calculateSplits_percent (expense : Expense) (req : ExpenseCreateRequest)
    (ht : req.SplitType = SplitTypePercent) :
    calculateSplits expense req =
      if (req.CustomSplit.map (·.Percent)).sum = 100 then
        .ok (req.CustomSplit.map fun entry =>
          { UserID := entry.UserID
            Amount := (entry.Percent / 100) * expense.Amount
            Percent := entry.Percent
            IsSettled := decide (entry.UserID = expense.PaidBy) })
      else .error (.errorsNew "percentages must add up to 100") := by
  have hsum := foldl_add_eq_sum (fun entry : CustomSplitEntry => entry.Percent) req.CustomSplit 0
  simp only [zero_add] at hsum
  simp only [calculateSplits, ht, SplitTypePercent_ne_Equal, SplitTypePercent_ne_Custom,
    if_false, if_true, hsum, ne_eq, ite_not]

/-- Any other tag: the `switch` matches no case. -/
theorem calculateSplits_other (expense : Expense) (req : ExpenseCreateRequest)
    (h1 : req.SplitType ≠ SplitTypeEqual) (h2 : req.SplitType ≠ SplitTypeCustom)
    (h3 : req.SplitType ≠ SplitTypePercent) :
    calculateSplits expense req = .ok [] := by
  simp [calculateSplits, h1, h2, h3]

/-! ## Split calculator -/

/-- C6: whatever the strategy, every share returned by `calculateSplits` has
`IsSettled = true` exactly when its `UserID` is `expense.PaidBy`. -/
theorem payer_share_settled (expense : Expense) (req : ExpenseCreateRequest)
    (shares : List ExpenseSplit) (h : calculateSplits expense req = .ok shares)
    (s : ExpenseSplit) (hs : s ∈ shares) :
    s.IsSettled = true ↔ s.UserID = expense.PaidBy := by
  by_cases h1 : req.SplitType = SplitTypeEqual
  · rw [calculateSplits_equal expense req h1] at h
    simp only [Except.ok.injEq] at h
    subst h
    obtain ⟨u, -, rfl⟩ := List.mem_map.mp hs
    simp
  by_cases h2 : req.SplitType = SplitTypeCustom
  · rw [calculateSplits_custom expense req h2] at h
    split_ifs at h
    simp only [Except.ok.injEq] at h
    subst h
    obtain ⟨u, -, rfl⟩ := List.mem_map.mp hs
    simp
  by_cases h3 : req.SplitType = SplitTypePercent
  · rw [calculateSplits_percent expense req h3] at h
    split_ifs at h
    simp only [Except.ok.injEq] at h
    subst h
    obtain ⟨u, -, rfl⟩ := List.mem_map.mp hs
    simp
  · rw [calculateSplits_other expense req h1 h2 h3] at h
    simp only [Except.ok.injEq] at h
    subst h
    simp at hs

/-- Witness for `payer_share_settled`: in 90 over `[1, 2, 3]` paid by 1, the
share of user 2 is not settled because 2 is not the payer. -/
theorem payer_share_settled_witness :
    ((({ UserID := 2, Amount := 30, Percent := 100 / 3 } : ExpenseSplit)).IsSettled = true ↔
      (({ UserID := 2, Amount := 30, Percent := 100 / 3 } : ExpenseSplit)).UserID
        = (({ Amount := 90, PaidBy := 1 } : Expense)).PaidBy) :=
  payer_share_settled { Amount := 90, PaidBy := 1 }
    { Amount := 90, SplitType := SplitTypeEqual, SplitWith := [1, 2, 3] }
    [{ UserID := 1, Amount := 30, Percent := 100 / 3, IsSettled := true },
     { UserID := 2, Amount := 30, Percent := 100 / 3 },
     { UserID := 3, Amount := 30, Percent := 100 / 3 }]
    (by rw [calculateSplits_equal _ _ rfl]; norm_num)
    _ (by simp)

/-! ## Expense creation -/

/-- The only errors `calculateSplits` returns. -/
theorem calculateSplits_error (expense : Expense) (req : ExpenseCreateRequest) (err : Error)
    (h : calculateSplits expense req = .error err) :
    err = .ErrInvalidCustomSplit ∨ err = .errorsNew "percentages must add up to 100" := by
  by_cases h1 : req.SplitType = SplitTypeEqual
  · rw [calculateSplits_equal expense req h1] at h
    simp at h
  by_cases h2 : req.SplitType = SplitTypeCustom
  · rw [calculateSplits_custom expense req h2] at h
    split_ifs at h
    simp only [Except.error.injEq] at h
    exact Or.inl h.symm
  by_cases h3 : req.SplitType = SplitTypePercent
  · rw [calculateSplits_percent expense req h3] at h
    split_ifs at h
    simp only [Except.error.injEq] at h
    exact Or.inr h.symm
  · rw [calculateSplits_other expense req h1 h2 h3] at h
    simp at h

/-- Inversion of a successful `CreateExpense`: the request passed the three
checks, and the shares are those of `calculateSplits` on the effective request,
with their identifiers filled in. -/
theorem CreateExpense_ok (st : Store) (teamID paidBy : UUID)
    (req : ExpenseCreateRequest) (e : Expense) (splits : List ExpenseSplit)
    (h : (CreateExpense st teamID paidBy req).1 = .ok (e, splits)) :
    0 < req.Amount ∧ req.SplitWith ≠ [] ∧
    ((effectiveRequest req).SplitType = SplitTypeEqual ∨
      (effectiveRequest req).SplitType = SplitTypeCustom ∨
      (effectiveRequest req).SplitType = SplitTypePercent) ∧
    ∃ shares,
      calculateSplits
        { TeamID := teamID, PaidBy := paidBy, Amount := req.Amount,
          Description := req.Description, Category := req.Category,
          SplitType := (effectiveRequest req).SplitType }
        (effectiveRequest req) = .ok shares ∧
      splits = assignSplitIDs st.nextID (st.nextID + 1) shares := by
  have heff : (if req.SplitType = "" then { req with SplitType := SplitTypeEqual } else req)
      = effectiveRequest req := rfl
  have hamt : (effectiveRequest req).Amount = req.Amount := by
    unfold effectiveRequest; split_ifs <;> rfl
  have hdesc : (effectiveRequest req).Description = req.Description := by
    unfold effectiveRequest; split_ifs <;> rfl
  have hcat : (effectiveRequest req).Category = req.Category := by
    unfold effectiveRequest; split_ifs <;> rfl
  unfold CreateExpense at h
  by_cases h1 : req.Amount ≤ 0
  · simp [h1] at h
  by_cases h2 : req.SplitWith.length = 0
  · simp [h1, h2] at h
  simp only [h1, h2, if_false, heff, hamt, hdesc, hcat] at h
  by_cases h3 : (effectiveRequest req).SplitType ≠ SplitTypeEqual ∧
      (effectiveRequest req).SplitType ≠ SplitTypeCustom ∧
      (effectiveRequest req).SplitType ≠ SplitTypePercent
  · simp [h3] at h
  rw [if_neg h3] at h
  refine ⟨lt_of_not_ge h1, fun hnil => h2 (by simp [hnil]), ?_, ?_⟩
  · by_contra hcon
    simp only [not_or] at hcon
    exact h3 ⟨hcon.1, hcon.2.1, hcon.2.2⟩
  · split at h
    · simp at h
    · rename_i shares hshares
      refine ⟨shares, hshares, ?_⟩
      simp only [ExpenseRepository.Create, Except.ok.injEq, Prod.mk.injEq] at h
      exact h.2.symm

/-- Inversion of a failed `CreateExpense`: the error is that of the first check
the request fails, or else the error of `calculateSplits`; in every case the
store is left as it was. -/
theorem CreateExpense_error (st : Store) (teamID paidBy : UUID)
    (req : ExpenseCreateRequest) (err : Error)
    (h : (CreateExpense st teamID paidBy req).1 = .error err) :
    (CreateExpense st teamID paidBy req).2 = st ∧
    ((req.Amount ≤ 0 ∧ err = .ErrAmountRequired) ∨
     (0 < req.Amount ∧ req.SplitWith = [] ∧ err = .ErrSplitWithRequired) ∨
     (0 < req.Amount ∧ req.SplitWith ≠ [] ∧
        ((effectiveRequest req).SplitType ≠ SplitTypeEqual ∧
         (effectiveRequest req).SplitType ≠ SplitTypeCustom ∧
         (effectiveRequest req).SplitType ≠ SplitTypePercent) ∧
        err = .ErrInvalidSplitType) ∨
     (0 < req.Amount ∧ req.SplitWith ≠ [] ∧
        ¬ ((effectiveRequest req).SplitType ≠ SplitTypeEqual ∧
           (effectiveRequest req).SplitType ≠ SplitTypeCustom ∧
           (effectiveRequest req).SplitType ≠ SplitTypePercent) ∧
        (err = .ErrInvalidCustomSplit ∨ err = .errorsNew "percentages must add up to 100"))) := by
  have heff : (if req.SplitType = "" then { req with SplitType := SplitTypeEqual } else req)
      = effectiveRequest req := rfl
  unfold CreateExpense at h ⊢
  by_cases h1 : req.Amount ≤ 0
  · simp only [h1, if_true, Except.error.injEq] at h ⊢
    exact ⟨trivial, Or.inl ⟨trivial, h.symm⟩⟩
  have h1' : 0 < req.Amount := lt_of_not_ge h1
  by_cases h2 : req.SplitWith.length = 0
  · simp only [h1, h2, if_true, if_false, Except.error.injEq] at h ⊢
    exact ⟨trivial, Or.inr (Or.inl ⟨h1', List.length_eq_zero.mp h2, h.symm⟩)⟩
  have h2' : req.SplitWith ≠ [] := fun hnil => h2 (by simp [hnil])
  simp only [h1, h2, if_false, heff] at h ⊢
  by_cases h3 : (effectiveRequest req).SplitType ≠ SplitTypeEqual ∧
      (effectiveRequest req).SplitType ≠ SplitTypeCustom ∧
      (effectiveRequest req).SplitType ≠ SplitTypePercent
  · rw [if_pos h3] at h ⊢
    simp only [Except.error.injEq] at h
    exact ⟨rfl, Or.inr (Or.inr (Or.inl ⟨h1', h2', h3, h.symm⟩))⟩
  rw [if_neg h3] at h ⊢
  split at h
  · rename_i err' herr
    simp only [Except.error.injEq] at h
    subst h
    exact ⟨rfl, Or.inr (Or.inr (Or.inr ⟨h1', h2', h3, calculateSplits_error _ _ _ herr⟩))⟩
  · simp at h

theorem effectiveRequest_of_ne (req : ExpenseCreateRequest) (h : req.SplitType ≠ "") :
    effectiveRequest req = req := by
  simp [effectiveRequest, h]

theorem effectiveRequest_of_empty (req : ExpenseCreateRequest) (h : req.SplitType = "") :
    effectiveRequest req = { req with SplitType := SplitTypeEqual } := by
  simp [effectiveRequest, h]

/-- A request that passes the three checks and whose split succeeds is
answered with the expense and its shares, identifiers filled in. -/
theorem CreateExpense_success (st : Store) (teamID paidBy : UUID)
    (req : ExpenseCreateRequest) (shares : List ExpenseSplit)
    (hpos : 0 < req.Amount) (hne : req.SplitWith ≠ [])
    (hvalid : (effectiveRequest req).SplitType = SplitTypeEqual ∨
      (effectiveRequest req).SplitType = SplitTypeCustom ∨
      (effectiveRequest req).SplitType = SplitTypePercent)
    (hcalc : calculateSplits
        { TeamID := teamID, PaidBy := paidBy, Amount := req.Amount,
          Description := req.Description, Category := req.Category,
          SplitType := (effectiveRequest req).SplitType }
        (effectiveRequest req) = .ok shares) :
    (CreateExpense st teamID paidBy req).1 =
      .ok ({ ID := st.nextID, TeamID := teamID, PaidBy := paidBy, Amount := req.Amount,
             Description := req.Description, Category := req.Category,
             SplitType := (effectiveRequest req).SplitType },
           assignSplitIDs st.nextID (st.nextID + 1) shares) := by
  have heff : (if req.SplitType = "" then { req with SplitType := SplitTypeEqual } else req)
      = effectiveRequest req := rfl
  have hamt : (effectiveRequest req).Amount = req.Amount := by
    unfold effectiveRequest; split_ifs <;> rfl
  have hdesc : (effectiveRequest req).Description = req.Description := by
    unfold effectiveRequest; split_ifs <;> rfl
  have hcat : (effectiveRequest req).Category = req.Category := by
    unfold effectiveRequest; split_ifs <;> rfl
  have h1 : ¬ req.Amount ≤ 0 := not_le.mpr hpos
  have h2 : ¬ req.SplitWith.length = 0 := fun h => hne (List.length_eq_zero.mp h)
  have h3 : ¬ ((effectiveRequest req).SplitType ≠ SplitTypeEqual ∧
      (effectiveRequest req).SplitType ≠ SplitTypeCustom ∧
      (effectiveRequest req).SplitType ≠ SplitTypePercent) := by
    rintro ⟨a, b, c⟩
    rcases hvalid with h | h | h
    · exact a h
    · exact b h
    · exact c h
  unfold CreateExpense
  simp only [h1, h2, if_false, heff, hamt, hdesc, hcat]
  rw [if_neg h3, hcalc]
  rfl

/-- The users of the shares `calculateSplits` returns, in order: those of
`SplitWith` for the equal strategy, those of the `CustomSplit` entries for
custom and percent. -/
theorem calculateSplits_users (expense : Expense) (req : ExpenseCreateRequest)
    (shares : List ExpenseSplit) (h : calculateSplits expense req = .ok shares) :
    (req.SplitType = SplitTypeEqual → shares.map (·.UserID) = req.SplitWith) ∧
    (req.SplitType = SplitTypeCustom ∨ req.SplitType = SplitTypePercent →
      shares.map (·.UserID) = req.CustomSplit.map (·.UserID)) := by
  constructor
  · intro ht
    rw [calculateSplits_equal expense req ht] at h
    simp only [Except.ok.injEq] at h
    subst h
    simp [List.map_map, Function.comp_def]
  · rintro (ht | ht)
    · rw [calculateSplits_custom expense req ht] at h
      split_ifs at h
      simp only [Except.ok.injEq] at h
      subst h
      simp [List.map_map, Function.comp_def]
    · rw [calculateSplits_percent expense req ht] at h
      split_ifs at h
      simp only [Except.ok.injEq] at h
      subst h
      simp [List.map_map, Function.comp_def]

/-- C8: `CreateExpense` answers `ErrAmountRequired` for every request with
`Amount ≤ 0`, whatever its other fields, returning no shares and leaving the
store untouched; it never answers `ErrAmountRequired` when `Amount > 0`. -/
theorem amount_must_be_positive (st : Store) (teamID paidBy : UUID)
    (req : ExpenseCreateRequest) :
    (req.Amount ≤ 0 →
      CreateExpense st teamID paidBy req = (.error .ErrAmountRequired, st)) ∧
    (0 < req.Amount →
      (CreateExpense st teamID paidBy req).1 ≠ .error .ErrAmountRequired) := by
  constructor
  · intro h
    simp [CreateExpense, h]
  · intro hpos h
    obtain ⟨-, hcase⟩ := CreateExpense_error st teamID paidBy req _ h
    rcases hcase with ⟨hle, -⟩ | ⟨-, -, herr⟩ | ⟨-, -, -, herr⟩ | ⟨-, -, -, herr | herr⟩
    · exact absurd hpos (not_lt.mpr hle)
    · cases herr
    · cases herr
    · cases herr
    · cases herr

/-- Witness for `amount_must_be_positive`: amount 0 with an otherwise valid
request is refused; amount 90 over `[1, 2, 3]` is not refused for its amount. -/
theorem amount_must_be_positive_witness :
    CreateExpense {} 7 1 { Amount := 0, SplitType := SplitTypeEqual, SplitWith := [1, 2, 3] }
      = (.error .ErrAmountRequired, {}) ∧
    (CreateExpense {} 7 1
      { Amount := 90, SplitType := SplitTypeEqual, SplitWith := [1, 2, 3] }).1
      ≠ .error .ErrAmountRequired :=
  ⟨(amount_must_be_positive {} 7 1
      { Amount := 0, SplitType := SplitTypeEqual, SplitWith := [1, 2, 3] }).1 (by norm_num),
   (amount_must_be_positive {} 7 1
      { Amount := 90, SplitType := SplitTypeEqual, SplitWith := [1, 2, 3] }).2 (by norm_num)⟩

/-- C9: for every request with `Amount > 0` and an empty `SplitWith` list,
`CreateExpense` answers `ErrSplitWithRequired`, returns no shares and leaves
the store untouched, whatever the strategy.  Moreover every request that gets
past the amount check and the participant check, and so may reach
`calculateSplits`, has at least one participant: the equal split never divides
by `n = 0`. -/
theorem empty_participants_rejected (st : Store) (teamID paidBy : UUID)
    (req : ExpenseCreateRequest) (hpos : 0 < req.Amount) (hempty : req.SplitWith = []) :
    CreateExpense st teamID paidBy req = (.error .ErrSplitWithRequired, st) ∧
    ∀ req' : ExpenseCreateRequest,
      (CreateExpense st teamID paidBy req').1 ≠ .error .ErrAmountRequired →
      (CreateExpense st teamID paidBy req').1 ≠ .error .ErrSplitWithRequired →
      1 ≤ req'.SplitWith.length := by
  constructor
  · simp [CreateExpense, not_le.mpr hpos, hempty]
  · intro req' hA hS
    by_contra hlen
    have hnil : req'.SplitWith = [] := List.length_eq_zero.mp (by omega)
    by_cases hle : req'.Amount ≤ 0
    · exact hA (by simp [CreateExpense, hle])
    · exact hS (by simp [CreateExpense, hle, hnil])

/-- Witness for `empty_participants_rejected`: amount 90, equal split, nobody
to split with. -/
theorem empty_participants_rejected_witness :
    CreateExpense {} 7 1 { Amount := 90, SplitType := SplitTypeEqual, SplitWith := [] }
      = (.error .ErrSplitWithRequired, {}) :=
  (empty_participants_rejected {} 7 1
    { Amount := 90, SplitType := SplitTypeEqual, SplitWith := [] } (by norm_num) rfl).1

/-- C10: for every request with `Amount > 0` and a non-empty `SplitWith`,
`CreateExpense` answers `ErrInvalidSplitType` exactly when `SplitType` is none
of `""`, `"equal"`, `"custom"`, `"percent"`; and a request with an empty
`SplitType` is answered exactly as the same request with `SplitType = "equal"`. -/
theorem unknown_strategy (st : Store) (teamID paidBy : UUID)
    (req : ExpenseCreateRequest) (hpos : 0 < req.Amount) (hne : req.SplitWith ≠ []) :
    ((CreateExpense st teamID paidBy req).1 = .error .ErrInvalidSplitType ↔
      (req.SplitType ≠ "" ∧ req.SplitType ≠ "equal" ∧ req.SplitType ≠ "custom" ∧
        req.SplitType ≠ "percent")) ∧
    (req.SplitType = "" →
      CreateExpense st teamID paidBy req
        = CreateExpense st teamID paidBy { req with SplitType := "equal" }) := by
  have h1 : ¬ req.Amount ≤ 0 := not_le.mpr hpos
  have h2 : ¬ req.SplitWith.length = 0 := fun h => hne (List.length_eq_zero.mp h)
  constructor
  · constructor
    · intro h
      obtain ⟨-, hcase⟩ := CreateExpense_error st teamID paidBy req _ h
      rcases hcase with ⟨hle, -⟩ | ⟨-, hnil, -⟩ | ⟨-, -, hbad, -⟩ | ⟨-, -, -, herr | herr⟩
      · exact absurd hle h1
      · exact absurd hnil hne
      · by_cases h0 : req.SplitType = ""
        · rw [effectiveRequest_of_empty req h0] at hbad
          exact absurd rfl hbad.1
        · rw [effectiveRequest_of_ne req h0] at hbad
          exact ⟨h0, hbad.1, hbad.2.1, hbad.2.2⟩
      · cases herr
      · cases herr
    · rintro ⟨h0, hE, hC, hP⟩
      have heff : (if req.SplitType = "" then { req with SplitType := SplitTypeEqual } else req)
          = req := by simp [h0]
      have hbad : req.SplitType ≠ SplitTypeEqual ∧ req.SplitType ≠ SplitTypeCustom ∧
          req.SplitType ≠ SplitTypePercent := ⟨hE, hC, hP⟩
      unfold CreateExpense
      simp only [h1, h2, if_false, heff]
      rw [if_pos hbad]
  · intro h0
    have hE' : ¬ (("equal" : String) = "") := by decide
    unfold CreateExpense
    simp only [h1, h2, if_false, h0, if_true, hE']
    rfl

/-- Witness for `unknown_strategy`: the tag `"Equal"` (capitalised) is none of
the four accepted values and is refused; the empty tag is not. -/
theorem unknown_strategy_witness :
    (CreateExpense {} 7 1 { Amount := 90, SplitType := "Equal", SplitWith := [1, 2, 3] }).1
      = .error .ErrInvalidSplitType ∧
    (CreateExpense {} 7 1 { Amount := 90, SplitType := "", SplitWith := [1, 2, 3] }).1
      ≠ .error .ErrInvalidSplitType ∧
    CreateExpense {} 7 1 { Amount := 90, SplitType := "", SplitWith := [1, 2, 3] }
      = CreateExpense {} 7 1 { Amount := 90, SplitType := "equal", SplitWith := [1, 2, 3] } :=
  ⟨(unknown_strategy {} 7 1 { Amount := 90, SplitType := "Equal", SplitWith := [1, 2, 3] }
      (by norm_num) (by simp)).1.2 (by decide),
   fun h => ((unknown_strategy {} 7 1 { Amount := 90, SplitType := "", SplitWith := [1, 2, 3] }
      (by norm_num) (by simp)).1.1 h).1 rfl,
   (unknown_strategy {} 7 1 { Amount := 90, SplitType := "", SplitWith := [1, 2, 3] }
      (by norm_num) (by simp)).2 rfl⟩

/-! ## Balance engine: reading and writing the nested map -/

theorem getAmount_eq_entry (m : BalanceMap) (a b : UUID) :
    getAmount m a b = (entry? m a b).getD 0 := by
  unfold getAmount entry?
  cases m.lookup a <;> rfl

theorem hasKey_empty (a : UUID) : hasKey (∅ : BalanceMap) a = false := by
  simp [hasKey, AList.lookup_empty]

theorem entry?_empty (a b : UUID) : entry? (∅ : BalanceMap) a b = none := by
  simp [entry?, AList.lookup_empty]

theorem hasKey_insert (m : BalanceMap) (k : UUID) (v : InnerMap) (a : UUID) :
    hasKey (m.insert k v) a = (decide (a = k) || hasKey m a) := by
  unfold hasKey
  by_cases h : a = k
  · subst h
    simp [AList.lookup_insert]
  · simp [AList.lookup_insert_ne h, h]

theorem entry?_insert (m : BalanceMap) (k : UUID) (v : InnerMap) (a b : UUID) :
    entry? (m.insert k v) a b = if a = k then v.lookup b else entry? m a b := by
  unfold entry?
  by_cases h : a = k
  · subst h
    simp [AList.lookup_insert]
  · simp [AList.lookup_insert_ne h, h]

theorem entry?_of_not_hasKey (m : BalanceMap) (a b : UUID) (h : hasKey m a = false) :
    entry? m a b = none := by
  unfold hasKey at h
  unfold entry?
  cases hl : m.lookup a with
  | none => rfl
  | some inner => simp [hl] at h

theorem hasKey_of_entry? (m : BalanceMap) (a b : UUID) (v : ℚ) (h : entry? m a b = some v) :
    hasKey m a = true := by
  by_contra hk
  rw [entry?_of_not_hasKey m a b (by simpa using hk)] at h
  cases h

theorem hasKey_addAmount (m : BalanceMap) (a b : UUID) (delta : ℚ) (x : UUID) :
    hasKey (addAmount m a b delta) x = hasKey m x := by
  unfold addAmount
  cases hl : m.lookup a with
  | none => rfl
  | some inner =>
    simp only [hasKey_insert]
    by_cases h : x = a
    · subst h
      simp [hasKey, hl]
    · simp [h]

theorem entry?_addAmount (m : BalanceMap) (a b : UUID) (delta : ℚ) (x y : UUID)
    (h : hasKey m a = true) :
    entry? (addAmount m a b delta) x y =
      if x = a ∧ y = b then some (getAmount m a b + delta) else entry? m x y := by
  unfold addAmount
  cases hl : m.lookup a with
  | none => simp [hasKey, hl] at h
  | some inner =>
    simp only [entry?_insert]
    by_cases hx : x = a
    · subst hx
      by_cases hy : y = b
      · subst hy
        simp [AList.lookup_insert, getAmount, hl]
      · simp [AList.lookup_insert_ne hy, hy, entry?, hl]
    · simp [hx]

/-! ## Balance engine: the raw map as a fold of debt facts -/

theorem hasKey_applyFact (c : Bool) (m : BalanceMap) (t : DebtFact) (a : UUID) :
    hasKey (applyFact c m t) a = (hasKey m a || (c && decide (a = t.1))) := by
  unfold applyFact
  by_cases hk : hasKey m t.1 = true
  · rw [if_pos hk, hasKey_addAmount]
    by_cases ha : a = t.1
    · subst ha
      simp [hk]
    · simp [ha]
  · rw [if_neg hk]
    cases c with
    | true =>
      simp only [if_true, hasKey_addAmount, hasKey_insert]
      by_cases ha : a = t.1 <;> simp [ha, Bool.or_comm]
    | false => simp

theorem entry?_applyFact (c : Bool) (m : BalanceMap) (t : DebtFact) (a b : UUID) :
    entry? (applyFact c m t) a b =
      if (c = true ∨ hasKey m t.1 = true) ∧ a = t.1 ∧ b = t.2.1 then
        some (getAmount m a b + t.2.2)
      else entry? m a b := by
  unfold applyFact
  by_cases hk : hasKey m t.1 = true
  · rw [if_pos hk, entry?_addAmount _ _ _ _ _ _ hk]
    by_cases hab : a = t.1 ∧ b = t.2.1
    · obtain ⟨rfl, rfl⟩ := hab
      simp [hk]
    · simp [hab]
  · rw [if_neg hk]
    have hk' : hasKey m t.1 = false := by simpa using hk
    cases c with
    | true =>
      have hins : hasKey (m.insert t.1 ∅) t.1 = true := by simp [hasKey_insert]
      simp only [if_true, entry?_addAmount _ _ _ _ _ _ hins]
      by_cases hab : a = t.1 ∧ b = t.2.1
      · obtain ⟨rfl, rfl⟩ := hab
        have h0 : getAmount m t.1 t.2.1 = 0 := by
          rw [getAmount_eq_entry, entry?_of_not_hasKey m _ _ hk']; rfl
        have h1 : getAmount (m.insert t.1 ∅) t.1 t.2.1 = 0 := by
          rw [getAmount_eq_entry, entry?_insert]
          simp [AList.lookup_empty]
        simp [h0, h1]
      · rw [if_neg hab, entry?_insert]
        have hno : ¬ ((True ∨ hasKey m t.1 = true) ∧ a = t.1 ∧ b = t.2.1) := fun h => hab h.2
        rw [if_neg hno]
        by_cases ha : a = t.1
        · subst ha
          simp [AList.lookup_empty, entry?_of_not_hasKey m _ b hk']
        · simp [ha]
    | false => simp [hk']

theorem getAmount_applyFact (c : Bool) (m : BalanceMap) (t : DebtFact) (a b : UUID) :
    getAmount (applyFact c m t) a b =
      getAmount m a b +
        if (c = true ∨ hasKey m t.1 = true) ∧ a = t.1 ∧ b = t.2.1 then t.2.2 else 0 := by
  rw [getAmount_eq_entry, entry?_applyFact]
  split_ifs with h
  · rfl
  · rw [← getAmount_eq_entry, add_zero]

theorem touches_cons (t : DebtFact) (l : List DebtFact) (a b : UUID) :
    touches (t :: l) a b = (decide (t.1 = a ∧ t.2.1 = b) || touches l a b) := by
  simp [touches]

theorem factTotal_cons (t : DebtFact) (l : List DebtFact) (a b : UUID) :
    factTotal (t :: l) a b =
      (if t.1 = a ∧ t.2.1 = b then t.2.2 else 0) + factTotal l a b := by
  unfold factTotal
  by_cases h : t.1 = a ∧ t.2.1 = b
  · simp [List.filter_cons, h]
  · simp [List.filter_cons, h]

theorem factTotal_of_not_touches (l : List DebtFact) (a b : UUID)
    (h : touches l a b = false) : factTotal l a b = 0 := by
  induction l with
  | nil => simp [factTotal]
  | cons t l ih =>
    rw [touches_cons] at h
    simp only [Bool.or_eq_false_iff, decide_eq_false_iff_not] at h
    rw [factTotal_cons, if_neg h.1, ih h.2, add_zero]

theorem hasKey_foldl_applyFact (c : Bool) (l : List DebtFact) (m : BalanceMap) (a : UUID) :
    hasKey (l.foldl (applyFact c) m) a =
      (hasKey m a || (c && l.any fun t => decide (t.1 = a))) := by
  induction l generalizing m with
  | nil => simp
  | cons t l ih =>
    rw [List.foldl_cons, ih, hasKey_applyFact]
    cases c <;> simp [Bool.or_assoc, eq_comm]

theorem entry?_foldl_applyFact (c : Bool) (l : List DebtFact) (m : BalanceMap) (a b : UUID) :
    entry? (l.foldl (applyFact c) m) a b =
      if (c = true ∨ hasKey m a = true) ∧ touches l a b = true then
        some (getAmount m a b + factTotal l a b)
      else entry? m a b := by
  induction l generalizing m with
  | nil => simp [touches]
  | cons t l ih =>
    rw [List.foldl_cons, ih, touches_cons, factTotal_cons, hasKey_applyFact,
      getAmount_applyFact, entry?_applyFact]
    by_cases hQ : c = true ∨ hasKey m a = true
    · have hQ' : c = true ∨ (hasKey m a || (c && decide (a = t.1))) = true := by
        rcases hQ with h | h
        · exact Or.inl h
        · exact Or.inr (by simp [h])
      by_cases hm : t.1 = a ∧ t.2.1 = b
      · have hP : (c = true ∨ hasKey m t.1 = true) ∧ a = t.1 ∧ b = t.2.1 :=
          ⟨by rw [hm.1]; exact hQ, hm.1.symm, hm.2.symm⟩
        have hG : (c = true ∨ hasKey m a = true) ∧
            (decide (t.1 = a ∧ t.2.1 = b) || touches l a b) = true := ⟨hQ, by simp [hm]⟩
        simp only [if_pos hP, if_pos hG, if_pos hm]
        by_cases hl : touches l a b = true
        · rw [if_pos ⟨hQ', hl⟩, add_assoc]
        · rw [if_neg (fun h => hl h.2)]
          have hl' : touches l a b = false := by simpa using hl
          rw [factTotal_of_not_touches l a b hl', add_zero]
      · have hP : ¬ ((c = true ∨ hasKey m t.1 = true) ∧ a = t.1 ∧ b = t.2.1) :=
          fun h => hm ⟨h.2.1.symm, h.2.2.symm⟩
        simp only [if_neg hP, if_neg hm, add_zero, zero_add]
        by_cases hl : touches l a b = true
        · have hG : (c = true ∨ hasKey m a = true) ∧
              (decide (t.1 = a ∧ t.2.1 = b) || touches l a b) = true := ⟨hQ, by simp [hl]⟩
          rw [if_pos ⟨hQ', hl⟩, if_pos hG]
        · have hG : ¬ ((c = true ∨ hasKey m a = true) ∧
              (decide (t.1 = a ∧ t.2.1 = b) || touches l a b) = true) := by
            rintro ⟨-, h⟩
            simp only [Bool.or_eq_true, decide_eq_true_eq] at h
            rcases h with h | h
            · exact hm h
            · exact hl h
          rw [if_neg (fun h => hl h.2), if_neg hG]
    · have hc : c = false := by
        cases c
        · rfl
        · exact absurd (Or.inl rfl) hQ
      have hk : hasKey m a = false := by
        cases h : hasKey m a
        · rfl
        · exact absurd (Or.inr h) hQ
      have hP : ¬ ((c = true ∨ hasKey m t.1 = true) ∧ a = t.1 ∧ b = t.2.1) := by
        rintro ⟨h1, h2, -⟩
        rcases h1 with h1 | h1
        · rw [hc] at h1
          cases h1
        · rw [← h2, hk] at h1
          cases h1
      have hI : ¬ ((c = true ∨ (hasKey m a || (c && decide (a = t.1))) = true) ∧
          touches l a b = true) := by
        rintro ⟨h1, -⟩
        rcases h1 with h1 | h1
        · rw [hc] at h1
          cases h1
        · rw [hk, hc] at h1
          simp at h1
      have hG : ¬ ((c = true ∨ hasKey m a = true) ∧
          (decide (t.1 = a ∧ t.2.1 = b) || touches l a b) = true) := fun h => hQ h.1
      simp only [if_neg hP, if_neg hI, if_neg hG]

theorem processSplit_eq (expense : Expense) (m : BalanceMap) (split : ExpenseSplit) :
    processSplit expense m split = (splitFacts expense [split]).foldl (applyFact true) m := by
  unfold processSplit splitFacts
  by_cases hc : split.UserID ≠ expense.PaidBy ∧ split.IsSettled = false
  · simp only [if_pos hc, List.filterMap_cons, List.filterMap_nil, List.foldl_cons,
      List.foldl_nil, applyFact]
    cases hl : m.lookup split.UserID with
    | none => simp [hasKey, hl]
    | some inner => simp [hasKey, hl]
  · simp only [if_neg hc, List.filterMap_cons, List.filterMap_nil, List.foldl_nil]

theorem foldl_processSplit (expense : Expense) (splits : List ExpenseSplit) (m : BalanceMap) :
    splits.foldl (processSplit expense) m
      = (splitFacts expense splits).foldl (applyFact true) m := by
  induction splits generalizing m with
  | nil => rfl
  | cons s rest ih =>
    have hsplit : splitFacts expense (s :: rest)
        = splitFacts expense [s] ++ splitFacts expense rest := by
      unfold splitFacts
      rw [← List.filterMap_append]
      rfl
    rw [List.foldl_cons, ih, processSplit_eq, hsplit, List.foldl_append]

theorem foldl_expenses (splitsOf : UUID → List ExpenseSplit) (expenses : List Expense)
    (m : BalanceMap) :
    expenses.foldl
        (fun balanceMap expense =>
          (splitsOf expense.ID).foldl (processSplit expense) balanceMap) m
      = (expenseFacts splitsOf expenses).foldl (applyFact true) m := by
  induction expenses generalizing m with
  | nil => rfl
  | cons e rest ih =>
    rw [List.foldl_cons, ih, foldl_processSplit]
    simp [expenseFacts, List.flatMap_cons, List.foldl_append]

theorem processSettlement_eq (m : BalanceMap) (s : Settlement) :
    processSettlement m s = applyFact false m (s.FromUser, s.ToUser, -s.Amount) := by
  unfold processSettlement applyFact hasKey
  by_cases h : (m.lookup s.FromUser).isSome = true
  · simp [h]
  · simp [h]

theorem foldl_settlements (settlements : List Settlement) (m : BalanceMap) :
    settlements.foldl processSettlement m
      = (settlementFacts settlements).foldl (applyFact false) m := by
  induction settlements generalizing m with
  | nil => rfl
  | cons s rest ih =>
    rw [List.foldl_cons, ih, processSettlement_eq]
    rfl

/-- The map of lines 56-61: an empty inner map for every member. -/
theorem hasKey_foldl_members (members : List MemberDetail) (m : BalanceMap) (a : UUID) :
    hasKey (members.foldl (fun balanceMap member => balanceMap.insert member.UserID ∅) m) a
      = (hasKey m a || members.any fun member => decide (member.UserID = a)) := by
  induction members generalizing m with
  | nil => simp
  | cons x rest ih =>
    rw [List.foldl_cons, ih, hasKey_insert]
    simp only [List.any_cons]
    by_cases h : a = x.UserID
    · simp [h]
    · have h' : ¬ x.UserID = a := fun e => h e.symm
      simp [h, h']

theorem entry?_foldl_members (members : List MemberDetail) (m : BalanceMap) (a b : UUID)
    (hm : ∀ a b, entry? m a b = none) :
    entry? (members.foldl (fun balanceMap member => balanceMap.insert member.UserID ∅) m) a b
      = none := by
  induction members generalizing m with
  | nil => exact hm a b
  | cons x rest ih =>
    rw [List.foldl_cons]
    apply ih
    intro a b
    rw [entry?_insert]
    split_ifs
    · exact AList.lookup_empty b
    · exact hm a b

/-- Whether `balanceMap[a]` exists when the settlements are processed: `a` is a
member, or the debtor of some fact of the expenses. -/
theorem hasKey_buildBalanceMap (members : List MemberDetail)
    (splitsOf : UUID → List ExpenseSplit) (expenses : List Expense)
    (settlements : List Settlement) (a : UUID) :
    hasKey (buildBalanceMap members splitsOf expenses settlements) a =
      ((members.any fun member => decide (member.UserID = a)) ||
        (expenseFacts splitsOf expenses).any fun t => decide (t.1 = a)) := by
  unfold buildBalanceMap
  simp only [foldl_expenses, foldl_settlements, hasKey_foldl_applyFact, hasKey_foldl_members,
    hasKey_empty, Bool.false_or, Bool.true_and, Bool.false_and, Bool.or_false]

/-- The entries of the raw map, in terms of the facts of the expenses and of the
settlements. -/
theorem entry?_buildBalanceMap (members : List MemberDetail)
    (splitsOf : UUID → List ExpenseSplit) (expenses : List Expense)
    (settlements : List Settlement) (a b : UUID) :
    entry? (buildBalanceMap members splitsOf expenses settlements) a b =
      if touches (expenseFacts splitsOf expenses) a b = true ∨
          (hasKey (buildBalanceMap members splitsOf expenses settlements) a = true ∧
            touches (settlementFacts settlements) a b = true) then
        some (factTotal (expenseFacts splitsOf expenses) a b +
          factTotal (settlementFacts settlements) a b)
      else none := by
  rw [hasKey_buildBalanceMap]
  unfold buildBalanceMap
  simp only [foldl_expenses, foldl_settlements]
  rw [entry?_foldl_applyFact, hasKey_foldl_applyFact, hasKey_foldl_members, hasKey_empty,
    getAmount_eq_entry, entry?_foldl_applyFact]
  have hinit : ∀ x y, entry? (members.foldl
      (fun balanceMap member => balanceMap.insert member.UserID ∅) (∅ : BalanceMap)) x y = none :=
    fun x y => entry?_foldl_members members ∅ x y entry?_empty
  rw [getAmount_eq_entry, hinit]
  have hkey : touches (expenseFacts splitsOf expenses) a b = true →
      ((expenseFacts splitsOf expenses).any fun t => decide (t.1 = a)) = true := by
    intro hE
    unfold touches at hE
    rw [List.any_eq_true] at hE ⊢
    obtain ⟨t, ht, hp⟩ := hE
    exact ⟨t, ht, by simp only [decide_eq_true_eq] at hp ⊢; exact hp.1⟩
  cases hE : touches (expenseFacts splitsOf expenses) a b <;>
    cases hS : touches (settlementFacts settlements) a b <;>
    cases hK : (members.any fun member => decide (member.UserID = a)) <;>
    cases hF : ((expenseFacts splitsOf expenses).any fun t => decide (t.1 = a)) <;>
    simp [hE, hS, hK, hF, factTotal_of_not_touches]
  all_goals simp_all

theorem touches_append (l₁ l₂ : List DebtFact) (a b : UUID) :
    touches (l₁ ++ l₂) a b = (touches l₁ a b || touches l₂ a b) := by
  simp [touches]

theorem touches_iff (l : List DebtFact) (a b : UUID) :
    touches l a b = true ↔ ∃ v, (a, b, v) ∈ l := by
  unfold touches
  rw [List.any_eq_true]
  constructor
  · rintro ⟨⟨x, y, v⟩, hmem, hp⟩
    simp only [decide_eq_true_eq] at hp
    obtain ⟨rfl, rfl⟩ := hp
    exact ⟨v, hmem⟩
  · rintro ⟨v, hmem⟩
    exact ⟨(a, b, v), hmem, by simp⟩

theorem splitFacts_singleton (expense : Expense) (s : ExpenseSplit) :
    splitFacts expense [s] =
      if s.UserID ≠ expense.PaidBy ∧ s.IsSettled = false then
        [(s.UserID, expense.PaidBy, s.Amount)]
      else [] := by
  unfold splitFacts
  by_cases h : s.UserID ≠ expense.PaidBy ∧ s.IsSettled = false
  · simp only [List.filterMap_cons, List.filterMap_nil, if_pos h]
  · simp only [List.filterMap_cons, List.filterMap_nil, if_neg h]

theorem factTotal_nil (a b : UUID) : factTotal [] a b = 0 := by
  simp [factTotal]

/-- The read `balanceMap[d][c]` of the raw map in terms of the facts. -/
theorem getAmount_buildBalanceMap (members : List MemberDetail)
    (splitsOf : UUID → List ExpenseSplit) (expenses : List Expense)
    (settlements : List Settlement) (d c : UUID) :
    getAmount (buildBalanceMap members splitsOf expenses settlements) d c =
      factTotal (expenseFacts splitsOf expenses) d c +
        if hasKey (buildBalanceMap members splitsOf expenses settlements) d = true then
          factTotal (settlementFacts settlements) d c
        else 0 := by
  rw [getAmount_eq_entry, entry?_buildBalanceMap]
  have hkey : touches (expenseFacts splitsOf expenses) d c = true →
      hasKey (buildBalanceMap members splitsOf expenses settlements) d = true := by
    intro hE
    rw [hasKey_buildBalanceMap]
    obtain ⟨v, hv⟩ := (touches_iff _ _ _).mp hE
    have : ((expenseFacts splitsOf expenses).any fun t => decide (t.1 = d)) = true := by
      rw [List.any_eq_true]
      exact ⟨_, hv, by simp⟩
    simp [this]
  cases hE : touches (expenseFacts splitsOf expenses) d c <;>
    cases hS : touches (settlementFacts settlements) d c <;>
    cases hK : hasKey (buildBalanceMap members splitsOf expenses settlements) d <;>
    simp [hE, hS, hK, factTotal_of_not_touches]
  all_goals simp_all

/-! ## Balance engine: netting -/

theorem foldl_nested {α β γ δ : Type} (outer : List α) (inner : α → List β)
    (mk : α → β → γ) (step : δ → γ → δ) (init : δ) :
    outer.foldl (fun acc o => (inner o).foldl (fun acc i => step acc (mk o i)) acc) init
      = (outer.flatMap fun o => (inner o).map (mk o)).foldl step init := by
  induction outer generalizing init with
  | nil => rfl
  | cons o rest ih =>
    rw [List.foldl_cons, ih, List.flatMap_cons, List.foldl_append, List.foldl_map]

theorem simplifyBalances_eq_foldl (ord : RangeOrder) (m : BalanceMap) :
    simplifyBalances ord m
      = (visited ord m).foldl (fun s t => simplifyEntry m t.1 s t.2.1 t.2.2) ∅ := by
  unfold simplifyBalances visited
  exact foldl_nested (ord.outer m) (fun o => ord.inner o.1 o.2)
    (fun o i => ((o.1, i.1, i.2) : DebtFact))
    (fun s t => simplifyEntry m t.1 s t.2.1 t.2.2) ∅

theorem mem_visited (ord : RangeOrder) (hv : ord.Valid) (m : BalanceMap) (a b : UUID) (v : ℚ) :
    (a, b, v) ∈ visited ord m ↔ entry? m a b = some v := by
  unfold visited entry?
  simp only [List.mem_flatMap, List.mem_map, Prod.mk.injEq]
  constructor
  · rintro ⟨⟨k, inner⟩, ho, ⟨j, w⟩, hi, rfl, rfl, rfl⟩
    have ho' : (⟨k, inner⟩ : Σ _ : UUID, InnerMap) ∈ m.entries := (hv.1 m).mem_iff.mp ho
    have hi' : (⟨j, w⟩ : Σ _ : UUID, ℚ) ∈ inner.entries := (hv.2.1 k inner).mem_iff.mp hi
    have h1 : m.lookup k = some inner := AList.mem_lookup_iff.mpr ho'
    have h2 : inner.lookup j = some w := AList.mem_lookup_iff.mpr hi'
    simp [h1, h2]
  · intro h
    cases h1 : m.lookup a with
    | none => simp [h1] at h
    | some inner =>
      simp only [h1] at h
      have ho : (⟨a, inner⟩ : Σ _ : UUID, InnerMap) ∈ m.entries := AList.mem_lookup_iff.mp h1
      have hi : (⟨b, v⟩ : Σ _ : UUID, ℚ) ∈ inner.entries := AList.mem_lookup_iff.mp h
      exact ⟨⟨a, inner⟩, (hv.1 m).mem_iff.mpr ho, ⟨b, v⟩, (hv.2.1 a inner).mem_iff.mpr hi,
        rfl, rfl, rfl⟩

theorem entry?_setEdge (s : BalanceMap) (a b : UUID) (v : ℚ) (x y : UUID) :
    entry? (setEdge s a b v) x y = if x = a ∧ y = b then some v else entry? s x y := by
  unfold setEdge
  rw [entry?_insert]
  by_cases hx : x = a
  · subst hx
    by_cases hy : y = b
    · subst hy
      simp [AList.lookup_insert]
    · simp only [if_true, hy, and_false, if_false, AList.lookup_insert_ne hy]
      unfold entry?
      cases s.lookup x with
      | none => simp [AList.lookup_empty]
      | some inner => simp
  · simp [hx]

theorem hasKey_setEdge (s : BalanceMap) (a b : UUID) (v : ℚ) (x : UUID) :
    hasKey (setEdge s a b v) x = (decide (x = a) || hasKey s x) := by
  unfold setEdge
  rw [hasKey_insert]

theorem simplifyEntry_eq (m : BalanceMap) (f : UUID) (s : BalanceMap) (t : UUID)
    (amount : ℚ) :
    simplifyEntry m f s t amount =
      if amount ≤ 0 then s
      else if amount - getAmount m t f > 0 then setEdge s f t (amount - getAmount m t f)
      else if amount - getAmount m t f < 0 then setEdge s t f (-(amount - getAmount m t f))
      else s := rfl

/-- One step of `simplifyBalances` leaves the result alone or writes one edge
with a positive amount. -/
theorem simplifyEntry_cases_pos (m : BalanceMap) (f : UUID) (s : BalanceMap) (t : UUID)
    (amount : ℚ) :
    simplifyEntry m f s t amount = s ∨
      ∃ a b w, 0 < w ∧ simplifyEntry m f s t amount = setEdge s a b w := by
  rw [simplifyEntry_eq]
  split_ifs with h1 h2 h3
  · exact Or.inl rfl
  · exact Or.inr ⟨f, t, _, h2, rfl⟩
  · exact Or.inr ⟨t, f, _, by linarith, rfl⟩
  · exact Or.inl rfl

/-- One step of `simplifyBalances` on an entry of `m` leaves the result alone
or writes a netted edge of `m`. -/
theorem simplifyEntry_cases (m : BalanceMap) (f : UUID) (s : BalanceMap) (t : UUID)
    (amount : ℚ) (hamount : amount = getAmount m f t) :
    simplifyEntry m f s t amount = s ∨
      ∃ a b w, netEdge m a b = some w ∧ simplifyEntry m f s t amount = setEdge s a b w := by
  rw [simplifyEntry_eq]
  split_ifs with h1 h2 h3
  · exact Or.inl rfl
  · refine Or.inr ⟨f, t, _, ?_, rfl⟩
    unfold netEdge
    rw [← hamount, if_pos ⟨not_le.mp h1, h2⟩]
  · refine Or.inr ⟨t, f, _, ?_, rfl⟩
    unfold netEdge
    rw [← hamount]
    have hpos : 0 < getAmount m t f ∧ 0 < getAmount m t f - amount := by
      constructor <;> linarith [not_le.mp h1]
    rw [if_pos hpos]
    congr 1
    ring
  · exact Or.inl rfl

theorem simplifyEntry_of_netEdge (m : BalanceMap) (f : UUID) (s : BalanceMap) (t : UUID)
    (w : ℚ) (h : netEdge m f t = some w) :
    simplifyEntry m f s t (getAmount m f t) = setEdge s f t w := by
  unfold netEdge at h
  split_ifs at h with hc
  simp only [Option.some.injEq] at h
  rw [simplifyEntry_eq, if_neg (not_le.mpr hc.1), if_pos hc.2, h]

/-- A property of the written edges holds of every entry of the fold. -/
theorem foldl_setEdge_inv {α : Type} (P : UUID → UUID → ℚ → Prop) (step : BalanceMap → α → BalanceMap)
    (l : List α)
    (hstep : ∀ s, ∀ t ∈ l, step s t = s ∨ ∃ a b w, P a b w ∧ step s t = setEdge s a b w)
    (s : BalanceMap) (hs : ∀ a b v, entry? s a b = some v → P a b v) :
    ∀ a b v, entry? (l.foldl step s) a b = some v → P a b v := by
  induction l generalizing s with
  | nil => exact hs
  | cons t rest ih =>
    rw [List.foldl_cons]
    apply ih (fun s x hx => hstep s x (List.mem_cons_of_mem _ hx))
    intro a b v hv
    rcases hstep s t (List.mem_cons_self _ _) with h | ⟨x, y, w, hP, h⟩
    · rw [h] at hv
      exact hs a b v hv
    · rw [h, entry?_setEdge] at hv
      split_ifs at hv with hxy
      · obtain ⟨rfl, rfl⟩ := hxy
        simp only [Option.some.injEq] at hv
        subst hv
        exact hP
      · exact hs a b v hv

/-- Every outer key of the fold has an entry under it. -/
theorem foldl_setEdge_keys {α : Type} (step : BalanceMap → α → BalanceMap) (l : List α)
    (hstep : ∀ s, ∀ t ∈ l, step s t = s ∨ ∃ a b w, step s t = setEdge s a b w)
    (s : BalanceMap) (hs : ∀ a, hasKey s a = true → ∃ b v, entry? s a b = some v) :
    ∀ a, hasKey (l.foldl step s) a = true → ∃ b v, entry? (l.foldl step s) a b = some v := by
  induction l generalizing s with
  | nil => exact hs
  | cons t rest ih =>
    rw [List.foldl_cons]
    apply ih (fun s x hx => hstep s x (List.mem_cons_of_mem _ hx))
    intro a ha
    rcases hstep s t (List.mem_cons_self _ _) with h | ⟨x, y, w, h⟩
    · rw [h] at ha ⊢
      exact hs a ha
    · rw [h] at ha ⊢
      rw [hasKey_setEdge] at ha
      by_cases hax : a = x
      · subst hax
        exact ⟨y, w, by rw [entry?_setEdge]; simp⟩
      · simp only [hax, decide_False, Bool.false_or] at ha
        obtain ⟨b, v, hbv⟩ := hs a ha
        exact ⟨b, v, by rw [entry?_setEdge]; simp [hax, hbv]⟩

/-- The fold of `simplifyBalances` over entries of `m`: every entry of the
result is a netted edge of `m`, entries persist, and the netted edge of every
visited pair is written. -/
theorem simplify_fold_spec (m : BalanceMap) (l : List DebtFact)
    (hl : ∀ t ∈ l, t.2.2 = getAmount m t.1 t.2.1) (s : BalanceMap)
    (hs : ∀ a b v, entry? s a b = some v → netEdge m a b = some v) :
    (∀ a b v, entry? (l.foldl (fun s t => simplifyEntry m t.1 s t.2.1 t.2.2) s) a b = some v →
      netEdge m a b = some v) ∧
    (∀ a b v, entry? s a b = some v →
      entry? (l.foldl (fun s t => simplifyEntry m t.1 s t.2.1 t.2.2) s) a b = some v) ∧
    (∀ t ∈ l, ∀ w, netEdge m t.1 t.2.1 = some w →
      entry? (l.foldl (fun s t => simplifyEntry m t.1 s t.2.1 t.2.2) s) t.1 t.2.1 = some w) := by
  induction l generalizing s with
  | nil =>
    refine ⟨hs, fun a b v h => h, ?_⟩
    intro t ht
    cases ht
  | cons t rest ih =>
    have ht : t.2.2 = getAmount m t.1 t.2.1 := hl t (List.mem_cons_self _ _)
    have hrest : ∀ x ∈ rest, x.2.2 = getAmount m x.1 x.2.1 :=
      fun x hx => hl x (List.mem_cons_of_mem _ hx)
    -- the state after the first step
    have hs1 : ∀ a b v, entry? (simplifyEntry m t.1 s t.2.1 t.2.2) a b = some v →
        netEdge m a b = some v := by
      intro a b v hv
      rcases simplifyEntry_cases m t.1 s t.2.1 t.2.2 ht with h | ⟨x, y, w, hP, h⟩
      · rw [h] at hv
        exact hs a b v hv
      · rw [h, entry?_setEdge] at hv
        split_ifs at hv with hxy
        · obtain ⟨rfl, rfl⟩ := hxy
          rw [← hv]
          exact hP
        · exact hs a b v hv
    have hkeep : ∀ a b v, entry? s a b = some v →
        entry? (simplifyEntry m t.1 s t.2.1 t.2.2) a b = some v := by
      intro a b v hv
      rcases simplifyEntry_cases m t.1 s t.2.1 t.2.2 ht with h | ⟨x, y, w, hP, h⟩
      · rw [h]
        exact hv
      · rw [h, entry?_setEdge]
        split_ifs with hxy
        · obtain ⟨rfl, rfl⟩ := hxy
          rw [← hP]
          exact hs a b v hv
        · exact hv
    obtain ⟨ih1, ih2, ih3⟩ := ih hrest (simplifyEntry m t.1 s t.2.1 t.2.2) hs1
    rw [List.foldl_cons]
    refine ⟨ih1, fun a b v hv => ih2 a b v (hkeep a b v hv), ?_⟩
    intro x hx w hw
    rcases List.mem_cons.mp hx with rfl | hx
    · apply ih2
      rw [ht, simplifyEntry_of_netEdge m _ s _ w hw, entry?_setEdge]
      simp
    · exact ih3 x hx w hw

theorem getAmount_of_entry? (m : BalanceMap) (a b : UUID) (v : ℚ) (h : entry? m a b = some v) :
    getAmount m a b = v := by
  rw [getAmount_eq_entry, h]
  rfl

theorem entry?_of_getAmount_ne_zero (m : BalanceMap) (a b : UUID) (h : getAmount m a b ≠ 0) :
    entry? m a b = some (getAmount m a b) := by
  rw [getAmount_eq_entry] at h ⊢
  cases hE : entry? m a b with
  | none => simp [hE] at h
  | some v => rfl

/-- The result of `simplifyBalances`, whatever the order of the visit: the
entry under `a` then `b` is the netted edge of the pair. -/
theorem entry?_simplifyBalances (ord : RangeOrder) (hv : ord.Valid) (m : BalanceMap)
    (a b : UUID) : entry? (simplifyBalances ord m) a b = netEdge m a b := by
  have hl : ∀ t ∈ visited ord m, t.2.2 = getAmount m t.1 t.2.1 := by
    rintro ⟨x, y, v⟩ ht
    exact (getAmount_of_entry? m x y v ((mem_visited ord hv m x y v).mp ht)).symm
  obtain ⟨h1, -, h3⟩ := simplify_fold_spec m (visited ord m) hl ∅
    (fun a b v h => by rw [entry?_empty] at h; cases h)
  rw [simplifyBalances_eq_foldl]
  cases hn : netEdge m a b with
  | none =>
    cases hE : entry? ((visited ord m).foldl
        (fun s t => simplifyEntry m t.1 s t.2.1 t.2.2) ∅) a b with
    | none => rfl
    | some v =>
      rw [h1 a b v hE] at hn
      cases hn
  | some w =>
    have hpos : getAmount m a b ≠ 0 := by
      unfold netEdge at hn
      split_ifs at hn with hc
      exact hc.1.ne'
    have hmem : (a, b, getAmount m a b) ∈ visited ord m :=
      (mem_visited ord hv m a b _).mpr (entry?_of_getAmount_ne_zero m a b hpos)
    exact h3 _ hmem w hn

/-- The outer keys of the result of `simplifyBalances` are the users with an
outgoing netted edge. -/
theorem hasKey_simplifyBalances (ord : RangeOrder) (hv : ord.Valid) (m : BalanceMap)
    (a : UUID) :
    hasKey (simplifyBalances ord m) a = true ↔ ∃ b w, netEdge m a b = some w := by
  constructor
  · intro h
    have hkeys := foldl_setEdge_keys (fun s (t : DebtFact) => simplifyEntry m t.1 s t.2.1 t.2.2)
      (visited ord m)
      (fun s t _ => by
        rcases simplifyEntry_cases_pos m t.1 s t.2.1 t.2.2 with h | ⟨x, y, w, -, h⟩
        · exact Or.inl h
        · exact Or.inr ⟨x, y, w, h⟩)
      ∅ (fun a ha => by rw [hasKey_empty] at ha; cases ha)
    rw [simplifyBalances_eq_foldl] at h
    obtain ⟨b, w, hbw⟩ := hkeys a h
    rw [← simplifyBalances_eq_foldl, entry?_simplifyBalances ord hv] at hbw
    exact ⟨b, w, hbw⟩
  · rintro ⟨b, w, hbw⟩
    rw [← entry?_simplifyBalances ord hv] at hbw
    exact hasKey_of_entry? _ a b w hbw

theorem netEdge_pos (m : BalanceMap) (a b : UUID) (w : ℚ) (h : netEdge m a b = some w) :
    0 < w ∧ 0 < getAmount m a b ∧ w = getAmount m a b - getAmount m b a := by
  unfold netEdge at h
  split_ifs at h with hc
  simp only [Option.some.injEq] at h
  exact ⟨h ▸ hc.2, hc.1, h.symm⟩

theorem netEdge_not_reciprocal (m : BalanceMap) (a b : UUID) (v w : ℚ)
    (h1 : netEdge m a b = some v) (h2 : netEdge m b a = some w) : False := by
  have := netEdge_pos m a b v h1
  have := netEdge_pos m b a w h2
  linarith

/-- Netting a netted map changes nothing. -/
theorem netEdge_simplifyBalances (ord : RangeOrder) (hv : ord.Valid) (m : BalanceMap)
    (a b : UUID) : netEdge (simplifyBalances ord m) a b = netEdge m a b := by
  have hget : ∀ x y, getAmount (simplifyBalances ord m) x y = (netEdge m x y).getD 0 := by
    intro x y
    rw [getAmount_eq_entry, entry?_simplifyBalances ord hv]
  cases hn : netEdge m a b with
  | none =>
    unfold netEdge
    rw [hget a b, hn]
    simp
  | some w =>
    have hrev : netEdge m b a = none := by
      cases hr : netEdge m b a with
      | none => rfl
      | some u => exact (netEdge_not_reciprocal m a b w u hn hr).elim
    have hw := (netEdge_pos m a b w hn).1
    unfold netEdge
    rw [hget a b, hget b a, hn, hrev]
    simp [hw]

/-! ## Balance engine: transfers and member summaries -/

theorem GetByID_ID (st : Store) (id : UUID) (u : User)
    (h : UserRepository.GetByID st id = .ok u) : u.ID = id := by
  unfold UserRepository.GetByID at h
  cases hf : st.users.find? (fun user => decide (user.ID = id)) with
  | none => simp [hf] at h
  | some user =>
    simp only [hf, Except.ok.injEq] at h
    subst h
    have := List.find?_some hf
    simpa using this

theorem recordTransfer_eq (st : Store) (f : UUID)
    (acc : List BalanceResponse × GoMap UserBalanceSummary) (t : UUID) (amount : ℚ) :
    recordTransfer st f acc t amount =
      match transferOf st (f, t, amount) with
      | none => acc
      | some tr => (acc.1 ++ [tr], applyTransfer acc.2 tr) := by
  unfold recordTransfer transferOf
  by_cases ha : amount > 0.01
  · simp only [if_pos ha]
    cases hf : UserRepository.GetByID st f with
    | error e => rfl
    | ok fromUser =>
      cases ht : UserRepository.GetByID st t with
      | error e => rfl
      | ok toUser =>
        have h1 := GetByID_ID st f fromUser hf
        have h2 := GetByID_ID st t toUser ht
        subst h1
        subst h2
        rfl
  · simp only [if_neg ha]

theorem foldl_recordTransfer (st : Store) (l : List DebtFact)
    (acc : List BalanceResponse × GoMap UserBalanceSummary) :
    l.foldl (fun acc t => recordTransfer st t.1 acc t.2.1 t.2.2) acc =
      (acc.1 ++ l.filterMap (transferOf st),
        (l.filterMap (transferOf st)).foldl applyTransfer acc.2) := by
  induction l generalizing acc with
  | nil => simp
  | cons t rest ih =>
    rw [List.foldl_cons, ih, recordTransfer_eq, List.filterMap_cons]
    cases h : transferOf st (t.1, t.2.1, t.2.2) with
    | none =>
      have h' : transferOf st t = none := h
      simp [h']
    | some tr =>
      have h' : transferOf st t = some tr := h
      simp [h']

/-- The transfer list: one transfer per visited entry above 0.01 whose users are
found. -/
theorem buildSummary_fst (st : Store) (ord : RangeOrder) (members : List MemberDetail)
    (s : BalanceMap) :
    (buildSummary st ord members s).1 = (visited ord s).filterMap (transferOf st) := by
  unfold buildSummary
  have h := foldl_nested (ord.outer s) (fun o => ord.inner o.1 o.2)
    (fun o i => ((o.1, i.1, i.2) : DebtFact))
    (fun acc t => recordTransfer st t.1 acc t.2.1 t.2.2)
    (([] : List BalanceResponse), initSummaries st members)
  simp only [] at h ⊢
  rw [h, foldl_recordTransfer]
  rfl

/-- The member list: the values of the summaries map, visited in some order. -/
theorem buildSummary_snd (st : Store) (ord : RangeOrder) (members : List MemberDetail)
    (s : BalanceMap) :
    (buildSummary st ord members s).2 =
      (ord.summaries (((visited ord s).filterMap (transferOf st)).foldl applyTransfer
        (initSummaries st members))).map fun e => e.2 := by
  unfold buildSummary
  have h := foldl_nested (ord.outer s) (fun o => ord.inner o.1 o.2)
    (fun o i => ((o.1, i.1, i.2) : DebtFact))
    (fun acc t => recordTransfer st t.1 acc t.2.1 t.2.2)
    (([] : List BalanceResponse), initSummaries st members)
  simp only [] at h ⊢
  rw [h, foldl_recordTransfer]
  rfl

theorem lookup_updateSummary (ms : GoMap UserBalanceSummary) (key : UUID)
    (f : UserBalanceSummary → UserBalanceSummary) (k : UUID) :
    (updateSummary ms key f).lookup k
      = (ms.lookup k).map fun s => if k = key then f s else s := by
  unfold updateSummary
  cases hl : ms.lookup key with
  | none =>
    by_cases hk : k = key
    · subst hk
      simp [hl]
    · simp [hk]
  | some summary =>
    by_cases hk : k = key
    · subst hk
      simp [AList.lookup_insert, hl]
    · simp [AList.lookup_insert_ne hk, hk]

theorem applyTransfer_eq (ms : GoMap UserBalanceSummary) (tr : BalanceResponse) :
    applyTransfer ms tr =
      updateSummary
        (updateSummary ms tr.FromUser.ID fun summary =>
          { summary with
            TotalOwed := summary.TotalOwed + tr.Amount
            NetBalance := summary.NetBalance - tr.Amount })
        tr.ToUser.ID fun summary =>
          { summary with
            TotalOwing := summary.TotalOwing + tr.Amount
            NetBalance := summary.NetBalance + tr.Amount } := rfl

theorem owedSum_cons (tr : BalanceResponse) (rest : List BalanceResponse) (k : UUID) :
    owedSum (tr :: rest) k = (if tr.FromUser.ID = k then tr.Amount else 0) + owedSum rest k := by
  unfold owedSum
  by_cases h : tr.FromUser.ID = k
  · simp [List.filter_cons, h]
  · simp [List.filter_cons, h]

theorem owingSum_cons (tr : BalanceResponse) (rest : List BalanceResponse) (k : UUID) :
    owingSum (tr :: rest) k = (if tr.ToUser.ID = k then tr.Amount else 0) + owingSum rest k := by
  unfold owingSum
  by_cases h : tr.ToUser.ID = k
  · simp [List.filter_cons, h]
  · simp [List.filter_cons, h]

theorem owedSum_nil (k : UUID) : owedSum [] k = 0 := by simp [owedSum]

theorem owingSum_nil (k : UUID) : owingSum [] k = 0 := by simp [owingSum]

theorem settle_nil (k : UUID) (s : UserBalanceSummary) : settle k [] s = s := by
  cases s
  simp [settle, owedSum_nil, owingSum_nil]

theorem lookup_applyTransfer (ms : GoMap UserBalanceSummary) (tr : BalanceResponse)
    (rest : List BalanceResponse) (k : UUID) :
    ((applyTransfer ms tr).lookup k).map (settle k rest)
      = (ms.lookup k).map (settle k (tr :: rest)) := by
  rw [applyTransfer_eq, lookup_updateSummary, lookup_updateSummary]
  cases ms.lookup k with
  | none => rfl
  | some s =>
    cases s with
    | mk user owed owing net =>
      simp only [Option.map_some', Option.some.injEq, settle, owedSum_cons, owingSum_cons]
      by_cases h1 : k = tr.FromUser.ID <;> by_cases h2 : k = tr.ToUser.ID
      · have h1' : tr.FromUser.ID = k := h1.symm
        have h2' : tr.ToUser.ID = k := h2.symm
        simp only [if_pos h1, if_pos h2, if_pos h1', if_pos h2', UserBalanceSummary.mk.injEq,
          true_and]
        refine ⟨by ring, by ring, by ring⟩
      · have h1' : tr.FromUser.ID = k := h1.symm
        have h2' : ¬ tr.ToUser.ID = k := fun h => h2 h.symm
        simp only [if_pos h1, if_neg h2, if_pos h1', if_neg h2', UserBalanceSummary.mk.injEq,
          true_and]
        refine ⟨by ring, by ring, by ring⟩
      · have h1' : ¬ tr.FromUser.ID = k := fun h => h1 h.symm
        have h2' : tr.ToUser.ID = k := h2.symm
        simp only [if_neg h1, if_pos h2, if_neg h1', if_pos h2', UserBalanceSummary.mk.injEq,
          true_and]
        refine ⟨by ring, by ring, by ring⟩
      · have h1' : ¬ tr.FromUser.ID = k := fun h => h1 h.symm
        have h2' : ¬ tr.ToUser.ID = k := fun h => h2 h.symm
        simp only [if_neg h1, if_neg h2, if_neg h1', if_neg h2', UserBalanceSummary.mk.injEq,
          true_and]
        refine ⟨by ring, by ring, by ring⟩

/-- The summary of `k` after the transfers: the initial one, settled. -/
theorem lookup_foldl_applyTransfer (transfers : List BalanceResponse)
    (ms : GoMap UserBalanceSummary) (k : UUID) :
    (transfers.foldl applyTransfer ms).lookup k = (ms.lookup k).map (settle k transfers) := by
  induction transfers generalizing ms with
  | nil =>
    cases hl : ms.lookup k with
    | none => simp [hl]
    | some s => simp [hl, settle_nil]
  | cons tr rest ih =>
    rw [List.foldl_cons, ih, lookup_applyTransfer]

/-- The summaries `CalculateBalances` starts from: a zero summary for every
member whose user row is found. -/
theorem lookup_initSummaries (st : Store) (members : List MemberDetail) (k : UUID) :
    (initSummaries st members).lookup k =
      if (members.any fun member => decide (member.UserID = k)) = true then zeroSummary st k
      else none := by
  unfold initSummaries
  have hgen : ∀ (ms : GoMap UserBalanceSummary),
      (members.foldl
        (fun memberSummaries member =>
          match UserRepository.GetByID st member.UserID with
          | .error _ => memberSummaries
          | .ok user =>
            memberSummaries.insert member.UserID
              { User := user.ToResponse, TotalOwed := 0, TotalOwing := 0, NetBalance := 0 })
        ms).lookup k =
      if (members.any fun member => decide (member.UserID = k)) = true ∧
          (zeroSummary st k).isSome = true then zeroSummary st k
      else ms.lookup k := by
    induction members with
    | nil => intro ms; simp
    | cons x rest ih =>
      intro ms
      rw [List.foldl_cons, ih, List.any_cons]
      by_cases hx : x.UserID = k
      · subst hx
        cases hu : UserRepository.GetByID st x.UserID with
        | error e => simp [zeroSummary, hu]
        | ok user => simp [zeroSummary, hu, AList.lookup_insert]
      · have hx' : ¬ k = x.UserID := fun h => hx h.symm
        cases hu : UserRepository.GetByID st x.UserID with
        | error e => simp [hx]
        | ok user => simp [hx, AList.lookup_insert_ne hx']
  rw [hgen ∅, AList.lookup_empty]
  cases hz : zeroSummary st k with
  | none => simp
  | some z => simp

theorem zeroSummary_some (st : Store) (k : UUID) (z : UserBalanceSummary)
    (h : zeroSummary st k = some z) :
    z.User.ID = k ∧ z.TotalOwed = 0 ∧ z.TotalOwing = 0 ∧ z.NetBalance = 0 := by
  unfold zeroSummary at h
  cases hu : UserRepository.GetByID st k with
  | error e => simp [hu] at h
  | ok user =>
    simp only [hu, Option.some.injEq] at h
    subst h
    exact ⟨GetByID_ID st k user hu, rfl, rfl, rfl⟩

/-- The members of the response: the settled zero summaries of the members
whose user row is found. -/
theorem mem_buildSummary_snd (st : Store) (ord : RangeOrder) (hv : ord.Valid)
    (members : List MemberDetail) (s : BalanceMap) (x : UserBalanceSummary) :
    x ∈ (buildSummary st ord members s).2 ↔
      ∃ k z, (members.any fun member => decide (member.UserID = k)) = true ∧
        zeroSummary st k = some z ∧
        x = settle k (buildSummary st ord members s).1 z := by
  rw [buildSummary_snd, buildSummary_fst]
  simp only [List.mem_map]
  constructor
  · rintro ⟨⟨k, y⟩, he, rfl⟩
    have he' := (hv.2.2 _).mem_iff.mp he
    have hl := AList.mem_lookup_iff.mpr he'
    rw [lookup_foldl_applyTransfer, lookup_initSummaries] at hl
    split_ifs at hl with hm
    · cases hz : zeroSummary st k with
      | none => simp [hz] at hl
      | some z =>
        rw [hz] at hl
        exact ⟨k, z, hm, hz, (Option.some.inj hl).symm⟩
    · simp at hl
  · rintro ⟨k, z, hm, hz, rfl⟩
    refine ⟨⟨k, _⟩, ?_, rfl⟩
    apply (hv.2.2 _).mem_iff.mpr
    apply AList.mem_lookup_iff.mp
    rw [lookup_foldl_applyTransfer, lookup_initSummaries, if_pos hm, hz]
    rfl

/-- The transfers of the response, whatever the order of the visit. -/
theorem mem_buildSummary_fst (st : Store) (ord : RangeOrder) (hv : ord.Valid)
    (members : List MemberDetail) (s : BalanceMap) (tr : BalanceResponse) :
    tr ∈ (buildSummary st ord members s).1 ↔
      ∃ a b v, entry? s a b = some v ∧ transferOf st (a, b, v) = some tr := by
  rw [buildSummary_fst, List.mem_filterMap]
  constructor
  · rintro ⟨⟨a, b, v⟩, hmem, ht⟩
    exact ⟨a, b, v, (mem_visited ord hv s a b v).mp hmem, ht⟩
  · rintro ⟨a, b, v, he, ht⟩
    exact ⟨(a, b, v), (mem_visited ord hv s a b v).mpr he, ht⟩

theorem transferOf_some (st : Store) (t : DebtFact) (tr : BalanceResponse)
    (h : transferOf st t = some tr) :
    t.2.2 > 0.01 ∧ tr.FromUser.ID = t.1 ∧ tr.ToUser.ID = t.2.1 ∧ tr.Amount = t.2.2 := by
  unfold transferOf at h
  split_ifs at h with ha
  cases hf : UserRepository.GetByID st t.1 with
  | error e => simp [hf] at h
  | ok fromUser =>
    cases ht : UserRepository.GetByID st t.2.1 with
    | error e => simp [hf, ht] at h
    | ok toUser =>
      simp only [hf, ht, Option.some.injEq] at h
      subst h
      exact ⟨ha, GetByID_ID st _ _ hf, GetByID_ID st _ _ ht, rfl⟩

/-- What a successful `CalculateBalances` returns. -/
theorem CalculateBalances_ok (st : Store) (ord : RangeOrder) (teamID : UUID)
    (r : TeamBalanceSummary) (h : CalculateBalances st ord teamID = .ok r) :
    r.Balances = (buildSummary st ord (TeamRepository.GetTeamMembers st teamID)
      (simplifyBalances ord (rawBalanceMap st teamID))).1 ∧
    r.Members = (buildSummary st ord (TeamRepository.GetTeamMembers st teamID)
      (simplifyBalances ord (rawBalanceMap st teamID))).2 := by
  unfold CalculateBalances at h
  cases ht : TeamRepository.GetByID st teamID with
  | error e => simp [ht] at h
  | ok team =>
    simp only [ht, Except.ok.injEq] at h
    subst h
    exact ⟨rfl, rfl⟩

/-- A visit sees every ordered pair of users at most once. -/
theorem visited_keys_nodup (ord : RangeOrder) (hv : ord.Valid) (m : BalanceMap) :
    ((visited ord m).map fun t => (t.1, t.2.1)).Nodup := by
  unfold visited
  rw [List.map_flatMap]
  rw [List.nodup_flatMap]
  constructor
  · rintro ⟨k, inner⟩ -
    have hnd : (ord.inner k inner).NodupKeys :=
      (List.perm_nodupKeys (hv.2.1 k inner)).mpr inner.nodupKeys
    have hmap : List.map (fun t : DebtFact => (t.1, t.2.1))
        (List.map (fun i : (Σ _ : UUID, ℚ) => ((k, i.1, i.2) : DebtFact)) (ord.inner k inner))
        = ((ord.inner k inner).keys).map (Prod.mk k) := by
      simp [List.keys, List.map_map, Function.comp_def]
    rw [hmap]
    exact List.Nodup.map (fun x y h => (Prod.mk.inj h).2) hnd
  · have hnd : (ord.outer m).NodupKeys :=
      (List.perm_nodupKeys (hv.1 m)).mpr m.nodupKeys
    refine (List.nodupKeys_iff_pairwise.mp hnd).imp ?_
    intro o o' hne
    simp only [Function.onFun]
    rw [List.disjoint_left]
    intro p hp hp'
    simp only [List.mem_map] at hp hp'
    obtain ⟨t, ⟨i, -, rfl⟩, rfl⟩ := hp
    obtain ⟨t', ⟨i', -, rfl⟩, ht'⟩ := hp'
    exact hne (Prod.mk.inj ht').1.symm

theorem visited_nodup (ord : RangeOrder) (hv : ord.Valid) (m : BalanceMap) :
    (visited ord m).Nodup :=
  List.Nodup.of_map _ (visited_keys_nodup ord hv m)

/-- Two visits of maps with the same entries see the same entries, up to
order. -/
theorem visited_perm (ord ord' : RangeOrder) (hv : ord.Valid) (hv' : ord'.Valid)
    (m m' : BalanceMap) (h : ∀ a b, entry? m' a b = entry? m a b) :
    (visited ord' m').Perm (visited ord m) := by
  rw [List.perm_ext_iff_of_nodup (visited_nodup ord' hv' m') (visited_nodup ord hv m)]
  rintro ⟨a, b, v⟩
  rw [mem_visited ord' hv', mem_visited ord hv, h]

/-! ## The raw debt map -/

/-- C12: the raw debt map built by `CalculateBalances` is the same map for any
permutation of the expense list, of each expense's share list and of the
settlement list; hence the netted maps are the same, the transfer lists are
permutations of each other and so are the member summaries, whatever the
orders in which the maps are visited. -/
theorem order_independence (st : Store) (ord ord' : RangeOrder)
    (members : List MemberDetail) (splitsOf splitsOf' : UUID → List ExpenseSplit)
    (expenses expenses' : List Expense) (settlements settlements' : List Settlement)
    (hv : ord.Valid) (hv' : ord'.Valid)
    (hexpenses : expenses'.Perm expenses)
    (hsplits : ∀ id, (splitsOf' id).Perm (splitsOf id))
    (hsettlements : settlements'.Perm settlements) :
    SameMap (buildBalanceMap members splitsOf' expenses' settlements')
      (buildBalanceMap members splitsOf expenses settlements) ∧
    SameMap (simplifyBalances ord' (buildBalanceMap members splitsOf' expenses' settlements'))
      (simplifyBalances ord (buildBalanceMap members splitsOf expenses settlements)) ∧
    (buildSummary st ord' members
        (simplifyBalances ord' (buildBalanceMap members splitsOf' expenses' settlements'))).1.Perm
      (buildSummary st ord members
        (simplifyBalances ord (buildBalanceMap members splitsOf expenses settlements))).1 ∧
    (buildSummary st ord' members
        (simplifyBalances ord' (buildBalanceMap members splitsOf' expenses' settlements'))).2.Perm
      (buildSummary st ord members
        (simplifyBalances ord (buildBalanceMap members splitsOf expenses settlements))).2 := by
  -- the facts are the same up to order
  have hE : (expenseFacts splitsOf' expenses').Perm (expenseFacts splitsOf expenses) := by
    unfold expenseFacts
    refine (List.Perm.flatMap_right _ hexpenses).trans ?_
    apply List.Perm.flatMap_left
    intro e _
    exact List.Perm.filterMap _ (hsplits e.ID)
  have hS : (settlementFacts settlements').Perm (settlementFacts settlements) :=
    List.Perm.map _ hsettlements
  have htouch : ∀ {l l' : List DebtFact}, l'.Perm l → ∀ a b, touches l' a b = touches l a b := by
    intro l l' hp a b
    rw [Bool.eq_iff_iff, touches_iff, touches_iff]
    exact exists_congr fun v => hp.mem_iff
  have htotal : ∀ {l l' : List DebtFact}, l'.Perm l →
      ∀ a b, factTotal l' a b = factTotal l a b := by
    intro l l' hp a b
    unfold factTotal
    exact ((hp.filter _).map _).sum_eq
  have hany : ∀ a, ((expenseFacts splitsOf' expenses').any fun t => decide (t.1 = a))
      = ((expenseFacts splitsOf expenses).any fun t => decide (t.1 = a)) := by
    intro a
    rw [Bool.eq_iff_iff, List.any_eq_true, List.any_eq_true]
    exact exists_congr fun t => and_congr_left fun _ => hE.mem_iff
  have hkey : ∀ a, hasKey (buildBalanceMap members splitsOf' expenses' settlements') a
      = hasKey (buildBalanceMap members splitsOf expenses settlements) a := by
    intro a
    rw [hasKey_buildBalanceMap, hasKey_buildBalanceMap, hany]
  have hentry : ∀ a b, entry? (buildBalanceMap members splitsOf' expenses' settlements') a b
      = entry? (buildBalanceMap members splitsOf expenses settlements) a b := by
    intro a b
    rw [entry?_buildBalanceMap, entry?_buildBalanceMap, hkey, htouch hE, htouch hS,
      htotal hE, htotal hS]
  have hget : ∀ a b, getAmount (buildBalanceMap members splitsOf' expenses' settlements') a b
      = getAmount (buildBalanceMap members splitsOf expenses settlements) a b := by
    intro a b
    rw [getAmount_eq_entry, getAmount_eq_entry, hentry]
  have hnet : ∀ a b, netEdge (buildBalanceMap members splitsOf' expenses' settlements') a b
      = netEdge (buildBalanceMap members splitsOf expenses settlements) a b := by
    intro a b
    unfold netEdge
    rw [hget a b, hget b a]
  have hsentry : ∀ a b,
      entry? (simplifyBalances ord' (buildBalanceMap members splitsOf' expenses' settlements')) a b
        = entry? (simplifyBalances ord (buildBalanceMap members splitsOf expenses settlements))
            a b := by
    intro a b
    rw [entry?_simplifyBalances ord' hv', entry?_simplifyBalances ord hv, hnet]
  have hskey : ∀ a,
      hasKey (simplifyBalances ord' (buildBalanceMap members splitsOf' expenses' settlements')) a
        = hasKey (simplifyBalances ord (buildBalanceMap members splitsOf expenses settlements))
            a := by
    intro a
    rw [Bool.eq_iff_iff, hasKey_simplifyBalances ord' hv', hasKey_simplifyBalances ord hv]
    exact exists_congr fun b => exists_congr fun w => by rw [hnet]
  have htransfers :
      (buildSummary st ord' members
        (simplifyBalances ord' (buildBalanceMap members splitsOf' expenses' settlements'))).1.Perm
      (buildSummary st ord members
        (simplifyBalances ord (buildBalanceMap members splitsOf expenses settlements))).1 := by
    rw [buildSummary_fst, buildSummary_fst]
    exact List.Perm.filterMap _ (visited_perm ord ord' hv hv' _ _ hsentry)
  refine ⟨⟨hkey, hentry⟩, ⟨hskey, hsentry⟩, htransfers, ?_⟩
  -- the summaries
  rw [buildSummary_snd, buildSummary_snd]
  rw [buildSummary_fst, buildSummary_fst] at htransfers
  refine ((hv'.2.2 _).map _).trans (List.Perm.trans ?_ ((hv.2.2 _).map _).symm)
  apply List.Perm.map
  apply List.lookup_ext (AList.nodupKeys _) (AList.nodupKeys _)
  intro k y
  have hsettle : ∀ z, settle k ((visited ord'
      (simplifyBalances ord' (buildBalanceMap members splitsOf' expenses' settlements'))).filterMap
        (transferOf st)) z
      = settle k ((visited ord
      (simplifyBalances ord (buildBalanceMap members splitsOf expenses settlements))).filterMap
        (transferOf st)) z := by
    intro z
    unfold settle owedSum owingSum
    rw [((htransfers.filter _).map _).sum_eq, ((htransfers.filter _).map _).sum_eq]
  have hl := lookup_foldl_applyTransfer ((visited ord'
      (simplifyBalances ord' (buildBalanceMap members splitsOf' expenses' settlements'))).filterMap
        (transferOf st)) (initSummaries st members) k
  have hr := lookup_foldl_applyTransfer ((visited ord
      (simplifyBalances ord (buildBalanceMap members splitsOf expenses settlements))).filterMap
        (transferOf st)) (initSummaries st members) k
  unfold AList.lookup at hl hr
  rw [hl, hr]
  cases (List.dlookup k (initSummaries st members).entries) with
  | none => simp
  | some z => simp [hsettle z]

/-! ## Netting and the transfer list -/

theorem filterMap_map_sublist {α β γ : Type} (f : α → Option β) (g : β → γ) (k : α → γ)
    (hfg : ∀ t tr, f t = some tr → g tr = k t) (l : List α) :
    ((l.filterMap f).map g).Sublist (l.map k) := by
  induction l with
  | nil => simp
  | cons t rest ih =>
    rw [List.filterMap_cons]
    cases hf : f t with
    | none => exact List.Sublist.cons _ ih
    | some tr =>
      simp only [List.map_cons]
      rw [hfg t tr hf]
      exact List.Sublist.cons₂ _ ih

/-- C15: the result of `simplifyBalances` has a non-zero entry for at most one
of `X -> Y` and `Y -> X`, whatever the order in which the map entries are
visited; hence the transfer list names no ordered pair twice and no pair in
both directions. -/
theorem no_reciprocal_edges (st : Store) (ord ord' : RangeOrder) (hv : ord.Valid)
    (hv' : ord'.Valid) (members : List MemberDetail) (m : BalanceMap) :
    (∀ X Y v w, entry? (simplifyBalances ord m) X Y = some v → v ≠ 0 →
      entry? (simplifyBalances ord m) Y X = some w → w = 0) ∧
    ((buildSummary st ord' members (simplifyBalances ord m)).1.map
      fun tr => (tr.FromUser.ID, tr.ToUser.ID)).Nodup ∧
    (∀ tr ∈ (buildSummary st ord' members (simplifyBalances ord m)).1,
      ∀ tr' ∈ (buildSummary st ord' members (simplifyBalances ord m)).1,
        ¬ (tr'.FromUser.ID = tr.ToUser.ID ∧ tr'.ToUser.ID = tr.FromUser.ID)) := by
  refine ⟨?_, ?_, ?_⟩
  · intro X Y v w h1 _ h2
    rw [entry?_simplifyBalances ord hv] at h1 h2
    exact (netEdge_not_reciprocal m X Y v w h1 h2).elim
  · rw [buildSummary_fst]
    refine List.Nodup.sublist ?_ (visited_keys_nodup ord' hv' (simplifyBalances ord m))
    apply filterMap_map_sublist
    intro t tr ht
    obtain ⟨-, hf, hto, -⟩ := transferOf_some st t tr ht
    rw [hf, hto]
  · intro tr htr tr' htr' hrec
    rw [mem_buildSummary_fst st ord' hv'] at htr htr'
    obtain ⟨a, b, v, he, ht⟩ := htr
    obtain ⟨a', b', v', he', ht'⟩ := htr'
    obtain ⟨-, hf, hto, -⟩ := transferOf_some st _ tr ht
    obtain ⟨-, hf', hto', -⟩ := transferOf_some st _ tr' ht'
    simp only at hf hto hf' hto'
    rw [hf, hto, hf', hto'] at hrec
    obtain ⟨rfl, rfl⟩ := hrec
    rw [entry?_simplifyBalances ord hv] at he he'
    exact netEdge_not_reciprocal m _ _ v v' he he'

/-- C16: netting an already netted map returns the same map: same keys and
same entries, whatever the orders of the two visits. -/
theorem netting_idempotent (ord ord' : RangeOrder) (hv : ord.Valid) (hv' : ord'.Valid)
    (m : BalanceMap) :
    SameMap (simplifyBalances ord' (simplifyBalances ord m)) (simplifyBalances ord m) := by
  constructor
  · intro a
    rw [Bool.eq_iff_iff, hasKey_simplifyBalances ord' hv', hasKey_simplifyBalances ord hv]
    exact exists_congr fun b => exists_congr fun w => by
      rw [netEdge_simplifyBalances ord hv]
  · intro a b
    rw [entry?_simplifyBalances ord' hv', netEdge_simplifyBalances ord hv,
      entry?_simplifyBalances ord hv]

/-- C17: every entry of the map returned by `simplifyBalances` is > 0, and
every transfer in `TeamBalanceSummary.Balances` has `Amount > 0.01`. -/
theorem strictly_positive_transfers (st : Store) (ord : RangeOrder) (teamID : UUID)
    (r : TeamBalanceSummary) (m : BalanceMap) :
    (∀ a b v, entry? (simplifyBalances ord m) a b = some v → 0 < v) ∧
    (CalculateBalances st ord teamID = .ok r → ∀ tr ∈ r.Balances, tr.Amount > 0.01) := by
  constructor
  · rw [simplifyBalances_eq_foldl]
    apply foldl_setEdge_inv (fun _ _ w => 0 < w)
    · intro s t _
      exact simplifyEntry_cases_pos m t.1 s t.2.1 t.2.2
    · intro a b v hv
      rw [entry?_empty] at hv
      cases hv
  · intro h tr htr
    rw [(CalculateBalances_ok st ord teamID r h).1, buildSummary_fst, List.mem_filterMap] at htr
    obtain ⟨t, -, ht⟩ := htr
    obtain ⟨hgt, -, -, hamt⟩ := transferOf_some st t tr ht
    rw [hamt]
    exact hgt

/-! ## Member summaries -/

theorem stored_valid : RangeOrder.stored.Valid :=
  ⟨fun _ => List.Perm.refl _, fun _ _ => List.Perm.refl _, fun _ => List.Perm.refl _⟩

/-- A team that is found makes `CalculateBalances` succeed. -/
theorem CalculateBalances_of_team (st : Store) (ord : RangeOrder) (teamID : UUID) (team : Team)
    (ht : TeamRepository.GetByID st teamID = .ok team) :
    CalculateBalances st ord teamID = .ok
      { TeamID := teamID, TeamName := team.Name
        Balances := (buildSummary st ord (TeamRepository.GetTeamMembers st teamID)
          (simplifyBalances ord (rawBalanceMap st teamID))).1
        Members := (buildSummary st ord (TeamRepository.GetTeamMembers st teamID)
          (simplifyBalances ord (rawBalanceMap st teamID))).2 } := by
  unfold CalculateBalances
  rw [ht]
  rfl

theorem getAmount_rawBalanceMap (st : Store) (teamID : UUID) (d c : UUID) :
    getAmount (rawBalanceMap st teamID) d c =
      factTotal (expenseFacts (ExpenseRepository.GetSplitsByExpenseID st)
          (ExpenseRepository.GetByTeamID st teamID 10000 0).1) d c +
        if ((TeamRepository.GetTeamMembers st teamID).any fun member =>
              decide (member.UserID = d)) = true ∨
            ((expenseFacts (ExpenseRepository.GetSplitsByExpenseID st)
              (ExpenseRepository.GetByTeamID st teamID 10000 0).1).any fun t =>
                decide (t.1 = d)) = true then
          factTotal (settlementFacts (SettlementRepository.GetByTeamID st teamID)) d c
        else 0 := by
  unfold rawBalanceMap
  rw [getAmount_buildBalanceMap, hasKey_buildBalanceMap]
  simp only [Bool.or_eq_true]

theorem sampleStore_team :
    TeamRepository.GetByID sampleStore 7 = .ok { ID := 7, Name := "trip" } := rfl

theorem sampleStore_members :
    TeamRepository.GetTeamMembers sampleStore 7
      = [{ UserID := 1 }, { UserID := 2 }, { UserID := 3 }] := by
  decide

theorem sampleStore_expenseFacts :
    expenseFacts (ExpenseRepository.GetSplitsByExpenseID sampleStore)
      (ExpenseRepository.GetByTeamID sampleStore 7 10000 0).1 = [(2, 1, 30), (3, 1, 30)] := by
  simp [expenseFacts, splitFacts, ExpenseRepository.GetSplitsByExpenseID,
    ExpenseRepository.GetByTeamID, sampleStore]

theorem sampleStore_settlementFacts :
    settlementFacts (SettlementRepository.GetByTeamID sampleStore 7) = [(2, 1, -20)] := by
  simp [settlementFacts, SettlementRepository.GetByTeamID, sampleStore]

theorem sampleStore_getAmount (a b : UUID) :
    getAmount (rawBalanceMap sampleStore 7) a b =
      if a = 2 ∧ b = 1 then 10 else if a = 3 ∧ b = 1 then 30 else 0 := by
  rw [getAmount_rawBalanceMap, sampleStore_expenseFacts, sampleStore_settlementFacts,
    sampleStore_members]
  by_cases h2 : a = 2 ∧ b = 1
  · obtain ⟨rfl, rfl⟩ := h2
    norm_num [factTotal]
  · by_cases h3 : a = 3 ∧ b = 1
    · obtain ⟨rfl, rfl⟩ := h3
      norm_num [factTotal]
    · have h2' : ¬ (2 = a ∧ 1 = b) := fun h => h2 ⟨h.1.symm, h.2.symm⟩
      have h3' : ¬ (3 = a ∧ 1 = b) := fun h => h3 ⟨h.1.symm, h.2.symm⟩
      simp [factTotal, List.filter_cons, h2, h3, h2', h3']

/-! ## Conservation -/

theorem sum_map_indicator (keys : List UUID) (hnd : keys.Nodup) (x : UUID) (a : ℚ)
    (hx : x ∈ keys) : (keys.map fun k => if x = k then a else 0).sum = a := by
  induction keys with
  | nil => cases hx
  | cons k rest ih =>
    rw [List.nodup_cons] at hnd
    rw [List.map_cons, List.sum_cons]
    by_cases hk : x = k
    · subst hk
      have hzero : (rest.map fun k => if x = k then a else 0).sum = 0 := by
        apply List.sum_eq_zero
        intro y hy
        rw [List.mem_map] at hy
        obtain ⟨k, hkmem, rfl⟩ := hy
        have : x ≠ k := fun h => hnd.1 (h ▸ hkmem)
        rw [if_neg this]
      rw [if_pos rfl, hzero, add_zero]
    · rw [if_neg hk, zero_add]
      rcases List.mem_cons.mp hx with h | h
      · exact absurd h hk
      · exact ih hnd.2 h

/-- Summing, over distinct keys that cover every transfer, the per-key totals
gives the total of the transfers. -/
theorem sum_per_key (key : BalanceResponse → UUID) (keys : List UUID) (hnd : keys.Nodup)
    (transfers : List BalanceResponse) (hcover : ∀ tr ∈ transfers, key tr ∈ keys) :
    (keys.map fun k =>
        ((transfers.filter fun tr => decide (key tr = k)).map fun tr => tr.Amount).sum).sum
      = (transfers.map fun tr => tr.Amount).sum := by
  induction transfers with
  | nil => simp
  | cons tr rest ih =>
    have hstep : ∀ k,
        (((tr :: rest).filter fun tr => decide (key tr = k)).map fun tr => tr.Amount).sum
          = (if key tr = k then tr.Amount else 0)
            + ((rest.filter fun tr => decide (key tr = k)).map fun tr => tr.Amount).sum := by
      intro k
      by_cases h : key tr = k
      · simp [List.filter_cons, h]
      · simp [List.filter_cons, h]
    simp only [hstep]
    rw [List.sum_map_add, ih (fun x hx => hcover x (List.mem_cons_of_mem _ hx)),
      sum_map_indicator keys hnd (key tr) tr.Amount (hcover tr (List.mem_cons_self _ _)),
      List.map_cons, List.sum_cons]

theorem sum_map_sub_rat {α : Type} (f g : α → ℚ) (l : List α) :
    (l.map fun x => f x - g x).sum = (l.map f).sum - (l.map g).sum := by
  induction l with
  | nil => simp
  | cons x rest ih =>
    simp only [List.map_cons, List.sum_cons, ih]
    ring

/-- The entries of the final summaries map: each value is the settled zero
summary of its key. -/
theorem summaries_entry (st : Store) (members : List MemberDetail)
    (transfers : List BalanceResponse) (e : Σ _ : UUID, UserBalanceSummary)
    (he : e ∈ (transfers.foldl applyTransfer (initSummaries st members)).entries) :
    e.2.User.ID = e.1 ∧ e.2.TotalOwed = owedSum transfers e.1 ∧
      e.2.TotalOwing = owingSum transfers e.1 ∧
      e.2.NetBalance = e.2.TotalOwing - e.2.TotalOwed := by
  obtain ⟨k, y⟩ := e
  have hl := AList.mem_lookup_iff.mpr he
  rw [lookup_foldl_applyTransfer, lookup_initSummaries] at hl
  split_ifs at hl with hm
  · cases hz : zeroSummary st k with
    | none => simp [hz] at hl
    | some z =>
      rw [hz] at hl
      have hy : y = settle k transfers z := (Option.some.inj hl).symm
      obtain ⟨h0, h1, h2, h3⟩ := zeroSummary_some st k z hz
      subst hy
      simp only [settle, h0, h1, h2, h3, zero_add]
      exact ⟨trivial, trivial, trivial, trivial⟩
  · simp at hl

theorem overpaidStore_getAmount (a b : UUID) :
    getAmount (rawBalanceMap overpaidStore 7) a b = if a = 1 ∧ b = 2 then -50 else 0 := by
  have hE : expenseFacts (ExpenseRepository.GetSplitsByExpenseID overpaidStore)
      (ExpenseRepository.GetByTeamID overpaidStore 7 10000 0).1 = [] := by
    simp [expenseFacts, ExpenseRepository.GetByTeamID, overpaidStore]
  have hS : settlementFacts (SettlementRepository.GetByTeamID overpaidStore 7)
      = [(1, 2, -50)] := by
    simp [settlementFacts, SettlementRepository.GetByTeamID, overpaidStore]
  have hM : TeamRepository.GetTeamMembers overpaidStore 7
      = [{ UserID := 1 }, { UserID := 2 }] := by decide
  rw [getAmount_rawBalanceMap, hE, hS, hM]
  by_cases h : a = 1 ∧ b = 2
  · obtain ⟨rfl, rfl⟩ := h
    norm_num [factTotal]
  · have h' : ¬ (1 = a ∧ 2 = b) := fun hc => h ⟨hc.1.symm, hc.2.symm⟩
    simp [factTotal, List.filter_cons, h, h']

/-- C14 (the code at the failing input): members 1 and 2, no expense, a
settlement of 50 from 1 to 2.  The raw edge `1 -> 2` is -50 and the raw edge
`2 -> 1` is 0, yet `CalculateBalances` returns no transfer at all: the
overpayment of 50 is not turned into a transfer `2 -> 1`. -/
theorem overpayment_dropped :
    getAmount (rawBalanceMap overpaidStore 7) 1 2 = -50 ∧
    getAmount (rawBalanceMap overpaidStore 7) 2 1 = 0 ∧
    ∃ r, CalculateBalances overpaidStore RangeOrder.stored 7 = .ok r ∧ r.Balances = [] := by
  refine ⟨by rw [overpaidStore_getAmount]; simp, by rw [overpaidStore_getAmount]; simp,
    _, CalculateBalances_of_team overpaidStore RangeOrder.stored 7 { ID := 7, Name := "trip" } rfl,
    ?_⟩
  rw [List.eq_nil_iff_forall_not_mem]
  intro tr htr
  rw [mem_buildSummary_fst _ _ stored_valid] at htr
  obtain ⟨a, b, v, hentry, -⟩ := htr
  rw [entry?_simplifyBalances _ stored_valid] at hentry
  have hpos := (netEdge_pos _ a b v hentry).2.1
  rw [overpaidStore_getAmount] at hpos
  split_ifs at hpos <;> norm_num at hpos

theorem outsiderStore_getAmount (a b : UUID) :
    getAmount (rawBalanceMap outsiderStore 7) a b = if a = 2 ∧ b = 1 then 50 else 0 := by
  have hE : expenseFacts (ExpenseRepository.GetSplitsByExpenseID outsiderStore)
      (ExpenseRepository.GetByTeamID outsiderStore 7 10000 0).1 = [(2, 1, 50)] := by
    simp [expenseFacts, splitFacts, ExpenseRepository.GetSplitsByExpenseID,
      ExpenseRepository.GetByTeamID, outsiderStore]
  have hS : settlementFacts (SettlementRepository.GetByTeamID outsiderStore 7) = [] := by
    simp [settlementFacts, SettlementRepository.GetByTeamID, outsiderStore]
  rw [getAmount_rawBalanceMap, hE, hS]
  by_cases h : a = 2 ∧ b = 1
  · obtain ⟨rfl, rfl⟩ := h
    norm_num [factTotal]
  · have h' : ¬ (2 = a ∧ 1 = b) := fun hc => h ⟨hc.1.symm, hc.2.symm⟩
    simp [factTotal, List.filter_cons, h, h']

/-- Witness for `order_independence`: two expenses and two settlements, each
list taken in the two possible orders. -/
theorem order_independence_witness :
    SameMap
      (buildBalanceMap [{ UserID := 1 }, { UserID := 2 }]
        (fun _ => [{ UserID := 2, Amount := 30 }, { UserID := 1, Amount := 30 }])
        [{ ID := 11, PaidBy := 2, Amount := 60 }, { ID := 10, PaidBy := 1, Amount := 60 }]
        [{ FromUser := 1, ToUser := 2, Amount := 5 }, { FromUser := 2, ToUser := 1, Amount := 20 }])
      (buildBalanceMap [{ UserID := 1 }, { UserID := 2 }]
        (fun _ => [{ UserID := 1, Amount := 30 }, { UserID := 2, Amount := 30 }])
        [{ ID := 10, PaidBy := 1, Amount := 60 }, { ID := 11, PaidBy := 2, Amount := 60 }]
        [{ FromUser := 2, ToUser := 1, Amount := 20 }, { FromUser := 1, ToUser := 2, Amount := 5 }]) :=
  (order_independence sampleStore RangeOrder.stored RangeOrder.stored
    [{ UserID := 1 }, { UserID := 2 }]
    (fun _ => [{ UserID := 1, Amount := 30 }, { UserID := 2, Amount := 30 }])
    (fun _ => [{ UserID := 2, Amount := 30 }, { UserID := 1, Amount := 30 }])
    [{ ID := 10, PaidBy := 1, Amount := 60 }, { ID := 11, PaidBy := 2, Amount := 60 }]
    [{ ID := 11, PaidBy := 2, Amount := 60 }, { ID := 10, PaidBy := 1, Amount := 60 }]
    [{ FromUser := 2, ToUser := 1, Amount := 20 }, { FromUser := 1, ToUser := 2, Amount := 5 }]
    [{ FromUser := 1, ToUser := 2, Amount := 5 }, { FromUser := 2, ToUser := 1, Amount := 20 }]
    stored_valid stored_valid (List.Perm.swap _ _ _) (fun _ => List.Perm.swap _ _ _)
    (List.Perm.swap _ _ _)).1

/-- Witness for `no_reciprocal_edges`: the netted map of the sample database
has the entry `2 -> 1` of 10 and no non-zero entry `1 -> 2`. -/
theorem no_reciprocal_edges_witness :
    entry? (simplifyBalances RangeOrder.stored (rawBalanceMap sampleStore 7)) 2 1 = some 10 ∧
    ¬ ∃ w, entry? (simplifyBalances RangeOrder.stored (rawBalanceMap sampleStore 7)) 1 2 = some w ∧
        w ≠ 0 := by
  have h21 : entry? (simplifyBalances RangeOrder.stored (rawBalanceMap sampleStore 7)) 2 1
      = some 10 := by
    rw [entry?_simplifyBalances _ stored_valid]
    unfold netEdge
    rw [sampleStore_getAmount, sampleStore_getAmount]
    norm_num
  refine ⟨h21, ?_⟩
  rintro ⟨w, hw, hne⟩
  exact hne ((no_reciprocal_edges sampleStore RangeOrder.stored RangeOrder.stored stored_valid
    stored_valid (TeamRepository.GetTeamMembers sampleStore 7) (rawBalanceMap sampleStore 7)).1
    2 1 10 w h21 (by norm_num) hw)

/-- Witness for `netting_idempotent`, on the raw map of the sample database. -/
theorem netting_idempotent_witness :
    SameMap
      (simplifyBalances RangeOrder.stored
        (simplifyBalances RangeOrder.stored (rawBalanceMap sampleStore 7)))
      (simplifyBalances RangeOrder.stored (rawBalanceMap sampleStore 7)) :=
  netting_idempotent RangeOrder.stored RangeOrder.stored stored_valid stored_valid
    (rawBalanceMap sampleStore 7)

/-- Witness for `strictly_positive_transfers`, on the sample database. -/
theorem strictly_positive_transfers_witness :
    ∃ r, CalculateBalances sampleStore RangeOrder.stored 7 = .ok r ∧
      ∀ tr ∈ r.Balances, tr.Amount > 0.01 :=
  ⟨_, CalculateBalances_of_team sampleStore RangeOrder.stored 7
      { ID := 7, Name := "trip" } sampleStore_team,
    (strictly_positive_transfers sampleStore RangeOrder.stored 7 _
      (rawBalanceMap sampleStore 7)).2
      (CalculateBalances_of_team sampleStore RangeOrder.stored 7
        { ID := 7, Name := "trip" } sampleStore_team)⟩

/-- In the sample database every transfer goes to user 1 from user 2 or 3. -/
theorem sampleStore_transfer (tr : BalanceResponse)
    (htr : tr ∈ (buildSummary sampleStore RangeOrder.stored
      (TeamRepository.GetTeamMembers sampleStore 7)
      (simplifyBalances RangeOrder.stored (rawBalanceMap sampleStore 7))).1) :
    (tr.FromUser.ID = 2 ∨ tr.FromUser.ID = 3) ∧ tr.ToUser.ID = 1 := by
  rw [mem_buildSummary_fst _ _ stored_valid] at htr
  obtain ⟨a, b, v, hentry, htransfer⟩ := htr
  rw [entry?_simplifyBalances _ stored_valid] at hentry
  obtain ⟨-, hpos, -⟩ := netEdge_pos _ a b v hentry
  obtain ⟨-, hf, hto, -⟩ := transferOf_some _ _ tr htransfer
  rw [sampleStore_getAmount] at hpos
  split_ifs at hpos with h2 h3
  · exact ⟨Or.inl (hf.trans h2.1), hto.trans h2.2⟩
  · exact ⟨Or.inr (hf.trans h3.1), hto.trans h3.2⟩
  · norm_num at hpos

theorem mem_GetByTeamID (st : Store) (teamID : UUID) (limit offset : Nat) (e : Expense)
    (he : e ∈ (ExpenseRepository.GetByTeamID st teamID limit offset).1) :
    e ∈ st.expenses ∧ e.TeamID = teamID := by
  unfold ExpenseRepository.GetByTeamID at he
  have h1 := List.mem_of_mem_drop (List.mem_of_mem_take he)
  rw [List.mem_reverse, List.mem_filter] at h1
  exact ⟨h1.1, by simpa using h1.2⟩

theorem mem_GetSplitsByExpenseID (st : Store) (id : UUID) (sp : ExpenseSplit) :
    sp ∈ ExpenseRepository.GetSplitsByExpenseID st id ↔
      sp ∈ st.expense_splits ∧ sp.ExpenseID = id := by
  unfold ExpenseRepository.GetSplitsByExpenseID
  rw [List.mem_filter]
  simp

theorem mem_SettlementGetByTeamID (st : Store) (teamID : UUID) (s : Settlement) :
    s ∈ SettlementRepository.GetByTeamID st teamID ↔ s ∈ st.settlements ∧ s.TeamID = teamID := by
  unfold SettlementRepository.GetByTeamID
  rw [List.mem_reverse, List.mem_filter]
  simp

theorem mem_splitFacts (expense : Expense) (splits : List ExpenseSplit) (t : DebtFact) :
    t ∈ splitFacts expense splits ↔
      ∃ sp ∈ splits, sp.UserID ≠ expense.PaidBy ∧ sp.IsSettled = false ∧
        t = (sp.UserID, expense.PaidBy, sp.Amount) := by
  unfold splitFacts
  rw [List.mem_filterMap]
  constructor
  · rintro ⟨sp, hsp, h⟩
    split_ifs at h with hc
    exact ⟨sp, hsp, hc.1, hc.2, (Option.some.inj h).symm⟩
  · rintro ⟨sp, hsp, h1, h2, rfl⟩
    exact ⟨sp, hsp, by rw [if_pos ⟨h1, h2⟩]⟩

theorem mem_expenseFacts (splitsOf : UUID → List ExpenseSplit) (expenses : List Expense)
    (t : DebtFact) :
    t ∈ expenseFacts splitsOf expenses ↔
      ∃ e ∈ expenses, ∃ sp ∈ splitsOf e.ID, sp.UserID ≠ e.PaidBy ∧ sp.IsSettled = false ∧
        t = (sp.UserID, e.PaidBy, sp.Amount) := by
  unfold expenseFacts
  rw [List.mem_flatMap]
  constructor
  · rintro ⟨e, he, ht⟩
    exact ⟨e, he, (mem_splitFacts _ _ _).mp ht⟩
  · rintro ⟨e, he, h⟩
    exact ⟨e, he, (mem_splitFacts _ _ _).mpr h⟩

theorem mem_settlementFacts (settlements : List Settlement) (t : DebtFact) :
    t ∈ settlementFacts settlements ↔
      ∃ s ∈ settlements, t = (s.FromUser, s.ToUser, -s.Amount) := by
  unfold settlementFacts
  rw [List.mem_map]
  constructor
  · rintro ⟨s, hs, rfl⟩
    exact ⟨s, hs, rfl⟩
  · rintro ⟨s, hs, rfl⟩
    exact ⟨s, hs, rfl⟩

/-- A user that holds no share in the fetched expenses is the debtor of no
expense fact. -/
theorem factTotal_eq_zero (facts : List DebtFact) (a b : UUID)
    (h : ∀ t ∈ facts, ¬ (t.1 = a ∧ t.2.1 = b)) : factTotal facts a b = 0 := by
  apply factTotal_of_not_touches
  rw [Bool.eq_false_iff]
  intro hc
  rw [touches_iff] at hc
  obtain ⟨v, hv⟩ := hc
  exact h _ hv ⟨rfl, rfl⟩

/-- A member returned by `GetTeamMembers` has a user row. -/
theorem GetTeamMembers_user (st : Store) (teamID : UUID) (member : MemberDetail)
    (hm : member ∈ TeamRepository.GetTeamMembers st teamID) :
    ∃ user, UserRepository.GetByID st member.UserID = .ok user := by
  unfold TeamRepository.GetTeamMembers at hm
  rw [List.mem_filterMap] at hm
  obtain ⟨tm, -, h⟩ := hm
  cases hf : st.users.find? (fun user => user.ID = tm.UserID) with
  | none => rw [hf] at h; simp at h
  | some user =>
    rw [hf] at h
    simp only [Option.map_some', Option.some.injEq] at h
    subst h
    have hid : user.ID = tm.UserID := by simpa using List.find?_some hf
    unfold UserRepository.GetByID
    simp only
    rw [hid, hf]
    exact ⟨user, rfl⟩

/-! ## Settlements of unknown debtors -/

theorem hasKey_processSettlement (m : BalanceMap) (s : Settlement) (a : UUID) :
    hasKey (processSettlement m s) a = hasKey m a := by
  unfold processSettlement
  split_ifs
  · exact hasKey_addAmount _ _ _ _ _
  · rfl

theorem hasKey_foldl_processSettlement (l : List Settlement) (m : BalanceMap) (a : UUID) :
    hasKey (l.foldl processSettlement m) a = hasKey m a := by
  induction l generalizing m with
  | nil => rfl
  | cons s rest ih => rw [List.foldl_cons, ih, hasKey_processSettlement]

theorem processSettlement_of_not_hasKey (m : BalanceMap) (s : Settlement)
    (h : hasKey m s.FromUser = false) : processSettlement m s = m := by
  unfold processSettlement
  unfold hasKey at h
  rw [if_neg (by rw [h]; simp)]

/-- A settlement whose payer has no key in the map can be taken out of the
list. -/
theorem foldl_processSettlement_skip (pre post : List Settlement) (s : Settlement)
    (m : BalanceMap) (h : hasKey m s.FromUser = false) :
    (pre ++ s :: post).foldl processSettlement m = (pre ++ post).foldl processSettlement m := by
  rw [List.foldl_append, List.foldl_append, List.foldl_cons,
    processSettlement_of_not_hasKey _ s (by rw [hasKey_foldl_processSettlement]; exact h)]

theorem buildBalanceMap_skip (members : List MemberDetail) (splitsOf : UUID → List ExpenseSplit)
    (expenses : List Expense) (pre post : List Settlement) (s : Settlement)
    (hmember : ∀ member ∈ members, member.UserID ≠ s.FromUser)
    (hfacts : ∀ t ∈ expenseFacts splitsOf expenses, t.1 ≠ s.FromUser) :
    buildBalanceMap members splitsOf expenses (pre ++ s :: post) =
      buildBalanceMap members splitsOf expenses (pre ++ post) := by
  have hkey : hasKey (buildBalanceMap members splitsOf expenses []) s.FromUser = false := by
    rw [hasKey_buildBalanceMap, Bool.or_eq_false_iff]
    constructor
    · rw [Bool.eq_false_iff]
      intro hc
      rw [List.any_eq_true] at hc
      obtain ⟨member, hm, hc⟩ := hc
      exact hmember member hm (by simpa using hc)
    · rw [Bool.eq_false_iff]
      intro hc
      rw [List.any_eq_true] at hc
      obtain ⟨t, ht, hc⟩ := hc
      exact hfacts t ht (by simpa using hc)
  exact foldl_processSettlement_skip pre post s _ hkey

/-- The settlements of a team once a row is taken out of the table. -/
theorem GetByTeamID_settlements_skip (st : Store) (teamID : UUID) (pre post : List Settlement)
    (s : Settlement) (hst : st.settlements = pre ++ s :: post) :
    SettlementRepository.GetByTeamID { st with settlements := pre ++ post } teamID =
        SettlementRepository.GetByTeamID st teamID ∨
    ∃ pre' post',
      SettlementRepository.GetByTeamID st teamID = pre' ++ s :: post' ∧
      SettlementRepository.GetByTeamID { st with settlements := pre ++ post } teamID
        = pre' ++ post' := by
  unfold SettlementRepository.GetByTeamID
  simp only [hst, List.filter_append, List.filter_cons]
  by_cases hteam : s.TeamID = teamID
  · right
    refine ⟨(post.filter fun settlement => decide (settlement.TeamID = teamID)).reverse,
      (pre.filter fun settlement => decide (settlement.TeamID = teamID)).reverse, ?_, ?_⟩
    · simp [hteam]
    · simp
  · left
    simp [hteam]

/-- The result of `CalculateBalances` in terms of the raw map. -/
theorem CalculateBalances_eq (st : Store) (ord : RangeOrder) (teamID : UUID) :
    CalculateBalances st ord teamID =
      match TeamRepository.GetByID st teamID with
      | .error err => .error err
      | .ok team =>
        .ok { TeamID := teamID, TeamName := team.Name
              Balances := (buildSummary st ord (TeamRepository.GetTeamMembers st teamID)
                (simplifyBalances ord (rawBalanceMap st teamID))).1
              Members := (buildSummary st ord (TeamRepository.GetTeamMembers st teamID)
                (simplifyBalances ord (rawBalanceMap st teamID))).2 } := rfl

/-- C30: a settlement whose `FromUser` is no member of the team (as
`GetTeamMembers` returns them) and holds no unsettled share of another user's
expense of the team has no effect: with the row taken out of the settlements
table `CalculateBalances` returns the same result, transfers and member
summaries included, for every order of the map visits. -/
theorem unknown_debtor_settlement_ignored (st : Store) (ord : RangeOrder) (teamID : UUID)
    (pre post : List Settlement) (s : Settlement)
    (hst : st.settlements = pre ++ s :: post)
    (hmember : ∀ member ∈ TeamRepository.GetTeamMembers st teamID, member.UserID ≠ s.FromUser)
    (hshare : ∀ e ∈ st.expenses, e.TeamID = teamID →
      ∀ sp ∈ st.expense_splits, sp.ExpenseID = e.ID →
        sp.UserID ≠ e.PaidBy → sp.IsSettled = false → sp.UserID ≠ s.FromUser) :
    CalculateBalances { st with settlements := pre ++ post } ord teamID =
      CalculateBalances st ord teamID := by
  have hfacts : ∀ t ∈ expenseFacts (ExpenseRepository.GetSplitsByExpenseID st)
      (ExpenseRepository.GetByTeamID st teamID 10000 0).1, t.1 ≠ s.FromUser := by
    intro t ht
    rw [mem_expenseFacts] at ht
    obtain ⟨e, he, sp, hsp, h1, h2, rfl⟩ := ht
    obtain ⟨he1, he2⟩ := mem_GetByTeamID _ _ _ _ _ he
    obtain ⟨hsp1, hsp2⟩ := (mem_GetSplitsByExpenseID _ _ _).mp hsp
    exact hshare e he1 he2 sp hsp1 hsp2 h1 h2
  have hraw : rawBalanceMap { st with settlements := pre ++ post } teamID
      = rawBalanceMap st teamID := by
    show buildBalanceMap (TeamRepository.GetTeamMembers st teamID)
        (ExpenseRepository.GetSplitsByExpenseID st)
        (ExpenseRepository.GetByTeamID st teamID 10000 0).1
        (SettlementRepository.GetByTeamID { st with settlements := pre ++ post } teamID)
      = buildBalanceMap (TeamRepository.GetTeamMembers st teamID)
        (ExpenseRepository.GetSplitsByExpenseID st)
        (ExpenseRepository.GetByTeamID st teamID 10000 0).1
        (SettlementRepository.GetByTeamID st teamID)
    rcases GetByTeamID_settlements_skip st teamID pre post s hst with h | ⟨pre', post', h1, h2⟩
    · rw [h]
    · rw [h1, h2]
      exact (buildBalanceMap_skip _ _ _ pre' post' s hmember hfacts).symm
  rw [CalculateBalances_eq, CalculateBalances_eq st]
  rw [hraw]
  rfl

/-- Witness for `unknown_debtor_settlement_ignored`: the settlement of user 9 in
`strangerStore`. -/
theorem unknown_debtor_settlement_ignored_witness :
    CalculateBalances
        { strangerStore with
          settlements := [{ ID := 20, TeamID := 7, FromUser := 2, ToUser := 1, Amount := 20 }] }
        RangeOrder.stored 7 =
      CalculateBalances strangerStore RangeOrder.stored 7 :=
  unknown_debtor_settlement_ignored strangerStore RangeOrder.stored 7
    [{ ID := 20, TeamID := 7, FromUser := 2, ToUser := 1, Amount := 20 }] []
    { ID := 21, TeamID := 7, FromUser := 9, ToUser := 1, Amount := 5 } rfl
    (by decide) (by decide)

/-! ## Members without facts, and the per-user query -/

/-- The raw edges of a user who holds no unsettled share, has paid no expense
with an unsettled share of another user and is party to no settlement are all
zero. -/
theorem getAmount_rawBalanceMap_isolated (st : Store) (teamID u : UUID)
    (hshare : ∀ e ∈ st.expenses, e.TeamID = teamID →
      ∀ sp ∈ st.expense_splits, sp.ExpenseID = e.ID →
        sp.UserID ≠ e.PaidBy → sp.IsSettled = false → sp.UserID ≠ u ∧ e.PaidBy ≠ u)
    (hsettle : ∀ s ∈ st.settlements, s.TeamID = teamID → s.FromUser ≠ u ∧ s.ToUser ≠ u)
    (a b : UUID) (hab : a = u ∨ b = u) :
    getAmount (rawBalanceMap st teamID) a b = 0 := by
  have hE : factTotal (expenseFacts (ExpenseRepository.GetSplitsByExpenseID st)
      (ExpenseRepository.GetByTeamID st teamID 10000 0).1) a b = 0 := by
    apply factTotal_eq_zero
    intro t ht hc
    rw [mem_expenseFacts] at ht
    obtain ⟨e, he, sp, hsp, h1, h2, rfl⟩ := ht
    obtain ⟨he1, he2⟩ := mem_GetByTeamID _ _ _ _ _ he
    obtain ⟨hsp1, hsp2⟩ := (mem_GetSplitsByExpenseID _ _ _).mp hsp
    obtain ⟨hu1, hu2⟩ := hshare e he1 he2 sp hsp1 hsp2 h1 h2
    rcases hab with rfl | rfl
    · exact hu1 hc.1
    · exact hu2 hc.2
  have hS : factTotal (settlementFacts (SettlementRepository.GetByTeamID st teamID)) a b = 0 := by
    apply factTotal_eq_zero
    intro t ht hc
    rw [mem_settlementFacts] at ht
    obtain ⟨s, hs, rfl⟩ := ht
    obtain ⟨hs1, hs2⟩ := (mem_SettlementGetByTeamID _ _ _).mp hs
    obtain ⟨hu1, hu2⟩ := hsettle s hs1 hs2
    rcases hab with rfl | rfl
    · exact hu1 hc.1
    · exact hu2 hc.2
  rw [getAmount_rawBalanceMap, hE, hS]
  simp

/-- No transfer leaves from or goes to a user all of whose raw edges are zero. -/
theorem transfer_avoids (st : Store) (ord : RangeOrder) (hv : ord.Valid)
    (members : List MemberDetail) (m : BalanceMap) (u : UUID)
    (hzero : ∀ a b, a = u ∨ b = u → getAmount m a b = 0)
    (tr : BalanceResponse)
    (htr : tr ∈ (buildSummary st ord members (simplifyBalances ord m)).1) :
    tr.FromUser.ID ≠ u ∧ tr.ToUser.ID ≠ u := by
  rw [mem_buildSummary_fst _ _ hv] at htr
  obtain ⟨a, b, v, hentry, htransfer⟩ := htr
  rw [entry?_simplifyBalances _ hv] at hentry
  have hpos := (netEdge_pos _ a b v hentry).2.1
  obtain ⟨-, hf, hto, -⟩ := transferOf_some _ _ tr htransfer
  constructor
  · intro hc
    rw [hzero a b (Or.inl (hf.symm.trans hc))] at hpos
    exact lt_irrefl _ hpos
  · intro hc
    rw [hzero a b (Or.inr (hto.symm.trans hc))] at hpos
    exact lt_irrefl _ hpos

theorem owedSum_eq_zero (transfers : List BalanceResponse) (k : UUID)
    (h : ∀ tr ∈ transfers, tr.FromUser.ID ≠ k) : owedSum transfers k = 0 := by
  unfold owedSum
  rw [List.filter_eq_nil_iff.mpr (fun tr htr => by simpa using h tr htr)]
  rfl

theorem owingSum_eq_zero (transfers : List BalanceResponse) (k : UUID)
    (h : ∀ tr ∈ transfers, tr.ToUser.ID ≠ k) : owingSum transfers k = 0 := by
  unfold owingSum
  rw [List.filter_eq_nil_iff.mpr (fun tr htr => by simpa using h tr htr)]
  rfl

theorem zeroSummary_of_user (st : Store) (k : UUID) (user : User)
    (h : UserRepository.GetByID st k = .ok user) :
    zeroSummary st k
      = some { User := user.ToResponse, TotalOwed := 0, TotalOwing := 0, NetBalance := 0 } := by
  unfold zeroSummary
  rw [h]

/-- C21: a member of the team with a user row (the members `GetTeamMembers`
returns all have one) who holds no unsettled share in another user's expense
of the team, has paid no expense of the team in which another user holds an
unsettled share, and is party to no settlement of the team, has a summary in
`Members`, and every summary of that user there has `TotalOwed`, `TotalOwing`
and `NetBalance` equal to 0. -/
theorem isolated_member (st : Store) (ord : RangeOrder) (teamID u : UUID)
    (r : TeamBalanceSummary) (hv : ord.Valid) (h : CalculateBalances st ord teamID = .ok r)
    (hmember : ∃ member ∈ TeamRepository.GetTeamMembers st teamID, member.UserID = u)
    (hshare : ∀ e ∈ st.expenses, e.TeamID = teamID →
      ∀ sp ∈ st.expense_splits, sp.ExpenseID = e.ID →
        sp.UserID ≠ e.PaidBy → sp.IsSettled = false → sp.UserID ≠ u ∧ e.PaidBy ≠ u)
    (hsettle : ∀ s ∈ st.settlements, s.TeamID = teamID → s.FromUser ≠ u ∧ s.ToUser ≠ u) :
    (∃ s ∈ r.Members, s.User.ID = u) ∧
    ∀ s ∈ r.Members, s.User.ID = u →
      s.TotalOwed = 0 ∧ s.TotalOwing = 0 ∧ s.NetBalance = 0 := by
  obtain ⟨hB, hM⟩ := CalculateBalances_ok st ord teamID r h
  have havoid := transfer_avoids st ord hv (TeamRepository.GetTeamMembers st teamID)
    (rawBalanceMap st teamID) u
    (fun a b hab => getAmount_rawBalanceMap_isolated st teamID u hshare hsettle a b hab)
  have howed := owedSum_eq_zero _ u (fun tr htr => (havoid tr htr).1)
  have howing := owingSum_eq_zero _ u (fun tr htr => (havoid tr htr).2)
  obtain ⟨member, hmem, hid⟩ := hmember
  obtain ⟨user, huser⟩ := GetTeamMembers_user st teamID member hmem
  rw [hid] at huser
  have hany : ((TeamRepository.GetTeamMembers st teamID).any fun member =>
      decide (member.UserID = u)) = true := by
    rw [List.any_eq_true]
    exact ⟨member, hmem, by simpa using hid⟩
  constructor
  · refine ⟨settle u (buildSummary st ord (TeamRepository.GetTeamMembers st teamID)
        (simplifyBalances ord (rawBalanceMap st teamID))).1
      { User := user.ToResponse, TotalOwed := 0, TotalOwing := 0, NetBalance := 0 }, ?_, ?_⟩
    · rw [hM, mem_buildSummary_snd _ _ hv]
      exact ⟨u, _, hany, zeroSummary_of_user st u user huser, rfl⟩
    · exact (zeroSummary_some st u _ (zeroSummary_of_user st u user huser)).1
  · intro s hs hsu
    rw [hM, mem_buildSummary_snd _ _ hv] at hs
    obtain ⟨k, z, -, hz, rfl⟩ := hs
    obtain ⟨hzid, h1, h2, h3⟩ := zeroSummary_some st k z hz
    have hk : k = u := hzid.symm.trans hsu
    subst hk
    simp only [settle, h1, h2, h3, howed, howing, add_zero, sub_zero, and_self]

/-- Witness for `isolated_member`: user 3 in the database without facts. -/
theorem isolated_member_witness :
    ∃ r, CalculateBalances freshStore RangeOrder.stored 7 = .ok r ∧
      (∃ s ∈ r.Members, s.User.ID = 3) ∧
      ∀ s ∈ r.Members, s.User.ID = 3 →
        s.TotalOwed = 0 ∧ s.TotalOwing = 0 ∧ s.NetBalance = 0 :=
  ⟨_, CalculateBalances_of_team freshStore RangeOrder.stored 7 { ID := 7, Name := "trip" } rfl,
    isolated_member freshStore RangeOrder.stored 7 3 _ stored_valid
      (CalculateBalances_of_team freshStore RangeOrder.stored 7 { ID := 7, Name := "trip" } rfl)
      (by decide) (by decide) (by decide)⟩

/-- No two member summaries are about the same user. -/
theorem members_ids_nodup (st : Store) (ord : RangeOrder) (hv : ord.Valid)
    (members : List MemberDetail) (s : BalanceMap) :
    ((buildSummary st ord members s).2.map fun x => x.User.ID).Nodup := by
  rw [buildSummary_snd, List.map_map]
  have hperm := hv.2.2 (((visited ord s).filterMap (transferOf st)).foldl applyTransfer
    (initSummaries st members))
  have hids : (ord.summaries (((visited ord s).filterMap (transferOf st)).foldl applyTransfer
      (initSummaries st members))).map ((fun x : UserBalanceSummary => x.User.ID) ∘ fun e => e.2)
      = (ord.summaries (((visited ord s).filterMap (transferOf st)).foldl applyTransfer
      (initSummaries st members))).map fun e => e.1 := by
    apply List.map_congr_left
    intro e he
    exact (summaries_entry st members _ e (hperm.mem_iff.mp he)).1
  rw [hids]
  exact (hperm.map _).nodup_iff.mpr (AList.keys_nodup _)

/-- The search loop of `GetUserBalance` on a list without two entries of the
same user. -/
theorem find?_of_nodup (l : List UserBalanceSummary) (u : UUID)
    (hnd : (l.map fun x => x.User.ID).Nodup) (s : UserBalanceSummary) (hs : s ∈ l)
    (hsu : s.User.ID = u) :
    l.find? (fun member => decide (member.User.ID = u)) = some s := by
  cases hf : l.find? (fun member => decide (member.User.ID = u)) with
  | none =>
    rw [List.find?_eq_none] at hf
    exact absurd (by simpa using hsu) (hf s hs)
  | some x =>
    have hx : x.User.ID = u := by simpa using List.find?_some hf
    have hxl : x ∈ l := List.mem_of_find?_eq_some hf
    rw [List.inj_on_of_nodup_map hnd hxl hs (hx.trans hsu.symm)]

/-- C22: when `CalculateBalances` returns `r`, `GetUserBalance` returns the
entry of `r.Members` about the user (there is at most one) when there is one,
and otherwise, when the user row is found, a summary of that user with
`TotalOwed`, `TotalOwing` and `NetBalance` equal to 0, without error. -/
theorem per_user_projection (st : Store) (ord : RangeOrder) (teamID u : UUID)
    (r : TeamBalanceSummary) (hv : ord.Valid) (h : CalculateBalances st ord teamID = .ok r) :
    (∀ s ∈ r.Members, s.User.ID = u → GetUserBalance st ord teamID u = .ok s) ∧
    ((∀ s ∈ r.Members, s.User.ID ≠ u) → ∀ user, UserRepository.GetByID st u = .ok user →
      GetUserBalance st ord teamID u =
        .ok { User := user.ToResponse, TotalOwed := 0, TotalOwing := 0, NetBalance := 0 }) := by
  have hM := (CalculateBalances_ok st ord teamID r h).2
  constructor
  · intro s hs hsu
    have hnd : (r.Members.map fun x => x.User.ID).Nodup := by
      rw [hM]
      exact members_ids_nodup st ord hv _ _
    unfold GetUserBalance
    rw [h]
    simp only
    rw [find?_of_nodup r.Members u hnd s hs hsu]
  · intro hnone user huser
    have hf : r.Members.find? (fun member => decide (member.User.ID = u)) = none := by
      rw [List.find?_eq_none]
      intro x hx
      simpa using hnone x hx
    unfold GetUserBalance
    rw [h]
    simp only
    rw [hf]
    simp only
    rw [huser]

/-- Witness for `per_user_projection`: in `outsiderStore` user 1 is a member and
gets the entry of `Members`; user 2 has a user row and no entry, and gets the
zero summary. -/
theorem per_user_projection_witness :
    (∃ s, GetUserBalance outsiderStore RangeOrder.stored 7 1 = .ok s ∧ s.User.ID = 1) ∧
    GetUserBalance outsiderStore RangeOrder.stored 7 2 =
      .ok { User := { ID := 2 }, TotalOwed := 0, TotalOwing := 0, NetBalance := 0 } := by
  have hr := CalculateBalances_of_team outsiderStore RangeOrder.stored 7
    { ID := 7, Name := "trip" } rfl
  have hM : TeamRepository.GetTeamMembers outsiderStore 7 = [{ UserID := 1 }] := by decide
  constructor
  · have h1 : settle 1 (buildSummary outsiderStore RangeOrder.stored
        (TeamRepository.GetTeamMembers outsiderStore 7)
        (simplifyBalances RangeOrder.stored (rawBalanceMap outsiderStore 7))).1
        { User := { ID := 1 }, TotalOwed := 0, TotalOwing := 0, NetBalance := 0 }
        ∈ (buildSummary outsiderStore RangeOrder.stored
        (TeamRepository.GetTeamMembers outsiderStore 7)
        (simplifyBalances RangeOrder.stored (rawBalanceMap outsiderStore 7))).2 :=
      (mem_buildSummary_snd _ _ stored_valid _ _ _).mpr
        ⟨1, _, by rw [hM]; rfl, rfl, rfl⟩
    exact ⟨_, (per_user_projection outsiderStore RangeOrder.stored 7 1 _ stored_valid hr).1 _ h1
      rfl, rfl⟩
  · refine (per_user_projection outsiderStore RangeOrder.stored 7 2 _ stored_valid hr).2 ?_
      { ID := 2 } rfl
    intro s hs
    rw [mem_buildSummary_snd _ _ stored_valid] at hs
    obtain ⟨k, z, hk, hz, rfl⟩ := hs
    rw [hM] at hk
    have hk1 : 1 = k := by simpa using hk
    subst hk1
    have hid : z.User.ID = 1 := (zeroSummary_some _ 1 z hz).1
    show z.User.ID ≠ 2
    rw [hid]
    decide

/-! ## The expense handlers and the update of an expense -/

/-- A request that passes the three checks and whose split fails is answered
with the error of the split and writes nothing. -/
theorem CreateExpense_calc_error (st : Store) (teamID paidBy : UUID)
    (req : ExpenseCreateRequest) (err : Error)
    (hpos : 0 < req.Amount) (hne : req.SplitWith ≠ [])
    (hvalid : (effectiveRequest req).SplitType = SplitTypeEqual ∨
      (effectiveRequest req).SplitType = SplitTypeCustom ∨
      (effectiveRequest req).SplitType = SplitTypePercent)
    (hcalc : calculateSplits
        { TeamID := teamID, PaidBy := paidBy, Amount := req.Amount,
          Description := req.Description, Category := req.Category,
          SplitType := (effectiveRequest req).SplitType }
        (effectiveRequest req) = .error err) :
    CreateExpense st teamID paidBy req = (.error err, st) := by
  have heff : (if req.SplitType = "" then { req with SplitType := SplitTypeEqual } else req)
      = effectiveRequest req := rfl
  have hamt : (effectiveRequest req).Amount = req.Amount := by
    unfold effectiveRequest; split_ifs <;> rfl
  have hdesc : (effectiveRequest req).Description = req.Description := by
    unfold effectiveRequest; split_ifs <;> rfl
  have hcat : (effectiveRequest req).Category = req.Category := by
    unfold effectiveRequest; split_ifs <;> rfl
  have h1 : ¬ req.Amount ≤ 0 := not_le.mpr hpos
  have h2 : ¬ req.SplitWith.length = 0 := fun h => hne (List.length_eq_zero.mp h)
  have h3 : ¬ ((effectiveRequest req).SplitType ≠ SplitTypeEqual ∧
      (effectiveRequest req).SplitType ≠ SplitTypeCustom ∧
      (effectiveRequest req).SplitType ≠ SplitTypePercent) := by
    rintro ⟨a, b, c⟩
    rcases hvalid with h | h | h
    · exact a h
    · exact b h
    · exact c h
  unfold CreateExpense
  simp only [h1, h2, if_false, heff, hamt, hdesc, hcat]
  rw [if_neg h3, hcalc]

/-- The handler on a request that is authenticated, names a team and has a
body. -/
theorem CreateExpense_handler_eq (st : Store) (userID teamID : UUID)
    (req : ExpenseCreateRequest) :
    ExpenseHandler.CreateExpense st (some userID) (some teamID) (some req) =
      if TeamRepository.IsMember st teamID userID = false then
        (utils.Forbidden "You are not a member of this team", st)
      else
        match CreateExpense st teamID userID req with
        | (.error err, st') =>
          if err = .ErrAmountRequired ∨ err = .ErrSplitWithRequired ∨
              err = .ErrInvalidSplitType ∨ err = .ErrInvalidCustomSplit then
            (utils.BadRequest err.message, st')
          else
            (utils.InternalError "Failed to create expense", st')
        | (.ok _, st') => (utils.Created "Expense created successfully", st') := rfl

/-- C27 (the code at the failing input): user 1, a member of team 7, posts an
expense of 100 split by percent with 50 % and 40 %.  `CreateExpense` fails
with the error built in place by `errors.New`, which is none of the four
sentinels of the handler's `switch`, so the handler answers 500 "Failed to
create expense"; the same request as a custom split of 50 and 40 fails with
`ErrInvalidCustomSplit` and is answered 400. -/
theorem percent_mismatch_internal_error :
    CreateExpense freshStore 7 1
        { Amount := 100, SplitType := SplitTypePercent, SplitWith := [1, 2],
          CustomSplit := [{ UserID := 1, Percent := 50 }, { UserID := 2, Percent := 40 }] }
      = (.error (.errorsNew "percentages must add up to 100"), freshStore) ∧
    ExpenseHandler.CreateExpense freshStore (some 1) (some 7)
        (some { Amount := 100, SplitType := SplitTypePercent, SplitWith := [1, 2],
                CustomSplit := [{ UserID := 1, Percent := 50 }, { UserID := 2, Percent := 40 }] })
      = (utils.InternalError "Failed to create expense", freshStore) ∧
    (utils.InternalError "Failed to create expense").Status = 500 ∧
    ExpenseHandler.CreateExpense freshStore (some 1) (some 7)
        (some { Amount := 100, SplitType := SplitTypeCustom, SplitWith := [1, 2],
                CustomSplit := [{ UserID := 1, Amount := 50 }, { UserID := 2, Amount := 40 }] })
      = (utils.BadRequest "custom split amounts must equal total amount", freshStore) ∧
    (utils.BadRequest "custom split amounts must equal total amount").Status = 400 := by
  have hp : CreateExpense freshStore 7 1
      { Amount := 100, SplitType := SplitTypePercent, SplitWith := [1, 2],
        CustomSplit := [{ UserID := 1, Percent := 50 }, { UserID := 2, Percent := 40 }] }
      = (.error (.errorsNew "percentages must add up to 100"), freshStore) := by
    apply CreateExpense_calc_error
    · norm_num
    · simp
    · exact Or.inr (Or.inr rfl)
    · rw [effectiveRequest_of_ne _ (by decide), calculateSplits_percent _ _ rfl, if_neg]
      norm_num
  have hc : CreateExpense freshStore 7 1
      { Amount := 100, SplitType := SplitTypeCustom, SplitWith := [1, 2],
        CustomSplit := [{ UserID := 1, Amount := 50 }, { UserID := 2, Amount := 40 }] }
      = (.error .ErrInvalidCustomSplit, freshStore) := by
    apply CreateExpense_calc_error
    · norm_num
    · simp
    · exact Or.inr (Or.inl rfl)
    · rw [effectiveRequest_of_ne _ (by decide), calculateSplits_custom _ _ rfl, if_neg]
      norm_num
  refine ⟨hp, ?_, rfl, ?_, rfl⟩
  · rw [CreateExpense_handler_eq, if_neg (by decide), hp]
    rfl
  · rw [CreateExpense_handler_eq, if_neg (by decide), hc]
    rfl

/-- C26 (the code at the failing input): in the sample database expense 10 has
amount 90 and shares 30, 30, 30.  The payer, user 1, updates the amount to 120:
`UpdateExpense` succeeds, the stored expense has amount 120, and its stored
shares are untouched and still sum to 90, in the store and in the response. -/
theorem update_breaks_share_sum :
    ((ExpenseRepository.GetSplitsByExpenseID sampleStore 10).map fun s => s.Amount).sum = 90 ∧
    (UpdateExpense sampleStore 10 { Amount := some 120 } 1).1 =
      .ok { ID := 10, TeamID := 7, PaidBy := { ID := 1 }, Amount := 120
            Splits := [{ ID := 11, User := { ID := 1 }, Amount := 30, IsSettled := true },
                       { ID := 12, User := { ID := 2 }, Amount := 30 },
                       { ID := 13, User := { ID := 3 }, Amount := 30 }]
            ApprovalStatus := ApprovalStatusPending } ∧
    ExpenseRepository.GetByID (UpdateExpense sampleStore 10 { Amount := some 120 } 1).2 10 =
      .ok { ID := 10, TeamID := 7, PaidBy := 1, Amount := 120 } ∧
    ((ExpenseRepository.GetSplitsByExpenseID
        (UpdateExpense sampleStore 10 { Amount := some 120 } 1).2 10).map fun s => s.Amount).sum
      = 90 := by
  have hsplits : ExpenseRepository.GetSplitsByExpenseID sampleStore 10 =
      [{ ID := 11, ExpenseID := 10, UserID := 1, Amount := 30, IsSettled := true },
       { ID := 12, ExpenseID := 10, UserID := 2, Amount := 30 },
       { ID := 13, ExpenseID := 10, UserID := 3, Amount := 30 }] := rfl
  have hsplits' : ExpenseRepository.GetSplitsByExpenseID
      (UpdateExpense sampleStore 10 { Amount := some 120 } 1).2 10 =
      ExpenseRepository.GetSplitsByExpenseID sampleStore 10 := rfl
  refine ⟨?_, rfl, rfl, ?_⟩
  · rw [hsplits]
    norm_num
  · rw [hsplits', hsplits]
    norm_num

/-! ## The limit of 10000 expenses -/

/-- Every expense of `bigStore` is an expense of team 7. -/
theorem bigStore_team_expenses :
    bigStore.expenses.filter (fun expense => decide (expense.TeamID = 7))
      = bigStore.expenses := by
  rw [List.filter_eq_self]
  intro e he
  have he' : e ∈ ({ ID := 1, TeamID := 7, PaidBy := 1, Amount := 60 } : Expense) ::
      (List.range 10000).map fun i =>
        ({ ID := i + 2, TeamID := 7, PaidBy := 1, Amount := 30 } : Expense) := he
  rw [List.mem_cons, List.mem_map] at he'
  rcases he' with rfl | ⟨i, -, rfl⟩
  · rfl
  · rfl

/-- The expenses `CalculateBalances` fetches in `bigStore`: the 10000 newest;
expense 1, the oldest, is cut off by the limit. -/
theorem bigStore_fetched :
    (ExpenseRepository.GetByTeamID bigStore 7 10000 0).1 =
      ((List.range 10000).map fun i =>
        ({ ID := i + 2, TeamID := 7, PaidBy := 1, Amount := 30 } : Expense)).reverse := by
  unfold ExpenseRepository.GetByTeamID
  simp only [bigStore_team_expenses, List.drop_zero]
  show (({ ID := 1, TeamID := 7, PaidBy := 1, Amount := 60 } : Expense) ::
      (List.range 10000).map fun i =>
        ({ ID := i + 2, TeamID := 7, PaidBy := 1, Amount := 30 } : Expense)).reverse.take 10000
    = _
  rw [List.reverse_cons, List.take_left']
  rw [List.length_reverse, List.length_map, List.length_range]

theorem bigStore_expenseFacts :
    expenseFacts (ExpenseRepository.GetSplitsByExpenseID bigStore)
      (ExpenseRepository.GetByTeamID bigStore 7 10000 0).1 = [] := by
  rw [List.eq_nil_iff_forall_not_mem]
  intro t ht
  rw [mem_expenseFacts, bigStore_fetched] at ht
  obtain ⟨e, he, sp, hsp, h1, -, -⟩ := ht
  rw [List.mem_reverse, List.mem_map] at he
  obtain ⟨i, -, rfl⟩ := he
  obtain ⟨hsp1, hsp2⟩ := (mem_GetSplitsByExpenseID _ _ _).mp hsp
  have hsp' : sp ∈
      ({ ID := 20001, ExpenseID := 1, UserID := 1, Amount := 30, IsSettled := true }
        : ExpenseSplit) ::
      { ID := 20002, ExpenseID := 1, UserID := 2, Amount := 30 } ::
        (List.range 10000).map fun i =>
          ({ ID := i + 30000, ExpenseID := i + 2, UserID := 1, Amount := 30, IsSettled := true }
            : ExpenseSplit) := hsp1
  rw [List.mem_cons, List.mem_cons, List.mem_map] at hsp'
  rcases hsp' with rfl | rfl | ⟨j, -, rfl⟩
  · have h2 : (1 : Nat) = i + 2 := hsp2
    omega
  · have h2 : (1 : Nat) = i + 2 := hsp2
    omega
  · exact h1 rfl

theorem bigStore_getAmount (a b : UUID) : getAmount (rawBalanceMap bigStore 7) a b = 0 := by
  have hS : settlementFacts (SettlementRepository.GetByTeamID bigStore 7) = [] := rfl
  rw [getAmount_rawBalanceMap, bigStore_expenseFacts, hS]
  simp [factTotal]

/-- C25 (the code at the failing input): team 7 has 10001 expenses.  In the
oldest, expense 1, user 2 holds an unsettled share of 30 and user 1 is the
payer; `GetByTeamID(teamID, 10000, 0)` returns the 10000 newest expenses only,
so the share never reaches the raw map: the raw edge `2 -> 1` is 0 and
`CalculateBalances` returns no transfer. -/
theorem oldest_expense_ignored :
    (ExpenseRepository.GetByTeamID bigStore 7 10000 0).2 = 10001 ∧
    (ExpenseRepository.GetByTeamID bigStore 7 10000 0).1.length = 10000 ∧
    ExpenseRepository.GetByID bigStore 1 = .ok { ID := 1, TeamID := 7, PaidBy := 1, Amount := 60 } ∧
    ({ ID := 20002, ExpenseID := 1, UserID := 2, Amount := 30 } : ExpenseSplit)
      ∈ ExpenseRepository.GetSplitsByExpenseID bigStore 1 ∧
    getAmount (rawBalanceMap bigStore 7) 2 1 = 0 ∧
    ∃ r, CalculateBalances bigStore RangeOrder.stored 7 = .ok r ∧ r.Balances = [] := by
  have hnone : (buildSummary bigStore RangeOrder.stored (TeamRepository.GetTeamMembers bigStore 7)
      (simplifyBalances RangeOrder.stored (rawBalanceMap bigStore 7))).1 = [] := by
    rw [List.eq_nil_iff_forall_not_mem]
    intro tr htr
    rw [mem_buildSummary_fst _ _ stored_valid] at htr
    obtain ⟨a, b, v, hentry, -⟩ := htr
    rw [entry?_simplifyBalances _ stored_valid] at hentry
    have hpos := (netEdge_pos _ a b v hentry).2.1
    rw [bigStore_getAmount] at hpos
    exact lt_irrefl _ hpos
  have hteam : TeamRepository.GetByID bigStore 7 = .ok { ID := 7, Name := "trip" } := rfl
  have hfirst : ExpenseRepository.GetByID bigStore 1
      = .ok { ID := 1, TeamID := 7, PaidBy := 1, Amount := 60 } := rfl
  have hr := CalculateBalances_of_team bigStore RangeOrder.stored 7 { ID := 7, Name := "trip" }
    hteam
  have hB := (CalculateBalances_ok bigStore RangeOrder.stored 7 _ hr).1
  refine ⟨?_, ?_, hfirst, ?_, bigStore_getAmount 2 1, _, hr, hB.trans hnone⟩
  · unfold ExpenseRepository.GetByTeamID
    simp only [bigStore_team_expenses]
    show (({ ID := 1, TeamID := 7, PaidBy := 1, Amount := 60 } : Expense) ::
      (List.range 10000).map fun i =>
        ({ ID := i + 2, TeamID := 7, PaidBy := 1, Amount := 30 } : Expense)).length = 10001
    rw [List.length_cons, List.length_map, List.length_range]
  · rw [bigStore_fetched, List.length_reverse, List.length_map, List.length_range]
  · rw [mem_GetSplitsByExpenseID]
    exact ⟨List.mem_cons_of_mem _ (List.mem_cons_self _ _), rfl⟩

/-! ## The transfer list as a whole -/

/-- The store a successful `CreateExpense` leaves: the expense and its shares
are appended, identifiers filled in; users, teams, members and settlements are
untouched. -/
theorem CreateExpense_store (st : Store) (teamID paidBy : UUID)
    (req : ExpenseCreateRequest) (shares : List ExpenseSplit)
    (hpos : 0 < req.Amount) (hne : req.SplitWith ≠ [])
    (hvalid : (effectiveRequest req).SplitType = SplitTypeEqual ∨
      (effectiveRequest req).SplitType = SplitTypeCustom ∨
      (effectiveRequest req).SplitType = SplitTypePercent)
    (hcalc : calculateSplits
        { TeamID := teamID, PaidBy := paidBy, Amount := req.Amount,
          Description := req.Description, Category := req.Category,
          SplitType := (effectiveRequest req).SplitType }
        (effectiveRequest req) = .ok shares) :
    (CreateExpense st teamID paidBy req).2.expenses = st.expenses ++
      [{ ID := st.nextID, TeamID := teamID, PaidBy := paidBy, Amount := req.Amount,
         Description := req.Description, Category := req.Category,
         SplitType := (effectiveRequest req).SplitType }] ∧
    (CreateExpense st teamID paidBy req).2.expense_splits = st.expense_splits ++
      assignSplitIDs st.nextID (st.nextID + 1) shares ∧
    (CreateExpense st teamID paidBy req).2.users = st.users ∧
    (CreateExpense st teamID paidBy req).2.teams = st.teams ∧
    (CreateExpense st teamID paidBy req).2.team_members = st.team_members ∧
    (CreateExpense st teamID paidBy req).2.settlements = st.settlements := by
  have heff : (if req.SplitType = "" then { req with SplitType := SplitTypeEqual } else req)
      = effectiveRequest req := rfl
  have hamt : (effectiveRequest req).Amount = req.Amount := by
    unfold effectiveRequest; split_ifs <;> rfl
  have hdesc : (effectiveRequest req).Description = req.Description := by
    unfold effectiveRequest; split_ifs <;> rfl
  have hcat : (effectiveRequest req).Category = req.Category := by
    unfold effectiveRequest; split_ifs <;> rfl
  have h1 : ¬ req.Amount ≤ 0 := not_le.mpr hpos
  have h2 : ¬ req.SplitWith.length = 0 := fun h => hne (List.length_eq_zero.mp h)
  have h3 : ¬ ((effectiveRequest req).SplitType ≠ SplitTypeEqual ∧
      (effectiveRequest req).SplitType ≠ SplitTypeCustom ∧
      (effectiveRequest req).SplitType ≠ SplitTypePercent) := by
    rintro ⟨a, b, c⟩
    rcases hvalid with h | h | h
    · exact a h
    · exact b h
    · exact c h
  unfold CreateExpense
  simp only [h1, h2, if_false, heff, hamt, hdesc, hcat]
  rw [if_neg h3, hcalc]
  exact ⟨rfl, rfl, rfl, rfl, rfl, rfl⟩

theorem assignSplitIDs_ExpenseID (e : UUID) (n : Nat) (l : List ExpenseSplit) :
    ∀ sp ∈ assignSplitIDs e n l, sp.ExpenseID = e := by
  induction l generalizing n with
  | nil => intro sp hsp; cases hsp
  | cons x xs ih =>
    intro sp hsp
    rw [assignSplitIDs, List.mem_cons] at hsp
    rcases hsp with rfl | hsp
    · rfl
    · exact ih _ sp hsp

/-- The identifiers play no part in the debt facts of a share list. -/
theorem splitFacts_assignSplitIDs (expense : Expense) (e : UUID) (n : Nat)
    (l : List ExpenseSplit) :
    splitFacts expense (assignSplitIDs e n l) = splitFacts expense l := by
  induction l generalizing n with
  | nil => rfl
  | cons x xs ih =>
    have hcons : ∀ (y : ExpenseSplit) (ys : List ExpenseSplit),
        splitFacts expense (y :: ys) = splitFacts expense [y] ++ splitFacts expense ys := by
      intro y ys
      unfold splitFacts
      rw [← List.filterMap_append]
      rfl
    rw [assignSplitIDs, hcons, hcons x xs, ih]
    rfl

/-- The debt facts of an equal split: one per participant other than the
payer. -/
theorem splitFacts_equal (expense : Expense) (L : List UUID) (c p : ℚ) :
    splitFacts expense (L.map fun userID =>
        { UserID := userID, Amount := c, Percent := p,
          IsSettled := decide (userID = expense.PaidBy) })
      = (L.filter fun u => decide (u ≠ expense.PaidBy)).map fun u => (u, expense.PaidBy, c) := by
  induction L with
  | nil => rfl
  | cons u rest ih =>
    have hcons : ∀ (y : ExpenseSplit) (ys : List ExpenseSplit),
        splitFacts expense (y :: ys) = splitFacts expense [y] ++ splitFacts expense ys := by
      intro y ys
      unfold splitFacts
      rw [← List.filterMap_append]
      rfl
    rw [List.map_cons, hcons, ih, splitFacts_singleton]
    by_cases hu : u = expense.PaidBy
    · simp [hu]
    · simp [hu]

/-- The total of the facts of an equal split about an ordered pair. -/
theorem factTotal_equal (L : List UUID) (hL : L.Nodup) (P : UUID) (c : ℚ) (x y : UUID) :
    factTotal ((L.filter fun u => decide (u ≠ P)).map fun u => (u, P, c)) x y =
      if y = P ∧ x ∈ L ∧ x ≠ P then c else 0 := by
  induction L with
  | nil => simp [factTotal]
  | cons u rest ih =>
    rw [List.nodup_cons] at hL
    by_cases hu : u = P
    · have hf : ((u :: rest).filter fun u => decide (u ≠ P)) = rest.filter fun u => decide (u ≠ P) := by
        rw [List.filter_cons, if_neg (by simpa using hu)]
      rw [hf, ih hL.2]
      by_cases hc : y = P ∧ x ∈ rest ∧ x ≠ P
      · rw [if_pos hc, if_pos ⟨hc.1, List.mem_cons_of_mem _ hc.2.1, hc.2.2⟩]
      · rw [if_neg hc, if_neg]
        rintro ⟨h1, h2, h3⟩
        rw [List.mem_cons] at h2
        rcases h2 with h2 | h2
        · exact h3 (h2.trans hu)
        · exact hc ⟨h1, h2, h3⟩
    · have hf : ((u :: rest).filter fun u => decide (u ≠ P))
          = u :: rest.filter fun u => decide (u ≠ P) := by
        rw [List.filter_cons, if_pos (by simpa using hu)]
      rw [hf, List.map_cons, factTotal_cons, ih hL.2]
      by_cases hxu : x = u
      · subst hxu
        by_cases hy : y = P
        · rw [if_pos ⟨rfl, hy.symm⟩, if_neg (fun hc => hL.1 hc.2.1),
            if_pos ⟨hy, List.mem_cons_self _ _, hu⟩, add_zero]
        · rw [if_neg (fun hc => hy hc.2.symm), if_neg (fun hc => hy hc.1),
            if_neg (fun hc => hy hc.1), add_zero]
      · rw [if_neg (fun hc => hxu hc.1.symm), zero_add]
        by_cases hc : y = P ∧ x ∈ rest ∧ x ≠ P
        · rw [if_pos hc, if_pos ⟨hc.1, List.mem_cons_of_mem _ hc.2.1, hc.2.2⟩]
        · rw [if_neg hc, if_neg]
          rintro ⟨h1, h2, h3⟩
          rw [List.mem_cons] at h2
          rcases h2 with h2 | h2
          · exact hxu h2
          · exact hc ⟨h1, h2, h3⟩

theorem effectiveRequest_SplitWith (req : ExpenseCreateRequest) :
    (effectiveRequest req).SplitWith = req.SplitWith := by
  unfold effectiveRequest; split_ifs <;> rfl

/-- The raw map of a team with a single fetched expense and no settlement. -/
theorem getAmount_rawBalanceMap_single (st : Store) (teamID : UUID) (e : Expense)
    (shares : List ExpenseSplit)
    (hE : (ExpenseRepository.GetByTeamID st teamID 10000 0).1 = [e])
    (hS : ExpenseRepository.GetSplitsByExpenseID st e.ID = shares)
    (hset : SettlementRepository.GetByTeamID st teamID = []) (x y : UUID) :
    getAmount (rawBalanceMap st teamID) x y = factTotal (splitFacts e shares) x y := by
  have hfacts : expenseFacts (ExpenseRepository.GetSplitsByExpenseID st) [e]
      = splitFacts e shares := by
    unfold expenseFacts
    rw [List.flatMap_cons, List.flatMap_nil, List.append_nil, hS]
  have hsf : settlementFacts ([] : List Settlement) = [] := rfl
  rw [getAmount_rawBalanceMap, hE, hset, hfacts, hsf, factTotal_nil, ite_self, add_zero]

/-- The repository reads in a store whose tables are given. -/
theorem UserRepository_GetByID_congr (st st' : Store) (h : st'.users = st.users) (id : UUID) :
    UserRepository.GetByID st' id = UserRepository.GetByID st id := by
  unfold UserRepository.GetByID
  rw [h]

theorem TeamRepository_GetByID_congr (st st' : Store) (h : st'.teams = st.teams) (id : UUID) :
    TeamRepository.GetByID st' id = TeamRepository.GetByID st id := by
  unfold TeamRepository.GetByID
  rw [h]

theorem GetTeamMembers_congr (st st' : Store) (hu : st'.users = st.users)
    (hm : st'.team_members = st.team_members) (teamID : UUID) :
    TeamRepository.GetTeamMembers st' teamID = TeamRepository.GetTeamMembers st teamID := by
  unfold TeamRepository.GetTeamMembers
  rw [hu, hm]

/-- The first expense of a team is what `GetByTeamID` returns. -/
theorem GetByTeamID_first (st st' : Store) (teamID : UUID) (e : Expense)
    (hexp : st'.expenses = st.expenses ++ [e]) (he : e.TeamID = teamID)
    (hnone : ∀ x ∈ st.expenses, x.TeamID ≠ teamID) :
    (ExpenseRepository.GetByTeamID st' teamID 10000 0).1 = [e] := by
  unfold ExpenseRepository.GetByTeamID
  have hf : st.expenses.filter (fun expense => decide (expense.TeamID = teamID)) = [] := by
    rw [List.filter_eq_nil_iff]
    intro x hx
    simpa using hnone x hx
  simp only [hexp, List.filter_append, hf, List.nil_append, List.filter_cons, he, decide_True,
    if_true, List.filter_nil, List.reverse_cons, List.reverse_nil, List.drop_zero]
  rfl

/-- The shares of a new expense are what `GetSplitsByExpenseID` returns, the
identifier being fresh. -/
theorem GetSplitsByExpenseID_new (st st' : Store) (id : UUID) (assigned : List ExpenseSplit)
    (hspl : st'.expense_splits = st.expense_splits ++ assigned)
    (hassigned : ∀ sp ∈ assigned, sp.ExpenseID = id)
    (hfresh : ∀ sp ∈ st.expense_splits, sp.ExpenseID ≠ id) :
    ExpenseRepository.GetSplitsByExpenseID st' id = assigned := by
  unfold ExpenseRepository.GetSplitsByExpenseID
  have hf : st.expense_splits.filter (fun split => decide (split.ExpenseID = id)) = [] := by
    rw [List.filter_eq_nil_iff]
    intro x hx
    simpa using hfresh x hx
  have hg : assigned.filter (fun split => decide (split.ExpenseID = id)) = assigned := by
    rw [List.filter_eq_self]
    intro x hx
    simpa using hassigned x hx
  rw [hspl, List.filter_append, hf, hg, List.nil_append]

theorem SettlementGetByTeamID_none (st : Store) (teamID : UUID)
    (hnone : ∀ s ∈ st.settlements, s.TeamID ≠ teamID) :
    SettlementRepository.GetByTeamID st teamID = [] := by
  unfold SettlementRepository.GetByTeamID
  have hf : st.settlements.filter (fun settlement => decide (settlement.TeamID = teamID))
      = [] := by
    rw [List.filter_eq_nil_iff]
    intro x hx
    simpa using hnone x hx
  rw [hf]
  rfl

/-- The sums of a summary over a list of transfers that all go to `P` from
other users, each of amount `c`. -/
theorem owingSum_all (transfers : List BalanceResponse) (P : UUID) (c : ℚ)
    (h : ∀ tr ∈ transfers, tr.ToUser.ID = P ∧ tr.Amount = c) :
    owingSum transfers P = (transfers.length : ℚ) * c := by
  induction transfers with
  | nil => simp [owingSum]
  | cons tr rest ih =>
    rw [owingSum_cons, if_pos (h tr (List.mem_cons_self _ _)).1,
      (h tr (List.mem_cons_self _ _)).2, ih (fun x hx => h x (List.mem_cons_of_mem _ hx))]
    push_cast [List.length_cons]
    ring

theorem owingSum_perm (l₁ l₂ : List BalanceResponse) (h : l₁.Perm l₂) (k : UUID) :
    owingSum l₁ k = owingSum l₂ k := by
  unfold owingSum
  exact ((h.filter _).map _).sum_eq

theorem filter_ne_length (L : List UUID) (hL : L.Nodup) (P : UUID) (hP : P ∈ L) :
    (L.filter fun u => decide (u ≠ P)).length = L.length - 1 := by
  have hf : (L.filter fun u => decide (u ≠ P)) = L.filter fun u => u != P :=
    List.filter_congr (fun x _ => by
      by_cases hx : x = P
      · simp [hx]
      · simp [hx])
  rw [hf, ← List.Nodup.erase_eq_filter hL, List.length_erase_of_mem hP]

/-! ## Binary floating point: rounding -/

namespace Binary64

theorem log2Fuel_spec (fuel n : Nat) (hn : 0 < n) (hfuel : n < 2 ^ fuel) :
    2 ^ log2Fuel fuel n ≤ n ∧ n < 2 ^ (log2Fuel fuel n + 1) := by
  induction fuel generalizing n with
  | zero =>
    rw [pow_zero] at hfuel
    omega
  | succ fuel ih =>
    rw [log2Fuel]
    by_cases h2 : n < 2
    · rw [if_pos h2]
      simp only [pow_zero, zero_add, pow_one]
      omega
    · rw [if_neg h2]
      have hhalf : 0 < n / 2 := by omega
      have hlt : n / 2 < 2 ^ fuel := by
        rw [pow_succ] at hfuel
        omega
      obtain ⟨h1, h3⟩ := ih (n / 2) hhalf hlt
      rw [pow_succ]
      rw [pow_succ] at h3
      constructor
      · omega
      · rw [pow_succ]
        omega

theorem bitLog_spec (n : Nat) (hn : 0 < n) :
    2 ^ bitLog n ≤ n ∧ n < 2 ^ (bitLog n + 1) :=
  log2Fuel_spec n n hn (Nat.lt_two_pow n)

/-- The magnitude of a rational from its numerator and denominator. -/
theorem abs_eq_natAbs_div (x : ℚ) : |x| = (x.num.natAbs : ℚ) / (x.den : ℚ) := by
  have hden : (0 : ℚ) < (x.den : ℚ) := by exact_mod_cast x.den_pos
  conv_lhs => rw [← Rat.num_div_den x]
  rw [abs_div, abs_of_pos hden, ← Int.cast_abs, Int.abs_eq_natAbs, Int.cast_natCast]

/-- The binade of a non-zero rational. -/
theorem binadeExponent_spec (x : ℚ) (hx : x ≠ 0) :
    (2 : ℚ) ^ binadeExponent x ≤ |x| ∧ |x| < (2 : ℚ) ^ (binadeExponent x + 1) := by
  have hnum : 0 < x.num.natAbs := Int.natAbs_pos.mpr (Rat.num_ne_zero.mpr hx)
  obtain ⟨ha1, ha2⟩ := bitLog_spec _ hnum
  obtain ⟨hb1, hb2⟩ := bitLog_spec _ x.den_pos
  have ha1' : (2 : ℚ) ^ bitLog x.num.natAbs ≤ (x.num.natAbs : ℚ) := by exact_mod_cast ha1
  have ha2' : (x.num.natAbs : ℚ) < (2 : ℚ) ^ (bitLog x.num.natAbs + 1) := by exact_mod_cast ha2
  have hb1' : (2 : ℚ) ^ bitLog x.den ≤ (x.den : ℚ) := by exact_mod_cast hb1
  have hb2' : (x.den : ℚ) < (2 : ℚ) ^ (bitLog x.den + 1) := by exact_mod_cast hb2
  have hden : (0 : ℚ) < (x.den : ℚ) := by exact_mod_cast x.den_pos
  have hpb : (0 : ℚ) < (2 : ℚ) ^ bitLog x.den := by positivity
  have hpa : (0 : ℚ) < (2 : ℚ) ^ bitLog x.num.natAbs := by positivity
  have h2 : (2 : ℚ) ≠ 0 := by norm_num
  -- the candidate exponent and the two bounds it satisfies
  have hupper : |x| < (2 : ℚ) ^
      (((bitLog x.num.natAbs : ℤ) - (bitLog x.den : ℤ)) + 1) := by
    rw [abs_eq_natAbs_div, zpow_add₀ h2, zpow_sub₀ h2, zpow_natCast, zpow_natCast, zpow_one,
      div_lt_iff₀ hden]
    rw [pow_succ] at ha2'
    calc (x.num.natAbs : ℚ) < (2 : ℚ) ^ bitLog x.num.natAbs * 2 := ha2'
      _ = (2 : ℚ) ^ bitLog x.num.natAbs / (2 : ℚ) ^ bitLog x.den * 2 * (2 : ℚ) ^ bitLog x.den := by
        field_simp
      _ ≤ (2 : ℚ) ^ bitLog x.num.natAbs / (2 : ℚ) ^ bitLog x.den * 2 * (x.den : ℚ) := by
        apply mul_le_mul_of_nonneg_left hb1'
        positivity
  have hlower : (2 : ℚ) ^ (((bitLog x.num.natAbs : ℤ) - (bitLog x.den : ℤ)) - 1) ≤ |x| := by
    rw [abs_eq_natAbs_div, zpow_sub₀ h2, zpow_sub₀ h2, zpow_natCast, zpow_natCast, zpow_one,
      le_div_iff₀ hden]
    rw [pow_succ] at hb2'
    calc (2 : ℚ) ^ bitLog x.num.natAbs / (2 : ℚ) ^ bitLog x.den / 2 * (x.den : ℚ)
        ≤ (2 : ℚ) ^ bitLog x.num.natAbs / (2 : ℚ) ^ bitLog x.den / 2 *
            ((2 : ℚ) ^ bitLog x.den * 2) := by
          apply mul_le_mul_of_nonneg_left hb2'.le
          positivity
      _ = (2 : ℚ) ^ bitLog x.num.natAbs := by field_simp
      _ ≤ (x.num.natAbs : ℚ) := ha1'
  unfold binadeExponent
  simp only
  split_ifs with hc
  · exact ⟨hc, hupper⟩
  · refine ⟨hlower, ?_⟩
    rw [sub_add_cancel]
    exact not_le.mp hc

theorem ulp64_pos (x : ℚ) : 0 < ulp64 x := by
  unfold ulp64
  positivity

theorem roundHalfEven_error (q : ℚ) : |(roundHalfEven q : ℚ) - q| ≤ 1 / 2 := by
  have h0 : (0 : ℚ) ≤ q - ⌊q⌋ := sub_nonneg.mpr (Int.floor_le q)
  have h1 : q - ⌊q⌋ < 1 := by
    have := Int.lt_floor_add_one q
    linarith
  unfold roundHalfEven
  split_ifs with ha hb hc
  · rw [abs_le]
    constructor <;> linarith
  · rw [abs_le]
    push_cast
    constructor <;> linarith
  · have hhalf : q - ⌊q⌋ = 1 / 2 := le_antisymm (not_lt.mp hb) (not_lt.mp ha)
    rw [abs_le]
    constructor <;> linarith
  · have hhalf : q - ⌊q⌋ = 1 / 2 := le_antisymm (not_lt.mp hb) (not_lt.mp ha)
    rw [abs_le]
    push_cast
    constructor <;> linarith

theorem roundHalfEven_intCast (n : ℤ) : roundHalfEven (n : ℚ) = n := by
  unfold roundHalfEven
  rw [Int.floor_intCast, sub_self, if_pos (by norm_num)]

theorem roundHalfEven_nonneg (q : ℚ) (hq : 0 ≤ q) : 0 ≤ roundHalfEven q := by
  have hf : 0 ≤ ⌊q⌋ := Int.floor_nonneg.mpr hq
  unfold roundHalfEven
  split_ifs <;> omega

/-- Rounding is symmetric about zero. -/
theorem roundHalfEven_neg (q : ℚ) : roundHalfEven (-q) = - roundHalfEven q := by
  by_cases hint : (⌊q⌋ : ℚ) = q
  · rw [← hint, ← Int.cast_neg, roundHalfEven_intCast, roundHalfEven_intCast]
  · have hlt : (⌊q⌋ : ℚ) < q := lt_of_le_of_ne (Int.floor_le q) hint
    have hlt1 : q < ⌊q⌋ + 1 := Int.lt_floor_add_one q
    have hfloor : ⌊-q⌋ = -⌊q⌋ - 1 := by
      rw [Int.floor_eq_iff]
      push_cast
      constructor <;> linarith
    unfold roundHalfEven
    rw [hfloor]
    push_cast
    by_cases ha : q - ⌊q⌋ < 1 / 2
    · rw [if_pos ha, if_neg (by linarith), if_pos (by linarith)]
      ring
    · by_cases hb : 1 / 2 < q - ⌊q⌋
      · rw [if_neg ha, if_pos hb, if_pos (by linarith)]
        ring
      · have hhalf : q - ⌊q⌋ = 1 / 2 := le_antisymm (not_lt.mp hb) (not_lt.mp ha)
        rw [if_neg ha, if_neg hb, if_neg (by linarith), if_neg (by linarith)]
        by_cases hc : ⌊q⌋ % 2 = 0
        · rw [if_pos hc, if_neg (by omega)]
          ring
        · rw [if_neg hc, if_pos (by omega)]
          ring

end Binary64
namespace Binary64

theorem zpow_div_two (k : ℤ) : (2 : ℚ) ^ k / 2 = (2 : ℚ) ^ (k - 1) := by
  rw [zpow_sub_one₀ (by norm_num : (2 : ℚ) ≠ 0), div_eq_mul_inv]

theorem round64_zero : round64 0 = 0 := by
  unfold round64
  rw [zero_div, ← Int.cast_zero, roundHalfEven_intCast, Int.cast_zero, zero_mul]

theorem binadeExponent_neg (x : ℚ) : binadeExponent (-x) = binadeExponent x := by
  unfold binadeExponent
  rw [Rat.neg_num, Int.natAbs_neg, Rat.neg_den, abs_neg]

theorem ulp64_neg (x : ℚ) : ulp64 (-x) = ulp64 x := by
  unfold ulp64
  rw [binadeExponent_neg]

/-- Rounding to binary64 is symmetric about zero. -/
theorem round64_neg (x : ℚ) : round64 (-x) = - round64 x := by
  unfold round64
  rw [ulp64_neg, neg_div, roundHalfEven_neg]
  push_cast
  ring

theorem round64_nonneg (x : ℚ) (hx : 0 ≤ x) : 0 ≤ round64 x := by
  unfold round64
  have h1 : 0 ≤ roundHalfEven (x / ulp64 x) :=
    roundHalfEven_nonneg _ (div_nonneg hx (ulp64_pos x).le)
  have h2 : (0 : ℚ) ≤ (roundHalfEven (x / ulp64 x) : ℚ) := by exact_mod_cast h1
  exact mul_nonneg h2 (ulp64_pos x).le

theorem round64_nonpos (x : ℚ) (hx : x ≤ 0) : round64 x ≤ 0 := by
  have h := round64_nonneg (-x) (by linarith)
  rw [round64_neg] at h
  linarith

theorem pos_of_round64_pos (x : ℚ) (hx : 0 < round64 x) : 0 < x := by
  by_contra h
  have := round64_nonpos x (not_lt.mp h)
  linarith

theorem neg_of_round64_neg (x : ℚ) (hx : round64 x < 0) : x < 0 := by
  by_contra h
  have := round64_nonneg x (not_lt.mp h)
  linarith

/-- The distance from a rational to its binary64 rounding is at most half the
spacing of the binary64 numbers there. -/
theorem round64_half_ulp (x : ℚ) : |round64 x - x| ≤ ulp64 x / 2 := by
  have hu := ulp64_pos x
  have hq := roundHalfEven_error (x / ulp64 x)
  have heq : round64 x - x = ((roundHalfEven (x / ulp64 x) : ℚ) - x / ulp64 x) * ulp64 x := by
    unfold round64
    field_simp
  rw [heq, abs_mul, abs_of_pos hu]
  calc |(roundHalfEven (x / ulp64 x) : ℚ) - x / ulp64 x| * ulp64 x
      ≤ 1 / 2 * ulp64 x := mul_le_mul_of_nonneg_right hq hu.le
    _ = ulp64 x / 2 := by ring

/-- The standard model of rounding with gradual underflow: relative error
`2^-53`, absolute error `2^-1075`. -/
theorem round64_error (x : ℚ) :
    |round64 x - x| ≤ (2 : ℚ) ^ (-53 : ℤ) * |x| + (2 : ℚ) ^ (-1075 : ℤ) := by
  by_cases hx : x = 0
  · subst hx
    rw [round64_zero, sub_zero, abs_zero]
    positivity
  · have h := round64_half_ulp x
    obtain ⟨hlo, -⟩ := binadeExponent_spec x hx
    have h2 : (2 : ℚ) ≠ 0 := by norm_num
    have hulp : ulp64 x / 2 ≤ (2 : ℚ) ^ (-53 : ℤ) * |x| + (2 : ℚ) ^ (-1075 : ℤ) := by
      unfold ulp64
      by_cases he : -1022 ≤ binadeExponent x
      · rw [max_eq_left he]
        have : (2 : ℚ) ^ (binadeExponent x - 52) / 2 = (2 : ℚ) ^ (-53 : ℤ) * (2 : ℚ) ^ binadeExponent x := by
          rw [← zpow_add₀ h2, zpow_div_two]
          congr 1
          ring
        rw [this]
        have h3 : (2 : ℚ) ^ (-53 : ℤ) * (2 : ℚ) ^ binadeExponent x ≤ (2 : ℚ) ^ (-53 : ℤ) * |x| :=
          mul_le_mul_of_nonneg_left hlo (by positivity)
        have h4 : (0 : ℚ) < (2 : ℚ) ^ (-1075 : ℤ) := by positivity
        linarith
      · rw [max_eq_right (le_of_lt (not_le.mp he))]
        have : (2 : ℚ) ^ ((-1022 : ℤ) - 52) / 2 = (2 : ℚ) ^ (-1075 : ℤ) := by
          rw [zpow_div_two]
          norm_num
        rw [this]
        have h4 : (0 : ℚ) ≤ (2 : ℚ) ^ (-53 : ℤ) * |x| := by positivity
        linarith
    exact h.trans hulp

end Binary64
namespace Binary64

theorem binadeExponent_ge (y : ℚ) (hy : y ≠ 0) (a : ℤ) (h : (2 : ℚ) ^ a ≤ |y|) :
    a ≤ binadeExponent y := by
  obtain ⟨-, hhi⟩ := binadeExponent_spec y hy
  have hlt : (2 : ℚ) ^ a < (2 : ℚ) ^ (binadeExponent y + 1) := lt_of_le_of_lt h hhi
  rw [zpow_lt_zpow_iff_right₀ (by norm_num : (1 : ℚ) < 2)] at hlt
  omega

theorem binadeExponent_le (y : ℚ) (hy : y ≠ 0) (b : ℤ) (h : |y| < (2 : ℚ) ^ (b + 1)) :
    binadeExponent y ≤ b := by
  obtain ⟨hlo, -⟩ := binadeExponent_spec y hy
  have hlt : (2 : ℚ) ^ binadeExponent y < (2 : ℚ) ^ (b + 1) := lt_of_le_of_lt hlo h
  rw [zpow_lt_zpow_iff_right₀ (by norm_num : (1 : ℚ) < 2)] at hlt
  omega

/-- A multiple of the spacing at `y` is its own rounding. -/
theorem round64_of_multiple (y : ℚ) (m : ℤ) (h : y = (m : ℚ) * ulp64 y) : round64 y = y := by
  have hu := ulp64_pos y
  have hq : y / ulp64 y = (m : ℚ) := by
    rw [div_eq_iff hu.ne']
    exact h
  unfold round64
  rw [hq, roundHalfEven_intCast]
  exact h.symm

/-- The binary64 numbers (overflow apart): `n * 2^k` with `|n| ≤ 2^53` and
`k ≥ -1074` is its own rounding. -/
theorem round64_of_representable (n k : ℤ) (hn : |n| ≤ 2 ^ 53) (hk : -1074 ≤ k) :
    round64 ((n : ℚ) * (2 : ℚ) ^ k) = (n : ℚ) * (2 : ℚ) ^ k := by
  have h2 : (2 : ℚ) ≠ 0 := by norm_num
  by_cases hn0 : n = 0
  · subst hn0
    rw [Int.cast_zero, zero_mul]
    exact round64_zero
  have hy : (n : ℚ) * (2 : ℚ) ^ k ≠ 0 := by
    apply mul_ne_zero
    · exact_mod_cast hn0
    · positivity
  have habs : |(n : ℚ) * (2 : ℚ) ^ k| = (|n| : ℤ) * (2 : ℚ) ^ k := by
    rw [abs_mul, abs_of_pos (by positivity : (0 : ℚ) < (2 : ℚ) ^ k), Int.cast_abs]
  by_cases hlt : |n| < 2 ^ 53
  · -- the exponent of the spacing is at most `k`
    have hbound : |(n : ℚ) * (2 : ℚ) ^ k| < (2 : ℚ) ^ (k + 52 + 1) := by
      rw [habs]
      have hc : ((|n| : ℤ) : ℚ) < (2 : ℚ) ^ (53 : ℕ) := by exact_mod_cast hlt
      have : (2 : ℚ) ^ (k + 52 + 1) = (2 : ℚ) ^ (53 : ℕ) * (2 : ℚ) ^ k := by
        rw [← zpow_natCast, ← zpow_add₀ h2]
        congr 1
        push_cast
        ring
      rw [this]
      exact mul_lt_mul_of_pos_right hc (by positivity)
    have he := binadeExponent_le _ hy (k + 52) hbound
    have hk' : max (binadeExponent ((n : ℚ) * (2 : ℚ) ^ k)) (-1022) - 52 ≤ k := by
      rcases max_cases (binadeExponent ((n : ℚ) * (2 : ℚ) ^ k)) (-1022) with ⟨h, -⟩ | ⟨h, -⟩ <;>
        rw [h] <;> omega
    obtain ⟨d, hd⟩ := Int.eq_ofNat_of_zero_le (sub_nonneg.mpr hk')
    apply round64_of_multiple _ (n * 2 ^ d)
    unfold ulp64
    have hkd : k = (max (binadeExponent ((n : ℚ) * (2 : ℚ) ^ k)) (-1022) - 52) + (d : ℤ) := by
      omega
    conv_lhs => rw [hkd, zpow_add₀ h2, zpow_natCast]
    push_cast
    ring
  · have heq : |n| = 2 ^ 53 := le_antisymm hn (not_lt.mp hlt)
    have habs' : |(n : ℚ) * (2 : ℚ) ^ k| = (2 : ℚ) ^ (k + 53) := by
      rw [habs, heq, zpow_add₀ h2]
      push_cast
      rw [mul_comm]
      norm_num
    have he1 := binadeExponent_ge _ hy (k + 53) (by rw [habs'])
    have he2 := binadeExponent_le _ hy (k + 53) (by
      rw [habs']
      exact zpow_lt_zpow_right₀ (by norm_num) (by omega))
    have he : binadeExponent ((n : ℚ) * (2 : ℚ) ^ k) = k + 53 := le_antisymm he2 he1
    have hmax : max (k + 53) (-1022) = k + 53 := max_eq_left (by omega)
    apply round64_of_multiple _ (n / 2)
    unfold ulp64
    rw [he, hmax]
    have hn2 : n = 2 * (n / 2) := by
      rcases abs_cases n with ⟨h, -⟩ | ⟨h, -⟩ <;> omega
    have : (2 : ℚ) ^ (k + 53 - 52) = 2 * (2 : ℚ) ^ k := by
      rw [show k + 53 - 52 = k + 1 by ring, zpow_add_one₀ h2]
      ring
    rw [this]
    conv_lhs => rw [hn2]
    push_cast
    ring

theorem roundHalfEven_le (q : ℚ) (B : ℤ) (h : q ≤ B) : roundHalfEven q ≤ B := by
  by_cases hq : q = B
  · rw [hq, roundHalfEven_intCast]
  · have hlt : q < B := lt_of_le_of_ne h hq
    have hf : ⌊q⌋ < B := by
      have := Int.floor_le q
      have h3 : (⌊q⌋ : ℚ) < (B : ℚ) := lt_of_le_of_lt this hlt
      exact_mod_cast h3
    unfold roundHalfEven
    split_ifs <;> omega

theorem le_roundHalfEven (q : ℚ) (B : ℤ) (h : (B : ℚ) ≤ q) : B ≤ roundHalfEven q := by
  have hf : B ≤ ⌊q⌋ := Int.le_floor.mpr h
  unfold roundHalfEven
  split_ifs <;> omega

theorem abs_roundHalfEven_le (q : ℚ) (B : ℤ) (h : |q| ≤ B) : |roundHalfEven q| ≤ B := by
  rw [abs_le] at h ⊢
  constructor
  · apply le_roundHalfEven
    push_cast
    exact h.1
  · exact roundHalfEven_le q B h.2

/-- The quotient of a rational by the spacing at it is at most `2^53`. -/
theorem abs_div_ulp64_le (x : ℚ) : |x / ulp64 x| ≤ ((2 ^ 53 : ℤ) : ℚ) := by
  have h2 : (2 : ℚ) ≠ 0 := by norm_num
  have hu := ulp64_pos x
  rw [abs_div, abs_of_pos hu, div_le_iff₀ hu]
  by_cases hx : x = 0
  · subst hx
    rw [abs_zero]
    positivity
  obtain ⟨-, hhi⟩ := binadeExponent_spec x hx
  have hle : (2 : ℚ) ^ (binadeExponent x + 1) ≤ ((2 ^ 53 : ℤ) : ℚ) * ulp64 x := by
    unfold ulp64
    have : ((2 ^ 53 : ℤ) : ℚ) = (2 : ℚ) ^ (53 : ℤ) := by norm_num
    rw [this, ← zpow_add₀ h2]
    apply zpow_le_zpow_right₀ (by norm_num)
    rcases max_cases (binadeExponent x) (-1022) with ⟨h, -⟩ | ⟨h, -⟩ <;> rw [h] <;> omega
  linarith

/-- Rounding twice is rounding once. -/
theorem round64_idem (x : ℚ) : round64 (round64 x) = round64 x := by
  have h : round64 x =
      (roundHalfEven (x / ulp64 x) : ℚ) * (2 : ℚ) ^ (max (binadeExponent x) (-1022) - 52) := rfl
  rw [h]
  apply round64_of_representable
  · exact abs_roundHalfEven_le _ _ (abs_div_ulp64_le x)
  · rcases max_cases (binadeExponent x) (-1022) with ⟨h, -⟩ | ⟨h, -⟩ <;> rw [h] <;> omega

end Binary64
namespace Binary64

/-- One step of a running sum: the error grows by the rounding of the new
partial sum. -/
theorem fadd_error_step (A c s e x : ℚ) (k : ℕ) (hk : k ≤ 2 ^ 52)
    (hc : c = (2 : ℚ) ^ (-53 : ℤ) * A + (2 : ℚ) ^ (-1075 : ℤ)) (hA : 0 ≤ A)
    (hs : |s - e| ≤ 2 * (k : ℚ) * c) (he : |e + x| ≤ A) :
    |round64 (s + x) - (e + x)| ≤ 2 * ((k + 1 : ℕ) : ℚ) * c := by
  have hr := round64_error (s + x)
  have hu : (0 : ℚ) < (2 : ℚ) ^ (-53 : ℤ) := by positivity
  have hη : (0 : ℚ) < (2 : ℚ) ^ (-1075 : ℤ) := by positivity
  have hc0 : 0 ≤ c := by rw [hc]; positivity
  have hsx : |s + x| ≤ A + 2 * (k : ℚ) * c := by
    calc |s + x| = |(e + x) + (s - e)| := by congr 1; ring
      _ ≤ |e + x| + |s - e| := abs_add _ _
      _ ≤ A + 2 * (k : ℚ) * c := add_le_add he hs
  have hku : 2 * (k : ℚ) * (2 : ℚ) ^ (-53 : ℤ) ≤ 1 := by
    have hk' : (k : ℚ) ≤ (2 : ℚ) ^ (52 : ℕ) := by exact_mod_cast hk
    have : (2 : ℚ) ^ (-53 : ℤ) = 1 / (2 * (2 : ℚ) ^ (52 : ℕ)) := by
      rw [zpow_neg, one_div]
      norm_num
    rw [this, mul_one_div, div_le_one (by positivity)]
    linarith
  have h1 : |round64 (s + x) - (e + x)| ≤ |round64 (s + x) - (s + x)| + |s - e| := by
    calc |round64 (s + x) - (e + x)| = |(round64 (s + x) - (s + x)) + (s - e)| := by
          congr 1; ring
      _ ≤ _ := abs_add _ _
  have h2 : (2 : ℚ) ^ (-53 : ℤ) * |s + x| ≤ (2 : ℚ) ^ (-53 : ℤ) * (A + 2 * (k : ℚ) * c) :=
    mul_le_mul_of_nonneg_left hsx hu.le
  have h3 : 2 * (k : ℚ) * (2 : ℚ) ^ (-53 : ℤ) * c ≤ 1 * c := mul_le_mul_of_nonneg_right hku hc0
  push_cast
  rw [hc] at h3 ⊢
  rw [hc] at h2 hs
  nlinarith

/-- The error of a running sum in binary64: for at most `2^52` terms whose
magnitudes add up to at most `A`, the sum computed term by term is within
`2 * n * (2^-53 * A + 2^-1075)` of the exact sum. -/
theorem foldl_fadd_error (A : ℚ) (xs : List ℚ) (k : ℕ) (s e : ℚ)
    (hs : |s - e| ≤ 2 * (k : ℚ) * ((2 : ℚ) ^ (-53 : ℤ) * A + (2 : ℚ) ^ (-1075 : ℤ)))
    (he : |e| + (xs.map fun x => |x|).sum ≤ A) (hk : k + xs.length ≤ 2 ^ 52) :
    |xs.foldl fadd s - (e + xs.sum)| ≤
      2 * ((k + xs.length : ℕ) : ℚ) * ((2 : ℚ) ^ (-53 : ℤ) * A + (2 : ℚ) ^ (-1075 : ℤ)) := by
  induction xs generalizing k s e with
  | nil => simpa using hs
  | cons x xs ih =>
    rw [List.map_cons, List.sum_cons] at he
    rw [List.length_cons] at hk
    have hsum0 : 0 ≤ (xs.map fun x => |x|).sum :=
      List.sum_nonneg (by
        intro y hy
        obtain ⟨z, -, rfl⟩ := List.mem_map.mp hy
        exact abs_nonneg z)
    have hA : 0 ≤ A := by
      have := abs_nonneg e
      have := abs_nonneg x
      linarith
    have hex : |e + x| ≤ A := by
      have := abs_add e x
      linarith
    have hstep := fadd_error_step A _ s e x k (by omega) rfl hA hs hex
    have hrec := ih (k + 1) (fadd s x) (e + x) hstep (by
      have := abs_add e x
      linarith) (by omega)
    rw [List.foldl_cons, List.sum_cons, List.length_cons]
    have e1 : e + (x + xs.sum) = e + x + xs.sum := by ring
    have e2 : k + (xs.length + 1) = k + 1 + xs.length := by ring
    rw [e1, e2]
    exact hrec

/-- The running sum from zero. -/
theorem fsum_error (A : ℚ) (xs : List ℚ) (hA : (xs.map fun x => |x|).sum ≤ A)
    (hn : xs.length ≤ 2 ^ 52) :
    |xs.foldl fadd 0 - xs.sum| ≤
      2 * (xs.length : ℚ) * ((2 : ℚ) ^ (-53 : ℤ) * A + (2 : ℚ) ^ (-1075 : ℤ)) := by
  have h := foldl_fadd_error A xs 0 0 0 (by simp) (by simpa using hA) (by simpa using hn)
  simpa using h

end Binary64

/-! ## The split calculator in binary64 -/

theorem foldl_fadd_map {α : Type} (f : α → ℚ) (l : List α) (a : ℚ) :
    l.foldl (fun acc x => Binary64.fadd acc (f x)) a = (l.map f).foldl Binary64.fadd a := by
  rw [List.foldl_map]

/-- The equal branch of `Binary64.calculateSplits`. -/
theorem calculateSplits64_equal (expense : Expense) (req : ExpenseCreateRequest)
    (ht : req.SplitType = SplitTypeEqual) :
    Binary64.calculateSplits expense req = .ok (req.SplitWith.map fun userID =>
      { UserID := userID
        Amount := Binary64.fdiv expense.Amount (Binary64.round64 (req.SplitWith.length : ℚ))
        Percent := Binary64.fdiv 100 (Binary64.round64 (req.SplitWith.length : ℚ))
        IsSettled := decide (userID = expense.PaidBy) }) := by
  simp [Binary64.calculateSplits, ht]

/-- The custom branch of `Binary64.calculateSplits`. -/
theorem calculateSplits64_custom (expense : Expense) (req : ExpenseCreateRequest)
    (ht : req.SplitType = SplitTypeCustom) :
    Binary64.calculateSplits expense req =
      if Binary64.runningSum (req.CustomSplit.map (·.Amount)) = expense.Amount then
        .ok (req.CustomSplit.map fun entry =>
          { UserID := entry.UserID
            Amount := entry.Amount
            Percent := Binary64.fmul (Binary64.fdiv entry.Amount expense.Amount) 100
            IsSettled := decide (entry.UserID = expense.PaidBy) })
      else .error .ErrInvalidCustomSplit := by
  have hsum := foldl_fadd_map (fun entry : CustomSplitEntry => entry.Amount) req.CustomSplit 0
  simp only [Binary64.calculateSplits, ht, SplitTypeCustom_ne_Equal, if_false, if_true, hsum,
    ne_eq, ite_not, Binary64.runningSum]

/-- The percent branch of `Binary64.calculateSplits`. -/
theorem calculateSplits64_percent (expense : Expense) (req : ExpenseCreateRequest)
    (ht : req.SplitType = SplitTypePercent) :
    Binary64.calculateSplits expense req =
      if Binary64.runningSum (req.CustomSplit.map (·.Percent)) = 100 then
        .ok (req.CustomSplit.map fun entry =>
          { UserID := entry.UserID
            Amount := Binary64.fmul (Binary64.fdiv entry.Percent 100) expense.Amount
            Percent := entry.Percent
            IsSettled := decide (entry.UserID = expense.PaidBy) })
      else .error (.errorsNew "percentages must add up to 100") := by
  have hsum := foldl_fadd_map (fun entry : CustomSplitEntry => entry.Percent) req.CustomSplit 0
  simp only [Binary64.calculateSplits, ht, SplitTypePercent_ne_Equal, SplitTypePercent_ne_Custom,
    if_false, if_true, hsum, ne_eq, ite_not, Binary64.runningSum]

/-- Any other tag: the `switch` matches no case. -/
theorem calculateSplits64_other (expense : Expense) (req : ExpenseCreateRequest)
    (h1 : req.SplitType ≠ SplitTypeEqual) (h2 : req.SplitType ≠ SplitTypeCustom)
    (h3 : req.SplitType ≠ SplitTypePercent) :
    Binary64.calculateSplits expense req = .ok [] := by
  simp [Binary64.calculateSplits, h1, h2, h3]

/-- The running sum of at most 100 amounts of magnitude at most `10^8` is
within `1/1000` of their exact sum. -/
theorem runningSum_close (xs : List ℚ) (hn : xs.length ≤ 100) (hx : ∀ x ∈ xs, |x| ≤ 10 ^ 8) :
    |Binary64.runningSum xs - xs.sum| ≤ 1 / 1000 := by
  have hA : (xs.map fun x => |x|).sum ≤ (xs.length : ℚ) * 10 ^ 8 := by
    have := List.sum_le_card_nsmul (xs.map fun x => |x|) (10 ^ 8) (by
      intro y hy
      obtain ⟨z, hz, rfl⟩ := List.mem_map.mp hy
      exact hx z hz)
    simpa using this
  have hlen : (xs.length : ℚ) ≤ 100 := by exact_mod_cast hn
  have hA' : (xs.map fun x => |x|).sum ≤ 10 ^ 10 := by
    calc (xs.map fun x => |x|).sum ≤ (xs.length : ℚ) * 10 ^ 8 := hA
      _ ≤ 100 * 10 ^ 8 := by nlinarith
      _ = 10 ^ 10 := by norm_num
  have h := Binary64.fsum_error (10 ^ 10) xs hA' (by
    calc xs.length ≤ 100 := hn
      _ ≤ 2 ^ 52 := by norm_num)
  have hc : (0 : ℚ) ≤ (2 : ℚ) ^ (-53 : ℤ) * 10 ^ 10 + (2 : ℚ) ^ (-1075 : ℤ) := by positivity
  have hbound : 2 * (100 : ℚ) * ((2 : ℚ) ^ (-53 : ℤ) * 10 ^ 10 + (2 : ℚ) ^ (-1075 : ℤ))
      ≤ 1 / 1000 := by
    have h1 : (2 : ℚ) ^ (-1075 : ℤ) ≤ (2 : ℚ) ^ (-53 : ℤ) :=
      zpow_le_zpow_right₀ (by norm_num) (by norm_num)
    have h2 : (2 : ℚ) ^ (-53 : ℤ) = 1 / 9007199254740992 := by
      rw [zpow_neg, one_div]
      norm_num
    rw [h2] at h1 ⊢
    nlinarith
  unfold Binary64.runningSum
  calc |xs.foldl Binary64.fadd 0 - xs.sum|
      ≤ 2 * (xs.length : ℚ) * ((2 : ℚ) ^ (-53 : ℤ) * 10 ^ 10 + (2 : ℚ) ^ (-1075 : ℤ)) := h
    _ ≤ 2 * (100 : ℚ) * ((2 : ℚ) ^ (-53 : ℤ) * 10 ^ 10 + (2 : ℚ) ^ (-1075 : ℤ)) := by
      apply mul_le_mul_of_nonneg_right _ hc
      linarith
    _ ≤ 1 / 1000 := hbound

/-- C3 (as stated, refuted): amount `10^16` with custom shares A: `10^16`,
B: 1.  The supplied amounts sum to `10^16 + 1`, which differs from the amount
by 1, more than 0.01; but the binary64 sum of `10^16` and 1 is `10^16` (the
binary64 numbers there are 2 apart), so `calculateSplits` finds the sum equal to
the amount and returns the two shares without error. -/
theorem custom_split_mismatch_absorbed :
    1 / 100 < |(([{ UserID := 1, Amount := 10 ^ 16 }, { UserID := 2, Amount := 1 }] :
        List CustomSplitEntry).map (·.Amount)).sum - 10 ^ 16| ∧
    Binary64.calculateSplits { Amount := 10 ^ 16, PaidBy := 1 }
      { Amount := 10 ^ 16, SplitType := SplitTypeCustom, SplitWith := [1, 2],
        CustomSplit := [{ UserID := 1, Amount := 10 ^ 16 }, { UserID := 2, Amount := 1 }] }
      = .ok [{ UserID := 1, Amount := 10 ^ 16, Percent := 100, IsSettled := true },
             { UserID := 2, Amount := 1,
               Percent := Binary64.fmul (Binary64.fdiv 1 (10 ^ 16)) 100, IsSettled := false }] := by
  decide!

/-- C3 (amended): for the custom strategy, `calculateSplits` fails with
`ErrInvalidCustomSplit` (an error result carries no shares) whenever the sum of
the supplied amounts as binary64 accumulates it differs from `expense.Amount`.
For at most 100 amounts of magnitude at most `10^8` (the range of the
`DECIMAL(10,2)` columns) this is the case whenever the exact sum differs from
`expense.Amount` by more than 0.01. -/
theorem custom_split_mismatch (expense : Expense) (req : ExpenseCreateRequest)
    (ht : req.SplitType = SplitTypeCustom) :
    (Binary64.runningSum (req.CustomSplit.map (·.Amount)) ≠ expense.Amount →
      Binary64.calculateSplits expense req = .error .ErrInvalidCustomSplit) ∧
    (req.CustomSplit.length ≤ 100 → (∀ entry ∈ req.CustomSplit, |entry.Amount| ≤ 10 ^ 8) →
      1 / 100 < |(req.CustomSplit.map (·.Amount)).sum - expense.Amount| →
      Binary64.calculateSplits expense req = .error .ErrInvalidCustomSplit) := by
  rw [calculateSplits64_custom expense req ht]
  constructor
  · intro h
    rw [if_neg h]
  · intro hlen hmag hdiff
    rw [if_neg]
    intro heq
    have hclose := runningSum_close (req.CustomSplit.map (·.Amount))
      (by rw [List.length_map]; exact hlen)
      (by
        intro x hx
        obtain ⟨entry, hentry, rfl⟩ := List.mem_map.mp hx
        exact hmag entry hentry)
    rw [heq, abs_sub_comm] at hclose
    linarith

/-- Witness for `custom_split_mismatch`, the example of the specification:
amount 100 with custom shares A:40, B:50. -/
theorem custom_split_mismatch_witness :
    Binary64.calculateSplits { Amount := 100, PaidBy := 1 }
      { Amount := 100, SplitType := SplitTypeCustom, SplitWith := [1, 2],
        CustomSplit := [{ UserID := 1, Amount := 40 }, { UserID := 2, Amount := 50 }] }
      = .error .ErrInvalidCustomSplit :=
  (custom_split_mismatch { Amount := 100, PaidBy := 1 }
      { Amount := 100, SplitType := SplitTypeCustom, SplitWith := [1, 2],
        CustomSplit := [{ UserID := 1, Amount := 40 }, { UserID := 2, Amount := 50 }] } rfl).2
    (by decide) (by decide!) (by decide!)

/-- C4 (as stated, refuted): amount 100 with custom shares A: 50, B: 50.005 (as
binary64 reads that decimal).  The supplied amounts sum to a value within 0.01
of the amount without being equal to it, and `calculateSplits` rejects the
request with `ErrInvalidCustomSplit`. -/
theorem custom_split_tolerance_fails :
    |(([{ UserID := 1, Amount := 50 },
        { UserID := 2, Amount := Binary64.round64 (50005 / 1000) }] :
        List CustomSplitEntry).map (·.Amount)).sum - 100| ≤ 1 / 100 ∧
    (([{ UserID := 1, Amount := 50 },
        { UserID := 2, Amount := Binary64.round64 (50005 / 1000) }] :
        List CustomSplitEntry).map (·.Amount)).sum ≠ 100 ∧
    Binary64.calculateSplits { Amount := 100, PaidBy := 1 }
      { Amount := 100, SplitType := SplitTypeCustom, SplitWith := [1, 2],
        CustomSplit := [{ UserID := 1, Amount := 50 },
          { UserID := 2, Amount := Binary64.round64 (50005 / 1000) }] }
      = .error .ErrInvalidCustomSplit := by
  decide!

/-- C4 (amended): for the custom strategy there is no tolerance: the sum of the
supplied amounts as binary64 accumulates it is compared with `expense.Amount`
for equality.  `calculateSplits` returns shares when the two are equal and
fails with `ErrInvalidCustomSplit` whenever they differ, by however little.
(The bounds keep the sum below the overflow threshold of binary64.) -/
theorem custom_split_exact (expense : Expense) (req : ExpenseCreateRequest)
    (ht : req.SplitType = SplitTypeCustom) (_hlen : req.CustomSplit.length ≤ 2 ^ 20)
    (_hmod : ∀ entry ∈ req.CustomSplit, Binary64.Moderate entry.Amount) :
    (Binary64.runningSum (req.CustomSplit.map (·.Amount)) = expense.Amount →
      ∃ shares, Binary64.calculateSplits expense req = .ok shares) ∧
    (Binary64.runningSum (req.CustomSplit.map (·.Amount)) ≠ expense.Amount →
      Binary64.calculateSplits expense req = .error .ErrInvalidCustomSplit) := by
  rw [calculateSplits64_custom expense req ht]
  constructor
  · intro h
    rw [if_pos h]
    exact ⟨_, rfl⟩
  · intro h
    rw [if_neg h]

/-- Witness for `custom_split_exact`: 100 as 40 + 60 is accepted, 100 as
50 + 50.005 is rejected. -/
theorem custom_split_exact_witness :
    (∃ shares, Binary64.calculateSplits { Amount := 100, PaidBy := 1 }
      { Amount := 100, SplitType := SplitTypeCustom, SplitWith := [1, 2],
        CustomSplit := [{ UserID := 1, Amount := 40 }, { UserID := 2, Amount := 60 }] }
      = .ok shares) ∧
    Binary64.calculateSplits { Amount := 100, PaidBy := 1 }
      { Amount := 100, SplitType := SplitTypeCustom, SplitWith := [1, 2],
        CustomSplit := [{ UserID := 1, Amount := 50 },
          { UserID := 2, Amount := Binary64.round64 (50005 / 1000) }] }
      = .error .ErrInvalidCustomSplit :=
  ⟨(custom_split_exact { Amount := 100, PaidBy := 1 }
      { Amount := 100, SplitType := SplitTypeCustom, SplitWith := [1, 2],
        CustomSplit := [{ UserID := 1, Amount := 40 }, { UserID := 2, Amount := 60 }] }
      rfl (by decide) (by decide!)).1 (by decide!),
   (custom_split_exact { Amount := 100, PaidBy := 1 }
      { Amount := 100, SplitType := SplitTypeCustom, SplitWith := [1, 2],
        CustomSplit := [{ UserID := 1, Amount := 50 },
          { UserID := 2, Amount := Binary64.round64 (50005 / 1000) }] }
      rfl (by decide) (by decide!)).2 (by decide!)⟩

/-- C5 (as stated, refuted): the percentages 33.4, 33.3, 33.3 (as binary64
reads these decimals), which add up to 100 as decimals, are refused: binary64
accumulates them to 99.99999999999999.  The same three percentages in the
order 33.3, 33.3, 33.4 are accepted.  Whether the request is refused depends
on the order of the entries, not on what the percentages sum to. -/
theorem percent_split_order_dependent :
    ((334 / 10 + 333 / 10 + 333 / 10 : ℚ) = 100) ∧
    ([{ UserID := 1, Percent := Binary64.round64 (333 / 10) },
      { UserID := 2, Percent := Binary64.round64 (333 / 10) },
      { UserID := 3, Percent := Binary64.round64 (334 / 10) }] : List CustomSplitEntry).Perm
      [{ UserID := 3, Percent := Binary64.round64 (334 / 10) },
       { UserID := 1, Percent := Binary64.round64 (333 / 10) },
       { UserID := 2, Percent := Binary64.round64 (333 / 10) }] ∧
    Binary64.calculateSplits { Amount := 200, PaidBy := 1 }
      { Amount := 200, SplitType := SplitTypePercent, SplitWith := [1, 2, 3],
        CustomSplit :=
          [{ UserID := 3, Percent := Binary64.round64 (334 / 10) },
           { UserID := 1, Percent := Binary64.round64 (333 / 10) },
           { UserID := 2, Percent := Binary64.round64 (333 / 10) }] }
      = .error (.errorsNew "percentages must add up to 100") ∧
    (Binary64.calculateSplits { Amount := 200, PaidBy := 1 }
      { Amount := 200, SplitType := SplitTypePercent, SplitWith := [1, 2, 3],
        CustomSplit :=
          [{ UserID := 1, Percent := Binary64.round64 (333 / 10) },
           { UserID := 2, Percent := Binary64.round64 (333 / 10) },
           { UserID := 3, Percent := Binary64.round64 (334 / 10) }] }).toOption.map
        (fun shares => shares.map (·.UserID)) = some [1, 2, 3] := by
  decide!

/-- C5 (amended): for the percent strategy, `calculateSplits` fails when the
sum of the supplied percentages as binary64 accumulates it, from the first
entry to the last, is not 100; otherwise it returns one share per `CustomSplit`
entry, in order, the `i`-th with the user and the percentage of the `i`-th
entry and `Amount = percent / 100 * expense.Amount`, the quotient and the
product rounded to binary64.  (The bounds keep the sum and the products below
the overflow threshold of binary64.) -/
theorem percent_split (expense : Expense) (req : ExpenseCreateRequest)
    (ht : req.SplitType = SplitTypePercent) (_hlen : req.CustomSplit.length ≤ 2 ^ 20)
    (_hmod : ∀ entry ∈ req.CustomSplit, Binary64.Moderate entry.Percent)
    (_hamt : Binary64.Moderate expense.Amount) :
    (Binary64.runningSum (req.CustomSplit.map (·.Percent)) ≠ 100 →
      Binary64.calculateSplits expense req =
        .error (.errorsNew "percentages must add up to 100")) ∧
    (Binary64.runningSum (req.CustomSplit.map (·.Percent)) = 100 →
      ∃ shares, Binary64.calculateSplits expense req = .ok shares ∧
        shares.length = req.CustomSplit.length ∧
        ∀ i (hi : i < req.CustomSplit.length), ∃ s, shares[i]? = some s ∧
          s.UserID = (req.CustomSplit.get ⟨i, hi⟩).UserID ∧
          s.Percent = (req.CustomSplit.get ⟨i, hi⟩).Percent ∧
          s.Amount = Binary64.fmul
            (Binary64.fdiv (req.CustomSplit.get ⟨i, hi⟩).Percent 100) expense.Amount) := by
  rw [calculateSplits64_percent expense req ht]
  constructor
  · intro h
    rw [if_neg h]
  · intro h
    rw [if_pos h]
    refine ⟨_, rfl, by simp, ?_⟩
    intro i hi
    simp [List.getElem?_map, List.getElem?_eq_getElem hi]

/-- Witness for `percent_split`: 25% + 70% of 200 is refused, 25% + 75% of 200
gives the shares 50 and 150. -/
theorem percent_split_witness :
    Binary64.calculateSplits { Amount := 200, PaidBy := 1 }
      { Amount := 200, SplitType := SplitTypePercent, SplitWith := [1, 2],
        CustomSplit := [{ UserID := 1, Percent := 25 }, { UserID := 2, Percent := 70 }] }
      = .error (.errorsNew "percentages must add up to 100") ∧
    (∃ shares, Binary64.calculateSplits { Amount := 200, PaidBy := 1 }
      { Amount := 200, SplitType := SplitTypePercent, SplitWith := [1, 2],
        CustomSplit := [{ UserID := 1, Percent := 25 }, { UserID := 2, Percent := 75 }] }
      = .ok shares ∧ shares.length = 2 ∧
      ∃ s, shares[1]? = some s ∧ s.UserID = 2 ∧ s.Percent = 75 ∧ s.Amount = 150) := by
  refine ⟨(percent_split { Amount := 200, PaidBy := 1 }
      { Amount := 200, SplitType := SplitTypePercent, SplitWith := [1, 2],
        CustomSplit := [{ UserID := 1, Percent := 25 }, { UserID := 2, Percent := 70 }] }
      rfl (by decide) (by decide!) (by decide!)).1 (by decide!), ?_⟩
  obtain ⟨shares, hok, hlen, hget⟩ := (percent_split { Amount := 200, PaidBy := 1 }
      { Amount := 200, SplitType := SplitTypePercent, SplitWith := [1, 2],
        CustomSplit := [{ UserID := 1, Percent := 25 }, { UserID := 2, Percent := 75 }] }
      rfl (by decide) (by decide!) (by decide!)).2 (by decide!)
  refine ⟨shares, hok, hlen, ?_⟩
  obtain ⟨s, hs, hu, hp, ha⟩ := hget 1 (by simp)
  refine ⟨s, hs, hu, hp, ?_⟩
  rw [ha]
  decide!

/-! ## Expense creation against the database -/

/-- The users of the shares `Binary64.calculateSplits` returns, in order: those
of `SplitWith` for the equal strategy, those of the `CustomSplit` entries for
custom and percent. -/
theorem calculateSplits64_users (expense : Expense) (req : ExpenseCreateRequest)
    (shares : List ExpenseSplit) (h : Binary64.calculateSplits expense req = .ok shares) :
    (req.SplitType = SplitTypeEqual → shares.map (·.UserID) = req.SplitWith) ∧
    (req.SplitType = SplitTypeCustom ∨ req.SplitType = SplitTypePercent →
      shares.map (·.UserID) = req.CustomSplit.map (·.UserID)) := by
  constructor
  · intro ht
    rw [calculateSplits64_equal expense req ht] at h
    simp only [Except.ok.injEq] at h
    subst h
    simp [List.map_map, Function.comp_def]
  · rintro (ht | ht)
    · rw [calculateSplits64_custom expense req ht] at h
      split_ifs at h
      simp only [Except.ok.injEq] at h
      subst h
      simp [List.map_map, Function.comp_def]
    · rw [calculateSplits64_percent expense req ht] at h
      split_ifs at h
      simp only [Except.ok.injEq] at h
      subst h
      simp [List.map_map, Function.comp_def]

/-- What a stored row of `expense_splits` keeps of the split: everything but
the two numbers, which are what their columns took. -/
theorem splitRow_ok (st : Store) (split row : ExpenseSplit)
    (h : Binary64.splitRow st split = .ok row) :
    ∃ amount percent, Postgres.decimalColumn 10 split.Amount = some amount ∧
      Postgres.decimalColumn 5 split.Percent = some percent ∧
      Postgres.hasUser st split.UserID = true ∧
      row = { split with Amount := amount, Percent := percent } := by
  unfold Binary64.splitRow at h
  cases ha : Postgres.decimalColumn 10 split.Amount with
  | none => simp [ha] at h
  | some amount =>
    cases hp : Postgres.decimalColumn 5 split.Percent with
    | none => simp [ha, hp] at h
    | some percent =>
      simp only [ha, hp] at h
      by_cases hu : Postgres.hasUser st split.UserID = true
      · rw [if_pos hu] at h
        simp only [Except.ok.injEq] at h
        exact ⟨amount, percent, rfl, rfl, hu, h.symm⟩
      · rw [if_neg hu] at h
        simp at h

theorem splitRows_nil (st : Store) : Binary64.splitRows st [] = .ok [] := rfl

theorem splitRows_cons (st : Store) (split : ExpenseSplit) (rest : List ExpenseSplit) :
    Binary64.splitRows st (split :: rest) =
      match Binary64.splitRow st split with
      | .error err => .error err
      | .ok row =>
        match Binary64.splitRows st rest with
        | .error err => .error err
        | .ok rows => .ok (row :: rows) := rfl

/-- The rows stored for a list of splits, one by one. -/
theorem splitRows_ok (st : Store) (splits rows : List ExpenseSplit)
    (h : Binary64.splitRows st splits = .ok rows) :
    List.Forall₂ (fun split row => Binary64.splitRow st split = .ok row) splits rows := by
  induction splits generalizing rows with
  | nil =>
    rw [splitRows_nil] at h
    simp only [Except.ok.injEq] at h
    subst h
    exact List.Forall₂.nil
  | cons split rest ih =>
    rw [splitRows_cons] at h
    cases h1 : Binary64.splitRow st split with
    | error err =>
      rw [h1] at h
      cases h
    | ok row =>
      cases h2 : Binary64.splitRows st rest with
      | error err =>
        rw [h1, h2] at h
        cases h
      | ok rows' =>
        rw [h1, h2] at h
        simp only [Except.ok.injEq] at h
        subst h
        exact List.Forall₂.cons h1 (ih rows' h2)

theorem forall₂_splitRow_map_UserID (st : Store) (splits rows : List ExpenseSplit)
    (hf : List.Forall₂ (fun split row => Binary64.splitRow st split = .ok row) splits rows) :
    rows.map (·.UserID) = splits.map (·.UserID) := by
  induction hf with
  | nil => rfl
  | cons hrow _ ih =>
    obtain ⟨a, p, -, -, -, rfl⟩ := splitRow_ok st _ _ hrow
    simp only [List.map_cons]
    rw [ih]

theorem forall₂_splitRow_map_ExpenseID (st : Store) (splits rows : List ExpenseSplit)
    (hf : List.Forall₂ (fun split row => Binary64.splitRow st split = .ok row) splits rows) :
    rows.map (·.ExpenseID) = splits.map (·.ExpenseID) := by
  induction hf with
  | nil => rfl
  | cons hrow _ ih =>
    obtain ⟨a, p, -, -, -, rfl⟩ := splitRow_ok st _ _ hrow
    simp only [List.map_cons]
    rw [ih]


/-- The user of every split detail is the user of its split. -/
theorem splitDetailsOf_users (st : Store) (splits : List ExpenseSplit)
    (details : List ExpenseSplitDetail) (h : splitDetailsOf st splits = .ok details) :
    details.map (·.User.ID) = splits.map (·.UserID) := by
  induction splits generalizing details with
  | nil =>
    have h0 : splitDetailsOf st [] = .ok [] := rfl
    rw [h0] at h
    simp only [Except.ok.injEq] at h
    subst h
    rfl
  | cons split rest ih =>
    have hc : splitDetailsOf st (split :: rest) =
        match UserRepository.GetByID st split.UserID with
        | .error err => .error err
        | .ok user =>
          match splitDetailsOf st rest with
          | .error err => .error err
          | .ok details =>
            .ok ({ ID := split.ID, User := user.ToResponse, Amount := split.Amount,
                   Percent := split.Percent, IsSettled := split.IsSettled } :: details) := rfl
    rw [hc] at h
    cases h1 : UserRepository.GetByID st split.UserID with
    | error err =>
      rw [h1] at h
      cases h
    | ok user =>
      cases h2 : splitDetailsOf st rest with
      | error err =>
        rw [h1, h2] at h
        cases h
      | ok details' =>
        rw [h1, h2] at h
        simp only [Except.ok.injEq] at h
        subst h
        simp only [List.map_cons]
        rw [ih details' h2]
        have hid := GetByID_ID st split.UserID user h1
        simp only [User.ToResponse, hid]

/-- The splits of a response are the details of the rows of `expense_splits`
with the id of the expense. -/
theorem GetExpenseByID_splits (st : Store) (id : UUID) (r : ExpenseResponse)
    (h : GetExpenseByID st id = .ok r) :
    r.Splits.map (·.User.ID) = (ExpenseRepository.GetSplitsByExpenseID st id).map (·.UserID) := by
  unfold GetExpenseByID at h
  cases he : ExpenseRepository.GetByID st id with
  | error err =>
    rw [he] at h
    cases h
  | ok expense =>
    rw [he] at h
    simp only at h
    have hid : expense.ID = id := by
      unfold ExpenseRepository.GetByID at he
      cases hf : st.expenses.find? (fun expense => decide (expense.ID = id)) with
      | none => simp [hf] at he
      | some e =>
        simp only [hf, Except.ok.injEq] at he
        subst he
        simpa using List.find?_some hf
    unfold buildExpenseResponse at h
    cases hp : UserRepository.GetByID st expense.PaidBy with
    | error err =>
      rw [hp] at h
      cases h
    | ok payer =>
      rw [hp] at h
      simp only at h
      cases hd : splitDetailsOf st (ExpenseRepository.GetSplitsByExpenseID st expense.ID) with
      | error err =>
        rw [hd] at h
        cases h
      | ok details =>
        rw [hd] at h
        simp only [Except.ok.injEq] at h
        subst h
        simp only
        rw [splitDetailsOf_users st _ _ hd, hid]

/-- Inversion of a successful `Binary64.CreateExpense`: the request passed the
three checks, the split succeeded, PostgreSQL took the rows, and the response
is what reading the expense back gives. -/
theorem CreateExpense64_ok (st : Store) (teamID paidBy : UUID)
    (req : ExpenseCreateRequest) (r : ExpenseResponse)
    (h : (Binary64.CreateExpense st teamID paidBy req).1 = .ok r) :
    0 < req.Amount ∧ req.SplitWith ≠ [] ∧
    ((effectiveRequest req).SplitType = SplitTypeEqual ∨
      (effectiveRequest req).SplitType = SplitTypeCustom ∨
      (effectiveRequest req).SplitType = SplitTypePercent) ∧
    ∃ shares row rows,
      Binary64.calculateSplits
        { TeamID := teamID, PaidBy := paidBy, Amount := req.Amount,
          Description := req.Description, Category := req.Category,
          SplitType := (effectiveRequest req).SplitType }
        (effectiveRequest req) = .ok shares ∧
      Binary64.expenseRow st
        { ID := st.nextID, TeamID := teamID, PaidBy := paidBy, Amount := req.Amount,
          Description := req.Description, Category := req.Category,
          SplitType := (effectiveRequest req).SplitType } = .ok row ∧
      Binary64.splitRows st (assignSplitIDs st.nextID (st.nextID + 1) shares) = .ok rows ∧
      (Binary64.CreateExpense st teamID paidBy req).2 =
        ApprovalRepository.Create
          { st with
            expenses := st.expenses ++ [row]
            expense_splits := st.expense_splits ++ rows
            nextID := st.nextID + 1 + shares.length }
          { ExpenseID := st.nextID, Status := ApprovalStatusPending } ∧
      GetExpenseByID (Binary64.CreateExpense st teamID paidBy req).2 st.nextID = .ok r := by
  have heff : (if req.SplitType = "" then { req with SplitType := SplitTypeEqual } else req)
      = effectiveRequest req := rfl
  have hamt : (effectiveRequest req).Amount = req.Amount := by
    unfold effectiveRequest; split_ifs <;> rfl
  have hdesc : (effectiveRequest req).Description = req.Description := by
    unfold effectiveRequest; split_ifs <;> rfl
  have hcat : (effectiveRequest req).Category = req.Category := by
    unfold effectiveRequest; split_ifs <;> rfl
  unfold Binary64.CreateExpense at h ⊢
  simp only [heff, hamt, hdesc, hcat] at h ⊢
  by_cases h1 : req.Amount ≤ 0
  · rw [if_pos h1] at h
    cases h
  rw [if_neg h1] at h ⊢
  by_cases h2 : req.SplitWith.length = 0
  · rw [if_pos h2] at h
    cases h
  rw [if_neg h2] at h ⊢
  by_cases h3 : (effectiveRequest req).SplitType ≠ SplitTypeEqual ∧
      (effectiveRequest req).SplitType ≠ SplitTypeCustom ∧
      (effectiveRequest req).SplitType ≠ SplitTypePercent
  · rw [if_pos h3] at h
    cases h
  rw [if_neg h3] at h ⊢
  have hvalid : (effectiveRequest req).SplitType = SplitTypeEqual ∨
      (effectiveRequest req).SplitType = SplitTypeCustom ∨
      (effectiveRequest req).SplitType = SplitTypePercent := by
    by_contra hc
    push_neg at hc
    exact h3 hc
  refine ⟨not_le.mp h1, fun hnil => h2 (by rw [hnil]; rfl), hvalid, ?_⟩
  cases hcalc : Binary64.calculateSplits
      { TeamID := teamID, PaidBy := paidBy, Amount := req.Amount,
        Description := req.Description, Category := req.Category,
        SplitType := (effectiveRequest req).SplitType }
      (effectiveRequest req) with
  | error err =>
    rw [hcalc] at h
    cases h
  | ok shares =>
    rw [hcalc] at h
    simp only at h ⊢
    unfold Binary64.ExpenseRepository.Create at h ⊢
    simp only at h ⊢
    cases hrow : Binary64.expenseRow st
        { ID := st.nextID, TeamID := teamID, PaidBy := paidBy, Amount := req.Amount,
          Description := req.Description, Category := req.Category,
          SplitType := (effectiveRequest req).SplitType } with
    | error err =>
      rw [hrow] at h
      cases h
    | ok row =>
      rw [hrow] at h
      simp only at h ⊢
      cases hrows : Binary64.splitRows st (assignSplitIDs st.nextID (st.nextID + 1) shares) with
      | error err =>
        rw [hrows] at h
        cases h
      | ok rows =>
        rw [hrows] at h
        simp only at h ⊢
        exact ⟨shares, row, rows, rfl, rfl, hrows, rfl, h⟩

/-- The rows of `expense_splits` stored for a new expense carry its id. -/
theorem forall₂_splitRow_ExpenseID (st : Store) (splits rows : List ExpenseSplit) (id : UUID)
    (hf : List.Forall₂ (fun split row => Binary64.splitRow st split = .ok row) splits rows)
    (hid : ∀ sp ∈ splits, sp.ExpenseID = id) : ∀ row ∈ rows, row.ExpenseID = id := by
  induction hf with
  | nil => intro row hrow; cases hrow
  | cons hrow _ ih =>
    rename_i split row' l₁ l₂ _
    obtain ⟨a, p, -, -, -, rfl⟩ := splitRow_ok st _ _ hrow
    intro row hmem
    rw [List.mem_cons] at hmem
    rcases hmem with rfl | hmem
    · exact hid split (List.mem_cons_self _ _)
    · exact ih (fun sp hsp => hid sp (List.mem_cons_of_mem _ hsp)) row hmem

/-- The users of the splits in the response of a successful
`Binary64.CreateExpense`, in order: those of the shares that the split
calculator returned. -/
theorem CreateExpense64_users (st : Store) (teamID paidBy : UUID)
    (req : ExpenseCreateRequest) (r : ExpenseResponse)
    (h : (Binary64.CreateExpense st teamID paidBy req).1 = .ok r)
    (hfresh : ∀ split ∈ st.expense_splits, split.ExpenseID ≠ st.nextID) :
    ∃ shares,
      Binary64.calculateSplits
        { TeamID := teamID, PaidBy := paidBy, Amount := req.Amount,
          Description := req.Description, Category := req.Category,
          SplitType := (effectiveRequest req).SplitType }
        (effectiveRequest req) = .ok shares ∧
      r.Splits.map (·.User.ID) = shares.map (·.UserID) := by
  obtain ⟨-, -, -, shares, row, rows, hcalc, -, hrows, hst, hget⟩ :=
    CreateExpense64_ok st teamID paidBy req r h
  refine ⟨shares, hcalc, ?_⟩
  have hf := splitRows_ok st _ _ hrows
  rw [GetExpenseByID_splits _ _ _ hget,
    GetSplitsByExpenseID_new st _ st.nextID rows (by rw [hst]; rfl)
      (forall₂_splitRow_ExpenseID st _ _ _ hf (assignSplitIDs_ExpenseID _ _ _)) hfresh,
    forall₂_splitRow_map_UserID st _ _ hf, assignSplitIDs_map_UserID]

/-- C7 (as stated, refuted), two requests that `CreateExpense` accepts on a
database with the users 1, 2, 3 and the team 7.  Custom split of 100 with
participants `[1, 2]` and the single custom entry `3: 100`: the response has
one share, that of user 3, and users 1 and 2 have none.  Equal split of 100
with participants `[1, 1]`: user 1 has two shares. -/
theorem one_share_per_participant_fails :
    ((Binary64.CreateExpense freshStore 7 1
        { Amount := 100, SplitType := SplitTypeCustom, SplitWith := [1, 2],
          CustomSplit := [{ UserID := 3, Amount := 100 }] }).1.toOption.map
        fun r => r.Splits.map (·.User.ID)) = some [3] ∧
    (1 : UUID) ∈ ([1, 2] : List UUID) ∧ ([3] : List UUID).count 1 = 0 ∧
    ((Binary64.CreateExpense freshStore 7 1
        { Amount := 100, SplitType := SplitTypeEqual, SplitWith := [1, 1] }).1.toOption.map
        fun r => r.Splits.map (·.User.ID)) = some [1, 1] ∧
    (1 : UUID) ∈ ([1, 1] : List UUID) ∧ ([1, 1] : List UUID).count 1 = 2 := by
  decide!

/-- C7 (amended): for every `CreateExpense` request that succeeds (the split
succeeds and the database takes the rows), if `SplitWith` lists no user twice
and, for the custom and percent strategies, the `CustomSplit` entries name
exactly the users of `SplitWith`, once each, then every user in `SplitWith` has
exactly one share in the response.  (The identifier drawn for the expense is
new: no row of `expense_splits` refers to it yet.) -/
theorem one_share_per_participant (st : Store) (teamID paidBy : UUID)
    (req : ExpenseCreateRequest) (r : ExpenseResponse)
    (h : (Binary64.CreateExpense st teamID paidBy req).1 = .ok r)
    (hfresh : ∀ split ∈ st.expense_splits, split.ExpenseID ≠ st.nextID)
    (hnodup : req.SplitWith.Nodup)
    (hentries : req.SplitType = SplitTypeCustom ∨ req.SplitType = SplitTypePercent →
      (req.CustomSplit.map (·.UserID)).Perm req.SplitWith) :
    ∀ u ∈ req.SplitWith, (r.Splits.map (·.User.ID)).count u = 1 := by
  obtain ⟨-, -, hvalid, -⟩ := CreateExpense64_ok st teamID paidBy req r h
  obtain ⟨shares, hcalc, hsplits⟩ := CreateExpense64_users st teamID paidBy req r h hfresh
  have husers := calculateSplits64_users _ _ _ hcalc
  intro u hu
  rw [hsplits]
  by_cases h0 : req.SplitType = ""
  · rw [effectiveRequest_of_empty req h0] at husers
    rw [husers.1 rfl]
    exact List.count_eq_one_of_mem hnodup hu
  · rw [effectiveRequest_of_ne req h0] at husers hvalid
    rcases hvalid with ht | ht | ht
    · rw [husers.1 ht]
      exact List.count_eq_one_of_mem hnodup hu
    · rw [husers.2 (Or.inl ht), (hentries (Or.inl ht)).count_eq]
      exact List.count_eq_one_of_mem hnodup hu
    · rw [husers.2 (Or.inr ht), (hentries (Or.inr ht)).count_eq]
      exact List.count_eq_one_of_mem hnodup hu

/-- Witness for `one_share_per_participant`: 100 paid by user 1 in team 7,
custom split with the entries `2: 60` and `1: 40` over the participants
`[1, 2]`; the request succeeds and user 2 has exactly one share in the
response. -/
theorem one_share_per_participant_witness :
    (Binary64.CreateExpense freshStore 7 1
      { Amount := 100, SplitType := SplitTypeCustom, SplitWith := [1, 2],
        CustomSplit := [{ UserID := 2, Amount := 60 }, { UserID := 1, Amount := 40 }] }).1
      = .ok { ID := 100, TeamID := 7, PaidBy := { ID := 1 }, Amount := 100,
              SplitType := SplitTypeCustom, ApprovalStatus := ApprovalStatusPending,
              Splits :=
                [{ ID := 101, User := { ID := 2 }, Amount := 60, Percent := 60 },
                 { ID := 102, User := { ID := 1 }, Amount := 40, Percent := 40,
                   IsSettled := true }] } ∧
    (([{ ID := 101, User := { ID := 2 }, Amount := 60, Percent := 60 },
       { ID := 102, User := { ID := 1 }, Amount := 40, Percent := 40,
         IsSettled := true }] : List ExpenseSplitDetail).map (·.User.ID)).count 2 = 1 := by
  have hrun : (Binary64.CreateExpense freshStore 7 1
      { Amount := 100, SplitType := SplitTypeCustom, SplitWith := [1, 2],
        CustomSplit := [{ UserID := 2, Amount := 60 }, { UserID := 1, Amount := 40 }] }).1
      = .ok { ID := 100, TeamID := 7, PaidBy := { ID := 1 }, Amount := 100,
              SplitType := SplitTypeCustom, ApprovalStatus := ApprovalStatusPending,
              Splits :=
                [{ ID := 101, User := { ID := 2 }, Amount := 60, Percent := 60 },
                 { ID := 102, User := { ID := 1 }, Amount := 40, Percent := 40,
                   IsSettled := true }] } := by
    decide!
  exact ⟨hrun, one_share_per_participant freshStore 7 1 _ _ hrun (by decide) (by decide)
    (fun _ => by simpa using List.Perm.swap 1 2 []) 2 (by simp)⟩

/-! ## The balance engine in binary64: netting -/

theorem fsub_antisymm (x y : ℚ) : Binary64.fsub y x = - Binary64.fsub x y := by
  unfold Binary64.fsub
  rw [← Binary64.round64_neg]
  congr 1
  ring

theorem lt_of_fsub_neg (x y : ℚ) (h : Binary64.fsub x y < 0) : x < y := by
  have := Binary64.neg_of_round64_neg (x - y) h
  linarith

theorem lt_of_fsub_pos (x y : ℚ) (h : 0 < Binary64.fsub x y) : y < x := by
  have := Binary64.pos_of_round64_pos (x - y) h
  linarith

theorem simplifyBalances64_eq_foldl (ord : RangeOrder) (m : BalanceMap) :
    Binary64.simplifyBalances ord m
      = (visited ord m).foldl (fun s t => Binary64.simplifyEntry m t.1 s t.2.1 t.2.2) ∅ := by
  unfold Binary64.simplifyBalances visited
  exact foldl_nested (ord.outer m) (fun o => ord.inner o.1 o.2)
    (fun o i => ((o.1, i.1, i.2) : DebtFact))
    (fun s t => Binary64.simplifyEntry m t.1 s t.2.1 t.2.2) ∅

theorem simplifyEntry64_eq (m : BalanceMap) (f : UUID) (s : BalanceMap) (t : UUID)
    (amount : ℚ) :
    Binary64.simplifyEntry m f s t amount =
      if amount ≤ 0 then s
      else if Binary64.fsub amount (getAmount m t f) > 0 then
        setEdge s f t (Binary64.fsub amount (getAmount m t f))
      else if Binary64.fsub amount (getAmount m t f) < 0 then
        setEdge s t f (-Binary64.fsub amount (getAmount m t f))
      else s := rfl

/-- One step of `Binary64.simplifyBalances` leaves the result alone or writes
one edge with a positive amount. -/
theorem simplifyEntry64_cases_pos (m : BalanceMap) (f : UUID) (s : BalanceMap) (t : UUID)
    (amount : ℚ) :
    Binary64.simplifyEntry m f s t amount = s ∨
      ∃ a b w, 0 < w ∧ Binary64.simplifyEntry m f s t amount = setEdge s a b w := by
  rw [simplifyEntry64_eq]
  split_ifs with h1 h2 h3
  · exact Or.inl rfl
  · exact Or.inr ⟨f, t, _, h2, rfl⟩
  · exact Or.inr ⟨t, f, _, by linarith, rfl⟩
  · exact Or.inl rfl

/-- One step of `Binary64.simplifyBalances` on an entry of `m` leaves the
result alone or writes a netted edge of `m`. -/
theorem simplifyEntry64_cases (m : BalanceMap) (f : UUID) (s : BalanceMap) (t : UUID)
    (amount : ℚ) (hamount : amount = getAmount m f t) :
    Binary64.simplifyEntry m f s t amount = s ∨
      ∃ a b w, Binary64.netEdge m a b = some w ∧
        Binary64.simplifyEntry m f s t amount = setEdge s a b w := by
  rw [simplifyEntry64_eq]
  split_ifs with h1 h2 h3
  · exact Or.inl rfl
  · refine Or.inr ⟨f, t, _, ?_, rfl⟩
    unfold Binary64.netEdge
    rw [← hamount, if_pos ⟨not_le.mp h1, h2⟩]
  · refine Or.inr ⟨t, f, _, ?_, rfl⟩
    unfold Binary64.netEdge
    rw [← hamount]
    have hlt := lt_of_fsub_neg _ _ h3
    have hpos : 0 < getAmount m t f ∧ 0 < Binary64.fsub (getAmount m t f) amount := by
      constructor
      · linarith [not_le.mp h1]
      · rw [fsub_antisymm]
        linarith
    rw [if_pos hpos, fsub_antisymm]
  · exact Or.inl rfl

theorem simplifyEntry64_of_netEdge (m : BalanceMap) (f : UUID) (s : BalanceMap) (t : UUID)
    (w : ℚ) (h : Binary64.netEdge m f t = some w) :
    Binary64.simplifyEntry m f s t (getAmount m f t) = setEdge s f t w := by
  unfold Binary64.netEdge at h
  split_ifs at h with hc
  simp only [Option.some.injEq] at h
  rw [simplifyEntry64_eq, if_neg (not_le.mpr hc.1), if_pos hc.2, h]

/-- The fold of `Binary64.simplifyBalances` over entries of `m`: every entry
of the result is a netted edge of `m`, entries persist, and the netted edge of
every visited pair is written. -/
theorem simplify64_fold_spec (m : BalanceMap) (l : List DebtFact)
    (hl : ∀ t ∈ l, t.2.2 = getAmount m t.1 t.2.1) (s : BalanceMap)
    (hs : ∀ a b v, entry? s a b = some v → Binary64.netEdge m a b = some v) :
    (∀ a b v,
      entry? (l.foldl (fun s t => Binary64.simplifyEntry m t.1 s t.2.1 t.2.2) s) a b = some v →
      Binary64.netEdge m a b = some v) ∧
    (∀ a b v, entry? s a b = some v →
      entry? (l.foldl (fun s t => Binary64.simplifyEntry m t.1 s t.2.1 t.2.2) s) a b = some v) ∧
    (∀ t ∈ l, ∀ w, Binary64.netEdge m t.1 t.2.1 = some w →
      entry? (l.foldl (fun s t => Binary64.simplifyEntry m t.1 s t.2.1 t.2.2) s) t.1 t.2.1
        = some w) := by
  induction l generalizing s with
  | nil =>
    refine ⟨hs, fun a b v h => h, ?_⟩
    intro t ht
    cases ht
  | cons t rest ih =>
    have ht : t.2.2 = getAmount m t.1 t.2.1 := hl t (List.mem_cons_self _ _)
    have hrest : ∀ x ∈ rest, x.2.2 = getAmount m x.1 x.2.1 :=
      fun x hx => hl x (List.mem_cons_of_mem _ hx)
    have hs1 : ∀ a b v, entry? (Binary64.simplifyEntry m t.1 s t.2.1 t.2.2) a b = some v →
        Binary64.netEdge m a b = some v := by
      intro a b v hv
      rcases simplifyEntry64_cases m t.1 s t.2.1 t.2.2 ht with h | ⟨x, y, w, hP, h⟩
      · rw [h] at hv
        exact hs a b v hv
      · rw [h, entry?_setEdge] at hv
        split_ifs at hv with hxy
        · obtain ⟨rfl, rfl⟩ := hxy
          rw [← hv]
          exact hP
        · exact hs a b v hv
    have hkeep : ∀ a b v, entry? s a b = some v →
        entry? (Binary64.simplifyEntry m t.1 s t.2.1 t.2.2) a b = some v := by
      intro a b v hv
      rcases simplifyEntry64_cases m t.1 s t.2.1 t.2.2 ht with h | ⟨x, y, w, hP, h⟩
      · rw [h]
        exact hv
      · rw [h, entry?_setEdge]
        split_ifs with hxy
        · obtain ⟨rfl, rfl⟩ := hxy
          rw [← hP]
          exact hs a b v hv
        · exact hv
    obtain ⟨ih1, ih2, ih3⟩ := ih hrest (Binary64.simplifyEntry m t.1 s t.2.1 t.2.2) hs1
    rw [List.foldl_cons]
    refine ⟨ih1, fun a b v hv => ih2 a b v (hkeep a b v hv), ?_⟩
    intro x hx w hw
    rcases List.mem_cons.mp hx with rfl | hx
    · apply ih2
      rw [ht, simplifyEntry64_of_netEdge m _ s _ w hw, entry?_setEdge]
      simp
    · exact ih3 x hx w hw

/-- The result of `Binary64.simplifyBalances`, whatever the order of the
visit: the entry under `a` then `b` is the netted edge of the pair. -/
theorem entry?_simplifyBalances64 (ord : RangeOrder) (hv : ord.Valid) (m : BalanceMap)
    (a b : UUID) : entry? (Binary64.simplifyBalances ord m) a b = Binary64.netEdge m a b := by
  have hl : ∀ t ∈ visited ord m, t.2.2 = getAmount m t.1 t.2.1 := by
    rintro ⟨x, y, v⟩ ht
    exact (getAmount_of_entry? m x y v ((mem_visited ord hv m x y v).mp ht)).symm
  obtain ⟨h1, -, h3⟩ := simplify64_fold_spec m (visited ord m) hl ∅
    (fun a b v h => by rw [entry?_empty] at h; cases h)
  rw [simplifyBalances64_eq_foldl]
  cases hn : Binary64.netEdge m a b with
  | none =>
    cases hE : entry? ((visited ord m).foldl
        (fun s t => Binary64.simplifyEntry m t.1 s t.2.1 t.2.2) ∅) a b with
    | none => rfl
    | some v =>
      rw [h1 a b v hE] at hn
      cases hn
  | some w =>
    have hpos : getAmount m a b ≠ 0 := by
      unfold Binary64.netEdge at hn
      split_ifs at hn with hc
      exact hc.1.ne'
    have hmem : (a, b, getAmount m a b) ∈ visited ord m :=
      (mem_visited ord hv m a b _).mpr (entry?_of_getAmount_ne_zero m a b hpos)
    exact h3 _ hmem w hn

theorem netEdge64_pos (m : BalanceMap) (a b : UUID) (w : ℚ)
    (h : Binary64.netEdge m a b = some w) :
    0 < w ∧ 0 < getAmount m a b ∧ w = Binary64.fsub (getAmount m a b) (getAmount m b a) := by
  unfold Binary64.netEdge at h
  split_ifs at h with hc
  simp only [Option.some.injEq] at h
  exact ⟨h ▸ hc.2, hc.1, h.symm⟩

/-! ## The balance engine in binary64: transfers and member summaries -/

theorem recordTransfer64_eq (st : Store) (f : UUID)
    (acc : List BalanceResponse × GoMap UserBalanceSummary) (t : UUID) (amount : ℚ) :
    Binary64.recordTransfer st f acc t amount =
      match Binary64.transferOf st (f, t, amount) with
      | none => acc
      | some tr => (acc.1 ++ [tr], Binary64.applyTransfer acc.2 tr) := by
  unfold Binary64.recordTransfer Binary64.transferOf
  by_cases ha : amount > Binary64.threshold
  · simp only [if_pos ha]
    cases hf : UserRepository.GetByID st f with
    | error e => rfl
    | ok fromUser =>
      cases ht : UserRepository.GetByID st t with
      | error e => rfl
      | ok toUser =>
        have h1 := GetByID_ID st f fromUser hf
        have h2 := GetByID_ID st t toUser ht
        subst h1
        subst h2
        rfl
  · simp only [if_neg ha]

theorem foldl_recordTransfer64 (st : Store) (l : List DebtFact)
    (acc : List BalanceResponse × GoMap UserBalanceSummary) :
    l.foldl (fun acc t => Binary64.recordTransfer st t.1 acc t.2.1 t.2.2) acc =
      (acc.1 ++ l.filterMap (Binary64.transferOf st),
        (l.filterMap (Binary64.transferOf st)).foldl Binary64.applyTransfer acc.2) := by
  induction l generalizing acc with
  | nil => simp
  | cons t rest ih =>
    rw [List.foldl_cons, ih, recordTransfer64_eq, List.filterMap_cons]
    cases h : Binary64.transferOf st (t.1, t.2.1, t.2.2) with
    | none =>
      have h' : Binary64.transferOf st t = none := h
      simp [h']
    | some tr =>
      have h' : Binary64.transferOf st t = some tr := h
      simp [h']

/-- The transfer list: one transfer per visited entry above the constant 0.01
whose users are found. -/
theorem buildSummary64_fst (st : Store) (ord : RangeOrder) (members : List MemberDetail)
    (s : BalanceMap) :
    (Binary64.buildSummary st ord members s).1 =
      (visited ord s).filterMap (Binary64.transferOf st) := by
  unfold Binary64.buildSummary
  have h := foldl_nested (ord.outer s) (fun o => ord.inner o.1 o.2)
    (fun o i => ((o.1, i.1, i.2) : DebtFact))
    (fun acc t => Binary64.recordTransfer st t.1 acc t.2.1 t.2.2)
    (([] : List BalanceResponse), initSummaries st members)
  simp only [] at h ⊢
  rw [h, foldl_recordTransfer64]
  rfl

/-- The member list: the values of the summaries map, visited in some order. -/
theorem buildSummary64_snd (st : Store) (ord : RangeOrder) (members : List MemberDetail)
    (s : BalanceMap) :
    (Binary64.buildSummary st ord members s).2 =
      (ord.summaries (((visited ord s).filterMap (Binary64.transferOf st)).foldl
        Binary64.applyTransfer (initSummaries st members))).map fun e => e.2 := by
  unfold Binary64.buildSummary
  have h := foldl_nested (ord.outer s) (fun o => ord.inner o.1 o.2)
    (fun o i => ((o.1, i.1, i.2) : DebtFact))
    (fun acc t => Binary64.recordTransfer st t.1 acc t.2.1 t.2.2)
    (([] : List BalanceResponse), initSummaries st members)
  simp only [] at h ⊢
  rw [h, foldl_recordTransfer64]
  rfl

theorem applyTransfer64_eq (ms : GoMap UserBalanceSummary) (tr : BalanceResponse) :
    Binary64.applyTransfer ms tr =
      updateSummary
        (updateSummary ms tr.FromUser.ID fun summary =>
          { summary with
            TotalOwed := Binary64.fadd summary.TotalOwed tr.Amount
            NetBalance := Binary64.fsub summary.NetBalance tr.Amount })
        tr.ToUser.ID fun summary =>
          { summary with
            TotalOwing := Binary64.fadd summary.TotalOwing tr.Amount
            NetBalance := Binary64.fadd summary.NetBalance tr.Amount } := rfl

theorem lookup_applyTransfer64 (ms : GoMap UserBalanceSummary) (tr : BalanceResponse)
    (k : UUID) :
    (Binary64.applyTransfer ms tr).lookup k
      = (ms.lookup k).map fun s => Binary64.settleStep k s tr := by
  rw [applyTransfer64_eq, lookup_updateSummary, lookup_updateSummary]
  cases ms.lookup k with
  | none => rfl
  | some s =>
    simp only [Option.map_some', Option.some.injEq, Binary64.settleStep]
    by_cases h1 : k = tr.FromUser.ID <;> by_cases h2 : k = tr.ToUser.ID
    · have h1' : tr.FromUser.ID = k := h1.symm
      have h2' : tr.ToUser.ID = k := h2.symm
      simp only [if_pos h1, if_pos h2, if_pos h1', if_pos h2']
    · have h1' : tr.FromUser.ID = k := h1.symm
      have h2' : ¬ tr.ToUser.ID = k := fun h => h2 h.symm
      simp only [if_pos h1, if_neg h2, if_pos h1', if_neg h2']
    · have h1' : ¬ tr.FromUser.ID = k := fun h => h1 h.symm
      have h2' : tr.ToUser.ID = k := h2.symm
      simp only [if_neg h1, if_pos h2, if_neg h1', if_pos h2']
    · have h1' : ¬ tr.FromUser.ID = k := fun h => h1 h.symm
      have h2' : ¬ tr.ToUser.ID = k := fun h => h2 h.symm
      simp only [if_neg h1, if_neg h2, if_neg h1', if_neg h2']

/-- The summary of `k` after the transfers: the initial one, settled. -/
theorem lookup_foldl_applyTransfer64 (transfers : List BalanceResponse)
    (ms : GoMap UserBalanceSummary) (k : UUID) :
    (transfers.foldl Binary64.applyTransfer ms).lookup k
      = (ms.lookup k).map (Binary64.settle k transfers) := by
  induction transfers generalizing ms with
  | nil =>
    cases hl : ms.lookup k with
    | none => simp [hl]
    | some s => simp [hl, Binary64.settle]
  | cons tr rest ih =>
    rw [List.foldl_cons, ih, lookup_applyTransfer64]
    cases ms.lookup k with
    | none => rfl
    | some s => simp [Binary64.settle]

/-- The members of the response: the settled zero summaries of the members
whose user row is found. -/
theorem mem_buildSummary64_snd (st : Store) (ord : RangeOrder) (hv : ord.Valid)
    (members : List MemberDetail) (s : BalanceMap) (x : UserBalanceSummary) :
    x ∈ (Binary64.buildSummary st ord members s).2 ↔
      ∃ k z, (members.any fun member => decide (member.UserID = k)) = true ∧
        zeroSummary st k = some z ∧
        x = Binary64.settle k (Binary64.buildSummary st ord members s).1 z := by
  rw [buildSummary64_snd, buildSummary64_fst]
  simp only [List.mem_map]
  constructor
  · rintro ⟨⟨k, y⟩, he, rfl⟩
    have he' := (hv.2.2 _).mem_iff.mp he
    have hl := AList.mem_lookup_iff.mpr he'
    rw [lookup_foldl_applyTransfer64, lookup_initSummaries] at hl
    split_ifs at hl with hm
    · cases hz : zeroSummary st k with
      | none => simp [hz] at hl
      | some z =>
        rw [hz] at hl
        exact ⟨k, z, hm, hz, (Option.some.inj hl).symm⟩
    · simp at hl
  · rintro ⟨k, z, hm, hz, rfl⟩
    refine ⟨⟨k, _⟩, ?_, rfl⟩
    apply (hv.2.2 _).mem_iff.mpr
    apply AList.mem_lookup_iff.mp
    rw [lookup_foldl_applyTransfer64, lookup_initSummaries, if_pos hm, hz]
    rfl

/-- The transfers of the response, whatever the order of the visit. -/
theorem mem_buildSummary64_fst (st : Store) (ord : RangeOrder) (hv : ord.Valid)
    (members : List MemberDetail) (s : BalanceMap) (tr : BalanceResponse) :
    tr ∈ (Binary64.buildSummary st ord members s).1 ↔
      ∃ a b v, entry? s a b = some v ∧ Binary64.transferOf st (a, b, v) = some tr := by
  rw [buildSummary64_fst, List.mem_filterMap]
  constructor
  · rintro ⟨⟨a, b, v⟩, hmem, ht⟩
    exact ⟨a, b, v, (mem_visited ord hv s a b v).mp hmem, ht⟩
  · rintro ⟨a, b, v, he, ht⟩
    exact ⟨(a, b, v), (mem_visited ord hv s a b v).mpr he, ht⟩

theorem transferOf64_some (st : Store) (t : DebtFact) (tr : BalanceResponse)
    (h : Binary64.transferOf st t = some tr) :
    t.2.2 > Binary64.threshold ∧ tr.FromUser.ID = t.1 ∧ tr.ToUser.ID = t.2.1 ∧
      tr.Amount = t.2.2 := by
  unfold Binary64.transferOf at h
  split_ifs at h with ha
  cases hf : UserRepository.GetByID st t.1 with
  | error e => simp [hf] at h
  | ok fromUser =>
    cases ht : UserRepository.GetByID st t.2.1 with
    | error e => simp [hf, ht] at h
    | ok toUser =>
      simp only [hf, ht, Option.some.injEq] at h
      subst h
      exact ⟨ha, GetByID_ID st _ _ hf, GetByID_ID st _ _ ht, rfl⟩

theorem transferOf64_of_users (st : Store) (a b : UUID) (v : ℚ) (ua ub : User)
    (ha : UserRepository.GetByID st a = .ok ua) (hb : UserRepository.GetByID st b = .ok ub)
    (hv : v > Binary64.threshold) :
    Binary64.transferOf st (a, b, v)
      = some { FromUser := ua.ToResponse, ToUser := ub.ToResponse, Amount := v } := by
  unfold Binary64.transferOf
  simp only [if_pos hv, ha, hb]

/-- What a successful `Binary64.CalculateBalances` returns. -/
theorem CalculateBalances64_ok (st : Store) (ord : RangeOrder) (teamID : UUID)
    (r : TeamBalanceSummary) (h : Binary64.CalculateBalances st ord teamID = .ok r) :
    r.Balances = (Binary64.buildSummary st ord (TeamRepository.GetTeamMembers st teamID)
      (Binary64.simplifyBalances ord (Binary64.rawBalanceMap st teamID))).1 ∧
    r.Members = (Binary64.buildSummary st ord (TeamRepository.GetTeamMembers st teamID)
      (Binary64.simplifyBalances ord (Binary64.rawBalanceMap st teamID))).2 := by
  unfold Binary64.CalculateBalances at h
  cases ht : TeamRepository.GetByID st teamID with
  | error e => simp [ht] at h
  | ok team =>
    simp only [ht, Except.ok.injEq] at h
    subst h
    exact ⟨rfl, rfl⟩

theorem threshold_pos : 0 < Binary64.threshold := by decide!

/-! ## Netting and the transfer list in binary64 -/

theorem CalculateBalances64_of_team (st : Store) (ord : RangeOrder) (teamID : UUID)
    (team : Team) (h : TeamRepository.GetByID st teamID = .ok team) :
    Binary64.CalculateBalances st ord teamID =
      .ok { TeamID := teamID, TeamName := team.Name
            Balances := (Binary64.buildSummary st ord (TeamRepository.GetTeamMembers st teamID)
              (Binary64.simplifyBalances ord (Binary64.rawBalanceMap st teamID))).1
            Members := (Binary64.buildSummary st ord (TeamRepository.GetTeamMembers st teamID)
              (Binary64.simplifyBalances ord (Binary64.rawBalanceMap st teamID))).2 } := by
  unfold Binary64.CalculateBalances
  rw [h]
  rfl

/-- C13: for two distinct users `A`, `B` (both with a user row) whose raw edges
are `A -> B = x` and `B -> A = y`, absent edges counting as 0, with at least
one of `x`, `y` positive, the transfer list of `CalculateBalances` contains
`A -> B` with amount `x - y` if `x - y > 0.01`, contains `B -> A` with amount
`y - x` if `x - y < -0.01`, and contains no transfer between `A` and `B`
otherwise.  The raw edges are the `float64` values that the code accumulates,
`x - y` and `y - x` are the `float64` differences that it computes
(`Binary64.fsub`), and `0.01` is its `float64` constant
(`Binary64.threshold`). -/
theorem pairwise_netting_rule (st : Store) (ord : RangeOrder) (teamID : UUID)
    (r : TeamBalanceSummary) (A B : UUID) (userA userB : User)
    (hv : ord.Valid) (h : Binary64.CalculateBalances st ord teamID = .ok r)
    (_hAB : A ≠ B)
    (hA : UserRepository.GetByID st A = .ok userA)
    (hB : UserRepository.GetByID st B = .ok userB)
    (hpos : 0 < getAmount (Binary64.rawBalanceMap st teamID) A B ∨
      0 < getAmount (Binary64.rawBalanceMap st teamID) B A) :
    (Binary64.fsub (getAmount (Binary64.rawBalanceMap st teamID) A B)
        (getAmount (Binary64.rawBalanceMap st teamID) B A) > Binary64.threshold →
      ({ FromUser := userA.ToResponse, ToUser := userB.ToResponse,
         Amount := Binary64.fsub (getAmount (Binary64.rawBalanceMap st teamID) A B)
           (getAmount (Binary64.rawBalanceMap st teamID) B A) } : BalanceResponse)
        ∈ r.Balances) ∧
    (Binary64.fsub (getAmount (Binary64.rawBalanceMap st teamID) A B)
        (getAmount (Binary64.rawBalanceMap st teamID) B A) < -Binary64.threshold →
      ({ FromUser := userB.ToResponse, ToUser := userA.ToResponse,
         Amount := Binary64.fsub (getAmount (Binary64.rawBalanceMap st teamID) B A)
           (getAmount (Binary64.rawBalanceMap st teamID) A B) } : BalanceResponse)
        ∈ r.Balances) ∧
    (¬ (Binary64.fsub (getAmount (Binary64.rawBalanceMap st teamID) A B)
          (getAmount (Binary64.rawBalanceMap st teamID) B A) > Binary64.threshold) →
      ¬ (Binary64.fsub (getAmount (Binary64.rawBalanceMap st teamID) A B)
          (getAmount (Binary64.rawBalanceMap st teamID) B A) < -Binary64.threshold) →
      ∀ tr ∈ r.Balances,
        ¬ (tr.FromUser.ID = A ∧ tr.ToUser.ID = B) ∧
        ¬ (tr.FromUser.ID = B ∧ tr.ToUser.ID = A)) := by
  obtain ⟨hbal, -⟩ := CalculateBalances64_ok st ord teamID r h
  have hthr := threshold_pos
  rw [hbal]
  refine ⟨?_, ?_, ?_⟩
  · intro hgt
    rw [mem_buildSummary64_fst st ord hv]
    refine ⟨A, B, _, ?_, transferOf64_of_users st A B _ userA userB hA hB hgt⟩
    rw [entry?_simplifyBalances64 ord hv]
    unfold Binary64.netEdge
    have hd : 0 < Binary64.fsub (getAmount (Binary64.rawBalanceMap st teamID) A B)
        (getAmount (Binary64.rawBalanceMap st teamID) B A) := by linarith
    have hx : 0 < getAmount (Binary64.rawBalanceMap st teamID) A B := by
      rcases hpos with hp | hp
      · exact hp
      · have := lt_of_fsub_pos _ _ hd
        linarith
    rw [if_pos ⟨hx, hd⟩]
  · intro hlt
    have hgt : Binary64.fsub (getAmount (Binary64.rawBalanceMap st teamID) B A)
        (getAmount (Binary64.rawBalanceMap st teamID) A B) > Binary64.threshold := by
      rw [fsub_antisymm]
      linarith
    rw [mem_buildSummary64_fst st ord hv]
    refine ⟨B, A, _, ?_, transferOf64_of_users st B A _ userB userA hB hA hgt⟩
    rw [entry?_simplifyBalances64 ord hv]
    unfold Binary64.netEdge
    have hd : 0 < Binary64.fsub (getAmount (Binary64.rawBalanceMap st teamID) B A)
        (getAmount (Binary64.rawBalanceMap st teamID) A B) := by linarith
    have hy : 0 < getAmount (Binary64.rawBalanceMap st teamID) B A := by
      rcases hpos with hp | hp
      · have := lt_of_fsub_pos _ _ hd
        linarith
      · exact hp
    rw [if_pos ⟨hy, hd⟩]
  · intro h1 h2 tr htr
    rw [mem_buildSummary64_fst st ord hv] at htr
    obtain ⟨a, b, v, hentry, htransfer⟩ := htr
    obtain ⟨hv01, hfrom, hto, -⟩ := transferOf64_some st (a, b, v) tr htransfer
    rw [entry?_simplifyBalances64 ord hv] at hentry
    obtain ⟨-, -, hval⟩ := netEdge64_pos _ a b v hentry
    simp only at hv01 hfrom hto
    constructor
    · rintro ⟨hfa, htb⟩
      rw [hfrom] at hfa
      rw [hto] at htb
      subst hfa htb
      apply h1
      rw [← hval]
      exact hv01
    · rintro ⟨hfb, hta⟩
      rw [hfrom] at hfb
      rw [hto] at hta
      subst hfb hta
      apply h2
      rw [fsub_antisymm] at hval
      linarith

/-- Witness for `pairwise_netting_rule`: user 2 owes user 1 a share of 0.07
and has settled 0.06, user 1 owes user 2 nothing.  The raw edge from 2 to 1 is
the binary64 difference 0.010000000000000009, which exceeds the constant 0.01,
and the transfer list contains `2 -> 1` with that amount. -/
theorem pairwise_netting_rule_witness :
    getAmount (Binary64.rawBalanceMap centStore 7) 2 1 =
      45035996273705 / 4503599627370496 ∧
    ∃ r, Binary64.CalculateBalances centStore RangeOrder.stored 7 = .ok r ∧
      ({ FromUser := { ID := 2 }, ToUser := { ID := 1 },
         Amount := 45035996273705 / 4503599627370496 } : BalanceResponse) ∈ r.Balances := by
  have hx : getAmount (Binary64.rawBalanceMap centStore 7) 2 1 =
      45035996273705 / 4503599627370496 := by decide!
  have hy : getAmount (Binary64.rawBalanceMap centStore 7) 1 2 = 0 := by decide!
  refine ⟨hx, _, CalculateBalances64_of_team centStore RangeOrder.stored 7
    { ID := 7, Name := "trip" } rfl, ?_⟩
  have h := (pairwise_netting_rule centStore RangeOrder.stored 7 _ 2 1 { ID := 2 } { ID := 1 }
    stored_valid
    (CalculateBalances64_of_team centStore RangeOrder.stored 7 { ID := 7, Name := "trip" } rfl)
    (by decide) rfl rfl
    (Or.inl (by rw [hx]; norm_num))).1
    (by rw [hx, hy]; decide!)
  rw [hx, hy] at h
  have hd : Binary64.fsub (45035996273705 / 4503599627370496) 0 =
      45035996273705 / 4503599627370496 := by decide!
  rw [hd] at h
  exact h

/-! ## Recording a settlement -/

/-- The handler on a request that is authenticated, names a team and has a
body. -/
theorem RecordSettlement_handler_eq (st : Store) (ord : RangeOrder) (userID teamID : UUID)
    (req : SettlementRequest) :
    BalanceHandler.RecordSettlement st ord (some userID) (some teamID) (some req) =
      if TeamRepository.IsMember st teamID userID = false then
        (utils.Forbidden "You are not a member of this team", st)
      else if req.FromUser ≠ userID ∧ req.ToUser ≠ userID then
        (utils.Forbidden "You can only record settlements involving yourself", st)
      else if req.Amount ≤ 0 then
        (utils.BadRequest "Amount must be greater than 0", st)
      else
        match RecordSettlement st teamID req with
        | (.error _, st') => (utils.InternalError "Failed to record settlement", st')
        | (.ok _, recorded) =>
          match Binary64.CalculateBalances recorded ord teamID with
          | .error _ => (utils.InternalError "Failed to get updated balances", recorded)
          | .ok _ => (utils.Success "Settlement recorded successfully", recorded) :=
  rfl

theorem RecordSettlement_handler_none (st : Store) (ord : RangeOrder) (userID teamID : UUID) :
    BalanceHandler.RecordSettlement st ord (some userID) (some teamID) none =
      if TeamRepository.IsMember st teamID userID = false then
        (utils.Forbidden "You are not a member of this team", st)
      else (utils.BadRequest "Invalid request body", st) := rfl

/-- Whether PostgreSQL takes the row of a settlement: the amount fits the
column and the team and both users have rows. -/
theorem RecordSettlement_cases (st : Store) (teamID : UUID) (req : SettlementRequest) :
    (∃ amount, Postgres.decimalColumn 10 req.Amount = some amount ∧
      Postgres.hasTeam st teamID = true ∧ Postgres.hasUser st req.FromUser = true ∧
      Postgres.hasUser st req.ToUser = true ∧
      RecordSettlement st teamID req =
        (.ok (),
          { st with
            settlements := st.settlements ++
              [{ ID := st.nextID, TeamID := teamID, FromUser := req.FromUser,
                 ToUser := req.ToUser, Amount := amount }]
            nextID := st.nextID + 1 })) ∨
    ((Postgres.decimalColumn 10 req.Amount = none ∨ Postgres.hasTeam st teamID = false ∨
        Postgres.hasUser st req.FromUser = false ∨ Postgres.hasUser st req.ToUser = false) ∧
      ∃ err, RecordSettlement st teamID req = (.error err, st)) := by
  unfold RecordSettlement SettlementRepository.Create
  simp only
  cases hd : Postgres.decimalColumn 10 req.Amount with
  | none => exact Or.inr ⟨Or.inl rfl, _, rfl⟩
  | some amount =>
    simp only
    by_cases hfk : Postgres.hasTeam st teamID = true ∧ Postgres.hasUser st req.FromUser = true ∧
        Postgres.hasUser st req.ToUser = true
    · rw [if_pos hfk]
      exact Or.inl ⟨amount, rfl, hfk.1, hfk.2.1, hfk.2.2, rfl⟩
    · rw [if_neg hfk]
      refine Or.inr ⟨Or.inr ?_, _, rfl⟩
      by_contra hc
      push_neg at hc
      apply hfk
      simpa using hc

theorem hasTeam_GetByID (st : Store) (teamID : UUID) (h : Postgres.hasTeam st teamID = true) :
    ∃ team, TeamRepository.GetByID st teamID = .ok team := by
  unfold Postgres.hasTeam at h
  unfold TeamRepository.GetByID
  cases hf : st.teams.find? (fun team => decide (team.ID = teamID)) with
  | none =>
    rw [List.find?_eq_none] at hf
    rw [List.any_eq_true] at h
    obtain ⟨team, hmem, hid⟩ := h
    exact absurd hid (hf team hmem)
  | some team => exact ⟨team, rfl⟩

/-- The outcomes of `BalanceHandler.RecordSettlement` on a request that passes
the checks of the handler: 200 and the row appended when PostgreSQL takes the
row, 500 and nothing written when it refuses it. -/
theorem RecordSettlement_checked (st : Store) (ord : RangeOrder) (userID teamID : UUID)
    (req : SettlementRequest)
    (hmem : TeamRepository.IsMember st teamID userID = true)
    (hinv : req.FromUser = userID ∨ req.ToUser = userID) (hamt : 0 < req.Amount) :
    (∃ amount, Postgres.decimalColumn 10 req.Amount = some amount ∧
      Postgres.hasTeam st teamID = true ∧ Postgres.hasUser st req.FromUser = true ∧
      Postgres.hasUser st req.ToUser = true ∧
      BalanceHandler.RecordSettlement st ord (some userID) (some teamID) (some req) =
        (utils.Success "Settlement recorded successfully",
          { st with
            settlements := st.settlements ++
              [{ ID := st.nextID, TeamID := teamID, FromUser := req.FromUser,
                 ToUser := req.ToUser, Amount := amount }]
            nextID := st.nextID + 1 })) ∨
    ((Postgres.decimalColumn 10 req.Amount = none ∨ Postgres.hasTeam st teamID = false ∨
        Postgres.hasUser st req.FromUser = false ∨ Postgres.hasUser st req.ToUser = false) ∧
      BalanceHandler.RecordSettlement st ord (some userID) (some teamID) (some req) =
        (utils.InternalError "Failed to record settlement", st)) := by
  have hinv' : ¬ (req.FromUser ≠ userID ∧ req.ToUser ≠ userID) := by
    rintro ⟨h1, h2⟩
    rcases hinv with h | h
    · exact h1 h
    · exact h2 h
  rw [RecordSettlement_handler_eq, if_neg (by rw [hmem]; decide), if_neg hinv',
    if_neg (not_le.mpr hamt)]
  rcases RecordSettlement_cases st teamID req with
    ⟨amount, hd, ht, hf, hto, heq⟩ | ⟨hfail, err, heq⟩
  · left
    refine ⟨amount, hd, ht, hf, hto, ?_⟩
    rw [heq]
    obtain ⟨team, hteam⟩ := hasTeam_GetByID st teamID ht
    have hteam' : TeamRepository.GetByID
        { st with
          settlements := st.settlements ++
            [{ ID := st.nextID, TeamID := teamID, FromUser := req.FromUser,
               ToUser := req.ToUser, Amount := amount }]
          nextID := st.nextID + 1 } teamID = .ok team := hteam
    simp only
    rw [CalculateBalances64_of_team _ ord teamID team hteam']
  · right
    refine ⟨hfail, ?_⟩
    rw [heq]

/-- The outcomes of `BalanceHandler.RecordSettlement`: either the store is left
as it was and the response is an error, or the request carries a positive
amount and its settlement is appended. -/
theorem RecordSettlement_outcome (st : Store) (ord : RangeOrder) (ctxUserID : Option UUID)
    (teamIdVar : Option UUID) (body : Option SettlementRequest) :
    ((BalanceHandler.RecordSettlement st ord ctxUserID teamIdVar body).2 = st ∧
      (BalanceHandler.RecordSettlement st ord ctxUserID teamIdVar body).1.Body.Success = false ∧
      ∀ userID teamID req, ctxUserID = some userID → teamIdVar = some teamID →
        TeamRepository.IsMember st teamID userID = true → body = some req →
        (req.FromUser = userID ∨ req.ToUser = userID) → req.Amount ≤ 0 →
        (BalanceHandler.RecordSettlement st ord ctxUserID teamIdVar body).1
          = utils.BadRequest "Amount must be greater than 0") ∨
    ∃ userID teamID req amount, ctxUserID = some userID ∧ teamIdVar = some teamID ∧
      body = some req ∧ TeamRepository.IsMember st teamID userID = true ∧
      (req.FromUser = userID ∨ req.ToUser = userID) ∧ 0 < req.Amount ∧
      Postgres.decimalColumn 10 req.Amount = some amount ∧
      BalanceHandler.RecordSettlement st ord ctxUserID teamIdVar body =
        (utils.Success "Settlement recorded successfully",
          { st with
            settlements := st.settlements ++
              [{ ID := st.nextID, TeamID := teamID, FromUser := req.FromUser,
                 ToUser := req.ToUser, Amount := amount }]
            nextID := st.nextID + 1 }) := by
  cases ctxUserID with
  | none => exact Or.inl ⟨rfl, rfl, fun _ _ _ h => by cases h⟩
  | some userID =>
    cases teamIdVar with
    | none => exact Or.inl ⟨rfl, rfl, fun _ _ _ _ h => by cases h⟩
    | some teamID =>
      by_cases hmem : TeamRepository.IsMember st teamID userID = false
      · left
        have hH : ∀ body, BalanceHandler.RecordSettlement st ord (some userID) (some teamID) body
            = (utils.Forbidden "You are not a member of this team", st) := by
          intro body
          cases body with
          | none => rw [RecordSettlement_handler_none, if_pos hmem]
          | some req => rw [RecordSettlement_handler_eq, if_pos hmem]
        rw [hH]
        refine ⟨rfl, rfl, ?_⟩
        intro u t req hu ht hm
        cases hu
        cases ht
        rw [hmem] at hm
        cases hm
      · cases body with
        | none =>
          left
          rw [RecordSettlement_handler_none, if_neg hmem]
          exact ⟨rfl, rfl, fun _ _ _ _ _ _ h => by cases h⟩
        | some req =>
          by_cases hinv : req.FromUser ≠ userID ∧ req.ToUser ≠ userID
          · left
            rw [RecordSettlement_handler_eq, if_neg hmem, if_pos hinv]
            refine ⟨rfl, rfl, ?_⟩
            intro u t q hu ht _ hq hor _
            cases hu
            cases ht
            cases hq
            rcases hor with h1 | h1
            · exact absurd h1 hinv.1
            · exact absurd h1 hinv.2
          · by_cases hamt : req.Amount ≤ 0
            · left
              rw [RecordSettlement_handler_eq, if_neg hmem, if_neg hinv, if_pos hamt]
              exact ⟨rfl, rfl, fun _ _ _ _ _ _ _ _ _ => rfl⟩
            · have hmem' : TeamRepository.IsMember st teamID userID = true := by
                simpa using hmem
              have hinv' : req.FromUser = userID ∨ req.ToUser = userID := by
                by_contra hc
                push_neg at hc
                exact hinv hc
              rcases RecordSettlement_checked st ord userID teamID req hmem' hinv'
                  (lt_of_not_ge hamt) with ⟨amount, hd, -, -, -, heq⟩ | ⟨-, heq⟩
              · right
                exact ⟨userID, teamID, req, amount, rfl, rfl, rfl, hmem', hinv',
                  lt_of_not_ge hamt, hd, heq⟩
              · left
                rw [heq]
                refine ⟨rfl, rfl, ?_⟩
                intro u t q hu ht _ hq _ hle
                cases hq
                exact absurd hle hamt

/-- C23 (as stated, refuted): user 1, a member of team 7, records a settlement
of 5 from user 1 to user 1.  `FromUser = ToUser`, yet the request is answered
with 200 and the settlement is appended to the table. -/
theorem self_settlement_accepted :
    ({ FromUser := 1, ToUser := 1, Amount := 5 } : SettlementRequest).FromUser =
      ({ FromUser := 1, ToUser := 1, Amount := 5 } : SettlementRequest).ToUser ∧
    (BalanceHandler.RecordSettlement freshStore RangeOrder.stored (some 1) (some 7)
      (some { FromUser := 1, ToUser := 1, Amount := 5 })).1
        = utils.Success "Settlement recorded successfully" ∧
    (BalanceHandler.RecordSettlement freshStore RangeOrder.stored (some 1) (some 7)
      (some { FromUser := 1, ToUser := 1, Amount := 5 })).1.Status = 200 ∧
    (BalanceHandler.RecordSettlement freshStore RangeOrder.stored (some 1) (some 7)
      (some { FromUser := 1, ToUser := 1, Amount := 5 })).2.settlements
        = [{ ID := 100, TeamID := 7, FromUser := 1, ToUser := 1, Amount := 5 }] := by
  decide!

/-- C23 (amended): recording a settlement is accepted only with a positive
amount (the code compares `FromUser` with `ToUser` nowhere).  A request with
`Amount <= 0` leaves the store as it was and is answered with an error, which
is the validation error 400 "Amount must be greater than 0" whenever the
request passes the checks made before the amount check (authenticated, team id
parsed, requester a member and the payer or the receiver).  A success response
or a changed store implies a request with `Amount > 0` whose settlement is what
was appended, with the amount that the `DECIMAL(10,2)` column took. -/
theorem settlement_validation (st : Store) (ord : RangeOrder) (ctxUserID : Option UUID)
    (teamIdVar : Option UUID) (body : Option SettlementRequest) :
    (∀ req, body = some req → req.Amount ≤ 0 →
      (BalanceHandler.RecordSettlement st ord ctxUserID teamIdVar body).2 = st ∧
      (BalanceHandler.RecordSettlement st ord ctxUserID teamIdVar body).1.Body.Success = false ∧
      ∀ userID teamID, ctxUserID = some userID → teamIdVar = some teamID →
        TeamRepository.IsMember st teamID userID = true →
        (req.FromUser = userID ∨ req.ToUser = userID) →
        (BalanceHandler.RecordSettlement st ord ctxUserID teamIdVar body).1
          = utils.BadRequest "Amount must be greater than 0") ∧
    (((BalanceHandler.RecordSettlement st ord ctxUserID teamIdVar body).1.Body.Success = true ∨
        (BalanceHandler.RecordSettlement st ord ctxUserID teamIdVar body).2 ≠ st) →
      ∃ teamID req amount, teamIdVar = some teamID ∧ body = some req ∧ 0 < req.Amount ∧
        Postgres.decimalColumn 10 req.Amount = some amount ∧
        (BalanceHandler.RecordSettlement st ord ctxUserID teamIdVar body).2 =
          { st with
            settlements := st.settlements ++
              [{ ID := st.nextID, TeamID := teamID, FromUser := req.FromUser,
                 ToUser := req.ToUser, Amount := amount }]
            nextID := st.nextID + 1 }) := by
  refine ⟨?_, ?_⟩
  · intro req hbody hamt
    rcases RecordSettlement_outcome st ord ctxUserID teamIdVar body with
      ⟨h1, h2, h3⟩ | ⟨userID, teamID, req', amount, -, -, hb, -, -, hpos, -, -⟩
    · exact ⟨h1, h2, fun userID teamID hu ht hm hinv =>
        h3 userID teamID req hu ht hm hbody hinv hamt⟩
    · rw [hbody] at hb
      cases hb
      exact absurd hpos (not_lt.mpr hamt)
  · intro hacc
    rcases RecordSettlement_outcome st ord ctxUserID teamIdVar body with
      ⟨h1, h2, -⟩ | ⟨userID, teamID, req', amount, -, ht, hb, -, -, hpos, hd, heq⟩
    · rcases hacc with hs | hs
      · rw [h2] at hs
        cases hs
      · exact absurd h1 hs
    · refine ⟨teamID, req', amount, ht, hb, hpos, hd, ?_⟩
      rw [heq]

/-- Witness for `settlement_validation`: a settlement of amount 0 from user 1
to user 2, requested by user 1, is answered with 400 and nothing is written. -/
theorem settlement_validation_witness :
    (BalanceHandler.RecordSettlement freshStore RangeOrder.stored (some 1) (some 7)
      (some { FromUser := 1, ToUser := 2, Amount := 0 })).2 = freshStore ∧
    (BalanceHandler.RecordSettlement freshStore RangeOrder.stored (some 1) (some 7)
      (some { FromUser := 1, ToUser := 2, Amount := 0 })).1
        = utils.BadRequest "Amount must be greater than 0" := by
  have h := (settlement_validation freshStore RangeOrder.stored (some 1) (some 7)
    (some { FromUser := 1, ToUser := 2, Amount := 0 })).1
    { FromUser := 1, ToUser := 2, Amount := 0 } rfl (le_refl _)
  exact ⟨h.1, h.2.2 1 7 rfl rfl (by decide) (Or.inl rfl)⟩

/-! ## Member summaries in binary64 -/

/-- The error of a running sum, with bounds on the number of terms and on the
sum of their magnitudes. -/
theorem runningSum_bound (xs : List ℚ) (n : ℕ) (A : ℚ) (hlen : xs.length ≤ n)
    (hA : (xs.map fun x => |x|).sum ≤ A) (hn : n ≤ 2 ^ 52) :
    |xs.foldl Binary64.fadd 0 - xs.sum| ≤
      2 * (n : ℚ) * ((2 : ℚ) ^ (-53 : ℤ) * A + (2 : ℚ) ^ (-1075 : ℤ)) := by
  have h := Binary64.fsum_error A xs hA (le_trans hlen hn)
  have hA0 : 0 ≤ A := le_trans (List.sum_nonneg (by
    intro y hy
    obtain ⟨z, -, rfl⟩ := List.mem_map.mp hy
    exact abs_nonneg z)) hA
  have hc : (0 : ℚ) ≤ (2 : ℚ) ^ (-53 : ℤ) * A + (2 : ℚ) ^ (-1075 : ℤ) := by positivity
  have hl : (xs.length : ℚ) ≤ (n : ℚ) := by exact_mod_cast hlen
  calc |xs.foldl Binary64.fadd 0 - xs.sum|
      ≤ 2 * (xs.length : ℚ) * ((2 : ℚ) ^ (-53 : ℤ) * A + (2 : ℚ) ^ (-1075 : ℤ)) := h
    _ ≤ 2 * (n : ℚ) * ((2 : ℚ) ^ (-53 : ℤ) * A + (2 : ℚ) ^ (-1075 : ℤ)) := by
      apply mul_le_mul_of_nonneg_right _ hc
      linarith

theorem fsub_eq_fadd_neg (x y : ℚ) : Binary64.fsub x y = Binary64.fadd x (-y) := by
  unfold Binary64.fsub Binary64.fadd
  rw [sub_eq_add_neg]

theorem settle64_cons (k : UUID) (tr : BalanceResponse) (rest : List BalanceResponse)
    (s : UserBalanceSummary) :
    Binary64.settle k (tr :: rest) s = Binary64.settle k rest (Binary64.settleStep k s tr) :=
  rfl

theorem netTerms_cons (k : UUID) (tr : BalanceResponse) (rest : List BalanceResponse) :
    Binary64.netTerms k (tr :: rest) =
      ((if tr.FromUser.ID = k then [-tr.Amount] else []) ++
        (if tr.ToUser.ID = k then [tr.Amount] else [])) ++ Binary64.netTerms k rest := by
  unfold Binary64.netTerms
  rw [List.flatMap_cons]

/-- The three accumulators of the summary of `k`: running sums in binary64 of
the amounts owed, of the amounts owing, and of both with their signs. -/
theorem settle64_fields (k : UUID) (transfers : List BalanceResponse)
    (s : UserBalanceSummary) :
    (Binary64.settle k transfers s).User = s.User ∧
    (Binary64.settle k transfers s).TotalOwed =
      ((transfers.filter fun tr => decide (tr.FromUser.ID = k)).map fun tr => tr.Amount).foldl
        Binary64.fadd s.TotalOwed ∧
    (Binary64.settle k transfers s).TotalOwing =
      ((transfers.filter fun tr => decide (tr.ToUser.ID = k)).map fun tr => tr.Amount).foldl
        Binary64.fadd s.TotalOwing ∧
    (Binary64.settle k transfers s).NetBalance =
      (Binary64.netTerms k transfers).foldl Binary64.fadd s.NetBalance := by
  induction transfers generalizing s with
  | nil => exact ⟨rfl, rfl, rfl, rfl⟩
  | cons tr rest ih =>
    rw [settle64_cons, netTerms_cons]
    obtain ⟨h1, h2, h3, h4⟩ := ih (Binary64.settleStep k s tr)
    rw [h1, h2, h3, h4]
    unfold Binary64.settleStep
    by_cases hf : tr.FromUser.ID = k <;> by_cases ht : tr.ToUser.ID = k
    · simp [hf, ht, List.filter_cons, fsub_eq_fadd_neg]
    · simp [hf, ht, List.filter_cons, fsub_eq_fadd_neg]
    · simp [hf, ht, List.filter_cons]
    · simp [hf, ht, List.filter_cons]

/-- The signed amounts add up to what is owing less what is owed. -/
theorem netTerms_sum (k : UUID) (transfers : List BalanceResponse) :
    (Binary64.netTerms k transfers).sum = owingSum transfers k - owedSum transfers k := by
  induction transfers with
  | nil => simp [Binary64.netTerms, owingSum_nil, owedSum_nil]
  | cons tr rest ih =>
    rw [netTerms_cons, List.sum_append, ih, owingSum_cons, owedSum_cons]
    by_cases hf : tr.FromUser.ID = k <;> by_cases ht : tr.ToUser.ID = k <;>
      simp only [hf, ht, if_true, if_false, List.sum_append, List.sum_cons, List.sum_nil] <;>
      ring

/-- Bounds for the terms of one accumulator: no more terms than transfers, and
magnitudes within the sum of all amounts. -/
theorem filter_terms_bound (p : BalanceResponse → Bool) (transfers : List BalanceResponse) :
    ((transfers.filter p).map fun tr => tr.Amount).length ≤ transfers.length ∧
    ((((transfers.filter p).map fun tr => tr.Amount)).map fun x => |x|).sum ≤
      (transfers.map fun tr => |tr.Amount|).sum := by
  constructor
  · rw [List.length_map]
    exact List.length_filter_le _ _
  · induction transfers with
    | nil => simp
    | cons tr rest ih =>
      rw [List.filter_cons]
      by_cases hp : p tr = true
      · rw [if_pos hp]
        simp only [List.map_cons, List.sum_cons]
        linarith
      · rw [if_neg hp]
        simp only [List.map_cons, List.sum_cons]
        have := abs_nonneg tr.Amount
        linarith

theorem netTerms_bound (k : UUID) (transfers : List BalanceResponse)
    (hself : ∀ tr ∈ transfers, tr.FromUser.ID ≠ tr.ToUser.ID) :
    (Binary64.netTerms k transfers).length ≤ transfers.length ∧
    ((Binary64.netTerms k transfers).map fun x => |x|).sum ≤
      (transfers.map fun tr => |tr.Amount|).sum := by
  induction transfers with
  | nil => simp [Binary64.netTerms]
  | cons tr rest ih =>
    obtain ⟨ih1, ih2⟩ := ih (fun t ht => hself t (List.mem_cons_of_mem _ ht))
    have hne := hself tr (List.mem_cons_self _ _)
    rw [netTerms_cons]
    by_cases hf : tr.FromUser.ID = k <;> by_cases ht : tr.ToUser.ID = k
    · exact absurd (hf.trans ht.symm) hne
    · simp only [hf, ht, if_true, if_false, List.append_nil, List.singleton_append,
        List.length_cons, List.map_cons, List.sum_cons, abs_neg]
      constructor
      · omega
      · linarith
    · simp only [hf, ht, if_true, if_false, List.nil_append, List.singleton_append,
        List.length_cons, List.map_cons, List.sum_cons]
      constructor
      · omega
      · linarith
    · simp only [hf, ht, if_false, List.nil_append, List.length_cons, List.map_cons,
        List.sum_cons]
      have := abs_nonneg tr.Amount
      constructor
      · omega
      · linarith

/-- No transfer of the response goes from a user to the same user, and every
amount is positive. -/
theorem transfers64_spec (st : Store) (ord : RangeOrder) (hv : ord.Valid)
    (members : List MemberDetail) (m : BalanceMap) (tr : BalanceResponse)
    (h : tr ∈ (Binary64.buildSummary st ord members (Binary64.simplifyBalances ord m)).1) :
    tr.FromUser.ID ≠ tr.ToUser.ID ∧ 0 < tr.Amount := by
  rw [mem_buildSummary64_fst st ord hv] at h
  obtain ⟨a, b, v, hentry, htransfer⟩ := h
  obtain ⟨hv01, hfrom, hto, hamt⟩ := transferOf64_some st (a, b, v) tr htransfer
  rw [entry?_simplifyBalances64 ord hv] at hentry
  obtain ⟨hpos, -, hval⟩ := netEdge64_pos _ a b v hentry
  simp only at hfrom hto hamt
  refine ⟨?_, by rw [hamt]; exact hpos⟩
  rw [hfrom, hto]
  intro hab
  subst hab
  have h0 : Binary64.fsub (getAmount m a a) (getAmount m a a) = 0 := by
    unfold Binary64.fsub
    rw [sub_self]
    exact Binary64.round64_zero
  rw [h0] at hval
  linarith

theorem sum_abs_of_pos (transfers : List BalanceResponse) (h : ∀ tr ∈ transfers, 0 < tr.Amount) :
    (transfers.map fun tr => |tr.Amount|).sum = (transfers.map fun tr => tr.Amount).sum := by
  congr 1
  apply List.map_congr_left
  intro tr htr
  exact abs_of_pos (h tr htr)

/-- The three accumulators of a settled zero summary against the exact sums. -/
theorem settle64_error (k : UUID) (transfers : List BalanceResponse) (z : UserBalanceSummary)
    (hz : z.TotalOwed = 0 ∧ z.TotalOwing = 0 ∧ z.NetBalance = 0)
    (hself : ∀ tr ∈ transfers, tr.FromUser.ID ≠ tr.ToUser.ID)
    (hn : transfers.length ≤ 2 ^ 52) (A : ℚ)
    (hA : (transfers.map fun tr => |tr.Amount|).sum ≤ A) :
    |(Binary64.settle k transfers z).TotalOwed - owedSum transfers k| ≤
      2 * (transfers.length : ℚ) * ((2 : ℚ) ^ (-53 : ℤ) * A + (2 : ℚ) ^ (-1075 : ℤ)) ∧
    |(Binary64.settle k transfers z).TotalOwing - owingSum transfers k| ≤
      2 * (transfers.length : ℚ) * ((2 : ℚ) ^ (-53 : ℤ) * A + (2 : ℚ) ^ (-1075 : ℤ)) ∧
    |(Binary64.settle k transfers z).NetBalance
        - (owingSum transfers k - owedSum transfers k)| ≤
      2 * (transfers.length : ℚ) * ((2 : ℚ) ^ (-53 : ℤ) * A + (2 : ℚ) ^ (-1075 : ℤ)) := by
  obtain ⟨-, h2, h3, h4⟩ := settle64_fields k transfers z
  rw [h2, h3, h4, hz.1, hz.2.1, hz.2.2, ← netTerms_sum]
  obtain ⟨ho1, ho2⟩ := filter_terms_bound (fun tr => decide (tr.FromUser.ID = k)) transfers
  obtain ⟨hw1, hw2⟩ := filter_terms_bound (fun tr => decide (tr.ToUser.ID = k)) transfers
  obtain ⟨hn1, hn2⟩ := netTerms_bound k transfers hself
  exact ⟨runningSum_bound _ _ A ho1 (le_trans ho2 hA) hn,
    runningSum_bound _ _ A hw1 (le_trans hw2 hA) hn,
    runningSum_bound _ _ A hn1 (le_trans hn2 hA) hn⟩

/-- C19 (as stated, refuted): user 2 owes 0.1 and 0.2 and is owed 0.3.  The
transfers are emitted in the order `3 -> 2`, `2 -> 4`, `2 -> 1`, and the
summary of user 2 comes out with `TotalOwed` 0.30000000000000004 (0.2 + 0.1),
`TotalOwing` 0.3 and `NetBalance` -2.8e-17 (0.3 - 0.2 - 0.1), which is neither
the difference `TotalOwing - TotalOwed` (-5.6e-17) nor its rounding. -/
theorem net_balance_not_difference :
    ((Binary64.CalculateBalances roundingStore RangeOrder.stored 7).toOption.map fun r =>
      r.Members.filter fun s => decide (s.User.ID = 2)) =
      some [{ User := { ID := 2 }
              TotalOwed := 1351079888211149 / 4503599627370496
              TotalOwing := 5404319552844595 / 18014398509481984
              NetBalance := -1 / 36028797018963968 }] ∧
    (-1 / 36028797018963968 : ℚ) ≠
      5404319552844595 / 18014398509481984 - 1351079888211149 / 4503599627370496 ∧
    (-1 / 36028797018963968 : ℚ) ≠
      Binary64.fsub (5404319552844595 / 18014398509481984)
        (1351079888211149 / 4503599627370496) := by
  decide!

/-- C19 (amended): for every input and every member summary returned by
`CalculateBalances`, `NetBalance` is `TotalOwing - TotalOwed` up to the
rounding of the three `float64` accumulators: the two differ by at most
`6 * n * (2^-53 * A + 2^-1075)`, where `n` is the number of transfers returned
(at most `2^52`) and `A` the sum of their amounts. -/
theorem net_balance_definition (st : Store) (ord : RangeOrder) (teamID : UUID)
    (r : TeamBalanceSummary) (hv : ord.Valid)
    (h : Binary64.CalculateBalances st ord teamID = .ok r)
    (hn : r.Balances.length ≤ 2 ^ 52) :
    ∀ s ∈ r.Members, |s.NetBalance - (s.TotalOwing - s.TotalOwed)| ≤
      6 * (r.Balances.length : ℚ) *
        ((2 : ℚ) ^ (-53 : ℤ) * (r.Balances.map fun tr => tr.Amount).sum
          + (2 : ℚ) ^ (-1075 : ℤ)) := by
  obtain ⟨hbal, hmem⟩ := CalculateBalances64_ok st ord teamID r h
  intro s hs
  rw [hmem, mem_buildSummary64_snd st ord hv] at hs
  obtain ⟨k, z, -, hz, rfl⟩ := hs
  obtain ⟨-, hz1, hz2, hz3⟩ := zeroSummary_some st k z hz
  rw [← hbal]
  have hspec : ∀ tr ∈ r.Balances, tr.FromUser.ID ≠ tr.ToUser.ID ∧ 0 < tr.Amount := by
    intro tr htr
    rw [hbal] at htr
    exact transfers64_spec st ord hv _ _ tr htr
  have hA : (r.Balances.map fun tr => |tr.Amount|).sum ≤ (r.Balances.map fun tr => tr.Amount).sum :=
    le_of_eq (sum_abs_of_pos _ (fun tr htr => (hspec tr htr).2))
  obtain ⟨e1, e2, e3⟩ := settle64_error k r.Balances z ⟨hz1, hz2, hz3⟩
    (fun tr htr => (hspec tr htr).1) hn _ hA
  rw [abs_le] at e1 e2 e3 ⊢
  constructor <;> linarith [e1.1, e1.2, e2.1, e2.2, e3.1, e3.2]

/-- Witness for `net_balance_definition`: the summaries of the database in
which user 2 owes 0.1 and 0.2 and is owed 0.3. -/
theorem net_balance_definition_witness :
    ∃ r, Binary64.CalculateBalances roundingStore RangeOrder.stored 7 = .ok r ∧
      ∀ s ∈ r.Members, |s.NetBalance - (s.TotalOwing - s.TotalOwed)| ≤
        6 * (r.Balances.length : ℚ) *
          ((2 : ℚ) ^ (-53 : ℤ) * (r.Balances.map fun tr => tr.Amount).sum
            + (2 : ℚ) ^ (-1075 : ℤ)) :=
  ⟨_, CalculateBalances64_of_team roundingStore RangeOrder.stored 7 { ID := 7, Name := "trip" } rfl,
    net_balance_definition roundingStore RangeOrder.stored 7 _ stored_valid
      (CalculateBalances64_of_team roundingStore RangeOrder.stored 7
        { ID := 7, Name := "trip" } rfl) (by decide!)⟩

/-! ## Conservation in binary64 -/

theorem sum_map_close {α : Type} (f g : α → ℚ) (l : List α) (ε : ℚ)
    (h : ∀ x ∈ l, |f x - g x| ≤ ε) :
    |(l.map f).sum - (l.map g).sum| ≤ (l.length : ℚ) * ε := by
  induction l with
  | nil => simp
  | cons x rest ih =>
    have h1 := h x (List.mem_cons_self _ _)
    have h2 := ih (fun y hy => h y (List.mem_cons_of_mem _ hy))
    simp only [List.map_cons, List.sum_cons, List.length_cons]
    push_cast
    rw [abs_le] at h1 h2 ⊢
    constructor <;> linarith [h1.1, h1.2, h2.1, h2.2]

/-- The entries of the final summaries map: each value is the settled zero
summary of its key. -/
theorem summaries64_entry (st : Store) (members : List MemberDetail)
    (transfers : List BalanceResponse) (e : Σ _ : UUID, UserBalanceSummary)
    (he : e ∈ (transfers.foldl Binary64.applyTransfer (initSummaries st members)).entries) :
    ∃ z, zeroSummary st e.1 = some z ∧ e.2 = Binary64.settle e.1 transfers z := by
  obtain ⟨k, y⟩ := e
  have hl := AList.mem_lookup_iff.mpr he
  rw [lookup_foldl_applyTransfer64, lookup_initSummaries] at hl
  split_ifs at hl with hm
  · cases hz : zeroSummary st k with
    | none => simp [hz] at hl
    | some z =>
      rw [hz] at hl
      exact ⟨z, rfl, (Option.some.inj hl).symm⟩
  · simp at hl

/-- C18 (as stated, refuted), twice.  A share held by a user who is not a
member of the team: the only summary is that of user 1, with `TotalOwed` 0,
`TotalOwing` 50 and `NetBalance` 50.  Three members who owe 0.1, 0.2 and 0.3 to
a fourth: every user of a transfer has a summary, and still the sums of
`TotalOwed` and of `TotalOwing` differ (0.1 + 0.2 + 0.3 against the binary64
running sum 0.6000000000000001) and the `NetBalance`s add up to `3 * 2^-55`,
not to 0. -/
theorem conservation_fails :
    ((Binary64.CalculateBalances outsiderStore RangeOrder.stored 7).toOption.map fun r =>
      ((r.Members.map fun s => s.TotalOwed).sum, (r.Members.map fun s => s.TotalOwing).sum,
        (r.Members.map fun s => s.NetBalance).sum)) = some (0, 50, 50) ∧
    ((Binary64.CalculateBalances tenthsStore RangeOrder.stored 7).toOption.map fun r =>
      r.Balances.all fun tr =>
        r.Members.any (fun s => decide (s.User.ID = tr.FromUser.ID)) &&
          r.Members.any (fun s => decide (s.User.ID = tr.ToUser.ID))) = some true ∧
    ((Binary64.CalculateBalances tenthsStore RangeOrder.stored 7).toOption.map fun r =>
      ((r.Members.map fun s => s.TotalOwed).sum, (r.Members.map fun s => s.TotalOwing).sum,
        (r.Members.map fun s => s.NetBalance).sum)) =
      some (21617278211378381 / 36028797018963968, 1351079888211149 / 2251799813685248,
        3 / 36028797018963968) ∧
    (21617278211378381 / 36028797018963968 : ℚ) ≠ 1351079888211149 / 2251799813685248 ∧
    (3 / 36028797018963968 : ℚ) ≠ 0 := by
  decide!

/-- C18 (amended): when every user named as `FromUser` or `ToUser` by a
returned transfer has a member summary (is a team member whose user row is
found), the member summaries returned by `CalculateBalances` satisfy sum of
`TotalOwed` = sum of `TotalOwing` and sum of `NetBalance` = 0 up to the
rounding of the `float64` accumulators: with `m` summaries, `n` transfers (at
most `2^52`) and `A` the sum of the transfer amounts, the two sums differ by at
most `4 * m * n * (2^-53 * A + 2^-1075)` and the `NetBalance`s add up to at
most `2 * m * n * (2^-53 * A + 2^-1075)` in magnitude. -/
theorem conservation (st : Store) (ord : RangeOrder) (teamID : UUID)
    (r : TeamBalanceSummary) (hv : ord.Valid)
    (h : Binary64.CalculateBalances st ord teamID = .ok r)
    (hmembers : ∀ tr ∈ r.Balances,
      (∃ s ∈ r.Members, s.User.ID = tr.FromUser.ID) ∧
      (∃ s ∈ r.Members, s.User.ID = tr.ToUser.ID))
    (hn : r.Balances.length ≤ 2 ^ 52) :
    |(r.Members.map fun s => s.TotalOwed).sum - (r.Members.map fun s => s.TotalOwing).sum| ≤
      4 * (r.Members.length : ℚ) * (r.Balances.length : ℚ) *
        ((2 : ℚ) ^ (-53 : ℤ) * (r.Balances.map fun tr => tr.Amount).sum
          + (2 : ℚ) ^ (-1075 : ℤ)) ∧
    |(r.Members.map fun s => s.NetBalance).sum| ≤
      2 * (r.Members.length : ℚ) * (r.Balances.length : ℚ) *
        ((2 : ℚ) ^ (-53 : ℤ) * (r.Balances.map fun tr => tr.Amount).sum
          + (2 : ℚ) ^ (-1075 : ℤ)) := by
  obtain ⟨hbal, hmem⟩ := CalculateBalances64_ok st ord teamID r h
  have hspec : ∀ tr ∈ r.Balances, tr.FromUser.ID ≠ tr.ToUser.ID ∧ 0 < tr.Amount := by
    intro tr htr
    rw [hbal] at htr
    exact transfers64_spec st ord hv _ _ tr htr
  have hA : (r.Balances.map fun tr => |tr.Amount|).sum ≤ (r.Balances.map fun tr => tr.Amount).sum :=
    le_of_eq (sum_abs_of_pos _ (fun tr htr => (hspec tr htr).2))
  rw [buildSummary64_snd,
    ← buildSummary64_fst st ord (TeamRepository.GetTeamMembers st teamID), ← hbal] at hmem
  -- the summaries map, and the member list as its entries
  have hperm := hv.2.2 (r.Balances.foldl Binary64.applyTransfer
    (initSummaries st (TeamRepository.GetTeamMembers st teamID)))
  have hentry := summaries64_entry st (TeamRepository.GetTeamMembers st teamID) r.Balances
  have hlen : r.Members.length = ((r.Balances.foldl Binary64.applyTransfer
      (initSummaries st (TeamRepository.GetTeamMembers st teamID))).entries).length := by
    rw [hmem, List.length_map]
    exact hperm.length_eq
  have hsum : ∀ f : UserBalanceSummary → ℚ,
      (r.Members.map f).sum = (((r.Balances.foldl Binary64.applyTransfer
        (initSummaries st (TeamRepository.GetTeamMembers st teamID))).entries).map
          fun e => f e.2).sum := by
    intro f
    rw [hmem, List.map_map]
    exact (hperm.map _).sum_eq
  have hkeys : ∀ k, (∃ s ∈ r.Members, s.User.ID = k) →
      k ∈ (r.Balances.foldl Binary64.applyTransfer
        (initSummaries st (TeamRepository.GetTeamMembers st teamID))).keys := by
    rintro k ⟨s, hs, rfl⟩
    rw [hmem, List.mem_map] at hs
    obtain ⟨e, he, rfl⟩ := hs
    have he' := hperm.mem_iff.mp he
    obtain ⟨z, hz, hez⟩ := hentry e he'
    have hid : e.2.User.ID = e.1 := by
      rw [hez, (settle64_fields e.1 r.Balances z).1]
      exact (zeroSummary_some st e.1 z hz).1
    rw [hid]
    exact List.mem_keys_of_mem he'
  -- the exact totals per key add up to the total of the transfers
  have howedS : (((r.Balances.foldl Binary64.applyTransfer
        (initSummaries st (TeamRepository.GetTeamMembers st teamID))).entries).map
          fun e => owedSum r.Balances e.1).sum = (r.Balances.map fun tr => tr.Amount).sum := by
    rw [← sum_per_key (fun tr => tr.FromUser.ID) _ (AList.keys_nodup _) r.Balances
      (fun tr htr => hkeys _ (hmembers tr htr).1)]
    unfold AList.keys List.keys
    rw [List.map_map]
    rfl
  have howingS : (((r.Balances.foldl Binary64.applyTransfer
        (initSummaries st (TeamRepository.GetTeamMembers st teamID))).entries).map
          fun e => owingSum r.Balances e.1).sum = (r.Balances.map fun tr => tr.Amount).sum := by
    rw [← sum_per_key (fun tr => tr.ToUser.ID) _ (AList.keys_nodup _) r.Balances
      (fun tr htr => hkeys _ (hmembers tr htr).2)]
    unfold AList.keys List.keys
    rw [List.map_map]
    rfl
  have hnetS : (((r.Balances.foldl Binary64.applyTransfer
        (initSummaries st (TeamRepository.GetTeamMembers st teamID))).entries).map
          fun e => owingSum r.Balances e.1 - owedSum r.Balances e.1).sum = 0 := by
    rw [sum_map_sub_rat, howedS, howingS, sub_self]
  -- the accumulators are close to the exact totals
  have herr : ∀ e ∈ (r.Balances.foldl Binary64.applyTransfer
        (initSummaries st (TeamRepository.GetTeamMembers st teamID))).entries,
      |e.2.TotalOwed - owedSum r.Balances e.1| ≤
        2 * (r.Balances.length : ℚ) *
          ((2 : ℚ) ^ (-53 : ℤ) * (r.Balances.map fun tr => tr.Amount).sum
            + (2 : ℚ) ^ (-1075 : ℤ)) ∧
      |e.2.TotalOwing - owingSum r.Balances e.1| ≤
        2 * (r.Balances.length : ℚ) *
          ((2 : ℚ) ^ (-53 : ℤ) * (r.Balances.map fun tr => tr.Amount).sum
            + (2 : ℚ) ^ (-1075 : ℤ)) ∧
      |e.2.NetBalance - (owingSum r.Balances e.1 - owedSum r.Balances e.1)| ≤
        2 * (r.Balances.length : ℚ) *
          ((2 : ℚ) ^ (-53 : ℤ) * (r.Balances.map fun tr => tr.Amount).sum
            + (2 : ℚ) ^ (-1075 : ℤ)) := by
    intro e he
    obtain ⟨z, hz, hez⟩ := hentry e he
    obtain ⟨-, hz1, hz2, hz3⟩ := zeroSummary_some st e.1 z hz
    rw [hez]
    exact settle64_error e.1 r.Balances z ⟨hz1, hz2, hz3⟩
      (fun tr htr => (hspec tr htr).1) hn _ hA
  have c1 := sum_map_close (fun e : Σ _ : UUID, UserBalanceSummary => e.2.TotalOwed)
    (fun e => owedSum r.Balances e.1) _ _ (fun e he => (herr e he).1)
  have c2 := sum_map_close (fun e : Σ _ : UUID, UserBalanceSummary => e.2.TotalOwing)
    (fun e => owingSum r.Balances e.1) _ _ (fun e he => (herr e he).2.1)
  have c3 := sum_map_close (fun e : Σ _ : UUID, UserBalanceSummary => e.2.NetBalance)
    (fun e => owingSum r.Balances e.1 - owedSum r.Balances e.1) _ _
    (fun e he => (herr e he).2.2)
  rw [howedS] at c1
  rw [howingS] at c2
  rw [hnetS, sub_zero] at c3
  rw [hsum (fun s => s.TotalOwed), hsum (fun s => s.TotalOwing), hsum (fun s => s.NetBalance),
    hlen]
  constructor
  · rw [abs_le] at c1 c2 ⊢
    constructor <;> nlinarith [c1.1, c1.2, c2.1, c2.2]
  · calc _ ≤ _ := c3
      _ = _ := by ring

/-- Witness for `conservation`: the database in which users 2, 3 and 4 owe
0.1, 0.2 and 0.3 to user 1. -/
theorem conservation_witness :
    ∃ r, Binary64.CalculateBalances tenthsStore RangeOrder.stored 7 = .ok r ∧
      |(r.Members.map fun s => s.TotalOwed).sum - (r.Members.map fun s => s.TotalOwing).sum| ≤
        4 * (r.Members.length : ℚ) * (r.Balances.length : ℚ) *
          ((2 : ℚ) ^ (-53 : ℤ) * (r.Balances.map fun tr => tr.Amount).sum
            + (2 : ℚ) ^ (-1075 : ℤ)) ∧
      |(r.Members.map fun s => s.NetBalance).sum| ≤
        2 * (r.Members.length : ℚ) * (r.Balances.length : ℚ) *
          ((2 : ℚ) ^ (-53 : ℤ) * (r.Balances.map fun tr => tr.Amount).sum
            + (2 : ℚ) ^ (-1075 : ℤ)) :=
  ⟨_, CalculateBalances64_of_team tenthsStore RangeOrder.stored 7 { ID := 7, Name := "trip" } rfl,
    conservation tenthsStore RangeOrder.stored 7 _ stored_valid
      (CalculateBalances64_of_team tenthsStore RangeOrder.stored 7
        { ID := 7, Name := "trip" } rfl) (by decide!) (by decide!)⟩

/-! ## From the creation of an expense to the balances, in binary64 -/

/-- Adding a binary64 number to an absent entry is exact. -/
theorem addAmount64_eq (m : BalanceMap) (a b : UUID) (delta : ℚ)
    (hnone : entry? m a b = none) (hf : Binary64.round64 delta = delta) :
    Binary64.addAmount m a b delta = addAmount m a b delta := by
  unfold Binary64.addAmount addAmount
  unfold entry? at hnone
  cases hl : m.lookup a with
  | none => rfl
  | some inner =>
    rw [hl] at hnone
    simp only at hnone ⊢
    rw [hnone]
    simp only [Option.getD_none, Binary64.fadd, zero_add, hf]

theorem processSplit64_eq (expense : Expense) (m : BalanceMap) (split : ExpenseSplit)
    (hnone : entry? m split.UserID expense.PaidBy = none)
    (hf : Binary64.round64 split.Amount = split.Amount) :
    Binary64.processSplit expense m split = processSplit expense m split := by
  unfold Binary64.processSplit processSplit
  by_cases hc : split.UserID ≠ expense.PaidBy ∧ split.IsSettled = false
  · rw [if_pos hc, if_pos hc]
    simp only
    apply addAmount64_eq _ _ _ _ _ hf
    by_cases hk : (m.lookup split.UserID).isNone = true
    · rw [if_pos hk, entry?_insert, if_pos rfl]
      exact AList.lookup_empty _
    · rw [if_neg hk]
      exact hnone
  · rw [if_neg hc, if_neg hc]

/-- One share per user, each a binary64 number, on a map without an entry for
any of them: the additions are exact, and the raw map is that of the exact
reading. -/
theorem foldl_processSplit64_eq (expense : Expense) (rows : List ExpenseSplit) (m : BalanceMap)
    (hnd : (rows.map (·.UserID)).Nodup)
    (hf : ∀ row ∈ rows, Binary64.round64 row.Amount = row.Amount)
    (hnone : ∀ row ∈ rows, entry? m row.UserID expense.PaidBy = none) :
    rows.foldl (Binary64.processSplit expense) m = rows.foldl (processSplit expense) m := by
  induction rows generalizing m with
  | nil => rfl
  | cons row rest ih =>
    rw [List.map_cons, List.nodup_cons] at hnd
    rw [List.foldl_cons, List.foldl_cons,
      processSplit64_eq expense m row (hnone row (List.mem_cons_self _ _))
        (hf row (List.mem_cons_self _ _))]
    apply ih _ hnd.2 (fun r hr => hf r (List.mem_cons_of_mem _ hr))
    intro r hr
    have hne : r.UserID ≠ row.UserID := by
      intro heq
      apply hnd.1
      rw [← heq]
      exact List.mem_map.mpr ⟨r, hr, rfl⟩
    rw [processSplit_eq, splitFacts_singleton]
    split_ifs with hc
    · rw [List.foldl_cons, List.foldl_nil, entry?_applyFact, if_neg (fun h => hne h.2.1)]
      exact hnone r (List.mem_cons_of_mem _ hr)
    · exact hnone r (List.mem_cons_of_mem _ hr)

/-- The raw map of a team with a single fetched expense, one share per user,
and no settlement: binary64 accumulates it exactly. -/
theorem rawBalanceMap64_single (st : Store) (teamID : UUID) (e : Expense)
    (rows : List ExpenseSplit)
    (hE : (ExpenseRepository.GetByTeamID st teamID 10000 0).1 = [e])
    (hS : ExpenseRepository.GetSplitsByExpenseID st e.ID = rows)
    (hset : SettlementRepository.GetByTeamID st teamID = [])
    (hnd : (rows.map (·.UserID)).Nodup)
    (hf : ∀ row ∈ rows, Binary64.round64 row.Amount = row.Amount) :
    Binary64.rawBalanceMap st teamID = rawBalanceMap st teamID := by
  unfold Binary64.rawBalanceMap rawBalanceMap Binary64.buildBalanceMap buildBalanceMap
  rw [hE, hset]
  simp only [List.foldl_cons, List.foldl_nil, hS]
  apply foldl_processSplit64_eq e rows _ hnd hf
  intro row _
  exact entry?_foldl_members _ _ _ _ (fun a b => entry?_empty a b)

/-- The transfer list holds no transfer twice. -/
theorem transfers64_nodup (st : Store) (ord : RangeOrder) (hv : ord.Valid)
    (members : List MemberDetail) (s : BalanceMap) :
    (Binary64.buildSummary st ord members s).1.Nodup := by
  have hids : ((Binary64.buildSummary st ord members s).1.map
      fun tr => (tr.FromUser.ID, tr.ToUser.ID)).Nodup := by
    rw [buildSummary64_fst]
    refine List.Nodup.sublist ?_ (visited_keys_nodup ord hv s)
    apply filterMap_map_sublist
    intro t tr ht
    obtain ⟨-, hf, hto, -⟩ := transferOf64_some st t tr ht
    rw [hf, hto]
  exact List.Nodup.of_map _ hids

/-- The transfer list is, up to order, any list without repetition that holds
exactly the transfers of the entries of the netted map. -/
theorem transfers64_perm (st : Store) (ord : RangeOrder) (hv : ord.Valid)
    (members : List MemberDetail) (m : BalanceMap) (l : List BalanceResponse)
    (hnd : l.Nodup)
    (hl : ∀ tr, tr ∈ l ↔
      ∃ a b v, Binary64.netEdge m a b = some v ∧ Binary64.transferOf st (a, b, v) = some tr) :
    (Binary64.buildSummary st ord members (Binary64.simplifyBalances ord m)).1.Perm l := by
  rw [List.perm_ext_iff_of_nodup (transfers64_nodup st ord hv members _) hnd]
  intro tr
  rw [mem_buildSummary64_fst _ _ hv, hl]
  constructor
  · rintro ⟨a, b, v, h1, h2⟩
    exact ⟨a, b, v, by rw [← entry?_simplifyBalances64 ord hv]; exact h1, h2⟩
  · rintro ⟨a, b, v, h1, h2⟩
    exact ⟨a, b, v, by rw [entry?_simplifyBalances64 ord hv]; exact h1, h2⟩

/-- What a column `DECIMAL(p,2)` gives back is a binary64 number. -/
theorem decimalColumn_round64 (p : ℕ) (x c : ℚ) (h : Postgres.decimalColumn p x = some c) :
    Binary64.round64 c = c := by
  unfold Postgres.decimalColumn at h
  split_ifs at h
  simp only [Option.some.injEq] at h
  rw [← h]
  exact Binary64.round64_idem _

/-- What the stored row of an expense keeps of the expense. -/
theorem expenseRow_ok (st : Store) (expense row : Expense)
    (h : Binary64.expenseRow st expense = .ok row) :
    row.ID = expense.ID ∧ row.TeamID = expense.TeamID ∧ row.PaidBy = expense.PaidBy := by
  unfold Binary64.expenseRow at h
  split at h
  · split_ifs at h
    simp only [Except.ok.injEq] at h
    subst h
    exact ⟨rfl, rfl, rfl⟩
  · cases h

theorem assignSplitIDs_map (e : UUID) (n : Nat) (l : List ExpenseSplit) (c p : ℚ) :
    (assignSplitIDs e n l).map (fun s => { s with Amount := c, Percent := p }) =
      assignSplitIDs e n (l.map fun s => { s with Amount := c, Percent := p }) := by
  induction l generalizing n with
  | nil => rfl
  | cons x xs ih =>
    rw [assignSplitIDs, List.map_cons, List.map_cons, assignSplitIDs, ih]

theorem assignSplitIDs_Amount (e : UUID) (n : Nat) (l : List ExpenseSplit) (a p : ℚ)
    (h : ∀ s ∈ l, s.Amount = a ∧ s.Percent = p) :
    ∀ s ∈ assignSplitIDs e n l, s.Amount = a ∧ s.Percent = p := by
  induction l generalizing n with
  | nil => intro s hs; cases hs
  | cons x xs ih =>
    intro s hs
    rw [assignSplitIDs, List.mem_cons] at hs
    rcases hs with rfl | hs
    · exact h x (List.mem_cons_self _ _)
    · exact ih _ (fun y hy => h y (List.mem_cons_of_mem _ hy)) s hs

/-- The rows stored for shares that all carry the same two numbers. -/
theorem forall₂_splitRow_const (st : Store) (splits rows : List ExpenseSplit) (a p c : ℚ)
    (hf : List.Forall₂ (fun split row => Binary64.splitRow st split = .ok row) splits rows)
    (hsame : ∀ s ∈ splits, s.Amount = a ∧ s.Percent = p)
    (hc : Postgres.decimalColumn 10 a = some c) :
    ∃ q, rows = splits.map fun s => { s with Amount := c, Percent := q } := by
  induction hf with
  | nil => exact ⟨0, rfl⟩
  | cons hrow _ ih =>
    rename_i split row l₁ l₂ hrest
    obtain ⟨amount, percent, ha, hp, -, rfl⟩ := splitRow_ok st _ _ hrow
    obtain ⟨hsa, hsp⟩ := hsame split (List.mem_cons_self _ _)
    rw [hsa, hc] at ha
    simp only [Option.some.injEq] at ha
    subst ha
    refine ⟨percent, ?_⟩
    rw [List.map_cons]
    congr 1
    -- the remaining rows carry the same percentage
    clear ih
    induction hrest with
    | nil => rfl
    | cons hrow' _ ih' =>
      rename_i split' row' l₃ l₄ _
      obtain ⟨amount', percent', ha', hp', -, rfl⟩ := splitRow_ok st _ _ hrow'
      obtain ⟨hsa', hsp'⟩ := hsame split' (List.mem_cons_of_mem _ (List.mem_cons_self _ _))
      rw [hsa', hc] at ha'
      rw [hsp', ← hsp, hp] at hp'
      simp only [Option.some.injEq] at ha' hp'
      subst ha' hp'
      rw [List.map_cons]
      congr 1
      exact ih' (fun s hs => by
        rcases List.mem_cons.mp hs with rfl | hs
        · exact hsame _ (List.mem_cons_self _ _)
        · exact hsame s (List.mem_cons_of_mem _ (List.mem_cons_of_mem _ hs)))

/-- The sums of a summary over transfers that all go to `P` from other users,
each of amount `c`: the amounts owing are `c`, as often as there are
transfers, and so are the signed amounts; nothing is owed. -/
theorem settle64_all (transfers : List BalanceResponse) (P : UUID) (c : ℚ)
    (z : UserBalanceSummary) (hz : z.TotalOwed = 0 ∧ z.TotalOwing = 0 ∧ z.NetBalance = 0)
    (h : ∀ tr ∈ transfers, tr.FromUser.ID ≠ P ∧ tr.ToUser.ID = P ∧ tr.Amount = c) :
    (Binary64.settle P transfers z).TotalOwing =
      Binary64.runningSum (List.replicate transfers.length c) ∧
    (Binary64.settle P transfers z).NetBalance =
      Binary64.runningSum (List.replicate transfers.length c) ∧
    (Binary64.settle P transfers z).TotalOwed = 0 := by
  obtain ⟨-, h2, h3, h4⟩ := settle64_fields P transfers z
  have howed : (transfers.filter fun tr => decide (tr.FromUser.ID = P)) = [] := by
    rw [List.filter_eq_nil_iff]
    intro tr htr
    simpa using (h tr htr).1
  have howing : ((transfers.filter fun tr => decide (tr.ToUser.ID = P)).map fun tr => tr.Amount)
      = List.replicate transfers.length c := by
    rw [List.eq_replicate_iff]
    have hfilter : (transfers.filter fun tr => decide (tr.ToUser.ID = P)) = transfers := by
      rw [List.filter_eq_self]
      intro tr htr
      simpa using (h tr htr).2.1
    rw [hfilter]
    refine ⟨List.length_map _ _, ?_⟩
    intro b hb
    obtain ⟨tr, htr, rfl⟩ := List.mem_map.mp hb
    exact (h tr htr).2.2
  have hnet : Binary64.netTerms P transfers = List.replicate transfers.length c := by
    clear h2 h3 h4 howed howing
    induction transfers with
    | nil => rfl
    | cons tr rest ih =>
      obtain ⟨h1, h2, h3⟩ := h tr (List.mem_cons_self _ _)
      rw [netTerms_cons, if_neg h1, if_pos h2, h3,
        ih (fun t ht => h t (List.mem_cons_of_mem _ ht))]
      rfl
  rw [h2, h3, h4, howed, howing, hnet, hz.1, hz.2.1, hz.2.2]
  exact ⟨rfl, rfl, rfl⟩

/-- C29 (amended): a team without expense and without settlement; member `P`
creates an equal-split expense of amount `a` among `n` distinct users that
include `P`, all with a user row, and the request succeeds (the identifier
drawn for the expense is new).  Let `c` be the share as the column
`expense_splits.amount` holds it: `a / n` computed in binary64, rounded to the
cent by `DECIMAL(10,2)` and read back.  If `c` exceeds the constant 0.01,
`CalculateBalances` returns, up to order, one transfer of `c` to `P` from each
participant other than `P`, hence `n - 1` transfers, and the summary of `P` has
`TotalOwing = NetBalance =` the binary64 running sum of `n - 1` copies of `c`
and `TotalOwed = 0`.  Otherwise it returns no transfer. -/
theorem equal_split_end_to_end (st : Store) (ord : RangeOrder) (teamID P : UUID) (team : Team)
    (req : ExpenseCreateRequest) (userOf : UUID → User) (resp : ExpenseResponse) (c : ℚ)
    (hv : ord.Valid)
    (hteam : TeamRepository.GetByID st teamID = .ok team)
    (hcreate : (Binary64.CreateExpense st teamID P req).1 = .ok resp)
    (hnoexp : ∀ e ∈ st.expenses, e.TeamID ≠ teamID)
    (hnoset : ∀ s ∈ st.settlements, s.TeamID ≠ teamID)
    (hfresh : ∀ sp ∈ st.expense_splits, sp.ExpenseID ≠ st.nextID)
    (htype : (effectiveRequest req).SplitType = SplitTypeEqual)
    (hnd : req.SplitWith.Nodup) (hP : P ∈ req.SplitWith)
    (hmember : ∃ member ∈ TeamRepository.GetTeamMembers st teamID, member.UserID = P)
    (husers : ∀ u ∈ req.SplitWith, UserRepository.GetByID st u = .ok (userOf u))
    (hc : Postgres.decimalColumn 10
      (Binary64.fdiv req.Amount (Binary64.round64 (req.SplitWith.length : ℚ))) = some c) :
    ∃ r, Binary64.CalculateBalances (Binary64.CreateExpense st teamID P req).2 ord teamID
        = .ok r ∧
      (c > Binary64.threshold →
        r.Balances.Perm ((req.SplitWith.filter fun u => decide (u ≠ P)).map fun u =>
          { FromUser := (userOf u).ToResponse, ToUser := (userOf P).ToResponse, Amount := c }) ∧
        r.Balances.length = req.SplitWith.length - 1 ∧
        (∃ s ∈ r.Members, s.User.ID = P) ∧
        ∀ s ∈ r.Members, s.User.ID = P →
          s.TotalOwing = Binary64.runningSum (List.replicate (req.SplitWith.length - 1) c) ∧
          s.NetBalance = Binary64.runningSum (List.replicate (req.SplitWith.length - 1) c) ∧
          s.TotalOwed = 0) ∧
      (¬ c > Binary64.threshold → r.Balances = []) := by
  have hthr := threshold_pos
  -- the rows that the request has stored
  obtain ⟨-, -, -, shares, row, rows, hcalc, hrow, hrows, hst, -⟩ :=
    CreateExpense64_ok st teamID P req resp hcreate
  rw [calculateSplits64_equal _ _ htype, effectiveRequest_SplitWith] at hcalc
  simp only [Except.ok.injEq] at hcalc
  obtain ⟨hrid, hrteam, hrpaid⟩ := expenseRow_ok st _ row hrow
  simp only at hrid hrteam hrpaid
  have hforall := splitRows_ok st _ _ hrows
  have hsame : ∀ s ∈ assignSplitIDs st.nextID (st.nextID + 1) shares,
      s.Amount = Binary64.fdiv req.Amount (Binary64.round64 (req.SplitWith.length : ℚ)) ∧
      s.Percent = Binary64.fdiv 100 (Binary64.round64 (req.SplitWith.length : ℚ)) := by
    apply assignSplitIDs_Amount
    intro s hs
    rw [← hcalc, List.mem_map] at hs
    obtain ⟨u, -, rfl⟩ := hs
    exact ⟨rfl, rfl⟩
  obtain ⟨q, hq⟩ := forall₂_splitRow_const st _ rows _ _ c hforall hsame hc
  rw [assignSplitIDs_map, ← hcalc, List.map_map] at hq
  have hq' : rows = assignSplitIDs st.nextID (st.nextID + 1) (req.SplitWith.map fun userID =>
      { UserID := userID, Amount := c, Percent := q,
        IsSettled := decide (userID = row.PaidBy) }) := by
    rw [hq, hrpaid]
    rfl
  have hcfloat : Binary64.round64 c = c := decimalColumn_round64 10 _ c hc
  -- the store left
  generalize (Binary64.CreateExpense st teamID P req).2 = st' at hst ⊢
  have hexp : st'.expenses = st.expenses ++ [row] := by rw [hst]; rfl
  have hspl : st'.expense_splits = st.expense_splits ++ rows := by rw [hst]; rfl
  have husr : st'.users = st.users := by rw [hst]; rfl
  have htm : st'.teams = st.teams := by rw [hst]; rfl
  have hmem : st'.team_members = st.team_members := by rw [hst]; rfl
  have hset : st'.settlements = st.settlements := by rw [hst]; rfl
  -- what the balance service reads
  have hteam' : TeamRepository.GetByID st' teamID = .ok team :=
    (TeamRepository_GetByID_congr st st' htm teamID).trans hteam
  have huser' : ∀ u ∈ req.SplitWith, UserRepository.GetByID st' u = .ok (userOf u) :=
    fun u hu => (UserRepository_GetByID_congr st st' husr u).trans (husers u hu)
  have hmembers' := GetTeamMembers_congr st st' husr hmem teamID
  have hE := GetByTeamID_first st st' teamID row hexp hrteam hnoexp
  have hS : ExpenseRepository.GetSplitsByExpenseID st' row.ID = rows := by
    rw [hrid]
    apply GetSplitsByExpenseID_new st st' st.nextID rows hspl _ hfresh
    rw [hq']
    exact assignSplitIDs_ExpenseID _ _ _
  have hSet : SettlementRepository.GetByTeamID st' teamID = [] :=
    SettlementGetByTeamID_none st' teamID (by rw [hset]; exact hnoset)
  have hrowsUsers : rows.map (·.UserID) = req.SplitWith := by
    rw [hq', assignSplitIDs_map_UserID, List.map_map]
    exact List.map_id _
  have heq := rawBalanceMap64_single st' teamID row rows hE hS hSet
    (by rw [hrowsUsers]; exact hnd)
    (by
      intro r hr
      rw [hq'] at hr
      have hra := (assignSplitIDs_Amount _ _ _ c q (by
        intro s hs
        obtain ⟨u, -, rfl⟩ := List.mem_map.mp hs
        exact ⟨rfl, rfl⟩) r hr).1
      rw [hra]
      exact hcfloat)
  have hraw : ∀ x y, getAmount (Binary64.rawBalanceMap st' teamID) x y =
      if y = P ∧ x ∈ req.SplitWith ∧ x ≠ P then c else 0 := by
    intro x y
    rw [heq, getAmount_rawBalanceMap_single st' teamID row rows hE hS hSet, hq',
      splitFacts_assignSplitIDs, splitFacts_equal row req.SplitWith c q, hrpaid]
    exact factTotal_equal req.SplitWith hnd P c x y
  have hfsub : Binary64.fsub c 0 = c := by
    unfold Binary64.fsub
    rw [sub_zero]
    exact hcfloat
  have hnet_imp : ∀ x y v, Binary64.netEdge (Binary64.rawBalanceMap st' teamID) x y = some v →
      (y = P ∧ x ∈ req.SplitWith ∧ x ≠ P) ∧ v = c := by
    intro x y v hn
    obtain ⟨-, hpos, hval⟩ := netEdge64_pos _ x y v hn
    rw [hraw x y] at hpos hval
    by_cases hxy : y = P ∧ x ∈ req.SplitWith ∧ x ≠ P
    · have hyx : ¬ (x = P ∧ y ∈ req.SplitWith ∧ y ≠ P) := fun hcon => hxy.2.2 hcon.1
      rw [if_pos hxy, hraw y x, if_neg hyx, hfsub] at hval
      exact ⟨hxy, hval⟩
    · rw [if_neg hxy] at hpos
      exact absurd hpos (lt_irrefl _)
  have hnet_of : 0 < c → ∀ x, x ∈ req.SplitWith → x ≠ P →
      Binary64.netEdge (Binary64.rawBalanceMap st' teamID) x P = some c := by
    intro hc0 x hx hxP
    unfold Binary64.netEdge
    have hyx : ¬ (x = P ∧ P ∈ req.SplitWith ∧ P ≠ P) := fun hcon => hxP hcon.1
    have hxy : P = P ∧ x ∈ req.SplitWith ∧ x ≠ P := ⟨rfl, hx, hxP⟩
    have h1 : getAmount (Binary64.rawBalanceMap st' teamID) x P = c := by
      rw [hraw x P, if_pos hxy]
    have h2 : getAmount (Binary64.rawBalanceMap st' teamID) P x = 0 := by
      rw [hraw P x, if_neg hyx]
    rw [h1, h2, hfsub, if_pos ⟨hc0, hc0⟩]
  have hidOf : ∀ u ∈ req.SplitWith, (userOf u).ToResponse.ID = u := fun u hu =>
    GetByID_ID st' u (userOf u) (huser' u hu)
  have hr := CalculateBalances64_of_team st' ord teamID team hteam'
  obtain ⟨hB, hM⟩ := CalculateBalances64_ok st' ord teamID _ hr
  refine ⟨_, hr, ?_, ?_⟩
  · intro hamount
    have hc0 : 0 < c := lt_trans hthr hamount
    -- the transfer list
    have hperm : (Binary64.buildSummary st' ord (TeamRepository.GetTeamMembers st' teamID)
        (Binary64.simplifyBalances ord (Binary64.rawBalanceMap st' teamID))).1.Perm
        ((req.SplitWith.filter fun u => decide (u ≠ P)).map fun u =>
          { FromUser := (userOf u).ToResponse, ToUser := (userOf P).ToResponse,
            Amount := c }) := by
      apply transfers64_perm st' ord hv
      · refine List.Nodup.of_map (fun tr : BalanceResponse => tr.FromUser.ID) ?_
        rw [List.map_map]
        have hmap : (req.SplitWith.filter fun u => decide (u ≠ P)).map
            ((fun tr : BalanceResponse => tr.FromUser.ID) ∘ fun u =>
              { FromUser := (userOf u).ToResponse, ToUser := (userOf P).ToResponse,
                Amount := c })
            = req.SplitWith.filter fun u => decide (u ≠ P) := by
          conv_rhs => rw [← List.map_id (req.SplitWith.filter fun u => decide (u ≠ P))]
          apply List.map_congr_left
          intro u hu
          exact hidOf u (List.mem_filter.mp hu).1
        rw [hmap]
        exact hnd.filter _
      · intro tr
        rw [List.mem_map]
        constructor
        · rintro ⟨u, hu, rfl⟩
          rw [List.mem_filter] at hu
          have hune : u ≠ P := by simpa using hu.2
          exact ⟨u, P, c, hnet_of hc0 u hu.1 hune,
            transferOf64_of_users st' u P c (userOf u) (userOf P) (huser' u hu.1)
              (huser' P hP) hamount⟩
        · rintro ⟨x, y, v, h1, h2⟩
          obtain ⟨⟨rfl, hx, hxne⟩, rfl⟩ := hnet_imp x y v h1
          rw [transferOf64_of_users st' x y v (userOf x) (userOf y) (huser' x hx)
            (huser' y hP) hamount] at h2
          exact ⟨x, List.mem_filter.mpr ⟨hx, by simpa using hxne⟩, Option.some.inj h2⟩
    have hlen : (Binary64.buildSummary st' ord (TeamRepository.GetTeamMembers st' teamID)
        (Binary64.simplifyBalances ord (Binary64.rawBalanceMap st' teamID))).1.length
        = req.SplitWith.length - 1 := by
      rw [hperm.length_eq, List.length_map, filter_ne_length _ hnd P hP]
    have hall : ∀ tr ∈ (Binary64.buildSummary st' ord (TeamRepository.GetTeamMembers st' teamID)
        (Binary64.simplifyBalances ord (Binary64.rawBalanceMap st' teamID))).1,
        tr.FromUser.ID ≠ P ∧ tr.ToUser.ID = P ∧ tr.Amount = c := by
      intro tr htr
      have htr' := hperm.mem_iff.mp htr
      rw [List.mem_map] at htr'
      obtain ⟨u, hu, rfl⟩ := htr'
      rw [List.mem_filter] at hu
      refine ⟨?_, hidOf P hP, rfl⟩
      show (userOf u).ToResponse.ID ≠ P
      rw [hidOf u hu.1]
      simpa using hu.2
    obtain ⟨member, hmemP, hidP⟩ := hmember
    have hany : ((TeamRepository.GetTeamMembers st' teamID).any fun member =>
        decide (member.UserID = P)) = true := by
      rw [hmembers', List.any_eq_true]
      exact ⟨member, hmemP, by simpa using hidP⟩
    have hzero := zeroSummary_of_user st' P (userOf P) (huser' P hP)
    refine ⟨hB ▸ hperm, by rw [hB]; exact hlen, ?_, ?_⟩
    · refine ⟨Binary64.settle P (Binary64.buildSummary st' ord
          (TeamRepository.GetTeamMembers st' teamID)
          (Binary64.simplifyBalances ord (Binary64.rawBalanceMap st' teamID))).1
        { User := (userOf P).ToResponse, TotalOwed := 0, TotalOwing := 0, NetBalance := 0 },
        ?_, ?_⟩
      · rw [hM, mem_buildSummary64_snd _ _ hv]
        exact ⟨P, _, hany, hzero, rfl⟩
      · rw [(settle64_fields P _ _).1]
        exact hidOf P hP
    · intro s hs hsP
      rw [hM, mem_buildSummary64_snd _ _ hv] at hs
      obtain ⟨k, z, -, hz, rfl⟩ := hs
      obtain ⟨hzid, h1, h2, h3⟩ := zeroSummary_some st' k z hz
      have hk : k = P := by
        rw [(settle64_fields k _ _).1] at hsP
        exact hzid.symm.trans hsP
      subst hk
      have hsettle := settle64_all _ k c z ⟨h1, h2, h3⟩ hall
      rw [hlen] at hsettle
      exact hsettle
  · intro hsmall
    rw [hB]
    rw [List.eq_nil_iff_forall_not_mem]
    intro tr htr
    rw [mem_buildSummary64_fst _ _ hv] at htr
    obtain ⟨a, b, v, hentry, htransfer⟩ := htr
    obtain ⟨hv01, -, -, -⟩ := transferOf64_some st' (a, b, v) tr htransfer
    rw [entry?_simplifyBalances64 ord hv] at hentry
    obtain ⟨-, rfl⟩ := hnet_imp a b v hentry
    exact hsmall hv01

theorem toOption_isSome {ε α : Type} (x : Except ε α) (h : x.toOption.isSome = true) :
    ∃ a, x = .ok a := by
  cases x with
  | error e => cases h
  | ok a => exact ⟨a, rfl⟩

/-- C29 (as stated, refuted), on a database with the users 1, 2, 3, all
members of team 7, and no fact.  User 1 creates an expense of 0.04 split
equally among the three: `a / n` is 0.0133..., above 0.01, but the column
`DECIMAL(10,2)` stores each share as 0.01, which does not exceed 0.01, and
`CalculateBalances` returns no transfer at all.  With an expense of 100
instead, the two transfers are of 33.33, not of `100 / 3`. -/
theorem equal_split_share_rounded :
    (1 / 100 : ℚ) < Binary64.round64 (4 / 100) / 3 ∧
    Binary64.threshold < Binary64.fdiv (Binary64.round64 (4 / 100)) 3 ∧
    ((Binary64.CreateExpense freshStore 7 1
        { Amount := Binary64.round64 (4 / 100), SplitType := SplitTypeEqual,
          SplitWith := [1, 2, 3] }).1.toOption.map
        fun resp => resp.Splits.map (·.Amount)) =
      some [Binary64.round64 (1 / 100), Binary64.round64 (1 / 100),
        Binary64.round64 (1 / 100)] ∧
    ((Binary64.CalculateBalances
        (Binary64.CreateExpense freshStore 7 1
          { Amount := Binary64.round64 (4 / 100), SplitType := SplitTypeEqual,
            SplitWith := [1, 2, 3] }).2
        RangeOrder.stored 7).toOption.map fun r => r.Balances) = some [] ∧
    ((Binary64.CalculateBalances
        (Binary64.CreateExpense freshStore 7 1
          { Amount := 100, SplitType := SplitTypeEqual, SplitWith := [1, 2, 3] }).2
        RangeOrder.stored 7).toOption.map fun r => r.Balances.map (·.Amount)) =
      some [Binary64.round64 (3333 / 100), Binary64.round64 (3333 / 100)] ∧
    Binary64.round64 (3333 / 100) ≠ 100 / 3 ∧
    Binary64.round64 (3333 / 100) ≠ Binary64.fdiv 100 3 := by
  decide!

/-- Witness for `equal_split_end_to_end`: in the database without facts user 1
creates an expense of 90 split equally among users 1, 2 and 3; each share is
stored as 30, users 2 and 3 each owe 30 to user 1, whose summary shows 60
owing. -/
theorem equal_split_end_to_end_witness :
    ∃ r, Binary64.CalculateBalances
        (Binary64.CreateExpense freshStore 7 1
          { Amount := 90, SplitType := SplitTypeEqual, SplitWith := [1, 2, 3] }).2
        RangeOrder.stored 7 = .ok r ∧
      r.Balances.Perm
        [{ FromUser := { ID := 2 }, ToUser := { ID := 1 }, Amount := 30 },
         { FromUser := { ID := 3 }, ToUser := { ID := 1 }, Amount := 30 }] ∧
      r.Balances.length = 2 ∧
      (∃ s ∈ r.Members, s.User.ID = 1) ∧
      ∀ s ∈ r.Members, s.User.ID = 1 →
        s.TotalOwing = 60 ∧ s.NetBalance = 60 ∧ s.TotalOwed = 0 := by
  obtain ⟨resp, hresp⟩ := toOption_isSome
    (Binary64.CreateExpense freshStore 7 1
      { Amount := 90, SplitType := SplitTypeEqual, SplitWith := [1, 2, 3] }).1 (by decide!)
  obtain ⟨r, hr, hbig, -⟩ :=
    equal_split_end_to_end freshStore RangeOrder.stored 7 1 { ID := 7, Name := "trip" }
      { Amount := 90, SplitType := SplitTypeEqual, SplitWith := [1, 2, 3] }
      (fun u => { ID := u }) resp 30 stored_valid rfl hresp
      (fun e he => by cases he) (fun s hs => by cases hs) (fun sp hsp => by cases hsp)
      rfl (by decide) (by decide) (by decide)
      (fun u hu => by
        simp only [List.mem_cons, List.mem_singleton, List.not_mem_nil, or_false] at hu
        rcases hu with rfl | rfl | rfl <;> rfl)
      (by decide!)
  obtain ⟨hperm, hlen, hex, hall⟩ := hbig (by decide!)
  have hsum : Binary64.runningSum
      (List.replicate (([1, 2, 3] : List UUID).length - 1) (30 : ℚ)) = 60 := by decide!
  refine ⟨r, hr, hperm, hlen, hex, ?_⟩
  intro s hs hs1
  obtain ⟨h1, h2, h3⟩ := hall s hs hs1
  exact ⟨h1.trans hsum, h2.trans hsum, h3⟩

/-! ## Split completeness in binary64 -/

/-- The unit roundoff `2^-53` as a fraction. -/
theorem unit_roundoff_eq : (2 : ℚ) ^ (-53 : ℤ) = 1 / 9007199254740992 := by
  rw [zpow_neg, one_div]
  norm_num

/-- The smallest rounding error is below the unit roundoff. -/
theorem tiny_le_unit_roundoff : (2 : ℚ) ^ (-1075 : ℤ) ≤ 1 / 9007199254740992 := by
  rw [← unit_roundoff_eq]
  exact zpow_le_zpow_right₀ (by norm_num) (by norm_num)

/-- A count of at most `2^53` is a binary64 number. -/
theorem round64_natCast (n : Nat) (hn : n ≤ 2 ^ 53) : Binary64.round64 (n : ℚ) = (n : ℚ) := by
  have h := Binary64.round64_of_representable (n : ℤ) 0 (by
    rw [abs_of_nonneg (by positivity)]
    exact_mod_cast hn) (by norm_num)
  simpa using h

/-- The share of an equal split, taken `n` times, is close to the amount. -/
theorem equal_share_close (a : ℚ) (n : Nat) (hn0 : 0 < n) (hn : n ≤ 100) (ha0 : 0 ≤ a)
    (ha : a ≤ 10 ^ 8) :
    |(n : ℚ) * Binary64.fdiv a (Binary64.round64 (n : ℚ)) - a| ≤ 1 / 1000 := by
  rw [round64_natCast n (by
    calc n ≤ 100 := hn
      _ ≤ 2 ^ 53 := by norm_num)]
  unfold Binary64.fdiv
  have hnq : (0 : ℚ) < (n : ℚ) := by exact_mod_cast hn0
  have hnq1 : (1 : ℚ) ≤ (n : ℚ) := by exact_mod_cast hn0
  have hnq' : (n : ℚ) ≤ 100 := by exact_mod_cast hn
  have herr := Binary64.round64_error (a / n)
  have habs : |a / (n : ℚ)| = a / n := abs_of_nonneg (div_nonneg ha0 hnq.le)
  rw [habs, unit_roundoff_eq] at herr
  have htiny := tiny_le_unit_roundoff
  have hdiv : a / (n : ℚ) ≤ 10 ^ 8 := by
    rw [div_le_iff₀ hnq]
    nlinarith
  have hstep : |Binary64.round64 (a / n) - a / n| ≤ 1 / 100000 := by
    calc |Binary64.round64 (a / n) - a / n|
        ≤ 1 / 9007199254740992 * (a / n) + (2 : ℚ) ^ (-1075 : ℤ) := herr
      _ ≤ 1 / 100000 := by nlinarith
  have heq : (n : ℚ) * Binary64.round64 (a / n) - a
      = (n : ℚ) * (Binary64.round64 (a / n) - a / n) := by
    field_simp
    ring
  rw [heq, abs_mul, abs_of_pos hnq]
  calc (n : ℚ) * |Binary64.round64 (a / n) - a / n| ≤ 100 * (1 / 100000) :=
        mul_le_mul hnq' hstep (abs_nonneg _) (by norm_num)
    _ = 1 / 1000 := by norm_num

/-- The share of a percent split is close to the exact percentage of the
amount. -/
theorem percent_share_close (p a : ℚ) (hp : |p| ≤ 1000) (ha0 : 0 ≤ a) (ha : a ≤ 10 ^ 8) :
    |Binary64.fmul (Binary64.fdiv p 100) a - p / 100 * a| ≤ 1 / 1000000 := by
  unfold Binary64.fmul Binary64.fdiv
  have htiny := tiny_le_unit_roundoff
  have h1 := Binary64.round64_error (p / 100)
  have hp100 : |p / 100| ≤ 10 := by
    rw [abs_div, abs_of_pos (by norm_num : (0 : ℚ) < 100), div_le_iff₀ (by norm_num)]
    linarith
  rw [unit_roundoff_eq] at h1
  have he : |Binary64.round64 (p / 100) - p / 100| ≤ 1 / 500000000000000 := by
    calc |Binary64.round64 (p / 100) - p / 100|
        ≤ 1 / 9007199254740992 * |p / 100| + (2 : ℚ) ^ (-1075 : ℤ) := h1
      _ ≤ 1 / 500000000000000 := by nlinarith [abs_nonneg (p / 100)]
  have hq : |Binary64.round64 (p / 100)| ≤ 11 := by
    have := abs_sub_abs_le_abs_sub (Binary64.round64 (p / 100)) (p / 100)
    linarith
  have h2 := Binary64.round64_error (Binary64.round64 (p / 100) * a)
  rw [unit_roundoff_eq, abs_mul, abs_of_nonneg ha0] at h2
  have hqa : |Binary64.round64 (p / 100)| * a ≤ 11 * 10 ^ 8 :=
    mul_le_mul hq ha (by linarith) (by norm_num)
  have hf : |Binary64.round64 (Binary64.round64 (p / 100) * a)
      - Binary64.round64 (p / 100) * a| ≤ 1 / 2000000 := by
    calc |Binary64.round64 (Binary64.round64 (p / 100) * a) - Binary64.round64 (p / 100) * a|
        ≤ 1 / 9007199254740992 * (|Binary64.round64 (p / 100)| * a)
          + (2 : ℚ) ^ (-1075 : ℤ) := h2
      _ ≤ 1 / 2000000 := by nlinarith
  have hea : |(Binary64.round64 (p / 100) - p / 100) * a| ≤ 1 / 2000000 := by
    rw [abs_mul, abs_of_nonneg ha0]
    calc |Binary64.round64 (p / 100) - p / 100| * a
        ≤ 1 / 500000000000000 * 10 ^ 8 := mul_le_mul he ha ha0 (by norm_num)
      _ ≤ 1 / 2000000 := by norm_num
  have hsplit : Binary64.round64 (Binary64.round64 (p / 100) * a) - p / 100 * a
      = (Binary64.round64 (Binary64.round64 (p / 100) * a) - Binary64.round64 (p / 100) * a)
        + (Binary64.round64 (p / 100) - p / 100) * a := by ring
  rw [hsplit]
  calc |(Binary64.round64 (Binary64.round64 (p / 100) * a) - Binary64.round64 (p / 100) * a)
        + (Binary64.round64 (p / 100) - p / 100) * a|
      ≤ |Binary64.round64 (Binary64.round64 (p / 100) * a) - Binary64.round64 (p / 100) * a|
        + |(Binary64.round64 (p / 100) - p / 100) * a| := abs_add _ _
    _ ≤ 1 / 2000000 + 1 / 2000000 := add_le_add hf hea
    _ = 1 / 1000000 := by norm_num

/-- The running sum of at most 100 percentages of magnitude at most 1000 is
within `1/(2*10^8)` of their exact sum. -/
theorem runningSum_percent_close (xs : List ℚ) (hn : xs.length ≤ 100)
    (hx : ∀ x ∈ xs, |x| ≤ 1000) :
    |Binary64.runningSum xs - xs.sum| ≤ 1 / 200000000 := by
  have hA : (xs.map fun x => |x|).sum ≤ (xs.length : ℚ) * 1000 := by
    have := List.sum_le_card_nsmul (xs.map fun x => |x|) 1000 (by
      intro y hy
      obtain ⟨z, hz, rfl⟩ := List.mem_map.mp hy
      exact hx z hz)
    simpa using this
  have hlen : (xs.length : ℚ) ≤ 100 := by exact_mod_cast hn
  have hA' : (xs.map fun x => |x|).sum ≤ 10 ^ 5 := by
    calc (xs.map fun x => |x|).sum ≤ (xs.length : ℚ) * 1000 := hA
      _ ≤ 100 * 1000 := by nlinarith
      _ = 10 ^ 5 := by norm_num
  have h := Binary64.fsum_error (10 ^ 5) xs hA' (by
    calc xs.length ≤ 100 := hn
      _ ≤ 2 ^ 52 := by norm_num)
  have hc : (0 : ℚ) ≤ (2 : ℚ) ^ (-53 : ℤ) * 10 ^ 5 + (2 : ℚ) ^ (-1075 : ℤ) := by positivity
  have hbound : 2 * (100 : ℚ) * ((2 : ℚ) ^ (-53 : ℤ) * 10 ^ 5 + (2 : ℚ) ^ (-1075 : ℤ))
      ≤ 1 / 200000000 := by
    have h1 := tiny_le_unit_roundoff
    rw [unit_roundoff_eq]
    nlinarith
  unfold Binary64.runningSum
  calc |xs.foldl Binary64.fadd 0 - xs.sum|
      ≤ 2 * (xs.length : ℚ) * ((2 : ℚ) ^ (-53 : ℤ) * 10 ^ 5 + (2 : ℚ) ^ (-1075 : ℤ)) := h
    _ ≤ 2 * (100 : ℚ) * ((2 : ℚ) ^ (-53 : ℤ) * 10 ^ 5 + (2 : ℚ) ^ (-1075 : ℤ)) := by
      apply mul_le_mul_of_nonneg_right _ hc
      linarith
    _ ≤ 1 / 200000000 := hbound

/-- C1 (as stated, refuted): amount `10^16` with custom shares A: `10^16`,
B: 1 (a request that passes the guards of `CreateExpense`).  The binary64
running sum of the two amounts is `10^16`, equal to the amount, so
`calculateSplits` returns no error; the returned shares carry the supplied
amounts, whose sum as exact numbers is `10^16 + 1`, off the amount by 1. -/
theorem split_completeness_fails :
    ((Binary64.calculateSplits { Amount := 10 ^ 16, PaidBy := 1 }
        { Amount := 10 ^ 16, SplitType := SplitTypeCustom, SplitWith := [1, 2],
          CustomSplit := [{ UserID := 1, Amount := 10 ^ 16 }, { UserID := 2, Amount := 1 }] }
      ).toOption.map fun shares => shares.map (·.Amount)) = some [10 ^ 16, 1] ∧
    ([10 ^ 16, 1] : List ℚ).sum = 10 ^ 16 + 1 ∧
    ¬ |([10 ^ 16, 1] : List ℚ).sum - 10 ^ 16| ≤ 1 / 100 := by
  decide!

/-- C1 (amended): split completeness for amounts in the range of the
`DECIMAL(10,2)` columns.  Let the expense amount be positive and at most
`10^8`, the strategy one of equal, custom, percent, the participant list
non-empty for the equal strategy (the guard of `CreateExpense`), at most 100
participants and entries, every supplied amount of magnitude at most `10^8`
and every supplied percentage of magnitude at most 1000.  If `calculateSplits`
returns no error, then the sum of the returned shares' `Amount`, read as exact
numbers, is within 0.01 of `expense.Amount`. -/
theorem split_completeness (expense : Expense) (req : ExpenseCreateRequest)
    (shares : List ExpenseSplit)
    (hpos : 0 < expense.Amount) (hamt : expense.Amount ≤ 10 ^ 8)
    (ht : req.SplitType = SplitTypeEqual ∨ req.SplitType = SplitTypeCustom ∨
      req.SplitType = SplitTypePercent)
    (hne : req.SplitType = SplitTypeEqual → req.SplitWith ≠ [])
    (hwith : req.SplitWith.length ≤ 100) (hentries : req.CustomSplit.length ≤ 100)
    (hmag : ∀ entry ∈ req.CustomSplit, |entry.Amount| ≤ 10 ^ 8 ∧ |entry.Percent| ≤ 1000)
    (h : Binary64.calculateSplits expense req = .ok shares) :
    |(shares.map (·.Amount)).sum - expense.Amount| ≤ 1 / 100 := by
  rcases ht with ht | ht | ht
  · rw [calculateSplits64_equal expense req ht] at h
    injection h with h
    subst h
    rw [List.map_map]
    have hfun : ((fun s : ExpenseSplit => s.Amount) ∘ fun userID : UUID =>
        ({ UserID := userID
           Amount := Binary64.fdiv expense.Amount (Binary64.round64 (req.SplitWith.length : ℚ))
           Percent := Binary64.fdiv 100 (Binary64.round64 (req.SplitWith.length : ℚ))
           IsSettled := decide (userID = expense.PaidBy) } : ExpenseSplit))
        = fun _ => Binary64.fdiv expense.Amount (Binary64.round64 (req.SplitWith.length : ℚ)) :=
      rfl
    rw [hfun, sum_map_const]
    have hn0 : 0 < req.SplitWith.length := List.length_pos.mpr (hne ht)
    have := equal_share_close expense.Amount req.SplitWith.length hn0 hwith hpos.le hamt
    linarith
  · rw [calculateSplits64_custom expense req ht] at h
    by_cases hsum : Binary64.runningSum (req.CustomSplit.map (·.Amount)) = expense.Amount
    · rw [if_pos hsum] at h
      injection h with h
      subst h
      rw [List.map_map]
      have hfun : ((fun s : ExpenseSplit => s.Amount) ∘ fun entry : CustomSplitEntry =>
          ({ UserID := entry.UserID
             Amount := entry.Amount
             Percent := Binary64.fmul (Binary64.fdiv entry.Amount expense.Amount) 100
             IsSettled := decide (entry.UserID = expense.PaidBy) } : ExpenseSplit))
          = fun entry => entry.Amount := rfl
      rw [hfun]
      have hclose := runningSum_close (req.CustomSplit.map (·.Amount))
        (by rw [List.length_map]; exact hentries) (by
          intro x hx
          obtain ⟨entry, hentry, rfl⟩ := List.mem_map.mp hx
          exact (hmag entry hentry).1)
      rw [hsum] at hclose
      rw [abs_sub_comm]
      linarith
    · rw [if_neg hsum] at h
      cases h
  · rw [calculateSplits64_percent expense req ht] at h
    by_cases hsum : Binary64.runningSum (req.CustomSplit.map (·.Percent)) = 100
    · rw [if_pos hsum] at h
      injection h with h
      subst h
      rw [List.map_map]
      have hfun : ((fun s : ExpenseSplit => s.Amount) ∘ fun entry : CustomSplitEntry =>
          ({ UserID := entry.UserID
             Amount := Binary64.fmul (Binary64.fdiv entry.Percent 100) expense.Amount
             Percent := entry.Percent
             IsSettled := decide (entry.UserID = expense.PaidBy) } : ExpenseSplit))
          = fun entry => Binary64.fmul (Binary64.fdiv entry.Percent 100) expense.Amount := rfl
      rw [hfun]
      have hshares := sum_map_close
        (fun entry : CustomSplitEntry =>
          Binary64.fmul (Binary64.fdiv entry.Percent 100) expense.Amount)
        (fun entry : CustomSplitEntry => entry.Percent / 100 * expense.Amount)
        req.CustomSplit (1 / 1000000) (fun entry hentry =>
          percent_share_close entry.Percent expense.Amount (hmag entry hentry).2 hpos.le hamt)
      have hscale : (req.CustomSplit.map fun entry : CustomSplitEntry =>
          entry.Percent / 100 * expense.Amount).sum
          = (req.CustomSplit.map (·.Percent)).sum / 100 * expense.Amount := by
        have h1 := sum_map_mul_right (fun entry : CustomSplitEntry => entry.Percent)
          (1 / 100 * expense.Amount) req.CustomSplit
        have h2 : (fun entry : CustomSplitEntry => entry.Percent / 100 * expense.Amount)
            = fun entry => entry.Percent * (1 / 100 * expense.Amount) := by
          funext entry
          ring
        rw [h2, h1]
        ring
      rw [hscale] at hshares
      have hclose := runningSum_percent_close (req.CustomSplit.map (·.Percent))
        (by rw [List.length_map]; exact hentries) (by
          intro x hx
          obtain ⟨entry, hentry, rfl⟩ := List.mem_map.mp hx
          exact (hmag entry hentry).2)
      rw [hsum] at hclose
      have hlen : (req.CustomSplit.length : ℚ) ≤ 100 := by exact_mod_cast hentries
      have hfirst : |(req.CustomSplit.map fun entry : CustomSplitEntry =>
          Binary64.fmul (Binary64.fdiv entry.Percent 100) expense.Amount).sum
          - (req.CustomSplit.map (·.Percent)).sum / 100 * expense.Amount| ≤ 1 / 10000 := by
        calc _ ≤ (req.CustomSplit.length : ℚ) * (1 / 1000000) := hshares
          _ ≤ 100 * (1 / 1000000) := by nlinarith
          _ = 1 / 10000 := by norm_num
      have hsecond : |(req.CustomSplit.map (·.Percent)).sum / 100 * expense.Amount
          - expense.Amount| ≤ 1 / 200 := by
        have heq : (req.CustomSplit.map (·.Percent)).sum / 100 * expense.Amount - expense.Amount
            = -((100 - (req.CustomSplit.map (·.Percent)).sum) * (expense.Amount / 100)) := by
          ring
        rw [heq, abs_neg, abs_mul, abs_of_nonneg (by positivity : 0 ≤ expense.Amount / 100)]
        calc |100 - (req.CustomSplit.map (·.Percent)).sum| * (expense.Amount / 100)
            ≤ 1 / 200000000 * (10 ^ 8 / 100) :=
              mul_le_mul hclose (by linarith) (by positivity) (by norm_num)
          _ = 1 / 200 := by norm_num
      have htri := abs_sub_le
        ((req.CustomSplit.map fun entry : CustomSplitEntry =>
          Binary64.fmul (Binary64.fdiv entry.Percent 100) expense.Amount).sum)
        ((req.CustomSplit.map (·.Percent)).sum / 100 * expense.Amount) expense.Amount
      calc _ ≤ _ := htri
        _ ≤ 1 / 10000 + 1 / 200 := add_le_add hfirst hsecond
        _ ≤ 1 / 100 := by norm_num
    · rw [if_neg hsum] at h
      cases h

/-- C1 (amended), witness: 100 split equally among three participants; each
share is the binary64 number nearest to `100/3`, and the three shares sum to
a number that is not 100 but within 0.01 of it. -/
theorem split_completeness_witness :
    ∃ shares, Binary64.calculateSplits { Amount := 100, PaidBy := 1 }
        { Amount := 100, SplitType := SplitTypeEqual, SplitWith := [1, 2, 3] } = .ok shares ∧
      shares.length = 3 ∧
      (shares.map (·.Amount)).sum ≠ 100 ∧
      |(shares.map (·.Amount)).sum - 100| ≤ 1 / 100 :=
  ⟨_, calculateSplits64_equal _ _ rfl, rfl, by decide!,
    split_completeness { Amount := 100, PaidBy := 1 }
      { Amount := 100, SplitType := SplitTypeEqual, SplitWith := [1, 2, 3] } _
      (by norm_num) (by norm_num) (Or.inl rfl) (fun _ => by simp) (by decide) (by decide)
      (by simp) (calculateSplits64_equal _ _ rfl)⟩

end Backend
